import Mathlib

/-!
# Vertex-patch additive Schwarz preconditioner (`libssc.c`)

A shallow embedding of the set-up routines of `libssc.c` and of its setup and
apply entry points, and the properties of the index structures they build and
of the vectors they return.

* C arrays obtained from `PetscMalloc1` are maps from an index to the value
  stored there, `none` where nothing has been stored since the allocation.
* C `for` loops become folds over the list of values of the loop variable.
* `PetscSection`, `PetscHashI`, the `DMPlex` queries, `Vec`, `Mat`, `KSP` and
  `PetscSF` belong to PETSc, not to `libssc.c`; they are given here by small
  executable models.
* A routine that may invoke the discretisation callback returns an `Outcome`:
  the invocations it made and the value or error code it returned.
-/

namespace SSC

/-! ## Error codes, loops and arrays -/

/-- Error codes passed to `SETERRQ` in `libssc.c`, and `PETSC_ERR_ARG_CORRUPT`,
the code with which PETSc rejects an object handle that was never created. -/
inductive PetscErrorCode where
  | PETSC_ERR_ARG_SIZ
  | PETSC_ERR_ARG_OUTOFRANGE
  | PETSC_ERR_ARG_WRONGSTATE
  | PETSC_ERR_ARG_CORRUPT
  deriving DecidableEq, Repr

/-- Values taken by `p` in the C loop `for (p = a; p < b; p++)`. -/
def loopRange (a b : Int) : List Int :=
  (List.range (b - a).toNat).map (fun (k : Nat) => a + (k : Int))

/-- A C array of `PetscInt`: index to stored value, `none` where the slot has
not been written since allocation. -/
abbrev IntArray := Int → Option Int

/-- Array returned by `PetscMalloc1`: no slot has been written. -/
def PetscMalloc1 : IntArray := fun _ => none

/-- The assignment `a[i] = v`. -/
def IntArray.write (a : IntArray) (i v : Int) : IntArray :=
  fun k => if k = i then some v else a k

/-- The read `a[i]` of an array built earlier; a slot never written reads as 0. -/
def IntArray.read (a : IntArray) (i : Int) : Int := (a i).getD 0

/-- The slots `a[off], ..., a[off + n - 1]`. -/
def IntArray.segment (a : IntArray) (off n : Int) : List (Option Int) :=
  (loopRange 0 n).map (fun k => a (off + k))

/-- Writing the elements of a list to consecutive slots starting at `s`. -/
def IntArray.writeList (a : IntArray) (s : Int) : List Int → IntArray
  | [] => a
  | x :: xs => IntArray.writeList (a.write s x) (s + 1) xs

/-- An index set made by `ISCreateGeneral(comm, n, idx, PETSC_OWN_POINTER, &is)`. -/
structure IS where
  n : Int
  idx : IntArray

/-- The call `ISCreateGeneral`. -/
def ISCreateGeneral (n : Int) (idx : IntArray) : IS := ⟨n, idx⟩

/-! ## PetscSection -/

/-- Modelled from the spec: the PETSc `PetscSection` (its implementation is
not part of `libssc.c`), the Indexed List of the specification: a chart
`[pStart, pEnd)`, a count `atlasDof` and an offset `atlasOff` per point. -/
structure PetscSection where
  pStart : Int
  pEnd : Int
  atlasDof : Int → Int
  atlasOff : Int → Int

/-- Modelled from the spec: `PetscSectionCreate` followed by
`PetscSectionSetChart(s, pStart, pEnd)`: all counts and offsets are zero. -/
def PetscSectionSetChart (pStart pEnd : Int) : PetscSection :=
  ⟨pStart, pEnd, fun _ => 0, fun _ => 0⟩

/-- Modelled from the spec: `PetscSectionGetDof(s, p, &n)`. -/
def PetscSectionGetDof (s : PetscSection) (p : Int) : Int := s.atlasDof p

/-- Modelled from the spec: `PetscSectionGetOffset(s, p, &off)`. -/
def PetscSectionGetOffset (s : PetscSection) (p : Int) : Int := s.atlasOff p

/-- Modelled from the spec: `PetscSectionSetDof(s, p, n)`. -/
def PetscSectionSetDof (s : PetscSection) (p n : Int) : PetscSection :=
  { s with atlasDof := fun q => if q = p then n else s.atlasDof q }

/-- Modelled from the spec: `PetscSectionAddDof(s, p, n)`. -/
def PetscSectionAddDof (s : PetscSection) (p n : Int) : PetscSection :=
  { s with atlasDof := fun q => if q = p then s.atlasDof q + n else s.atlasDof q }

/-- Modelled from the spec: `PetscSectionSetUp(s)`: the offset of a point of
the chart is the sum of the counts of the points before it. -/
def PetscSectionSetUp (s : PetscSection) : PetscSection :=
  { s with atlasOff := fun p =>
      if s.pStart ≤ p ∧ p < s.pEnd then ((loopRange s.pStart p).map s.atlasDof).sum
      else s.atlasOff p }

/-- Modelled from the spec: `PetscSectionGetStorageSize(s, &size)`: the sum of
the positive counts over the chart. -/
def PetscSectionGetStorageSize (s : PetscSection) : Int :=
  ((loopRange s.pStart s.pEnd).map (fun p => if s.atlasDof p > 0 then s.atlasDof p else 0)).sum

/-! ## PetscHashI -/

/-- Modelled from the spec: the PETSc hash table `PetscHashI` from integer
keys to integer values (`hash.h` is not part of `libssc.c`): the bindings, one
per key, in the order in which the keys were first added. -/
abbrev PetscHashI := List (Int × Int)

/-- Modelled from the spec: `PetscHashICreate` and `PetscHashIClear`: no binding. -/
def PetscHashIClear : PetscHashI := []

/-- Modelled from the spec: `PetscHashIHasKey(ht, i, flg)`. -/
def PetscHashIHasKey (ht : PetscHashI) (i : Int) : Bool := ht.any (fun e => e.1 = i)

/-- Modelled from the spec: `PetscHashIMap(ht, i, ii)`: the value bound to
`i`, and `-1` when `i` is not a key. -/
def PetscHashIMap (ht : PetscHashI) (i : Int) : Int :=
  match ht.find? (fun e => e.1 = i) with
  | some e => e.2
  | none => -1

/-- Modelled from the spec: `PetscHashIAdd(ht, i, ii)`: binds `i` to `ii`,
replacing the value of a key already present. -/
def PetscHashIAdd (ht : PetscHashI) (i ii : Int) : PetscHashI :=
  if PetscHashIHasKey ht i then ht.map (fun e => if e.1 = i then (i, ii) else e)
  else ht ++ [(i, ii)]

/-- Modelled from the spec: `PetscHashISize(ht, n)`. -/
def PetscHashISize (ht : PetscHashI) : Int := (ht.length : Int)

/-- Modelled from the spec: the order in which `PetscHashIIterBegin` /
`PetscHashIIterNext` and `PetscHashIGetKeys` visit the bindings of a table.
It is fixed by the hashing, not by the program: any rearrangement of the
bindings. -/
structure IterOrder where
  iter : PetscHashI → List (Int × Int)
  perm : ∀ ht, (iter ht).Perm ht

/-- Bindings visited in the order in which they were added. -/
def IterOrder.insertion : IterOrder := ⟨fun ht => ht, fun ht => List.Perm.refl ht⟩

/-- Bindings visited in the reverse order. -/
def IterOrder.reversed : IterOrder := ⟨fun ht => ht.reverse, fun ht => List.reverse_perm ht⟩

/-- Modelled from the spec: `PetscSortInt(n, a)` on the values of a segment. -/
def PetscSortInt (l : List Int) : List Int := l.insertionSort (fun a b => a ≤ b)

/-! ## Mesh -/

/-- Modelled from the spec: the queries of the `DMPlex` mesh used by
`libssc.c`: the vertex, cell and facet strata, cones and supports, the
transitive closure as the array returned by `DMPlexGetTransitiveClosure`
(point and orientation alternate, so `closureSize` is half its length), and the
three labels. -/
structure DM where
  vStart : Int
  vEnd : Int
  cStart : Int
  cEnd : Int
  fStart : Int
  fEnd : Int
  cone : Int → List Int
  support : Int → List Int
  transitiveClosure : Int → Bool → List Int
  op2_core : Int → Bool
  op2_non_core : Int → Bool
  exterior_facets : Int → Bool

/-- The `closureSize` returned with a closure array. -/
def closureSize (closure : List Int) : Nat := closure.length / 2

/-! ## PCPatchCreateCellPatches -/

/-- Body of the loop over `ci` in the counting pass: one more cell for `v`
when the closure point `closure[2*ci]` lies in the cell stratum. -/
def countCellsPoint (dm : DM) (closure : List Int) (v : Int) (cellCounts : PetscSection)
    (ci : Nat) : PetscSection :=
  let c := closure.getD (2 * ci) 0
  if dm.cStart ≤ c ∧ c < dm.cEnd then PetscSectionAddDof cellCounts v 1 else cellCounts

/-- Body of the counting loop of `PCPatchCreateCellPatches` for vertex `v`. -/
def countCellsVertex (dm : DM) (cellCounts : PetscSection) (v : Int) : PetscSection :=
  if !(dm.op2_core v || dm.op2_non_core v) then cellCounts
  else
    let closure := dm.transitiveClosure v false
    (List.range (closureSize closure)).foldl (countCellsPoint dm closure v) cellCounts

/-- Body of the loop over `ci` in the filling pass; the state is
`(ndof, cellsArray)`. -/
def fillCellsPoint (dm : DM) (closure : List Int) (off : Int) (st : Int × IntArray)
    (ci : Nat) : Int × IntArray :=
  let c := closure.getD (2 * ci) 0
  if dm.cStart ≤ c ∧ c < dm.cEnd then (st.1 + 1, st.2.write (st.1 + off) c) else st

/-- Body of the filling loop of `PCPatchCreateCellPatches` for vertex `v`. -/
def fillCellsVertex (dm : DM) (cellCounts : PetscSection) (cellsArray : IntArray)
    (v : Int) : IntArray :=
  let ndof := PetscSectionGetDof cellCounts v
  let off := PetscSectionGetOffset cellCounts v
  if ndof ≤ 0 then cellsArray
  else
    let closure := dm.transitiveClosure v false
    ((List.range (closureSize closure)).foldl (fillCellsPoint dm closure off) (0, cellsArray)).2

/-- The function `PCPatchCreateCellPatches`: the section `cellCounts` and the
index set `cells`. -/
def PCPatchCreateCellPatches (dm : DM) : PetscSection × IS :=
  let counted := (loopRange dm.vStart dm.vEnd).foldl (countCellsVertex dm)
    (PetscSectionSetChart dm.vStart dm.vEnd)
  let cellCounts := PetscSectionSetUp counted
  let numCells := PetscSectionGetStorageSize cellCounts
  let cellsArray := (loopRange dm.vStart dm.vEnd).foldl (fillCellsVertex dm cellCounts)
    PetscMalloc1
  (cellCounts, ISCreateGeneral numCells cellsArray)

/-- Points of the closure array of `v` (its even positions) that lie in the
cell stratum, in closure order. -/
def closureCells (dm : DM) (v : Int) : List Int :=
  ((List.range (closureSize (dm.transitiveClosure v false))).map
    (fun ci => (dm.transitiveClosure v false).getD (2 * ci) 0)).filter
    (fun c => dm.cStart ≤ c ∧ c < dm.cEnd)

/-- Cells recorded for vertex `v`: the cells of its closure when `v` carries
one of the two ownership labels, none otherwise. -/
def patchCellList (dm : DM) (v : Int) : List Int :=
  if dm.op2_core v || dm.op2_non_core v then closureCells dm v else []

/-- The Indexed List invariant of a section: counts are not negative and
the offset of a point of the chart is the sum of the counts before it. -/
def PetscSection.IsIndexedList (s : PetscSection) : Prop :=
  (∀ p, s.pStart ≤ p → p < s.pEnd → 0 ≤ s.atlasDof p) ∧
  (∀ p, s.pStart ≤ p → p < s.pEnd →
    s.atlasOff p = ((loopRange s.pStart p).map s.atlasDof).sum)

/-- The array handed out by `ISGetIndices(is, &array)`. -/
def ISGetIndices (is : IS) : Int → Int := fun i => is.idx.read i

/-- The call `ISGetSize(is, &n)`. -/
def ISGetSize (is : IS) : Int := is.n

/-! ## PCPatchCreateCellPatchFacets -/

/-- Local variables of `PCPatchCreateCellPatchFacets` changed by its loops. -/
structure FacetState where
  facetCounts : PetscSection
  totalFacets : Int
  facetIndex : Int
  facetsArray : IntArray

/-- The statements from `PetscSectionAddDof(*facetCounts, v, 1)` through the
label `addFacet`: count the facet, grow the array when it is full (the factor
1.2 taken exactly) and append `f`. -/
def addFacet (st : FacetState) (v f : Int) : FacetState :=
  { facetCounts := PetscSectionAddDof st.facetCounts v 1
    totalFacets :=
      if st.facetIndex ≥ st.totalFacets then (1 + st.totalFacets) * 6 / 5 else st.totalFacets
    facetIndex := st.facetIndex + 1
    facetsArray := st.facetsArray.write st.facetIndex f }

/-- Body of the loop over the facets `f = cellFacets[j]` of one cell; `ht`
holds the cells of the patch. -/
def facetsFacet (dm : DM) (ht : PetscHashI) (v : Int) (st : FacetState) (f : Int) :
    FacetState :=
  if dm.exterior_facets f then st
  else
    let facetCells := dm.support f
    let numCells := facetCells.length
    if numCells = 1 then addFacet st v f
    else if facetCells.any (fun c => !PetscHashIHasKey ht c) then addFacet st v f
    else st

/-- Body of the second loop over `ci`: the facets of the cell `cellsArray[ci]`. -/
def facetsCell (dm : DM) (cellsArray : Int → Int) (ht : PetscHashI) (v : Int) (st : FacetState)
    (ci : Int) : FacetState :=
  (dm.cone (cellsArray ci)).foldl (facetsFacet dm ht v) st

/-- Body of the loop over the vertices `v` of `PCPatchCreateCellPatchFacets`. -/
def facetsVertex (dm : DM) (cellCounts : PetscSection) (cellsArray : Int → Int)
    (st : FacetState) (v : Int) : FacetState :=
  let ndof := PetscSectionGetDof cellCounts v
  let off := PetscSectionGetOffset cellCounts v
  if ndof ≤ 0 then st
  else
    let ht := (loopRange off (ndof + off)).foldl
      (fun ht ci => PetscHashIAdd ht (cellsArray ci) 0) PetscHashIClear
    (loopRange off (ndof + off)).foldl (facetsCell dm cellsArray ht v) st

/-- The function `PCPatchCreateCellPatchFacets`: the section `facetCounts` and
the index set `facets`. -/
def PCPatchCreateCellPatchFacets (dm : DM) (cellCounts : PetscSection) (cells : IS) :
    PetscSection × IS :=
  let st0 : FacetState :=
    { facetCounts := PetscSectionSetChart dm.vStart dm.vEnd
      totalFacets := ISGetSize cells
      facetIndex := 0
      facetsArray := PetscMalloc1 }
  let st := (loopRange dm.vStart dm.vEnd).foldl
    (facetsVertex dm cellCounts (ISGetIndices cells)) st0
  (PetscSectionSetUp st.facetCounts, ISCreateGeneral st.facetIndex st.facetsArray)

/-- The cells of patch `v`: the segment of the cells array given by `cellCounts`. -/
def patchCells (cellCounts : PetscSection) (cells : IS) (v : Int) : List Int :=
  (loopRange (cellCounts.atlasOff v) (cellCounts.atlasDof v + cellCounts.atlasOff v)).map
    (ISGetIndices cells)

/-! ## PCPatchCreateCellPatchDiscretisationInfo -/

/-- Local variables of `PCPatchCreateCellPatchDiscretisationInfo` changed by
its first loop. -/
structure DofState where
  ht : PetscHashI
  localIndex : Int
  globalIndex : Int
  dofsArray : IntArray
  newCellsArray : IntArray
  gtolCounts : PetscSection

/-- Body of the loop over the slots `j` of a cell in the first pass. -/
def dofsSlot (dofsPerCell numDofs : Int) (cellNodeMap : Int → Int) (cell : Int) (st : DofState)
    (j : Int) : Except PetscErrorCode DofState :=
  let globalDof := cellNodeMap (cell * dofsPerCell + j)
  let found := PetscHashIMap st.ht globalDof
  let st1 : DofState :=
    if found = -1 then
      { st with ht := PetscHashIAdd st.ht globalDof st.localIndex
                localIndex := st.localIndex + 1 }
    else st
  let localDof := if found = -1 then st.localIndex else found
  if st.globalIndex ≥ numDofs then .error .PETSC_ERR_ARG_OUTOFRANGE
  else .ok { st1 with dofsArray := st1.dofsArray.write st.globalIndex localDof
                      globalIndex := st.globalIndex + 1 }

/-- Body of the loop over the cell positions `i` of a patch in the first pass. -/
def dofsCell (cellNumbering : PetscSection) (dofsPerCell numDofs : Int)
    (cellNodeMap : Int → Int) (cellsArray : Int → Int) (st : DofState) (i : Int) :
    Except PetscErrorCode DofState :=
  let c := cellsArray i
  if PetscSectionGetDof cellNumbering c ≤ 0 then .error .PETSC_ERR_ARG_OUTOFRANGE
  else
    let cell := PetscSectionGetOffset cellNumbering c
    (loopRange 0 dofsPerCell).foldlM (dofsSlot dofsPerCell numDofs cellNodeMap cell)
      { st with newCellsArray := st.newCellsArray.write i cell }

/-- Body of the first loop over the vertices `v`. -/
def dofsVertex (cellCounts cellNumbering : PetscSection) (dofsPerCell numDofs : Int)
    (cellNodeMap : Int → Int) (cellsArray : Int → Int) (st : DofState) (v : Int) :
    Except PetscErrorCode DofState :=
  let dof := PetscSectionGetDof cellCounts v
  let off := PetscSectionGetOffset cellCounts v
  match (loopRange off (off + dof)).foldlM
      (dofsCell cellNumbering dofsPerCell numDofs cellNodeMap cellsArray)
      { st with localIndex := 0, ht := PetscHashIClear } with
  | .error e => .error e
  | .ok st1 =>
    .ok { st1 with gtolCounts := PetscSectionSetDof st1.gtolCounts v (PetscHashISize st1.ht) }

/-- Body of the loop over the slots `j` of a cell in the second pass. -/
def gtolSlot (dofsPerCell : Int) (cellNodeMap : Int → Int) (dofsArray : IntArray)
    (cell i : Int) (ht : PetscHashI) (j : Int) : PetscHashI :=
  let globalDof := cellNodeMap (cell * dofsPerCell + j)
  let localDof := dofsArray.read (i * dofsPerCell + j)
  PetscHashIAdd ht globalDof localDof

/-- Body of the loop over the cell positions `i` of a patch in the second pass. -/
def gtolCell (cellNumbering : PetscSection) (dofsPerCell : Int) (cellNodeMap : Int → Int)
    (cellsArray : Int → Int) (dofsArray : IntArray) (ht : PetscHashI) (i : Int) : PetscHashI :=
  let c := cellsArray i
  let cell := PetscSectionGetOffset cellNumbering c
  (loopRange 0 dofsPerCell).foldl (gtolSlot dofsPerCell cellNodeMap dofsArray cell i) ht

/-- Body of the `while` loop over the bindings of the table in the second pass. -/
def gtolEntry (off : Int) (globalDofsArray : IntArray) (e : Int × Int) : IntArray :=
  let globalDof := e.1
  let localDof := e.2
  if globalDof ≥ 0 then globalDofsArray.write (off + localDof) globalDof else globalDofsArray

/-- The table rebuilt for patch `v` in the second pass. -/
def gtolTable (cellCounts cellNumbering : PetscSection) (dofsPerCell : Int)
    (cellNodeMap : Int → Int) (cellsArray : Int → Int) (dofsArray : IntArray) (v : Int) :
    PetscHashI :=
  let dof := PetscSectionGetDof cellCounts v
  let off := PetscSectionGetOffset cellCounts v
  (loopRange off (off + dof)).foldl
    (gtolCell cellNumbering dofsPerCell cellNodeMap cellsArray dofsArray) PetscHashIClear

/-- Body of the second loop over the vertices `v`. -/
def gtolVertex (ord : IterOrder) (cellCounts cellNumbering gtolCounts : PetscSection)
    (dofsPerCell : Int) (cellNodeMap : Int → Int) (cellsArray : Int → Int)
    (dofsArray : IntArray) (globalDofsArray : IntArray) (v : Int) : IntArray :=
  let ht := gtolTable cellCounts cellNumbering dofsPerCell cellNodeMap cellsArray dofsArray v
  let off := PetscSectionGetOffset gtolCounts v
  (ord.iter ht).foldl (gtolEntry off) globalDofsArray

/-- Outputs of `PCPatchCreateCellPatchDiscretisationInfo`: the index set
`cells` after `ISGeneralSetIndices`, and `dofs`, `gtolCounts`, `gtol`. -/
structure DiscretisationInfo where
  cells : IS
  dofs : IS
  gtolCounts : PetscSection
  gtol : IS

/-- The function `PCPatchCreateCellPatchDiscretisationInfo`. Its arguments
`dm`, `facetCounts` and `facets` are not used by the C code and are left out. -/
def PCPatchCreateCellPatchDiscretisationInfo (ord : IterOrder) (cellCounts : PetscSection)
    (cells : IS) (cellNumbering : PetscSection) (dofsPerCell : Int)
    (cellNodeMap : Int → Int) : Except PetscErrorCode DiscretisationInfo :=
  let numCells := PetscSectionGetStorageSize cellCounts
  let numDofs := numCells * dofsPerCell
  let vStart := cellCounts.pStart
  let vEnd := cellCounts.pEnd
  let cellsArray := ISGetIndices cells
  let st0 : DofState :=
    { ht := PetscHashIClear
      localIndex := 0
      globalIndex := 0
      dofsArray := PetscMalloc1
      newCellsArray := PetscMalloc1
      gtolCounts := PetscSectionSetChart vStart vEnd }
  match (loopRange vStart vEnd).foldlM
      (dofsVertex cellCounts cellNumbering dofsPerCell numDofs cellNodeMap cellsArray) st0 with
  | .error e => .error e
  | .ok st =>
    let gtolCounts := PetscSectionSetUp st.gtolCounts
    let numGlobalDofs := PetscSectionGetStorageSize gtolCounts
    let globalDofsArray := (loopRange vStart vEnd).foldl
      (gtolVertex ord cellCounts cellNumbering gtolCounts dofsPerCell cellNodeMap cellsArray
        st.dofsArray) PetscMalloc1
    .ok { cells := ISCreateGeneral numCells st.newCellsArray
          dofs := ISCreateGeneral numDofs st.dofsArray
          gtolCounts := gtolCounts
          gtol := ISCreateGeneral numGlobalDofs globalDofsArray }

/-- The global dof ids met while walking the cells of patch `v` and their
slots in order: `cellNodeMap[cell*dofsPerCell + j]`, `cell` the compact index
of the cell. -/
def patchGlobalDofs (cellCounts : PetscSection) (cells : IS) (cellNumbering : PetscSection)
    (dofsPerCell : Int) (cellNodeMap : Int → Int) (v : Int) : List Int :=
  (loopRange (cellCounts.atlasOff v) (cellCounts.atlasOff v + cellCounts.atlasDof v)).flatMap
    (fun i => (loopRange 0 dofsPerCell).map
      (fun j => cellNodeMap (cellNumbering.atlasOff (ISGetIndices cells i) * dofsPerCell + j)))

/-! ## PCPatchCreateCellPatchBCs -/

/-- Local variables of `PCPatchCreateCellPatchBCs` changed by its loop over
the vertices. -/
structure BcState where
  bcCounts : PetscSection
  totalNumBcs : Int
  bcIndex : Int
  bcsArray : IntArray

/-- Body of the loop over the gtol segment of a patch; the state is
`(patchDofs, localBcs)`. -/
def bcsGtolEntry (globalBcs : PetscHashI) (gtolArray : Int → Int) (off : Int)
    (st : PetscHashI × PetscHashI) (i : Int) : PetscHashI × PetscHashI :=
  let globalDof := gtolArray i
  let localDof := i - off
  let patchDofs := PetscHashIAdd st.1 globalDof localDof
  if PetscHashIHasKey globalBcs globalDof then (patchDofs, PetscHashIAdd st.2 localDof 0)
  else (patchDofs, st.2)

/-- Body of the loop over the dof ids `j` of the section range. -/
def bcsFacetDof (patchDofs : PetscHashI) (localBcs : PetscHashI) (j : Int) :
    Except PetscErrorCode PetscHashI :=
  let localDof := PetscHashIMap patchDofs j
  if localDof = -1 then .error .PETSC_ERR_ARG_OUTOFRANGE
  else .ok (PetscHashIAdd localBcs localDof 0)

/-- Body of the loop over the closure positions `ci` of a boundary facet `f`:
the section is asked about `f` at every position. -/
def bcsClosurePoint (dofSection : PetscSection) (patchDofs : PetscHashI) (f : Int)
    (localBcs : PetscHashI) (_ci : Nat) : Except PetscErrorCode PetscHashI :=
  let ldof := PetscSectionGetDof dofSection f
  let loff := PetscSectionGetOffset dofSection f
  if ldof > 0 then (loopRange loff (ldof + loff)).foldlM (bcsFacetDof patchDofs) localBcs
  else .ok localBcs

/-- Body of the loop over the facet positions `i` of a patch. -/
def bcsFacet (dm : DM) (dofSection : PetscSection) (facetsArray : Int → Int)
    (patchDofs : PetscHashI) (localBcs : PetscHashI) (i : Int) :
    Except PetscErrorCode PetscHashI :=
  let f := facetsArray i
  let closure := dm.transitiveClosure f true
  (List.range (closureSize closure)).foldlM (bcsClosurePoint dofSection patchDofs f) localBcs

/-- Modelled from the spec: `PetscHashIGetKeys(ht, &off, array)`: the keys are
stored from `array[off]` on, in iteration order, and `off` is advanced. -/
def PetscHashIGetKeys (ord : IterOrder) (ht : PetscHashI) (off : Int) (array : IntArray) :
    Int × IntArray :=
  (off + (((ord.iter ht).map Prod.fst).length : Int),
   array.writeList off ((ord.iter ht).map Prod.fst))

/-- The call `PetscSortInt(n, array + start)`: the `n` slots from `start` on
are sorted in place. -/
def sortSegment (n start : Int) (array : IntArray) : IntArray :=
  array.writeList start (PetscSortInt ((loopRange 0 n).map (fun k => array.read (start + k))))

/-- The tables `patchDofs` and `localBcs` after the loop over the gtol segment
of patch `v`. -/
def bcsPatchTables (globalBcs : PetscHashI) (gtolCounts : PetscSection) (gtolArray : Int → Int)
    (v : Int) : PetscHashI × PetscHashI :=
  let dof := PetscSectionGetDof gtolCounts v
  let off := PetscSectionGetOffset gtolCounts v
  (loopRange off (off + dof)).foldl (bcsGtolEntry globalBcs gtolArray off)
    (PetscHashIClear, PetscHashIClear)

/-- The table `localBcs` of patch `v` after the loop over its boundary facets,
or the error raised in that loop. -/
def bcsLocalTable (dm : DM) (globalBcs : PetscHashI) (facetCounts : PetscSection)
    (facetsArray : Int → Int) (gtolCounts : PetscSection) (gtolArray : Int → Int)
    (dofSection : PetscSection) (v : Int) : Except PetscErrorCode PetscHashI :=
  let tables := bcsPatchTables globalBcs gtolCounts gtolArray v
  let patchDofs := tables.1
  let dof := PetscSectionGetDof facetCounts v
  let off := PetscSectionGetOffset facetCounts v
  (loopRange off (off + dof)).foldlM (bcsFacet dm dofSection facetsArray patchDofs) tables.2

/-- Body of the loop over the vertices `v` of `PCPatchCreateCellPatchBCs`. -/
def bcsVertex (ord : IterOrder) (dm : DM) (globalBcs : PetscHashI)
    (facetCounts : PetscSection) (facetsArray : Int → Int) (gtolCounts : PetscSection)
    (gtolArray : Int → Int) (dofSection : PetscSection) (st : BcState) (v : Int) :
    Except PetscErrorCode BcState :=
  match bcsLocalTable dm globalBcs facetCounts facetsArray gtolCounts gtolArray dofSection v with
  | .error e => .error e
  | .ok localBcs =>
    let numBcs := PetscHashISize localBcs
    let bcCounts := PetscSectionSetDof st.bcCounts v numBcs
    let totalNumBcs :=
      if numBcs + st.bcIndex ≥ st.totalNumBcs then (1 + numBcs + st.bcIndex) * 2
      else st.totalNumBcs
    let got := PetscHashIGetKeys ord localBcs st.bcIndex st.bcsArray
    .ok { bcCounts := bcCounts
          totalNumBcs := totalNumBcs
          bcIndex := got.1
          bcsArray := sortSegment numBcs (got.1 - numBcs) got.2 }

/-- The sorted BC dofs stored for patch `v`. -/
def patchBcList (ord : IterOrder) (dm : DM) (globalBcs : PetscHashI)
    (facetCounts : PetscSection) (facetsArray : Int → Int) (gtolCounts : PetscSection)
    (gtolArray : Int → Int) (dofSection : PetscSection) (v : Int) : List Int :=
  match bcsLocalTable dm globalBcs facetCounts facetsArray gtolCounts gtolArray dofSection v with
  | .error _ => []
  | .ok localBcs => PetscSortInt ((ord.iter localBcs).map Prod.fst)

/-- The table `globalBcs` filled from `bcNodes[0 .. numBcs)`. -/
def bcsGlobalTable (numBcs : Int) (bcNodes : Int → Int) : PetscHashI :=
  (loopRange 0 numBcs).foldl (fun ht i => PetscHashIAdd ht (bcNodes i) 0) PetscHashIClear

/-- The function `PCPatchCreateCellPatchBCs`: the section `bcCounts` and the
index set `bcs`. -/
def PCPatchCreateCellPatchBCs (ord : IterOrder) (dm : DM) (numBcs : Int) (bcNodes : Int → Int)
    (facetCounts : PetscSection) (facets : IS) (gtolCounts : PetscSection) (gtol : IS)
    (dofSection : PetscSection) : Except PetscErrorCode (PetscSection × IS) :=
  let globalBcs := bcsGlobalTable numBcs bcNodes
  let vStart := facetCounts.pStart
  let vEnd := facetCounts.pEnd
  let st0 : BcState :=
    { bcCounts := PetscSectionSetChart vStart vEnd
      totalNumBcs := PetscSectionGetStorageSize facetCounts
      bcIndex := 0
      bcsArray := PetscMalloc1 }
  match (loopRange vStart vEnd).foldlM
      (bcsVertex ord dm globalBcs facetCounts (ISGetIndices facets) gtolCounts
        (ISGetIndices gtol) dofSection) st0 with
  | .error e => .error e
  | .ok st => .ok (PetscSectionSetUp st.bcCounts, ISCreateGeneral st.bcIndex st.bcsArray)

/-- The facets appended for patch `v`: the facets of the cones of its cells, in
order, that pass the test of the loop body. -/
def patchFacetList (dm : DM) (cellCounts : PetscSection) (cells : IS) (v : Int) : List Int :=
  ((patchCells cellCounts cells v).flatMap dm.cone).filter
    (fun f => !dm.exterior_facets f &&
      (decide ((dm.support f).length = 1) ||
        (dm.support f).any (fun c => decide (c ∉ patchCells cellCounts cells v))))

/-- A section that differs from another one in its counts only. -/
def SameLayout (s t : PetscSection) : Prop :=
  t.pStart = s.pStart ∧ t.pEnd = s.pEnd ∧ t.atlasOff = s.atlasOff

/-- The distinct elements of a list in the order of their first occurrence. -/
def firstOccurrences (gs : List Int) : List Int :=
  gs.foldl (fun acc g => if g ∈ acc then acc else acc ++ [g]) []

/-- The table that binds the keys of a list, in order, to `n, n + 1, ...`. -/
def numberedFrom : Nat → List Int → PetscHashI
  | _, [] => []
  | n, k :: ks => (k, (n : Int)) :: numberedFrom (n + 1) ks

/-- Local indices given to the global dof ids of a walk: the position of each
id among the distinct ids in first-occurrence order. -/
def localIndices (gs : List Int) : List Int :=
  gs.map (fun g => ((List.indexOf g (firstOccurrences gs) : Nat) : Int))

/-- State of the first pass of the dof map builder after the global dof ids
`pre` of a patch have been walked, the patch having started at position `G0` of
the dofs array `a0`. -/
def DofInv (a0 : IntArray) (G0 : Int) (pre : List Int) (st : DofState) : Prop :=
  st.ht = numberedFrom 0 (firstOccurrences pre) ∧
  st.localIndex = ((firstOccurrences pre).length : Int) ∧
  st.globalIndex = G0 + (pre.length : Int) ∧
  st.dofsArray = a0.writeList G0 (localIndices pre)

/-- A table whose values are local dof indices of a patch with `n` local dofs. -/
def ValuesInRange (n : Int) (ht : PetscHashI) : Prop :=
  ∀ e ∈ ht, 0 ≤ e.2 ∧ e.2 < n

/-- A table whose keys are distinct local dof indices of a patch with `n`
local dofs. -/
def KeysInRange (n : Int) (ht : PetscHashI) : Prop :=
  (ht.map Prod.fst).Nodup ∧ ∀ k ∈ ht.map Prod.fst, 0 ≤ k ∧ k < n

/-- The table `t` keeps the keys of `s`, and its keys are distinct local dof
indices if those of `s` are. -/
def KeysGrow (n : Int) (s t : PetscHashI) : Prop :=
  (KeysInRange n s → KeysInRange n t) ∧ ∀ k ∈ s.map Prod.fst, k ∈ t.map Prod.fst

/-- The Indexed List invariant for a section `s` and a flat array of length
`n`: counts are not negative, the segment of a point ends where the segment of
the next point starts, and the sum of the counts is the storage size and the
length of the array. -/
def IndexedListInvariant (s : PetscSection) (n : Int) : Prop :=
  (∀ p, s.pStart ≤ p → p < s.pEnd → 0 ≤ s.atlasDof p) ∧
  (∀ p, s.pStart ≤ p → p + 1 < s.pEnd → s.atlasOff p + s.atlasDof p = s.atlasOff (p + 1)) ∧
  ((loopRange s.pStart s.pEnd).map s.atlasDof).sum = PetscSectionGetStorageSize s ∧
  PetscSectionGetStorageSize s = n

/-! ## Vectors, matrices and star forests

`Vec`, `Mat`, `KSP` and `PetscSF` belong to PETSc. The scalars are the
elements of a type `R` with an exact addition. -/

/-- Modelled from the spec: a PETSc `Vec` with scalars in `R`: its size and the
array of its entries. -/
structure Vec (R : Type) where
  n : Int
  data : Int → R

/-- Modelled from the spec: `VecCreateSeq(comm, n, &v)`: `n` entries, all zero. -/
def VecCreateSeq {R : Type} [Zero R] (n : Int) : Vec R := ⟨n, fun _ => 0⟩

/-- Modelled from the spec: `VecSet(v, a)`: every entry of `v` becomes `a`. -/
def VecSet {R : Type} (v : Vec R) (a : R) : Vec R :=
  { v with data := fun k => if 0 ≤ k ∧ k < v.n then a else v.data k }

/-- Modelled from the spec: a work vector made by
`VecCreateSeqWithArray(comm, bs, n, NULL, &v)`: block size and size, its array
being supplied later by `VecPlaceArray`. -/
structure PatchVec where
  bs : Int
  n : Int
  deriving DecidableEq, Repr

/-- Modelled from the spec: `VecCopy(x, y)` for two work vectors of `n` entries
whose arrays were placed at `xs + start` and `ys + start`: the array `ys`
afterwards. -/
def VecCopy {R : Type} (n start : Int) (xs ys : Int → R) : Int → R :=
  fun k => if start ≤ k ∧ k < start + n then xs k else ys k

/-- Modelled from the spec: a PETSc `Mat`: sizes, block sizes and entries. -/
structure Mat (R : Type) where
  rsize : Int
  csize : Int
  rbs : Int
  cbs : Int
  val : Int → Int → R

/-- Modelled from the spec: `KSPSetOperators(ksp[i], mat, NULL)` on the array
of patch solvers, each solver being given by the operator it holds. -/
def KSPSetOperators {R : Type} (ksp : Int → Option (Mat R)) (i : Int) (mat : Option (Mat R)) :
    Int → Option (Mat R) :=
  fun k => if k = i then mat else ksp k

/-- Modelled from the spec: the values of `KSPConvergedReason` that
`libssc.c` tells apart: `KSP_DIVERGED_PCSETUP_FAILED` and any other reason. -/
inductive KSPConvergedReason where
  | KSP_CONVERGED_ITERATING
  | KSP_DIVERGED_PCSETUP_FAILED
  deriving DecidableEq, Repr

/-- Modelled from the spec: the values of `PCFailedReason` that `libssc.c`
uses: `PC_NOERROR`, the value of a new object, and `PC_SUBPC_ERROR`. -/
inductive PCFailedReason where
  | PC_NOERROR
  | PC_SUBPC_ERROR
  deriving DecidableEq, Repr

/-- Modelled from the spec: a `PetscSFNode`, the root a leaf is attached to. -/
structure PetscSFNode where
  rank : Int
  index : Int
  deriving DecidableEq, Repr

/-- Modelled from the spec: a communication plan `PetscSF` on one process with
contiguous leaves (`ilocal == NULL`): leaf `i` of `[0, nleaves)` is attached to
the root `iremote[i]`. -/
structure PetscSF where
  nroots : Int
  nleaves : Int
  iremote : Int → Option PetscSFNode

/-- Modelled from the spec: `PetscSFSetGraph(sf, nroots, nleaves, NULL, mode, iremote, mode)`. -/
def PetscSFSetGraph (nroots nleaves : Int) (iremote : Int → Option PetscSFNode) : PetscSF :=
  ⟨nroots, nleaves, iremote⟩

/-- Modelled from the spec: `PetscSFCompose(sfA, sfB, &sfBA)`: the roots of
`sfB` are the leaves of `sfA`; a leaf of `sfB` is attached to the root of
`sfA` that the leaf of `sfA` it points to is attached to. -/
def PetscSFCompose (sfA sfB : PetscSF) : PetscSF :=
  ⟨sfA.nroots, sfB.nleaves, fun i => (sfB.iremote i).bind (fun r => sfA.iremote r.index)⟩

/-- Modelled from the spec: the broadcast of the unit of `bs` scalars of a
root to leaf `i`. -/
def bcastUnit {R : Type} (sf : PetscSF) (bs : Int) (rootdata : Int → R) (leafdata : Int → R)
    (i : Int) : Int → R :=
  match sf.iremote i with
  | none => leafdata
  | some r => fun k =>
    if i * bs ≤ k ∧ k < i * bs + bs then rootdata (r.index * bs + (k - i * bs)) else leafdata k

/-- Modelled from the spec: `PetscSFBcastBegin` / `PetscSFBcastEnd` with a unit
of `bs` scalars: every leaf receives the unit of its root. The leaf array
afterwards. -/
def PetscSFBcast {R : Type} (sf : PetscSF) (bs : Int) (rootdata leafdata : Int → R) : Int → R :=
  (loopRange 0 sf.nleaves).foldl (bcastUnit sf bs rootdata) leafdata

/-- Modelled from the spec: the unit of `bs` scalars of leaf `i` added to the
unit of its root. -/
def reduceUnit {R : Type} [Add R] (sf : PetscSF) (bs : Int) (leafdata : Int → R)
    (rootdata : Int → R) (i : Int) : Int → R :=
  match sf.iremote i with
  | none => rootdata
  | some r => fun k =>
    if r.index * bs ≤ k ∧ k < r.index * bs + bs then
      rootdata k + leafdata (i * bs + (k - r.index * bs))
    else rootdata k

/-- Modelled from the spec: `PetscSFReduceBegin` / `PetscSFReduceEnd` with
`MPI_SUM` and a unit of `bs` scalars: the unit of every leaf is added to the
unit of its root. The root array afterwards. -/
def PetscSFReduce {R : Type} [Add R] (sf : PetscSF) (bs : Int) (leafdata rootdata : Int → R) :
    Int → R :=
  (loopRange 0 sf.nleaves).foldl (reduceUnit sf bs leafdata) rootdata

/-! ## The discretisation callback -/

/-- What the discretisation callback is handed besides the matrix: `ncell`
cell ids and `ndof` dof ids. -/
structure CallbackArgs where
  ncell : Int
  cellIds : List Int
  ndof : Int
  dofIds : List Int
  deriving DecidableEq, Repr

/-- What a routine that may invoke the discretisation callback has done: the
invocations it made, in order, and the value or error code it returned. -/
structure Outcome (α : Type) where
  calls : List CallbackArgs
  result : Except PetscErrorCode α

/-- Return without error and without invoking the callback. -/
def Outcome.ok {α : Type} (a : α) : Outcome α := ⟨[], .ok a⟩

/-- Return of an error code (`SETERRQ`) without invoking the callback. -/
def Outcome.error {α : Type} (e : PetscErrorCode) : Outcome α := ⟨[], .error e⟩

/-- A call that does not invoke the callback. -/
def Outcome.ofExcept {α : Type} (r : Except PetscErrorCode α) : Outcome α := ⟨[], r⟩

/-- Sequencing with `CHKERRQ`: what follows runs only after a return without error. -/
def Outcome.bind {α β : Type} (o : Outcome α) (f : α → Outcome β) : Outcome β :=
  match o.result with
  | .error e => ⟨o.calls, .error e⟩
  | .ok a => ⟨o.calls ++ (f a).calls, (f a).result⟩

/-- A C `for` loop whose body may invoke the callback and may return an error. -/
def Outcome.loop {σ : Type} (body : σ → Int → Outcome σ) : List Int → σ → Outcome σ
  | [], s => Outcome.ok s
  | i :: is, s => (body s i).bind (fun s' => Outcome.loop body is s')

/-! ## The preconditioner object -/

/-- The discretisation callback registered with `PCPatchSetComputeOperator`:
from its arguments and the matrix handed to it, the filled matrix or an error
code. -/
abbrev ComputeOperator (R : Type) := CallbackArgs → Mat R → Except PetscErrorCode (Mat R)

/-- The fields of `PC_PATCH` and the fields `setupcalled` and `failedreason` of
the `PC` that owns it. A handle that was never created is `none`;
`kspOperators i` is the operator held by the solver `ksp[i]` and `kspReason i`
the converged reason that `KSPGetConvergedReason` reports for it after
`KSPSetUp`. -/
structure PC (R : Type) where
  setupcalled : Bool
  dm : DM
  globalToLocal : PetscSF
  defaultSF : PetscSF
  dofSection : PetscSection
  cellCounts : PetscSection
  cellNumbering : PetscSection
  localToPatch : PetscSection
  bcCounts : PetscSection
  cells : IS
  dofs : IS
  bcs : IS
  save_operators : Bool
  npatch : Int
  numBcs : Int
  bs : Int
  nodesPerCell : Int
  bcNodes : Int → Int
  cellNodeMap : Int → Int
  kspOperators : Int → Option (Mat R)
  localX : Vec R
  localY : Vec R
  patchX : Int → Option PatchVec
  patchY : Int → Option PatchVec
  mat : Int → Option (Mat R)
  usercomputeop : Option (ComputeOperator R)
  failedreason : PCFailedReason := .PC_NOERROR
  kspReason : Int → KSPConvergedReason := fun _ => .KSP_CONVERGED_ITERATING

/-- The function `PCPatchSetSaveOperators`. -/
def PCPatchSetSaveOperators {R : Type} (pc : PC R) (flg : Bool) : PC R :=
  { pc with save_operators := flg }

/-- The function `PCPatchSetComputeOperator`. -/
def PCPatchSetComputeOperator {R : Type} (pc : PC R) (func : ComputeOperator R) : PC R :=
  { pc with usercomputeop := some func }

/-- The function `PCPatchCreateGlobalToLocalSF` up to the call of
`PetscSFCompose`: the plan `localSF`. -/
def PCPatchCreateLocalSF (gtolSF : PetscSF) (gtolCounts : PetscSection) (gtol : IS) : PetscSF :=
  let nroots := gtolSF.nroots
  let nleaves := PetscSectionGetStorageSize gtolCounts
  let gtolArray := ISGetIndices gtol
  let iremote := (loopRange 0 nleaves).foldl
    (fun (iremote : Int → Option PetscSFNode) i =>
      fun k => if k = i then some ⟨0, gtolArray i⟩ else iremote k)
    (fun _ => none)
  PetscSFSetGraph nroots nleaves iremote

/-- The function `PCPatchCreateGlobalToLocalSF`. -/
def PCPatchCreateGlobalToLocalSF (gtolSF : PetscSF) (gtolCounts : PetscSection) (gtol : IS) :
    PetscSF :=
  PetscSFCompose gtolSF (PCPatchCreateLocalSF gtolSF gtolCounts gtol)

/-- The function `PCPatchCreateMatrix`: a matrix with the sizes of the two
work vectors and no entry set; the use of a work vector that was never created
is rejected. Its argument `pc` gives the storage type of the matrix only and is
left out. -/
def PCPatchCreateMatrix {R : Type} [Zero R] (x y : Option PatchVec) :
    Except PetscErrorCode (Mat R) :=
  match x, y with
  | some x, some y =>
    .ok { rsize := y.n, csize := x.n, rbs := y.bs, cbs := x.bs, val := fun _ _ => 0 }
  | _, _ => .error .PETSC_ERR_ARG_CORRUPT

/-- The function `PCPatchComputeOperator`. -/
def PCPatchComputeOperator {R : Type} (pc : PC R) (mat : Mat R) (which : Int) :
    Outcome (Mat R) :=
  match pc.usercomputeop with
  | none => Outcome.error .PETSC_ERR_ARG_WRONGSTATE
  | some usercomputeop =>
    let dofsArray := ISGetIndices pc.dofs
    let cellsArray := ISGetIndices pc.cells
    let pStart := pc.cellCounts.pStart
    let pEnd := pc.cellCounts.pEnd
    let which := which + pStart
    if which ≥ pEnd then Outcome.error .PETSC_ERR_ARG_OUTOFRANGE
    else
      let ncell := PetscSectionGetDof pc.cellCounts which
      if ncell ≤ 0 then Outcome.error .PETSC_ERR_ARG_OUTOFRANGE
      else
        let offset := PetscSectionGetOffset pc.cellCounts which
        let args : CallbackArgs :=
          { ncell := ncell
            cellIds := (loopRange 0 ncell).map (fun k => cellsArray (offset + k))
            ndof := ncell * pc.nodesPerCell
            dofIds := (loopRange 0 (ncell * pc.nodesPerCell)).map
              (fun k => dofsArray (offset * pc.nodesPerCell + k)) }
        ⟨[args], usercomputeop args mat⟩

/-- Body of the loop of `PCSetUp_PATCH` that creates the work vectors of the
vertices `i` with local dofs. -/
def createPatchVec (gtolCounts : PetscSection) (bs pStart : Int)
    (vecs : Int → Option PatchVec) (i : Int) : Int → Option PatchVec :=
  let dof := PetscSectionGetDof gtolCounts i
  if dof > 0 then fun k => if k = i - pStart then some ⟨bs, dof * bs⟩ else vecs k
  else vecs

/-- Body of the loop of `PCSetUp_PATCH` that creates the patch matrices. -/
def createPatchMat {R : Type} [Zero R] (patchX patchY : Int → Option PatchVec)
    (mat : Int → Option (Mat R)) (i : Int) : Except PetscErrorCode (Int → Option (Mat R)) :=
  match PCPatchCreateMatrix (patchX i) (patchY i) with
  | .error e => .error e
  | .ok m => .ok (fun k => if k = i then some m else mat k)

/-- The part of `PCSetUp_PATCH` under `if (!pc->setupcalled)` up to the creation
of the patch solvers: the index structures, the plan and the work vectors. -/
def PCSetUp_PATCH_structures {R : Type} [Zero R] (ord : IterOrder) (pc : PC R) :
    Except PetscErrorCode (PC R) :=
  let cc := PCPatchCreateCellPatches pc.dm
  let cellCounts := cc.1
  let pStart := cellCounts.pStart
  let pEnd := cellCounts.pEnd
  let npatch := pEnd - pStart
  let fc := PCPatchCreateCellPatchFacets pc.dm cellCounts cc.2
  match PCPatchCreateCellPatchDiscretisationInfo ord cellCounts cc.2 pc.cellNumbering
      pc.nodesPerCell pc.cellNodeMap with
  | .error e => .error e
  | .ok info =>
    match PCPatchCreateCellPatchBCs ord pc.dm pc.numBcs pc.bcNodes fc.1 fc.2 info.gtolCounts
        info.gtol pc.dofSection with
    | .error e => .error e
    | .ok bc =>
      let globalToLocal := PCPatchCreateGlobalToLocalSF pc.defaultSF info.gtolCounts info.gtol
      let localSize := PetscSectionGetStorageSize info.gtolCounts * pc.bs
      let work := (loopRange pStart pEnd).foldl (createPatchVec info.gtolCounts pc.bs pStart)
        (fun _ => none)
      .ok { pc with
            cellCounts := cellCounts
            cells := info.cells
            npatch := npatch
            dofs := info.dofs
            bcCounts := bc.1
            bcs := bc.2
            globalToLocal := globalToLocal
            localX := VecCreateSeq localSize
            localY := VecCreateSeq localSize
            patchX := work
            patchY := work
            localToPatch := info.gtolCounts
            kspOperators := fun _ => none }

/-- The part of `PCSetUp_PATCH` under `if (!pc->setupcalled)`: the structures
and, when the operators are saved, the patch matrices. -/
def PCSetUp_PATCH_first {R : Type} [Zero R] (ord : IterOrder) (pc : PC R) :
    Except PetscErrorCode (PC R) :=
  match PCSetUp_PATCH_structures ord pc with
  | .error e => .error e
  | .ok pc1 =>
    if pc1.save_operators then
      match (loopRange 0 pc1.npatch).foldlM (createPatchMat pc1.patchX pc1.patchY)
          (fun _ => none) with
      | .error e => .error e
      | .ok mat => .ok { pc1 with mat := mat }
    else .ok pc1

/-- What the loop over the patches at the end of `PCSetUp_PATCH` changes. -/
structure OperatorState (R : Type) where
  mat : Int → Option (Mat R)
  kspOperators : Int → Option (Mat R)

/-- Body of the loop over the patches at the end of `PCSetUp_PATCH`. -/
def setUpOperator {R : Type} (pc : PC R) (st : OperatorState R) (i : Int) :
    Outcome (OperatorState R) :=
  match st.mat i with
  | none => Outcome.error .PETSC_ERR_ARG_CORRUPT
  | some m =>
    (PCPatchComputeOperator pc m i).bind (fun m' =>
      Outcome.ok
        { mat := fun k => if k = i then some m' else st.mat k
          kspOperators := KSPSetOperators st.kspOperators i (some m') })

/-- The part of `PCSetUp_PATCH` after `if (!pc->setupcalled)`. -/
def PCSetUp_PATCH_operators {R : Type} (pc : PC R) : Outcome (PC R) :=
  if pc.save_operators then
    (Outcome.loop (setUpOperator pc) (loopRange 0 pc.npatch) ⟨pc.mat, pc.kspOperators⟩).bind
      (fun st => Outcome.ok { pc with mat := st.mat, kspOperators := st.kspOperators })
  else Outcome.ok pc

/-- The function `PCSetUp_PATCH`. -/
def PCSetUp_PATCH {R : Type} [Zero R] (ord : IterOrder) (pc : PC R) : Outcome (PC R) :=
  (if pc.setupcalled then Outcome.ok pc
   else Outcome.ofExcept (PCSetUp_PATCH_first ord pc)).bind PCSetUp_PATCH_operators

/-- What the loop over the patches of `PCApply_PATCH` changes. -/
structure ApplyState (R : Type) where
  localY : Int → R
  kspOperators : Int → Option (Mat R)

/-- Body of the loop over the patches of `PCApply_PATCH`. The call of
`KSPSolve` is commented out in the C code. -/
def applyPatch {R : Type} [Zero R] (pc : PC R) (localX : Int → R) (st : ApplyState R)
    (i : Int) : Outcome (ApplyState R) :=
  let pStart := pc.localToPatch.pStart
  let len := PetscSectionGetDof pc.localToPatch (i + pStart)
  let start := PetscSectionGetOffset pc.localToPatch (i + pStart)
  if len ≤ 0 then Outcome.error .PETSC_ERR_ARG_SIZ
  else
    let start := start * pc.bs
    match pc.patchX i, pc.patchY i with
    | some px, some py =>
      (if pc.save_operators then Outcome.ok st.kspOperators
       else
        (Outcome.ofExcept (PCPatchCreateMatrix (some px) (some py))).bind (fun mat =>
          (PCPatchComputeOperator pc mat i).bind (fun mat' =>
            Outcome.ok
              (KSPSetOperators (KSPSetOperators st.kspOperators i (some mat')) i none)))).bind
        (fun ksp =>
          Outcome.ok { localY := VecCopy px.n start localX st.localY, kspOperators := ksp })
    | _, _ => Outcome.error .PETSC_ERR_ARG_CORRUPT

/-- The function `PCApply_PATCH`: the preconditioner object and the vector `y`
afterwards. -/
def PCApply_PATCH {R : Type} [AddMonoid R] (pc : PC R) (x y : Vec R) : Outcome (PC R × Vec R) :=
  let localX := PetscSFBcast pc.globalToLocal pc.bs x.data pc.localX.data
  (Outcome.loop (applyPatch pc localX) (loopRange 0 pc.npatch)
      ⟨pc.localY.data, pc.kspOperators⟩).bind
    (fun st =>
      let y0 := VecSet y 0
      Outcome.ok
        ({ pc with
            localX := { pc.localX with data := localX }
            localY := { pc.localY with data := st.localY }
            kspOperators := st.kspOperators },
          { y0 with data := PetscSFReduce pc.globalToLocal pc.bs st.localY y0.data }))

/-! ## Notions used to state the properties of the apply -/

/-- Whether leaf `i` of a plan is attached to the root `g`. -/
def attachedTo (sf : PetscSF) (g : Int) (i : Int) : Bool :=
  match sf.iremote i with
  | none => false
  | some r => decide (r.index = g)

/-- The entries of a vector, in order. -/
def Vec.entries {R : Type} (v : Vec R) : List R := (loopRange 0 v.n).map v.data

/-- The identity plan on `n` dofs: leaf `i` is attached to root `i`. -/
def identitySF (n : Int) : PetscSF :=
  ⟨n, n, fun i => if 0 ≤ i ∧ i < n then some ⟨0, i⟩ else none⟩

/-- The matrix that `PCPatchCreateMatrix` makes from two work vectors. -/
def patchMatrix {R : Type} [Zero R] (x y : PatchVec) : Mat R :=
  { rsize := y.n, csize := x.n, rbs := y.bs, cbs := x.bs, val := fun _ _ => 0 }

/-- The array `localY` after the calls of `VecCopy` for the patches of a list:
the window of each patch is overwritten with the same window of `localX`. -/
def copyWindows {R : Type} (localToPatch : PetscSection) (bs : Int)
    (patchX : Int → Option PatchVec) (localX : Int → R) (l : List Int) (localY : Int → R) :
    Int → R :=
  l.foldl (fun ly i =>
    match patchX i with
    | some px =>
      VecCopy px.n (PetscSectionGetOffset localToPatch (i + localToPatch.pStart) * bs) localX ly
    | none => ly) localY

/-- What makes the body of the loop of `PCApply_PATCH` return without error for
patch `i`: local dofs, work vectors and, when the operators are not saved, a
callback that fills the matrix without error. -/
def PatchApplies {R : Type} [Zero R] (pc : PC R) (i : Int) : Prop :=
  0 < PetscSectionGetDof pc.localToPatch (i + pc.localToPatch.pStart) ∧
  ∃ px py, pc.patchX i = some px ∧ pc.patchY i = some py ∧
    (pc.save_operators = true ∨
      ∃ m, (PCPatchComputeOperator pc (patchMatrix px py) i).result = .ok m)

/-! ## PCSetUpOnBlocks_PATCH -/

/-- Body of the loop over the patches written in `PCSetUpOnBlocks_PATCH`: the
converged reason of the solver of patch `i` after `KSPSetUp` is looked at. -/
def setUpOnBlock {R : Type} (pc : PC R) (i : Int) : PC R :=
  let reason := pc.kspReason i
  if reason = .KSP_DIVERGED_PCSETUP_FAILED then { pc with failedreason := .PC_SUBPC_ERROR }
  else pc

/-- The statements of `PCSetUpOnBlocks_PATCH` that follow its first
`PetscFunctionReturn(0)`: the loop over the patches and the second return. The
function never reaches them. -/
def PCSetUpOnBlocks_PATCH_unreached {R : Type} (pc : PC R) : Except PetscErrorCode (PC R) :=
  .ok ((loopRange 0 pc.npatch).foldl setUpOnBlock pc)

/-- The function `PCSetUpOnBlocks_PATCH`: its first statement after
`PetscFunctionBegin` is `PetscFunctionReturn(0)`. -/
def PCSetUpOnBlocks_PATCH {R : Type} (pc : PC R) : Except PetscErrorCode (PC R) :=
  .ok pc

/-! ## Notions used to state the properties of the callback invocations -/

/-- What `PCPatchComputeOperator` hands to the callback for the patch index
`which`: the count and the slice of the cells of the patch, and the count and
the slice of its entries of the dofs array. -/
def callbackArgs {R : Type} (pc : PC R) (which : Int) : CallbackArgs :=
  { ncell := PetscSectionGetDof pc.cellCounts (which + pc.cellCounts.pStart)
    cellIds := (loopRange 0 (PetscSectionGetDof pc.cellCounts (which + pc.cellCounts.pStart))).map
      (fun k => ISGetIndices pc.cells
        (PetscSectionGetOffset pc.cellCounts (which + pc.cellCounts.pStart) + k))
    ndof := PetscSectionGetDof pc.cellCounts (which + pc.cellCounts.pStart) * pc.nodesPerCell
    dofIds := (loopRange 0
        (PetscSectionGetDof pc.cellCounts (which + pc.cellCounts.pStart) * pc.nodesPerCell)).map
      (fun k => ISGetIndices pc.dofs
        (PetscSectionGetOffset pc.cellCounts (which + pc.cellCounts.pStart) * pc.nodesPerCell
          + k)) }

/-! ## Notions used to state the properties of the running indices -/

/-- The state `s2` of the first pass of the dof map builder comes after `s1`:
the write index has not gone back and the slots of the dofs array below the
write index of `s1` hold what they held. -/
def DofsKept (s1 s2 : DofState) : Prop :=
  s1.globalIndex ≤ s2.globalIndex ∧
  ∀ k, k < s1.globalIndex → s2.dofsArray k = s1.dofsArray k

/-- The running index of the facets builder lies inside the allocated array:
`0 <= facetIndex <= totalFacets`. -/
def FacetState.InCapacity (st : FacetState) : Prop :=
  0 ≤ st.facetIndex ∧ st.facetIndex ≤ st.totalFacets

/-- The running index of the boundary condition builder lies inside the
allocated array: `0 <= bcIndex <= totalNumBcs`. -/
def BcState.InCapacity (st : BcState) : Prop :=
  0 ≤ st.bcIndex ∧ st.bcIndex ≤ st.totalNumBcs

/-! ## A mesh of two triangles

Cells 0 and 1, vertices 2 to 5, edges 6 to 10; the triangles `(2,3,4)` and
`(3,4,5)` share the edge 7. -/

/-- Cones of the two cells. -/
def twoTriangles.cone (p : Int) : List Int :=
  if p = 0 then [6, 7, 8] else if p = 1 then [7, 9, 10] else []

/-- Supports of the five edges. -/
def twoTriangles.support (p : Int) : List Int :=
  if p = 6 then [0] else if p = 7 then [0, 1] else if p = 8 then [0]
  else if p = 9 then [1] else if p = 10 then [1] else []

/-- Closure arrays (point, orientation, point, orientation, ...): the star of
a vertex for `useCone = false`, the closure of an edge for `useCone = true`. -/
def twoTriangles.transitiveClosure (p : Int) (useCone : Bool) : List Int :=
  if useCone then
    if p = 6 then [6, 0, 2, 0, 3, 0] else if p = 7 then [7, 0, 3, 0, 4, 0]
    else if p = 8 then [8, 0, 4, 0, 2, 0] else if p = 9 then [9, 0, 3, 0, 5, 0]
    else if p = 10 then [10, 0, 5, 0, 4, 0] else [p, 0]
  else
    if p = 2 then [2, 0, 6, 0, 8, 0, 0, 0]
    else if p = 3 then [3, 0, 6, 0, 7, 0, 9, 0, 0, 0, 1, 0]
    else if p = 4 then [4, 0, 7, 0, 8, 0, 10, 0, 0, 0, 1, 0]
    else if p = 5 then [5, 0, 9, 0, 10, 0, 1, 0] else [p, 0]

/-- The mesh: vertex 3 is core, vertices 2 and 4 are non-core, vertex 5 is not
owned; the edges 6 and 8 are exterior. -/
def twoTriangles : DM where
  vStart := 2
  vEnd := 6
  cStart := 0
  cEnd := 2
  fStart := 6
  fEnd := 11
  cone := twoTriangles.cone
  support := twoTriangles.support
  transitiveClosure := twoTriangles.transitiveClosure
  op2_core := fun p => decide (p = 3)
  op2_non_core := fun p => decide (p = 2 ∨ p = 4)
  exterior_facets := fun p => decide (p = 6 ∨ p = 8)

/-- Cell numbering: cell `c` has compact index `c`. -/
def twoTriangles.cellNumbering : PetscSection :=
  ⟨0, 2, fun p => if 0 ≤ p ∧ p < 2 then 1 else 0, fun p => p⟩

/-- One dof per edge, three per cell: cell 0 has the dofs 10, 11, 12 of its
edges 6, 7, 8 and cell 1 the dofs 11, 13, 14 of its edges 7, 9, 10. -/
def twoTriangles.cellNodeMap (k : Int) : Int :=
  if k = 0 then 10 else if k = 1 then 11 else if k = 2 then 12
  else if k = 3 then 11 else if k = 4 then 13 else if k = 5 then 14 else 0

/-- Dof section of the edge dofs: the edge `p` carries the dof `p + 4`. -/
def twoTriangles.dofSection : PetscSection :=
  ⟨0, 11, fun p => if 6 ≤ p ∧ p < 11 then 1 else 0, fun p => p + 4⟩

/-- Global boundary nodes: the dof 10. -/
def twoTriangles.bcNodes (_i : Int) : Int := 10

/-! ## A patch with a negative global dof id

One vertex 0 with one cell 0 and two dofs per cell, the first of them with
the negative id -1. -/

/-- One cell around vertex 0. -/
def negativeDof.cellCounts : PetscSection :=
  ⟨0, 1, fun p => if p = 0 then 1 else 0, fun _ => 0⟩

/-- The cells array `[0]`. -/
def negativeDof.cells : IS := ⟨1, fun i => if i = 0 then some 0 else none⟩

/-- Cell 0 has compact index 0. -/
def negativeDof.cellNumbering : PetscSection :=
  ⟨0, 1, fun p => if p = 0 then 1 else 0, fun _ => 0⟩

/-- The global dof ids `[-1, 0]` of cell 0. -/
def negativeDof.cellNodeMap (k : Int) : Int := if k = 0 then -1 else 0

/-! ## Vertex dofs on the two triangles

The patch of vertex 2 for one dof per vertex: its boundary facet is the edge
7, whose closure holds the vertices 3 and 4; the patch has the global dofs
0, 1, 2 of the vertices 2, 3, 4. -/

/-- Vertex `p` carries the dof `p - 2`; the edges carry none. -/
def vertexDofs.dofSection : PetscSection :=
  ⟨0, 11, fun p => if 2 ≤ p ∧ p < 6 then 1 else 0, fun p => p - 2⟩

/-- One boundary facet for vertex 2. -/
def vertexDofs.facetCounts : PetscSection :=
  ⟨2, 3, fun p => if p = 2 then 1 else 0, fun _ => 0⟩

/-- The facets array `[7]`. -/
def vertexDofs.facets : IS := ⟨1, fun i => if i = 0 then some 7 else none⟩

/-- Three local dofs for vertex 2. -/
def vertexDofs.gtolCounts : PetscSection :=
  ⟨2, 3, fun p => if p = 2 then 3 else 0, fun _ => 0⟩

/-- The gtol array `[0, 1, 2]`. -/
def vertexDofs.gtol : IS :=
  ⟨3, fun i => if i = 0 then some 0 else if i = 1 then some 1 else if i = 2 then some 2
    else none⟩

/-- The cell counts built for the two triangles. -/
def twoTriangles.cellCounts : PetscSection := (PCPatchCreateCellPatches twoTriangles).1

/-- The cells array built for the two triangles. -/
def twoTriangles.cells : IS := (PCPatchCreateCellPatches twoTriangles).2

/-- The dof map builder run on the two triangles with the edge dofs. -/
def twoTriangles.discretisationInfo : Except PetscErrorCode DiscretisationInfo :=
  PCPatchCreateCellPatchDiscretisationInfo IterOrder.insertion twoTriangles.cellCounts
    twoTriangles.cells twoTriangles.cellNumbering 3 twoTriangles.cellNodeMap

/-! ## Edge dofs on the patch of vertex 2

The patch of vertex 2 for one dof per edge: the global dofs 10, 11, 12 of the
edges 6, 7, 8 and the boundary facet 7. -/

/-- Three local dofs for vertex 2. -/
def edgeDofs.gtolCounts : PetscSection :=
  ⟨2, 3, fun p => if p = 2 then 3 else 0, fun _ => 0⟩

/-- The gtol array `[10, 11, 12]`. -/
def edgeDofs.gtol : IS :=
  ⟨3, fun i => if i = 0 then some 10 else if i = 1 then some 11 else if i = 2 then some 12
    else none⟩

/-- The BC builder run on the patch of vertex 2 with the edge dofs and the
global boundary node 10. -/
def edgeDofs.bcs : Except PetscErrorCode (PetscSection × IS) :=
  PCPatchCreateCellPatchBCs IterOrder.insertion twoTriangles 1 twoTriangles.bcNodes
    vertexDofs.facetCounts vertexDofs.facets edgeDofs.gtolCounts edgeDofs.gtol
    twoTriangles.dofSection

/-- Whether a run ended without error. -/
def isOk {ε α : Type} : Except ε α → Bool
  | .ok _ => true
  | .error _ => false

/-! ## Preconditioner objects used as examples -/

/-- A preconditioner object before its first setup: the inputs registered
with the `PCPatchSet...` functions, and nothing built yet. -/
def newPC (dm : DM) (defaultSF : PetscSF) (cellNumbering dofSection : PetscSection)
    (bs nodesPerCell : Int) (cellNodeMap : Int → Int) (numBcs : Int) (bcNodes : Int → Int)
    (save_operators : Bool) (usercomputeop : Option (ComputeOperator Int)) : PC Int where
  setupcalled := false
  dm := dm
  globalToLocal := ⟨0, 0, fun _ => none⟩
  defaultSF := defaultSF
  dofSection := dofSection
  cellCounts := PetscSectionSetChart 0 0
  cellNumbering := cellNumbering
  localToPatch := PetscSectionSetChart 0 0
  bcCounts := PetscSectionSetChart 0 0
  cells := ⟨0, PetscMalloc1⟩
  dofs := ⟨0, PetscMalloc1⟩
  bcs := ⟨0, PetscMalloc1⟩
  save_operators := save_operators
  npatch := 0
  numBcs := numBcs
  bs := bs
  nodesPerCell := nodesPerCell
  bcNodes := bcNodes
  cellNodeMap := cellNodeMap
  kspOperators := fun _ => none
  localX := ⟨0, fun _ => 0⟩
  localY := ⟨0, fun _ => 0⟩
  patchX := fun _ => none
  patchY := fun _ => none
  mat := fun _ => none
  usercomputeop := usercomputeop

/-- The object after `PCSetUp_PATCH`, and the object itself when the setup fails. -/
def afterSetUp (pc : PC Int) : PC Int :=
  match (PCSetUp_PATCH IterOrder.insertion pc).result with
  | .ok p => p
  | .error _ => pc

/-- A callback that fills the matrix with minus the identity. -/
def minusIdentity : ComputeOperator Int :=
  fun _ m => .ok { m with val := fun i j => if i = j then -1 else 0 }

/-- The 2 x 2 matrix minus the identity. -/
def minusIdentityMatrix : Mat Int :=
  { rsize := 2, csize := 2, rbs := 1, cbs := 1, val := fun i j => if i = j then -1 else 0 }

/-- The entries of a 2 x 2 matrix, row by row. -/
def Mat.entries2 {R : Type} (m : Mat R) : List R := [m.val 0 0, m.val 0 1, m.val 1 0, m.val 1 1]

/-! ### One patch

One cell 0 with the owned vertex 1 and the two dofs 0 and 1. -/

/-- The mesh: the star of vertex 1 holds the cell 0. -/
def onePatch.dm : DM where
  vStart := 1
  vEnd := 2
  cStart := 0
  cEnd := 1
  fStart := 2
  fEnd := 2
  cone := fun _ => []
  support := fun _ => []
  transitiveClosure := fun p useCone => if p = 1 ∧ useCone = false then [1, 0, 0, 0] else [p, 0]
  op2_core := fun p => decide (p = 1)
  op2_non_core := fun _ => false
  exterior_facets := fun _ => false

/-- Cell 0 has compact index 0. -/
def onePatch.cellNumbering : PetscSection :=
  ⟨0, 1, fun p => if p = 0 then 1 else 0, fun _ => 0⟩

/-- No dof on a mesh point of the closure of a facet. -/
def onePatch.dofSection : PetscSection := PetscSectionSetChart 0 2

/-- The object before setup, with the callback `minusIdentity`. -/
def onePatch.pc (save_operators : Bool) : PC Int :=
  newPC onePatch.dm (identitySF 2) onePatch.cellNumbering onePatch.dofSection 1 2 (fun k => k)
    0 (fun _ => 0) save_operators (some minusIdentity)

/-- The object before setup, without callback. -/
def onePatch.noCallback (save_operators : Bool) : PC Int :=
  newPC onePatch.dm (identitySF 2) onePatch.cellNumbering onePatch.dofSection 1 2 (fun k => k)
    0 (fun _ => 0) save_operators none

/-- The object before setup, without callback and with a cell numbering that
has no entry for cell 0. -/
def onePatch.unnumbered : PC Int :=
  newPC onePatch.dm (identitySF 2) (PetscSectionSetChart 0 0) onePatch.dofSection 1 2
    (fun k => k) 0 (fun _ => 0) true none

/-- The input vector `(3, 5)`. -/
def onePatch.x : Vec Int := ⟨2, fun k => if k = 0 then 3 else if k = 1 then 5 else 0⟩

/-- An output vector holding `(7, 7)`. -/
def onePatch.y : Vec Int := ⟨2, fun _ => 7⟩

/-- The local dof counts that the setup builds: two local dofs for vertex 1. -/
def onePatch.gtolCounts : PetscSection := ⟨1, 2, fun p => if p = 1 then 2 else 0, fun _ => 0⟩

/-- The array `gtol` that the setup builds: `[0, 1]`. -/
def onePatch.gtol : IS := ⟨2, fun i => if i = 0 then some 0 else if i = 1 then some 1 else none⟩

/-- The object that the setup without saved operators leaves, written out. -/
def onePatch.state : PC Int :=
  { onePatch.pc false with
    cellCounts := ⟨1, 2, fun p => if p = 1 then 1 else 0, fun _ => 0⟩
    cells := ⟨1, fun i => if i = 0 then some 0 else none⟩
    dofs := ⟨2, fun i => if i = 0 then some 0 else if i = 1 then some 1 else none⟩
    npatch := 1
    globalToLocal := PCPatchCreateGlobalToLocalSF (identitySF 2) onePatch.gtolCounts onePatch.gtol
    localToPatch := onePatch.gtolCounts
    localX := VecCreateSeq 2
    localY := VecCreateSeq 2
    patchX := fun i => if i = 0 then some ⟨1, 2⟩ else none
    patchY := fun i => if i = 0 then some ⟨1, 2⟩ else none }

/-- The object that a setup with saved operators leaves, written out, after
the callback has been taken away. -/
def onePatch.saved : PC Int :=
  { onePatch.state with
    setupcalled := true
    save_operators := true
    usercomputeop := none
    mat := fun i => if i = 0 then some (minusIdentityMatrix) else none
    kspOperators := fun i => if i = 0 then some (minusIdentityMatrix) else none }

/-! ### A vertex without cell

The mesh has the single vertex 0, which is not owned. -/

/-- The mesh. -/
def loneVertex.dm : DM where
  vStart := 0
  vEnd := 1
  cStart := 1
  cEnd := 1
  fStart := 1
  fEnd := 1
  cone := fun _ => []
  support := fun _ => []
  transitiveClosure := fun p _ => [p, 0]
  op2_core := fun _ => false
  op2_non_core := fun _ => false
  exterior_facets := fun _ => false

/-- The object before setup: operators not saved, with or without callback. -/
def loneVertex.pc (usercomputeop : Option (ComputeOperator Int)) : PC Int :=
  newPC loneVertex.dm (identitySF 0) (PetscSectionSetChart 1 1) (PetscSectionSetChart 0 1) 1 2
    (fun k => k) 0 (fun _ => 0) false usercomputeop

/-! ### An owned and an unowned vertex

One cell 0 with the owned vertex 1 and the vertex 2 that is not owned. -/

/-- The mesh. -/
def halo.dm : DM where
  vStart := 1
  vEnd := 3
  cStart := 0
  cEnd := 1
  fStart := 3
  fEnd := 3
  cone := fun _ => []
  support := fun _ => []
  transitiveClosure := fun p useCone =>
    if (p = 1 ∨ p = 2) ∧ useCone = false then [p, 0, 0, 0] else [p, 0]
  op2_core := fun p => decide (p = 1)
  op2_non_core := fun _ => false
  exterior_facets := fun _ => false

/-- The object before setup: operators not saved, callback `minusIdentity`. -/
def halo.pc : PC Int :=
  newPC halo.dm (identitySF 2) onePatch.cellNumbering (PetscSectionSetChart 0 3) 1 2 (fun k => k)
    0 (fun _ => 0) false (some minusIdentity)

/-! ### The two triangles -/

/-- The object before setup for the two triangles with the edge dofs. -/
def twoTriangles.pc : PC Int :=
  newPC twoTriangles (identitySF 15) twoTriangles.cellNumbering twoTriangles.dofSection 1 3
    twoTriangles.cellNodeMap 1 twoTriangles.bcNodes false (some minusIdentity)

/-! ### A patch solver whose setup fails -/

/-- The object `onePatch.state` with a solver of patch 0 that answers
`KSP_DIVERGED_PCSETUP_FAILED` when asked for its converged reason. -/
def failingSolver.pc : PC Int :=
  { onePatch.state with kspReason := fun _ => .KSP_DIVERGED_PCSETUP_FAILED }

/-- The object `onePatch.saved` with the callback `minusIdentity`: set up,
with saved operators. -/
def onePatch.cached : PC Int :=
  { onePatch.saved with usercomputeop := some minusIdentity }

/-! ### Two patches on one cell

The cell 0 with its two vertices 1 and 2, both owned, two dofs 0 and 1 per
cell and block size 2. -/

/-- The mesh `halo.dm` with both vertices owned. -/
def pair.dm : DM :=
  { halo.dm with op2_core := fun p => decide (p = 1 ∨ p = 2) }

/-- The object before setup: block size 2, operators not saved, callback
`minusIdentity`. -/
def pair.pc : PC Int :=
  newPC pair.dm (identitySF 2) onePatch.cellNumbering (PetscSectionSetChart 0 3) 2 2
    (fun k => k) 0 (fun _ => 0) false (some minusIdentity)

/-! ### A fan of three triangles

Cells 0, 1, 2 around the vertex 3, outer vertices 4, 5, 6; the edges 7, 8, 9
join vertex 3 to the outer vertices and each lies on two cells; the outer
edges 10, 11, 12 each lie on one cell. -/

/-- Cones of the three cells. -/
def fan.cone (p : Int) : List Int :=
  if p = 0 then [7, 10, 8] else if p = 1 then [8, 11, 9] else if p = 2 then [9, 12, 7] else []

/-- Supports of the six edges. -/
def fan.support (p : Int) : List Int :=
  if p = 7 then [0, 2] else if p = 8 then [0, 1] else if p = 9 then [1, 2]
  else if p = 10 then [0] else if p = 11 then [1] else if p = 12 then [2] else []

/-- Closure arrays: the star of vertex 3 holds its three edges and the three
cells. -/
def fan.transitiveClosure (p : Int) (useCone : Bool) : List Int :=
  if p = 3 ∧ useCone = false then [3, 0, 7, 0, 8, 0, 9, 0, 0, 0, 1, 0, 2, 0] else [p, 0]

/-- The mesh: vertex 3 is core, the outer vertices are not owned; the outer
edges carry the `exterior_facets` label when `exterior` is set. -/
def fan.dm (exterior : Bool) : DM where
  vStart := 3
  vEnd := 7
  cStart := 0
  cEnd := 3
  fStart := 7
  fEnd := 13
  cone := fan.cone
  support := fan.support
  transitiveClosure := fan.transitiveClosure
  op2_core := fun p => decide (p = 3)
  op2_non_core := fun _ => false
  exterior_facets := fun p => exterior && decide (10 ≤ p ∧ p ≤ 12)

/-- Cell numbering: cell `c` has compact index `c`. -/
def fan.cellNumbering : PetscSection :=
  ⟨0, 3, fun p => if 0 ≤ p ∧ p < 3 then 1 else 0, fun p => p⟩

/-- Two dofs per cell: cell 0 has the dofs 20, 21, cell 1 the dofs 21, 22 and
cell 2 the dofs 22, 23; the dofs 21 and 22 are shared by adjacent cells. -/
def fan.cellNodeMap (k : Int) : Int :=
  if k = 0 then 20 else if k = 1 then 21 else if k = 2 then 21 else if k = 3 then 22
  else if k = 4 then 22 else if k = 5 then 23 else 0

/-! ## Properties -/

theorem mem_loopRange {a b p : Int} : p ∈ loopRange a b ↔ a ≤ p ∧ p < b := by
  unfold loopRange
  simp only [List.mem_map, List.mem_range]
  constructor
  · rintro ⟨k, hk, rfl⟩
    omega
  · rintro ⟨h1, h2⟩
    exact ⟨(p - a).toNat, by omega, by omega⟩

theorem length_loopRange (a b : Int) : (loopRange a b).length = (b - a).toNat := by
  simp [loopRange]

theorem loopRange_nodup (a b : Int) : (loopRange a b).Nodup := by
  unfold loopRange
  refine List.Nodup.map ?_ (List.nodup_range _)
  intro x y h
  simpa using h

theorem loopRange_empty {a b : Int} (h : b ≤ a) : loopRange a b = [] := by
  unfold loopRange
  have : (b - a).toNat = 0 := by omega
  simp [this]

theorem loopRange_succ {a b : Int} (h : a ≤ b) : loopRange a (b + 1) = loopRange a b ++ [b] := by
  unfold loopRange
  have : (b + 1 - a).toNat = (b - a).toNat + 1 := by omega
  rw [this, List.range_succ, List.map_append]
  simp only [List.map_cons, List.map_nil, List.append_cancel_left_eq, List.cons.injEq, and_true]
  omega

theorem loopRange_cons {a b : Int} (h : a < b) : loopRange a b = a :: loopRange (a + 1) b := by
  unfold loopRange
  have : (b - a).toNat = (b - (a + 1)).toNat + 1 := by omega
  rw [this, List.range_succ_eq_map]
  simp only [List.map_cons, List.map_map, Nat.cast_zero, add_zero, List.cons.injEq, true_and]
  apply List.map_congr_left
  intro k _
  simp only [Function.comp_apply, Nat.cast_succ]
  omega

theorem loopRange_split {a b p : Int} (h1 : a ≤ p) (h2 : p < b) :
    loopRange a b = loopRange a p ++ p :: loopRange (p + 1) b := by
  obtain ⟨n, rfl⟩ : ∃ n : Nat, p = a + n := ⟨(p - a).toNat, by omega⟩
  clear h1
  induction n generalizing a with
  | zero =>
    simp only [Nat.cast_zero, add_zero] at h2 ⊢
    rw [loopRange_empty (le_refl a), List.nil_append]
    exact loopRange_cons h2
  | succ n ih =>
    have h3 : a < b := by push_cast at h2; omega
    have h4 : a + ((n + 1 : Nat) : Int) = (a + 1) + (n : Int) := by push_cast; omega
    rw [h4] at h2 ⊢
    rw [loopRange_cons h3, ih h2, loopRange_cons (by omega : a < a + 1 + (n:Int))]
    rfl

theorem writeList_apply (a : IntArray) (s : Int) (l : List Int) (k : Int) :
    a.writeList s l k = if s ≤ k ∧ k < s + l.length then l[(k - s).toNat]? else a k := by
  induction l generalizing a s with
  | nil =>
    have h : ¬ (s ≤ k ∧ k < s + (([] : List Int).length : Int)) := by
      simp only [List.length_nil, Nat.cast_zero]; omega
    rw [if_neg h]; rfl
  | cons x xs ih =>
    rw [IntArray.writeList, ih]
    by_cases hk : k = s
    · subst hk
      simp [IntArray.write]
    · by_cases h1 : s + 1 ≤ k ∧ k < s + 1 + xs.length
      · have h2 : s ≤ k ∧ k < s + ((x :: xs).length : Int) := by
          simp only [List.length_cons, Nat.cast_succ]; omega
        rw [if_pos h1, if_pos h2]
        have h3 : (k - s).toNat = (k - (s + 1)).toNat + 1 := by omega
        rw [h3, List.getElem?_cons_succ]
      · have h2 : ¬ (s ≤ k ∧ k < s + ((x :: xs).length : Int)) := by
          simp only [List.length_cons, Nat.cast_succ]; omega
        rw [if_neg h1, if_neg h2]
        simp [IntArray.write, hk]

theorem writeList_append (a : IntArray) (s : Int) (l1 l2 : List Int) :
    a.writeList s (l1 ++ l2) = (a.writeList s l1).writeList (s + l1.length) l2 := by
  induction l1 generalizing a s with
  | nil => simp [IntArray.writeList]
  | cons x xs ih =>
    have h : s + 1 + (xs.length : Int) = s + (((x :: xs).length : Nat) : Int) := by
      simp only [List.length_cons, Nat.cast_succ]; omega
    rw [List.cons_append, IntArray.writeList, IntArray.writeList, ih, h]

/-- Reading back, from an array filled with a concatenation, the part that
starts where the list `l1` ends. -/
theorem segment_writeList_mid (a : IntArray) (l1 l2 l3 : List Int) (off n : Int)
    (hoff : off = l1.length) (hn : n = l2.length) :
    (a.writeList 0 (l1 ++ l2 ++ l3)).segment off n = l2.map some := by
  subst hoff hn
  apply List.ext_getElem?
  intro i
  unfold IntArray.segment loopRange
  simp only [List.map_map, List.getElem?_map, sub_zero, Int.toNat_ofNat]
  by_cases hi : i < l2.length
  · rw [List.getElem?_range hi]
    simp only [Option.map_some', Function.comp_apply, zero_add, writeList_apply]
    have h1 : (0:Int) ≤ (l1.length : Int) + (i : Int) ∧
        (l1.length : Int) + (i : Int) < ((l1 ++ l2 ++ l3).length : Int) := by
      simp only [List.length_append, Nat.cast_add]; omega
    rw [if_pos h1]
    have h2 : ((l1.length : Int) + (i : Int) - 0).toNat = l1.length + i := by omega
    rw [h2, List.append_assoc, List.getElem?_append_right (by omega)]
    simp only [add_tsub_cancel_left]
    rw [List.getElem?_append_left hi]
    simp [List.getElem?_eq_getElem hi]
  · have h1 : (List.range l2.length)[i]? = none := by
      rw [List.getElem?_eq_none]; simpa using hi
    have h2 : l2[i]? = none := by rw [List.getElem?_eq_none]; omega
    simp [h1, h2]

theorem sum_length_flatten (segs : Int → List Int) (l : List Int) :
    (l.map (fun q => ((segs q).length : Int))).sum = (((l.map segs).flatten.length : Nat) : Int) := by
  induction l with
  | nil => simp
  | cons x xs ih =>
    simp only [List.map_cons, List.sum_cons, List.flatten_cons, List.length_append, Nat.cast_add, ih]

/-- A loop over the chart that writes, for each point, a list at the prefix-sum
offset of that point fills the array with the concatenation of the lists. -/
theorem foldl_segments (step : IntArray → Int → IntArray) (segs : Int → List Int)
    (off : Int → Int) (a b : Int)
    (hstep : ∀ arr v, a ≤ v → v < b → step arr v = arr.writeList (off v) (segs v))
    (hoff : ∀ v, a ≤ v → v < b →
      off v = ((loopRange a v).map (fun q => ((segs q).length : Int))).sum)
    (arr : IntArray) :
    (loopRange a b).foldl step arr = arr.writeList 0 ((loopRange a b).map segs).flatten := by
  by_cases hab : b ≤ a
  · rw [loopRange_empty hab]; rfl
  · have key : ∀ n : Nat, a + n ≤ b →
        (loopRange a (a + n)).foldl step arr
          = arr.writeList 0 ((loopRange a (a + n)).map segs).flatten := by
      intro n
      induction n with
      | zero =>
        intro _
        simp only [Nat.cast_zero, add_zero]
        rw [loopRange_empty (le_refl a)]; rfl
      | succ n ih =>
        intro hn
        have hn1 : a + (n : Int) < b := by push_cast at hn; omega
        have e : a + ((n + 1 : Nat) : Int) = (a + n) + 1 := by push_cast; omega
        rw [e, loopRange_succ (by omega : a ≤ a + (n:Int)), List.foldl_append, ih (by omega)]
        simp only [List.foldl_cons, List.foldl_nil, List.map_append, List.map_cons, List.map_nil,
          List.flatten_append, List.flatten_cons, List.flatten_nil, List.append_nil]
        rw [hstep _ _ (by omega) hn1, hoff _ (by omega) hn1, writeList_append, sum_length_flatten,
          zero_add]
    have := key (b - a).toNat (by omega)
    have e : a + ((b - a).toNat : Int) = b := by omega
    rw [e] at this
    exact this

/-- Reading back the segment of one point from the concatenation. -/
theorem segment_flatten (arr : IntArray) (segs : Int → List Int) (a b v : Int)
    (h1 : a ≤ v) (h2 : v < b) :
    (arr.writeList 0 ((loopRange a b).map segs).flatten).segment
        (((loopRange a v).map (fun q => ((segs q).length : Int))).sum) ((segs v).length : Int)
      = (segs v).map some := by
  rw [loopRange_split h1 h2]
  simp only [List.map_append, List.map_cons, List.flatten_append, List.flatten_cons]
  rw [← List.append_assoc]
  exact segment_writeList_mid arr _ _ _ _ _ (sum_length_flatten segs _) rfl

theorem foldl_countCellsPoint (dm : DM) (cl : List Int) (v : Int) (L : List Nat)
    (s : PetscSection) :
    (∀ w, (L.foldl (countCellsPoint dm cl v) s).atlasDof w
      = if w = v then s.atlasDof w
          + ((((L.map (fun ci => cl.getD (2 * ci) 0)).filter
              (fun c => dm.cStart ≤ c ∧ c < dm.cEnd)).length : Nat) : Int)
        else s.atlasDof w) ∧
    (L.foldl (countCellsPoint dm cl v) s).pStart = s.pStart ∧
    (L.foldl (countCellsPoint dm cl v) s).pEnd = s.pEnd ∧
    (L.foldl (countCellsPoint dm cl v) s).atlasOff = s.atlasOff := by
  induction L generalizing s with
  | nil => simp
  | cons x xs ih =>
    simp only [List.foldl_cons, List.map_cons]
    by_cases hc : dm.cStart ≤ cl.getD (2 * x) 0 ∧ cl.getD (2 * x) 0 < dm.cEnd
    · have e : countCellsPoint dm cl v s x = PetscSectionAddDof s v 1 := by
        simp only [countCellsPoint, hc, and_self, if_true]
      obtain ⟨e1, e2, e3, e4⟩ := ih (PetscSectionAddDof s v 1)
      rw [e, List.filter_cons_of_pos (by simpa using hc)]
      refine ⟨?_, e2, e3, e4⟩
      intro w
      rw [e1]
      by_cases hw : w = v
      · simp only [hw, if_true, PetscSectionAddDof, List.length_cons, Nat.cast_succ]
        omega
      · simp [hw, PetscSectionAddDof]
    · have e : countCellsPoint dm cl v s x = s := by
        simp only [countCellsPoint, hc, if_false]
      rw [e, List.filter_cons_of_neg (by simpa using hc)]
      exact ih s

theorem countCellsVertex_spec (dm : DM) (s : PetscSection) (v : Int) :
    (∀ w, (countCellsVertex dm s v).atlasDof w
      = if w = v then s.atlasDof w + ((patchCellList dm v).length : Int) else s.atlasDof w) ∧
    (countCellsVertex dm s v).pStart = s.pStart ∧
    (countCellsVertex dm s v).pEnd = s.pEnd ∧
    (countCellsVertex dm s v).atlasOff = s.atlasOff := by
  unfold countCellsVertex patchCellList closureCells
  by_cases hm : (dm.op2_core v || dm.op2_non_core v) = true
  · simp only [hm, Bool.not_true, Bool.false_eq_true, if_false, if_true]
    exact foldl_countCellsPoint dm _ v _ s
  · simp only [Bool.not_eq_true] at hm
    simp [hm]

theorem foldl_countCellsVertex (dm : DM) (vs : List Int) (hvs : vs.Nodup) (s : PetscSection) :
    (∀ w, (vs.foldl (countCellsVertex dm) s).atlasDof w
      = if w ∈ vs then s.atlasDof w + ((patchCellList dm w).length : Int) else s.atlasDof w) ∧
    (vs.foldl (countCellsVertex dm) s).pStart = s.pStart ∧
    (vs.foldl (countCellsVertex dm) s).pEnd = s.pEnd ∧
    (vs.foldl (countCellsVertex dm) s).atlasOff = s.atlasOff := by
  induction vs generalizing s with
  | nil => simp
  | cons x xs ih =>
    have hx : x ∉ xs := (List.nodup_cons.mp hvs).1
    obtain ⟨e1, e2, e3, e4⟩ := ih (List.nodup_cons.mp hvs).2 (countCellsVertex dm s x)
    obtain ⟨f1, f2, f3, f4⟩ := countCellsVertex_spec dm s x
    simp only [List.foldl_cons]
    refine ⟨?_, e2.trans f2, e3.trans f3, e4.trans f4⟩
    intro w
    rw [e1, f1]
    by_cases hw : w = x
    · subst hw; simp [hx]
    · simp [hw]

theorem foldl_fillCellsPoint (dm : DM) (cl : List Int) (off : Int) (L : List Nat)
    (st : Int × IntArray) :
    L.foldl (fillCellsPoint dm cl off) st
      = (st.1 + ((((L.map (fun ci => cl.getD (2 * ci) 0)).filter
              (fun c => dm.cStart ≤ c ∧ c < dm.cEnd)).length : Nat) : Int),
         st.2.writeList (st.1 + off) ((L.map (fun ci => cl.getD (2 * ci) 0)).filter
              (fun c => dm.cStart ≤ c ∧ c < dm.cEnd))) := by
  induction L generalizing st with
  | nil => simp [IntArray.writeList]
  | cons x xs ih =>
    simp only [List.foldl_cons, List.map_cons]
    by_cases hc : dm.cStart ≤ cl.getD (2 * x) 0 ∧ cl.getD (2 * x) 0 < dm.cEnd
    · have e : fillCellsPoint dm cl off st x
          = (st.1 + 1, st.2.write (st.1 + off) (cl.getD (2 * x) 0)) := by
        simp only [fillCellsPoint, hc, and_self, if_true]
      rw [e, ih, List.filter_cons_of_pos (by simpa using hc)]
      simp only [List.length_cons, Nat.cast_succ, IntArray.writeList]
      have h1 : st.1 + 1 + off = st.1 + off + 1 := by omega
      rw [h1]
      congr 1
      omega
    · have e : fillCellsPoint dm cl off st x = st := by
        simp only [fillCellsPoint, hc, if_false]
      rw [e, ih, List.filter_cons_of_neg (by simpa using hc)]

theorem fillCellsVertex_spec (dm : DM) (cc : PetscSection) (arr : IntArray) (v : Int)
    (h : cc.atlasDof v = ((patchCellList dm v).length : Int)) :
    fillCellsVertex dm cc arr v = arr.writeList (cc.atlasOff v) (patchCellList dm v) := by
  unfold fillCellsVertex PetscSectionGetDof PetscSectionGetOffset
  by_cases hn : cc.atlasDof v ≤ 0
  · have : patchCellList dm v = [] := by
      apply List.eq_nil_of_length_eq_zero; omega
    simp [hn, this, IntArray.writeList]
  · have hm : (dm.op2_core v || dm.op2_non_core v) = true := by
      by_contra hm
      have : patchCellList dm v = [] := by simp [patchCellList, hm]
      rw [this] at h; simp at h; omega
    simp only [hn, if_false, foldl_fillCellsPoint, zero_add]
    simp [patchCellList, hm, closureCells]

theorem sum_map_congr {f g : Int → Int} {l : List Int} (h : ∀ x ∈ l, f x = g x) :
    (l.map f).sum = (l.map g).sum := by
  rw [List.map_congr_left h]

theorem cellPatches_counts (dm : DM) :
    (PCPatchCreateCellPatches dm).1.pStart = dm.vStart ∧
    (PCPatchCreateCellPatches dm).1.pEnd = dm.vEnd ∧
    (∀ v, dm.vStart ≤ v → v < dm.vEnd →
      (PCPatchCreateCellPatches dm).1.atlasDof v = ((patchCellList dm v).length : Int)) ∧
    (∀ v, dm.vStart ≤ v → v < dm.vEnd →
      (PCPatchCreateCellPatches dm).1.atlasOff v
        = ((loopRange dm.vStart v).map (fun q => ((patchCellList dm q).length : Int))).sum) := by
  obtain ⟨e1, e2, e3, _⟩ := foldl_countCellsVertex dm (loopRange dm.vStart dm.vEnd)
    (loopRange_nodup _ _) (PetscSectionSetChart dm.vStart dm.vEnd)
  have hd : ∀ v, dm.vStart ≤ v → v < dm.vEnd →
      (PCPatchCreateCellPatches dm).1.atlasDof v = ((patchCellList dm v).length : Int) := by
    intro v h1 h2
    show ((loopRange dm.vStart dm.vEnd).foldl (countCellsVertex dm)
      (PetscSectionSetChart dm.vStart dm.vEnd)).atlasDof v = _
    rw [e1, if_pos (mem_loopRange.mpr ⟨h1, h2⟩)]
    simp [PetscSectionSetChart]
  refine ⟨e2, e3, hd, ?_⟩
  intro v h1 h2
  show (if _ ∧ _ then _ else _) = _
  rw [e2, e3]
  simp only [PetscSectionSetChart]
  rw [if_pos ⟨h1, h2⟩]
  apply sum_map_congr
  intro q hq
  obtain ⟨q1, q2⟩ := mem_loopRange.mp hq
  exact hd q q1 (by omega)

theorem cellPatches_cells (dm : DM) :
    (PCPatchCreateCellPatches dm).2.idx
      = PetscMalloc1.writeList 0 ((loopRange dm.vStart dm.vEnd).map (patchCellList dm)).flatten := by
  obtain ⟨_, _, hd, ho⟩ := cellPatches_counts dm
  show (loopRange dm.vStart dm.vEnd).foldl (fillCellsVertex dm (PCPatchCreateCellPatches dm).1)
    PetscMalloc1 = _
  exact foldl_segments _ (patchCellList dm) (PCPatchCreateCellPatches dm).1.atlasOff _ _
    (fun arr v h1 h2 => fillCellsVertex_spec dm _ arr v (hd v h1 h2)) ho _

/-! ### Hash table -/

theorem hasKey_iff (ht : PetscHashI) (i : Int) :
    PetscHashIHasKey ht i = true ↔ i ∈ ht.map Prod.fst := by
  unfold PetscHashIHasKey
  simp only [List.any_eq_true, decide_eq_true_eq, List.mem_map]

theorem keys_add (ht : PetscHashI) (i ii : Int) :
    (PetscHashIAdd ht i ii).map Prod.fst
      = if i ∈ ht.map Prod.fst then ht.map Prod.fst else ht.map Prod.fst ++ [i] := by
  unfold PetscHashIAdd
  by_cases h : PetscHashIHasKey ht i = true
  · rw [if_pos h, if_pos ((hasKey_iff ht i).mp h), List.map_map]
    apply List.map_congr_left
    intro e _
    by_cases he : e.1 = i
    · simp [he]
    · simp [he]
  · rw [if_neg h, if_neg (fun h' => h ((hasKey_iff ht i).mpr h'))]
    simp

theorem mem_keys_add (ht : PetscHashI) (i ii k : Int) :
    k ∈ (PetscHashIAdd ht i ii).map Prod.fst ↔ k ∈ ht.map Prod.fst ∨ k = i := by
  rw [keys_add]
  by_cases h : i ∈ ht.map Prod.fst
  · rw [if_pos h]
    constructor
    · exact Or.inl
    · rintro (h' | rfl)
      · exact h'
      · exact h
  · rw [if_neg h]
    simp

theorem nodup_keys_add (ht : PetscHashI) (i ii : Int) (h : (ht.map Prod.fst).Nodup) :
    ((PetscHashIAdd ht i ii).map Prod.fst).Nodup := by
  rw [keys_add]
  split
  · exact h
  · rename_i hi
    rw [List.nodup_append]
    refine ⟨h, List.nodup_singleton i, ?_⟩
    intro a ha hb
    simp only [List.mem_singleton] at hb
    subst hb
    exact hi ha

theorem mem_keys_foldl_add {α : Type} (f : α → Int) (g : α → Int) (ks : List α) (ht : PetscHashI)
    (k : Int) :
    k ∈ (ks.foldl (fun ht a => PetscHashIAdd ht (f a) (g a)) ht).map Prod.fst
      ↔ k ∈ ht.map Prod.fst ∨ k ∈ ks.map f := by
  induction ks generalizing ht with
  | nil => simp
  | cons x xs ih =>
    simp only [List.foldl_cons, List.map_cons, List.mem_cons]
    rw [ih, mem_keys_add]
    tauto

/-! ### PCPatchCreateCellPatchFacets -/

theorem SameLayout.refl (s : PetscSection) : SameLayout s s := ⟨rfl, rfl, rfl⟩

theorem SameLayout.trans {s t u : PetscSection} (h1 : SameLayout s t) (h2 : SameLayout t u) :
    SameLayout s u :=
  ⟨h2.1.trans h1.1, h2.2.1.trans h1.2.1, h2.2.2.trans h1.2.2⟩

theorem foldl_facetsFacet (dm : DM) (ht : PetscHashI) (v : Int) (fs : List Int)
    (st : FacetState) :
    let L := fs.filter (fun f => !dm.exterior_facets f &&
      (decide ((dm.support f).length = 1) ||
        (dm.support f).any (fun c => !PetscHashIHasKey ht c)))
    (fs.foldl (facetsFacet dm ht v) st).facetIndex = st.facetIndex + (L.length : Int) ∧
    (fs.foldl (facetsFacet dm ht v) st).facetsArray
      = st.facetsArray.writeList st.facetIndex L ∧
    (∀ w, (fs.foldl (facetsFacet dm ht v) st).facetCounts.atlasDof w
      = if w = v then st.facetCounts.atlasDof w + (L.length : Int)
        else st.facetCounts.atlasDof w) ∧
    SameLayout st.facetCounts (fs.foldl (facetsFacet dm ht v) st).facetCounts := by
  induction fs generalizing st with
  | nil => simp [IntArray.writeList, SameLayout.refl]
  | cons f fs ih =>
    intro L
    simp only [List.foldl_cons]
    by_cases hp : (!dm.exterior_facets f &&
      (decide ((dm.support f).length = 1) ||
        (dm.support f).any (fun c => !PetscHashIHasKey ht c))) = true
    · have e : facetsFacet dm ht v st f = addFacet st v f := by
        simp only [Bool.and_eq_true, Bool.not_eq_true', Bool.or_eq_true,
          decide_eq_true_eq] at hp
        unfold facetsFacet
        rw [if_neg (by simp [hp.1])]
        rcases hp.2 with h | h
        · simp only [h, if_true]
        · simp only [h, if_true, ite_self]
      have hL : L = f :: fs.filter (fun f => !dm.exterior_facets f &&
          (decide ((dm.support f).length = 1) ||
            (dm.support f).any (fun c => !PetscHashIHasKey ht c))) :=
        List.filter_cons_of_pos hp
      obtain ⟨e1, e2, e3, e4⟩ := ih (addFacet st v f)
      rw [e, hL]
      refine ⟨?_, ?_, ?_, ?_⟩
      · rw [e1]; simp only [addFacet, List.length_cons, Nat.cast_succ]; omega
      · rw [e2]; simp only [addFacet, IntArray.writeList]
      · intro w
        rw [e3]
        by_cases hw : w = v
        · simp only [hw, if_true, addFacet, PetscSectionAddDof, List.length_cons, Nat.cast_succ]
          omega
        · simp [hw, addFacet, PetscSectionAddDof]
      · exact SameLayout.trans ⟨rfl, rfl, rfl⟩ e4
    · have e : facetsFacet dm ht v st f = st := by
        simp only [Bool.and_eq_true, Bool.not_eq_true', Bool.or_eq_true,
          decide_eq_true_eq, not_and, not_or] at hp
        unfold facetsFacet
        by_cases hx : dm.exterior_facets f = true
        · simp [hx]
        · simp only [Bool.not_eq_true] at hx
          obtain ⟨h1, h2⟩ := hp hx
          simp only [hx, Bool.false_eq_true, if_false, h1, h2]
      have hL : L = fs.filter (fun f => !dm.exterior_facets f &&
          (decide ((dm.support f).length = 1) ||
            (dm.support f).any (fun c => !PetscHashIHasKey ht c))) :=
        List.filter_cons_of_neg hp
      rw [e, hL]
      exact ih st

theorem foldl_facetsCell (dm : DM) (cellsArray : Int → Int) (ht : PetscHashI) (v : Int)
    (cis : List Int) (st : FacetState) :
    let L := ((cis.map cellsArray).flatMap dm.cone).filter (fun f => !dm.exterior_facets f &&
      (decide ((dm.support f).length = 1) ||
        (dm.support f).any (fun c => !PetscHashIHasKey ht c)))
    (cis.foldl (facetsCell dm cellsArray ht v) st).facetIndex = st.facetIndex + (L.length : Int) ∧
    (cis.foldl (facetsCell dm cellsArray ht v) st).facetsArray
      = st.facetsArray.writeList st.facetIndex L ∧
    (∀ w, (cis.foldl (facetsCell dm cellsArray ht v) st).facetCounts.atlasDof w
      = if w = v then st.facetCounts.atlasDof w + (L.length : Int)
        else st.facetCounts.atlasDof w) ∧
    SameLayout st.facetCounts (cis.foldl (facetsCell dm cellsArray ht v) st).facetCounts := by
  induction cis generalizing st with
  | nil => simp [IntArray.writeList, SameLayout.refl]
  | cons ci cis ih =>
    intro L
    simp only [List.foldl_cons]
    obtain ⟨f1, f2, f3, f4⟩ := foldl_facetsFacet dm ht v (dm.cone (cellsArray ci)) st
    obtain ⟨e1, e2, e3, e4⟩ := ih (facetsCell dm cellsArray ht v st ci)
    have hL : L = (dm.cone (cellsArray ci)).filter (fun f => !dm.exterior_facets f &&
          (decide ((dm.support f).length = 1) ||
            (dm.support f).any (fun c => !PetscHashIHasKey ht c)))
        ++ ((cis.map cellsArray).flatMap dm.cone).filter (fun f => !dm.exterior_facets f &&
          (decide ((dm.support f).length = 1) ||
            (dm.support f).any (fun c => !PetscHashIHasKey ht c))) := by
      simp only [L, List.map_cons, List.flatMap_cons, List.filter_append]
    unfold facetsCell at e1 e2 e3 e4 ⊢
    rw [hL]
    refine ⟨?_, ?_, ?_, SameLayout.trans f4 e4⟩
    · rw [e1, f1, List.length_append, Nat.cast_add]; omega
    · rw [e2, f2, f1, writeList_append]
    · intro w
      rw [e3, f3]
      by_cases hw : w = v
      · simp only [hw, if_true, List.length_append, Nat.cast_add]; omega
      · simp [hw]

theorem hasKey_cellTable (cellsArray : Int → Int) (cis : List Int) (c : Int) :
    PetscHashIHasKey (cis.foldl (fun ht ci => PetscHashIAdd ht (cellsArray ci) 0)
      PetscHashIClear) c = decide (c ∈ cis.map cellsArray) := by
  have h := hasKey_iff (cis.foldl (fun ht ci => PetscHashIAdd ht (cellsArray ci) 0)
      PetscHashIClear) c
  rw [mem_keys_foldl_add cellsArray (fun _ => 0)] at h
  simp only [PetscHashIClear, List.map_nil, List.not_mem_nil, false_or] at h
  by_cases hc : c ∈ cis.map cellsArray
  · rw [decide_eq_true hc]; exact h.mpr hc
  · rw [decide_eq_false hc, ← Bool.not_eq_true]; exact fun h' => hc (h.mp h')

theorem facetsVertex_spec (dm : DM) (cellCounts : PetscSection) (cells : IS) (st : FacetState)
    (v : Int) :
    let st' := facetsVertex dm cellCounts (ISGetIndices cells) st v
    let L := patchFacetList dm cellCounts cells v
    st'.facetIndex = st.facetIndex + (L.length : Int) ∧
    st'.facetsArray = st.facetsArray.writeList st.facetIndex L ∧
    (∀ w, st'.facetCounts.atlasDof w
      = if w = v then st.facetCounts.atlasDof w + (L.length : Int)
        else st.facetCounts.atlasDof w) ∧
    SameLayout st.facetCounts st'.facetCounts := by
  intro st' L
  by_cases hn : cellCounts.atlasDof v ≤ 0
  · have e1 : st' = st := by
      simp only [st', facetsVertex, PetscSectionGetDof, hn, if_true]
    have e0 : loopRange (cellCounts.atlasOff v) (cellCounts.atlasDof v + cellCounts.atlasOff v)
        = [] := loopRange_empty (by omega)
    have e2 : L = [] := by
      simp only [L, patchFacetList, patchCells, e0]
      rfl
    rw [e1, e2]
    simp [IntArray.writeList, SameLayout.refl]
  · have e1 : st' = (loopRange (cellCounts.atlasOff v)
        (cellCounts.atlasDof v + cellCounts.atlasOff v)).foldl
        (facetsCell dm (ISGetIndices cells)
          ((loopRange (cellCounts.atlasOff v)
            (cellCounts.atlasDof v + cellCounts.atlasOff v)).foldl
            (fun ht ci => PetscHashIAdd ht (ISGetIndices cells ci) 0) PetscHashIClear) v) st := by
      simp only [st', facetsVertex, PetscSectionGetDof, PetscSectionGetOffset, hn, if_false]
    have hfun : (fun c => !PetscHashIHasKey
            ((loopRange (cellCounts.atlasOff v)
              (cellCounts.atlasDof v + cellCounts.atlasOff v)).foldl
              (fun ht ci => PetscHashIAdd ht (ISGetIndices cells ci) 0) PetscHashIClear) c)
        = (fun c => decide (c ∉ patchCells cellCounts cells v)) := by
      funext c
      rw [hasKey_cellTable]
      show (!decide (c ∈ patchCells cellCounts cells v)) = decide (c ∉ patchCells cellCounts cells v)
      by_cases hc : c ∈ patchCells cellCounts cells v
      · simp [hc]
      · simp [hc]
    have e3 := foldl_facetsCell dm (ISGetIndices cells) ((loopRange (cellCounts.atlasOff v)
            (cellCounts.atlasDof v + cellCounts.atlasOff v)).foldl
            (fun ht ci => PetscHashIAdd ht (ISGetIndices cells ci) 0) PetscHashIClear) v
            (loopRange (cellCounts.atlasOff v)
              (cellCounts.atlasDof v + cellCounts.atlasOff v)) st
    rw [← e1, hfun] at e3
    exact e3

/-! ### Loops that append one list per point -/

theorem foldlM_running {σ ε : Type} (step : σ → Int → Except ε σ) (idx : σ → Int)
    (arr : σ → IntArray) (cnt : σ → PetscSection) (L : Int → List Int) (upd : Int → Int → Int)
    (vs : List Int)
    (h : ∀ st v st', v ∈ vs → step st v = .ok st' →
      idx st' = idx st + ((L v).length : Int) ∧
      arr st' = (arr st).writeList (idx st) (L v) ∧
      (∀ w, (cnt st').atlasDof w
        = if w = v then upd v ((cnt st).atlasDof w) else (cnt st).atlasDof w) ∧
      SameLayout (cnt st) (cnt st'))
    (hvs : vs.Nodup) (st st' : σ) (hok : vs.foldlM step st = .ok st') :
    idx st' = idx st + (((vs.map L).flatten.length : Nat) : Int) ∧
    arr st' = (arr st).writeList (idx st) (vs.map L).flatten ∧
    (∀ w, (cnt st').atlasDof w
      = if w ∈ vs then upd w ((cnt st).atlasDof w) else (cnt st).atlasDof w) ∧
    SameLayout (cnt st) (cnt st') := by
  induction vs generalizing st with
  | nil =>
    simp only [List.foldlM_nil, pure, Except.pure, Except.ok.injEq] at hok
    subst hok
    simp [IntArray.writeList, SameLayout.refl]
  | cons x xs ih =>
    rw [List.foldlM_cons] at hok
    cases hx : step st x with
    | error e => rw [hx] at hok; cases hok
    | ok st1 =>
      rw [hx] at hok
      have hok' : xs.foldlM step st1 = .ok st' := hok
      obtain ⟨f1, f2, f3, f4⟩ := h st x st1 (List.mem_cons_self _ _) hx
      obtain ⟨e1, e2, e3, e4⟩ := ih (fun st v st' hv => h st v st' (List.mem_cons_of_mem _ hv))
        (List.nodup_cons.mp hvs).2 st1 hok'
      have hxs : x ∉ xs := (List.nodup_cons.mp hvs).1
      refine ⟨?_, ?_, ?_, SameLayout.trans f4 e4⟩
      · rw [e1, f1]
        simp only [List.map_cons, List.flatten_cons, List.length_append, Nat.cast_add]
        omega
      · rw [e2, f2, f1]
        simp only [List.map_cons, List.flatten_cons]
        rw [writeList_append]
      · intro w
        rw [e3, f3]
        by_cases hw : w = x
        · subst hw; simp [hxs]
        · simp [hw]

theorem foldlM_ok_eq_foldl {σ ε α : Type} (step : σ → α → σ) (vs : List α) (st : σ) :
    vs.foldlM (fun s v => (Except.ok (step s v) : Except ε σ)) st = .ok (vs.foldl step st) := by
  induction vs generalizing st with
  | nil => rfl
  | cons x xs ih =>
    rw [List.foldlM_cons, List.foldl_cons]
    exact ih (step st x)

theorem storageSize_eq_sum (s : PetscSection)
    (h : ∀ p, s.pStart ≤ p → p < s.pEnd → 0 ≤ s.atlasDof p) :
    PetscSectionGetStorageSize s = ((loopRange s.pStart s.pEnd).map s.atlasDof).sum := by
  unfold PetscSectionGetStorageSize
  apply sum_map_congr
  intro p hp
  obtain ⟨p1, p2⟩ := mem_loopRange.mp hp
  have := h p p1 p2
  split
  · rfl
  · omega

/-- What a set-up section and a flat array filled with one list per point of
the chart look like. -/
theorem running_result (sec0 : PetscSection) (arr : IntArray) (L : Int → List Int)
    (hd : ∀ v, sec0.pStart ≤ v → v < sec0.pEnd → sec0.atlasDof v = ((L v).length : Int))
    (harr : arr = PetscMalloc1.writeList 0 ((loopRange sec0.pStart sec0.pEnd).map L).flatten) :
    (PetscSectionSetUp sec0).IsIndexedList ∧
    (∀ v, sec0.pStart ≤ v → v < sec0.pEnd →
      (PetscSectionSetUp sec0).atlasDof v = ((L v).length : Int) ∧
      arr.segment ((PetscSectionSetUp sec0).atlasOff v) ((PetscSectionSetUp sec0).atlasDof v)
        = (L v).map some) ∧
    PetscSectionGetStorageSize (PetscSectionSetUp sec0)
      = ((((loopRange sec0.pStart sec0.pEnd).map L).flatten.length : Nat) : Int) := by
  have hnn : ∀ p, sec0.pStart ≤ p → p < sec0.pEnd → 0 ≤ sec0.atlasDof p := by
    intro p p1 p2; rw [hd p p1 p2]; exact Int.natCast_nonneg _
  have hoff : ∀ v, sec0.pStart ≤ v → v < sec0.pEnd →
      (PetscSectionSetUp sec0).atlasOff v
        = ((loopRange sec0.pStart v).map (fun q => ((L q).length : Int))).sum := by
    intro v h1 h2
    show (if _ ∧ _ then _ else _) = _
    rw [if_pos ⟨h1, h2⟩]
    apply sum_map_congr
    intro q hq
    obtain ⟨q1, q2⟩ := mem_loopRange.mp hq
    exact hd q q1 (by omega)
  refine ⟨⟨hnn, ?_⟩, ?_, ?_⟩
  · intro p p1 p2
    show (if _ ∧ _ then _ else _) = _
    rw [if_pos ⟨p1, p2⟩]
    rfl
  · intro v h1 h2
    refine ⟨hd v h1 h2, ?_⟩
    rw [hoff v h1 h2, harr]
    show IntArray.segment _ _ (sec0.atlasDof v) = _
    rw [hd v h1 h2]
    exact segment_flatten PetscMalloc1 L _ _ v h1 h2
  · rw [storageSize_eq_sum (PetscSectionSetUp sec0) hnn, ← sum_length_flatten]
    show ((loopRange sec0.pStart sec0.pEnd).map sec0.atlasDof).sum = _
    apply sum_map_congr
    intro q hq
    obtain ⟨q1, q2⟩ := mem_loopRange.mp hq
    exact hd q q1 q2

/-- A loop over the chart that starts from an empty array and a zero section
and appends one list per point, followed by `PetscSectionSetUp`. -/
theorem running_setup {σ ε : Type} (step : σ → Int → Except ε σ) (idx : σ → Int)
    (arr : σ → IntArray) (cnt : σ → PetscSection) (L : Int → List Int) (upd : Int → Int → Int)
    (a b : Int)
    (h : ∀ st v st', v ∈ loopRange a b → step st v = .ok st' →
      idx st' = idx st + ((L v).length : Int) ∧
      arr st' = (arr st).writeList (idx st) (L v) ∧
      (∀ w, (cnt st').atlasDof w
        = if w = v then upd v ((cnt st).atlasDof w) else (cnt st).atlasDof w) ∧
      SameLayout (cnt st) (cnt st'))
    (hupd : ∀ v, upd v 0 = ((L v).length : Int))
    (st0 stF : σ) (h0i : idx st0 = 0) (h0a : arr st0 = PetscMalloc1)
    (h0c : cnt st0 = PetscSectionSetChart a b)
    (hF : (loopRange a b).foldlM step st0 = .ok stF) :
    (PetscSectionSetUp (cnt stF)).pStart = a ∧ (PetscSectionSetUp (cnt stF)).pEnd = b ∧
    (PetscSectionSetUp (cnt stF)).IsIndexedList ∧
    (∀ v, a ≤ v → v < b →
      (PetscSectionSetUp (cnt stF)).atlasDof v = ((L v).length : Int) ∧
      (arr stF).segment ((PetscSectionSetUp (cnt stF)).atlasOff v)
          ((PetscSectionSetUp (cnt stF)).atlasDof v) = (L v).map some) ∧
    PetscSectionGetStorageSize (PetscSectionSetUp (cnt stF)) = idx stF ∧
    arr stF = PetscMalloc1.writeList 0 ((loopRange a b).map L).flatten := by
  obtain ⟨e1, e2, e3, g1, g2, _⟩ := foldlM_running step idx arr cnt L upd (loopRange a b) h
    (loopRange_nodup _ _) st0 stF hF
  rw [h0i, zero_add] at e1
  rw [h0i, h0a] at e2
  rw [h0c] at g1 g2 e3
  have g1' : (cnt stF).pStart = a := g1
  have g2' : (cnt stF).pEnd = b := g2
  have hd : ∀ v, (cnt stF).pStart ≤ v → v < (cnt stF).pEnd →
      (cnt stF).atlasDof v = ((L v).length : Int) := by
    intro v h1 h2
    rw [g1'] at h1
    rw [g2'] at h2
    rw [e3, if_pos (mem_loopRange.mpr ⟨h1, h2⟩)]
    exact hupd v
  obtain ⟨r1, r2, r3⟩ := running_result (cnt stF) (arr stF) L hd (by rw [g1', g2']; exact e2)
  rw [g1', g2'] at r2 r3
  exact ⟨g1', g2', r1, r2, r3.trans e1.symm, e2⟩

theorem facets_spec (dm : DM) (cellCounts : PetscSection) (cells : IS) :
    (PCPatchCreateCellPatchFacets dm cellCounts cells).1.pStart = dm.vStart ∧
    (PCPatchCreateCellPatchFacets dm cellCounts cells).1.pEnd = dm.vEnd ∧
    (PCPatchCreateCellPatchFacets dm cellCounts cells).1.IsIndexedList ∧
    (∀ v, dm.vStart ≤ v → v < dm.vEnd →
      (PCPatchCreateCellPatchFacets dm cellCounts cells).1.atlasDof v
        = ((patchFacetList dm cellCounts cells v).length : Int) ∧
      (PCPatchCreateCellPatchFacets dm cellCounts cells).2.idx.segment
          ((PCPatchCreateCellPatchFacets dm cellCounts cells).1.atlasOff v)
          ((PCPatchCreateCellPatchFacets dm cellCounts cells).1.atlasDof v)
        = (patchFacetList dm cellCounts cells v).map some) ∧
    PetscSectionGetStorageSize (PCPatchCreateCellPatchFacets dm cellCounts cells).1
      = (PCPatchCreateCellPatchFacets dm cellCounts cells).2.n := by
  obtain ⟨r1, r2, r3, r4, r5, _⟩ := running_setup (ε := Unit)
    (fun s v => Except.ok (facetsVertex dm cellCounts (ISGetIndices cells) s v))
    FacetState.facetIndex FacetState.facetsArray FacetState.facetCounts
    (patchFacetList dm cellCounts cells)
    (fun v old => old + ((patchFacetList dm cellCounts cells v).length : Int))
    dm.vStart dm.vEnd
    (by
      intro st v st' _ hst
      simp only [Except.ok.injEq] at hst
      subst hst
      exact facetsVertex_spec dm cellCounts cells st v)
    (fun v => zero_add _)
    { facetCounts := PetscSectionSetChart dm.vStart dm.vEnd
      totalFacets := ISGetSize cells
      facetIndex := 0
      facetsArray := PetscMalloc1 } _ rfl rfl rfl
    (foldlM_ok_eq_foldl _ _ _)
  exact ⟨r1, r2, r3, r4, r5⟩

/-! ### First occurrences and numbered tables -/

theorem firstOccurrences_concat (gs : List Int) (g : Int) :
    firstOccurrences (gs ++ [g])
      = if g ∈ firstOccurrences gs then firstOccurrences gs else firstOccurrences gs ++ [g] := by
  simp [firstOccurrences, List.foldl_append]

theorem mem_firstOccurrences (gs : List Int) (g : Int) :
    g ∈ firstOccurrences gs ↔ g ∈ gs := by
  induction gs using List.reverseRecOn with
  | nil => simp [firstOccurrences]
  | append_singleton xs x ih =>
    rw [firstOccurrences_concat]
    by_cases hx : x ∈ firstOccurrences xs
    · rw [if_pos hx, List.mem_append, List.mem_singleton, ih]
      constructor
      · exact Or.inl
      · rintro (h | rfl)
        · exact h
        · exact ih.mp hx
    · rw [if_neg hx, List.mem_append, List.mem_append, ih]

theorem nodup_firstOccurrences (gs : List Int) : (firstOccurrences gs).Nodup := by
  induction gs using List.reverseRecOn with
  | nil => simp [firstOccurrences]
  | append_singleton xs x ih =>
    rw [firstOccurrences_concat]
    by_cases hx : x ∈ firstOccurrences xs
    · rw [if_pos hx]; exact ih
    · rw [if_neg hx, List.nodup_append]
      refine ⟨ih, List.nodup_singleton x, ?_⟩
      intro a ha hb
      simp only [List.mem_singleton] at hb
      subst hb
      exact hx ha

theorem firstOccurrences_append (l1 l2 : List Int) :
    ∃ t, firstOccurrences (l1 ++ l2) = firstOccurrences l1 ++ t := by
  induction l2 using List.reverseRecOn with
  | nil => exact ⟨[], by simp⟩
  | append_singleton xs x ih =>
    obtain ⟨t, ht⟩ := ih
    rw [← List.append_assoc, firstOccurrences_concat]
    by_cases hx : x ∈ firstOccurrences (l1 ++ xs)
    · rw [if_pos hx]; exact ⟨t, ht⟩
    · rw [if_neg hx, ht, List.append_assoc]; exact ⟨t ++ [x], rfl⟩

theorem length_firstOccurrences (gs : List Int) :
    (firstOccurrences gs).length = gs.toFinset.card := by
  rw [← List.toFinset_card_of_nodup (nodup_firstOccurrences gs)]
  congr 1
  ext g
  simp [mem_firstOccurrences]

/-- Position, among the first occurrences, of an element that is met for the
first time: the number of distinct elements met before. -/
theorem indexOf_first_time (gs : List Int) (p : Nat) (hp : p < gs.length)
    (hnew : gs[p] ∉ gs.take p) :
    List.indexOf gs[p] (firstOccurrences gs) = (gs.take p).toFinset.card := by
  have hsplit : gs = (gs.take p ++ [gs[p]]) ++ gs.drop (p + 1) := by
    rw [List.append_assoc]
    simp
  obtain ⟨t, ht⟩ := firstOccurrences_append (gs.take p ++ [gs[p]]) (gs.drop (p + 1))
  rw [← hsplit, firstOccurrences_concat,
    if_neg (fun h => hnew ((mem_firstOccurrences _ _).mp h))] at ht
  rw [ht, List.append_assoc, List.indexOf_append_of_not_mem
    (fun h => hnew ((mem_firstOccurrences _ _).mp h))]
  simp [length_firstOccurrences]

theorem keys_numberedFrom (n : Nat) (K : List Int) : (numberedFrom n K).map Prod.fst = K := by
  induction K generalizing n with
  | nil => rfl
  | cons k ks ih => simp [numberedFrom, ih]

theorem length_numberedFrom (n : Nat) (K : List Int) : (numberedFrom n K).length = K.length := by
  rw [← List.length_map (numberedFrom n K) Prod.fst, keys_numberedFrom]

theorem mem_numberedFrom (n : Nat) (K : List Int) (e : Int × Int) :
    e ∈ numberedFrom n K ↔ ∃ i, ∃ h : i < K.length, e = (K[i], ((n + i : Nat) : Int)) := by
  induction K generalizing n with
  | nil => simp [numberedFrom]
  | cons k ks ih =>
    simp only [numberedFrom, List.mem_cons, ih, List.length_cons]
    constructor
    · rintro (rfl | ⟨i, hi, rfl⟩)
      · exact ⟨0, by omega, by simp⟩
      · refine ⟨i + 1, by omega, ?_⟩
        simp only [List.getElem_cons_succ, Prod.mk.injEq, true_and]
        push_cast; omega
    · rintro ⟨i, hi, rfl⟩
      cases i with
      | zero => left; simp
      | succ i =>
        right
        refine ⟨i, by omega, ?_⟩
        simp only [List.getElem_cons_succ, Prod.mk.injEq, true_and]
        push_cast; omega

theorem map_numberedFrom (n : Nat) (K : List Int) (g : Int) :
    PetscHashIMap (numberedFrom n K) g
      = if g ∈ K then ((n + List.indexOf g K : Nat) : Int) else -1 := by
  induction K generalizing n with
  | nil => simp [numberedFrom, PetscHashIMap]
  | cons k ks ih =>
    by_cases hk : k = g
    · subst hk
      simp [numberedFrom, PetscHashIMap]
    · have ih' := ih (n + 1)
      unfold PetscHashIMap at ih' ⊢
      simp only [numberedFrom, List.find?_cons, hk, decide_False]
      rw [ih']
      have hk' : g ≠ k := fun h => hk h.symm
      by_cases hg : g ∈ ks
      · rw [if_pos hg, if_pos (List.mem_cons_of_mem _ hg), List.indexOf_cons_ne _ hk]
        push_cast; omega
      · rw [if_neg hg, if_neg (by simp [hk', hg])]

theorem numberedFrom_concat (n : Nat) (K : List Int) (g : Int) :
    numberedFrom n (K ++ [g]) = numberedFrom n K ++ [(g, ((n + K.length : Nat) : Int))] := by
  induction K generalizing n with
  | nil => simp [numberedFrom]
  | cons k ks ih =>
    have e : n + 1 + ks.length = n + (ks.length + 1) := by omega
    show (k, (n : Int)) :: numberedFrom (n + 1) (ks ++ [g]) = _
    rw [ih, e]
    rfl

theorem add_numberedFrom_new (n : Nat) (K : List Int) (g : Int) (hg : g ∉ K) :
    PetscHashIAdd (numberedFrom n K) g ((n + K.length : Nat) : Int)
      = numberedFrom n (K ++ [g]) := by
  unfold PetscHashIAdd
  have h : ¬ PetscHashIHasKey (numberedFrom n K) g = true := by
    rw [hasKey_iff, keys_numberedFrom]; exact hg
  rw [if_neg h, numberedFrom_concat]

theorem add_numberedFrom_old (n : Nat) (K : List Int) (hK : K.Nodup) (g : Int) (hg : g ∈ K) :
    PetscHashIAdd (numberedFrom n K) g ((n + List.indexOf g K : Nat) : Int)
      = numberedFrom n K := by
  unfold PetscHashIAdd
  have h : PetscHashIHasKey (numberedFrom n K) g = true := by
    rw [hasKey_iff, keys_numberedFrom]; exact hg
  rw [if_pos h]
  conv_rhs => rw [← List.map_id (numberedFrom n K)]
  apply List.map_congr_left
  intro e he
  obtain ⟨i, hi, rfl⟩ := (mem_numberedFrom n K e).mp he
  by_cases hk : K[i] = g
  · subst hk
    simp [List.indexOf_getElem hK i hi]
  · simp [hk]

/-! ### First pass of the dof map builder -/

theorem localIndices_concat (pre : List Int) (g : Int) :
    localIndices (pre ++ [g])
      = localIndices pre
        ++ [((List.indexOf g (firstOccurrences (pre ++ [g])) : Nat) : Int)] := by
  unfold localIndices
  rw [List.map_append, List.map_singleton]
  congr 1
  apply List.map_congr_left
  intro x hx
  obtain ⟨t, ht⟩ := firstOccurrences_append pre [g]
  rw [ht, List.indexOf_append_of_mem ((mem_firstOccurrences pre x).mpr hx)]

theorem length_localIndices (gs : List Int) : (localIndices gs).length = gs.length := by
  simp [localIndices]

theorem dofsSlot_spec (dofsPerCell numDofs : Int) (cellNodeMap : Int → Int) (cell : Int)
    (a0 : IntArray) (G0 : Int) (pre : List Int) (st st' : DofState) (j : Int)
    (hinv : DofInv a0 G0 pre st)
    (hok : dofsSlot dofsPerCell numDofs cellNodeMap cell st j = .ok st') :
    DofInv a0 G0 (pre ++ [cellNodeMap (cell * dofsPerCell + j)]) st' ∧
    st'.newCellsArray = st.newCellsArray ∧ st'.gtolCounts = st.gtolCounts := by
  obtain ⟨i1, i2, i3, i4⟩ := hinv
  unfold dofsSlot at hok
  simp only at hok
  by_cases hfull : st.globalIndex ≥ numDofs
  · rw [if_pos hfull] at hok; cases hok
  · rw [if_neg hfull] at hok
    simp only [Except.ok.injEq] at hok
    subst hok
    refine ⟨?_, by dsimp only; split <;> rfl, by dsimp only; split <;> rfl⟩
    rw [i1, map_numberedFrom]
    by_cases hg : cellNodeMap (cell * dofsPerCell + j) ∈ firstOccurrences pre
    · have hne : ¬ (((0 + List.indexOf (cellNodeMap (cell * dofsPerCell + j))
          (firstOccurrences pre) : Nat) : Int) = -1) := by omega
      have hfo : firstOccurrences (pre ++ [cellNodeMap (cell * dofsPerCell + j)])
          = firstOccurrences pre := by rw [firstOccurrences_concat, if_pos hg]
      simp only [if_pos hg, if_neg hne]
      refine ⟨?_, ?_, ?_, ?_⟩
      · rw [hfo]; exact i1
      · rw [hfo]; exact i2
      · simp only [List.length_append, List.length_singleton, Nat.cast_add, Nat.cast_one]
        rw [i3]; omega
      · rw [localIndices_concat, writeList_append, hfo, length_localIndices]
        simp only [IntArray.writeList, zero_add]
        rw [i4, i3]
    · have hfo : firstOccurrences (pre ++ [cellNodeMap (cell * dofsPerCell + j)])
          = firstOccurrences pre ++ [cellNodeMap (cell * dofsPerCell + j)] := by
        rw [firstOccurrences_concat, if_neg hg]
      simp only [if_neg hg, if_true]
      refine ⟨?_, ?_, ?_, ?_⟩
      · rw [hfo, ← add_numberedFrom_new 0 _ _ hg, i2]
        simp only [zero_add]
      · rw [hfo, i2]
        simp only [List.length_append, List.length_singleton, Nat.cast_add, Nat.cast_one]
      · simp only [List.length_append, List.length_singleton, Nat.cast_add, Nat.cast_one]
        rw [i3]; omega
      · rw [localIndices_concat, writeList_append, hfo, length_localIndices,
          List.indexOf_append_of_not_mem hg]
        simp only [IntArray.writeList, List.indexOf_cons_self, add_zero]
        rw [i4, i3, i2]

theorem foldlM_dofsSlot (dofsPerCell numDofs : Int) (cellNodeMap : Int → Int) (cell : Int)
    (a0 : IntArray) (G0 : Int) (js : List Int) (pre : List Int) (st st' : DofState)
    (hinv : DofInv a0 G0 pre st)
    (hok : js.foldlM (dofsSlot dofsPerCell numDofs cellNodeMap cell) st = .ok st') :
    DofInv a0 G0 (pre ++ js.map (fun j => cellNodeMap (cell * dofsPerCell + j))) st' ∧
    st'.newCellsArray = st.newCellsArray ∧ st'.gtolCounts = st.gtolCounts := by
  induction js generalizing pre st with
  | nil =>
    simp only [List.foldlM_nil, pure, Except.pure, Except.ok.injEq] at hok
    subst hok
    simpa using hinv
  | cons j js ih =>
    rw [List.foldlM_cons] at hok
    cases h1 : dofsSlot dofsPerCell numDofs cellNodeMap cell st j with
    | error e => rw [h1] at hok; cases hok
    | ok st1 =>
      rw [h1] at hok
      obtain ⟨f1, f2, f3⟩ := dofsSlot_spec _ _ _ _ a0 G0 pre st st1 j hinv h1
      obtain ⟨e1, e2, e3⟩ := ih _ st1 f1 hok
      refine ⟨?_, e2.trans f2, e3.trans f3⟩
      simpa using e1

theorem dofsCell_spec (cellNumbering : PetscSection) (dofsPerCell numDofs : Int)
    (cellNodeMap : Int → Int) (cellsArray : Int → Int)
    (a0 : IntArray) (G0 : Int) (pre : List Int) (st st' : DofState) (i : Int)
    (hinv : DofInv a0 G0 pre st)
    (hok : dofsCell cellNumbering dofsPerCell numDofs cellNodeMap cellsArray st i = .ok st') :
    DofInv a0 G0 (pre ++ (loopRange 0 dofsPerCell).map
      (fun j => cellNodeMap (cellNumbering.atlasOff (cellsArray i) * dofsPerCell + j))) st' ∧
    st'.newCellsArray = st.newCellsArray.write i (cellNumbering.atlasOff (cellsArray i)) ∧
    st'.gtolCounts = st.gtolCounts := by
  unfold dofsCell at hok
  simp only [PetscSectionGetDof, PetscSectionGetOffset] at hok
  by_cases hc : cellNumbering.atlasDof (cellsArray i) ≤ 0
  · rw [if_pos hc] at hok; cases hok
  · rw [if_neg hc] at hok
    have hinv' : DofInv a0 G0 pre
        { st with newCellsArray :=
          st.newCellsArray.write i (cellNumbering.atlasOff (cellsArray i)) } := hinv
    exact foldlM_dofsSlot _ _ _ _ a0 G0 _ pre _ st' hinv' hok

theorem foldlM_dofsCell (cellNumbering : PetscSection) (dofsPerCell numDofs : Int)
    (cellNodeMap : Int → Int) (cellsArray : Int → Int)
    (a0 : IntArray) (G0 : Int) (cis : List Int) (pre : List Int) (st st' : DofState)
    (hinv : DofInv a0 G0 pre st)
    (hok : cis.foldlM (dofsCell cellNumbering dofsPerCell numDofs cellNodeMap cellsArray) st
      = .ok st') :
    DofInv a0 G0 (pre ++ cis.flatMap (fun i => (loopRange 0 dofsPerCell).map
      (fun j => cellNodeMap (cellNumbering.atlasOff (cellsArray i) * dofsPerCell + j)))) st' ∧
    st'.newCellsArray
      = cis.foldl (fun a i => a.write i (cellNumbering.atlasOff (cellsArray i)))
          st.newCellsArray ∧
    st'.gtolCounts = st.gtolCounts := by
  induction cis generalizing pre st with
  | nil =>
    simp only [List.foldlM_nil, pure, Except.pure, Except.ok.injEq] at hok
    subst hok
    simpa using hinv
  | cons i cis ih =>
    rw [List.foldlM_cons] at hok
    cases h1 : dofsCell cellNumbering dofsPerCell numDofs cellNodeMap cellsArray st i with
    | error e => rw [h1] at hok; cases hok
    | ok st1 =>
      rw [h1] at hok
      obtain ⟨f1, f2, f3⟩ := dofsCell_spec _ _ _ _ _ a0 G0 pre st st1 i hinv h1
      obtain ⟨e1, e2, e3⟩ := ih _ st1 f1 hok
      refine ⟨?_, ?_, e3.trans f3⟩
      · simpa using e1
      · rw [e2, f2]; rfl

theorem dofsVertex_spec (cellCounts : PetscSection) (cells : IS) (cellNumbering : PetscSection)
    (dofsPerCell numDofs : Int) (cellNodeMap : Int → Int) (st st' : DofState) (v : Int)
    (hok : dofsVertex cellCounts cellNumbering dofsPerCell numDofs cellNodeMap
      (ISGetIndices cells) st v = .ok st') :
    st'.globalIndex = st.globalIndex
      + ((localIndices (patchGlobalDofs cellCounts cells cellNumbering dofsPerCell
          cellNodeMap v)).length : Int) ∧
    st'.dofsArray = st.dofsArray.writeList st.globalIndex
      (localIndices (patchGlobalDofs cellCounts cells cellNumbering dofsPerCell cellNodeMap v)) ∧
    (∀ w, st'.gtolCounts.atlasDof w
      = if w = v then
          (fun v (_ : Int) => (((firstOccurrences (patchGlobalDofs cellCounts cells cellNumbering
            dofsPerCell cellNodeMap v)).length : Nat) : Int)) v (st.gtolCounts.atlasDof w)
        else st.gtolCounts.atlasDof w) ∧
    SameLayout st.gtolCounts st'.gtolCounts := by
  unfold dofsVertex at hok
  simp only [PetscSectionGetDof, PetscSectionGetOffset] at hok
  cases h1 : (loopRange (cellCounts.atlasOff v) (cellCounts.atlasOff v + cellCounts.atlasDof v)).foldlM
      (dofsCell cellNumbering dofsPerCell numDofs cellNodeMap (ISGetIndices cells))
      { st with localIndex := 0, ht := PetscHashIClear } with
  | error e => rw [h1] at hok; cases hok
  | ok st1 =>
    rw [h1] at hok
    simp only [Except.ok.injEq] at hok
    subst hok
    have hinv : DofInv st.dofsArray st.globalIndex []
        { st with localIndex := 0, ht := PetscHashIClear } :=
      ⟨rfl, rfl, by simp, rfl⟩
    obtain ⟨⟨i1, _, i3, i4⟩, _, e3⟩ := foldlM_dofsCell _ _ _ _ _ _ _ _ [] _ st1 hinv h1
    simp only [List.nil_append] at i1 i3 i4
    refine ⟨?_, i4, ?_, ⟨?_, ?_, ?_⟩⟩
    rotate_left 2
    · show st1.gtolCounts.pStart = _
      rw [e3]
    · show st1.gtolCounts.pEnd = _
      rw [e3]
    rotate_left 1
    · rw [length_localIndices]; exact i3
    · intro w
      by_cases hw : w = v
      · subst hw
        simp only [PetscSectionSetDof, if_true, PetscHashISize]
        rw [i1, length_numberedFrom]
        rfl
      · simp only [PetscSectionSetDof, hw, if_false]
        rw [e3]
    · show st1.gtolCounts.atlasOff = _
      rw [e3]

/-! ### Indexing into concatenations -/

theorem getElem?_loopRange (s e : Int) (a : Nat) (ha : (a : Int) < e - s) :
    (loopRange s e)[a]? = some (s + a) := by
  unfold loopRange
  rw [List.getElem?_map, List.getElem?_range (by omega)]
  rfl

theorem flatMap_uniform_getElem? {α β : Type} (f : α → List β) (m : Nat) (l : List α)
    (hf : ∀ x ∈ l, (f x).length = m) (a j : Nat) (hj : j < m) :
    (l.flatMap f)[a * m + j]? = (l[a]?).bind (fun x => (f x)[j]?) := by
  induction l generalizing a with
  | nil => simp
  | cons x xs ih =>
    have hx : (f x).length = m := hf x (List.mem_cons_self _ _)
    rw [List.flatMap_cons]
    cases a with
    | zero =>
      simp only [zero_mul, zero_add, List.getElem?_cons_zero, Option.some_bind]
      exact List.getElem?_append_left (by omega)
    | succ a =>
      have e : (a + 1) * m + j - (f x).length = a * m + j := by
        rw [hx, Nat.succ_mul]; omega
      rw [List.getElem?_append_right (by rw [hx, Nat.succ_mul]; omega), e,
        ih (fun y hy => hf y (List.mem_cons_of_mem _ hy)), List.getElem?_cons_succ]

theorem length_flatMap_uniform {α β : Type} (f : α → List β) (m : Nat) (l : List α)
    (hf : ∀ x ∈ l, (f x).length = m) : (l.flatMap f).length = l.length * m := by
  induction l with
  | nil => simp
  | cons x xs ih =>
    rw [List.flatMap_cons, List.length_append, hf x (List.mem_cons_self _ _),
      ih (fun y hy => hf y (List.mem_cons_of_mem _ hy)), List.length_cons, Nat.succ_mul]
    omega

theorem flatten_loopRange_getElem? (segs : Int → List Int) (a b v : Int) (h1 : a ≤ v)
    (h2 : v < b) (p : Nat) (hp : p < (segs v).length) :
    ((loopRange a b).map segs).flatten[((loopRange a v).map segs).flatten.length + p]?
      = (segs v)[p]? := by
  rw [loopRange_split h1 h2]
  simp only [List.map_append, List.map_cons, List.flatten_append, List.flatten_cons]
  rw [List.getElem?_append_right (by omega)]
  simp only [add_tsub_cancel_left]
  exact List.getElem?_append_left hp

/-! ### The dofs array -/

theorem length_patchGlobalDofs (cellCounts : PetscSection) (cells : IS)
    (cellNumbering : PetscSection) (dofsPerCell : Int) (cellNodeMap : Int → Int) (v : Int) :
    (patchGlobalDofs cellCounts cells cellNumbering dofsPerCell cellNodeMap v).length
      = (cellCounts.atlasDof v).toNat * dofsPerCell.toNat := by
  unfold patchGlobalDofs
  rw [length_flatMap_uniform _ dofsPerCell.toNat _ (by
    intro x _
    rw [List.length_map, length_loopRange]
    simp), length_loopRange]
  congr 1
  omega

theorem patchGlobalDofs_getElem? (cellCounts : PetscSection) (cells : IS)
    (cellNumbering : PetscSection) (dofsPerCell : Int) (cellNodeMap : Int → Int) (v i j : Int)
    (hi1 : cellCounts.atlasOff v ≤ i) (hi2 : i < cellCounts.atlasOff v + cellCounts.atlasDof v)
    (hj1 : 0 ≤ j) (hj2 : j < dofsPerCell) :
    (patchGlobalDofs cellCounts cells cellNumbering dofsPerCell cellNodeMap v)[
        (i - cellCounts.atlasOff v).toNat * dofsPerCell.toNat + j.toNat]?
      = some (cellNodeMap (cellNumbering.atlasOff (ISGetIndices cells i) * dofsPerCell + j)) := by
  unfold patchGlobalDofs
  rw [flatMap_uniform_getElem? _ dofsPerCell.toNat _ (by
    intro x _
    rw [List.length_map, length_loopRange]
    simp) _ _ (by omega), getElem?_loopRange _ _ _ (by omega)]
  have e1 : cellCounts.atlasOff v + ((i - cellCounts.atlasOff v).toNat : Int) = i := by omega
  simp only [Option.some_bind, e1]
  rw [List.getElem?_map, getElem?_loopRange _ _ _ (by omega)]
  have e2 : (0 : Int) + (j.toNat : Int) = j := by omega
  simp only [Option.map_some', e2]

theorem setUp_spec (sec0 : PetscSection) (c : Int → Nat)
    (hd : ∀ v, sec0.pStart ≤ v → v < sec0.pEnd → sec0.atlasDof v = (c v : Int)) :
    (PetscSectionSetUp sec0).IsIndexedList ∧
    (∀ v, sec0.pStart ≤ v → v < sec0.pEnd →
      (PetscSectionSetUp sec0).atlasDof v = (c v : Int) ∧
      (PetscSectionSetUp sec0).atlasOff v
        = ((loopRange sec0.pStart v).map (fun q => (c q : Int))).sum) ∧
    PetscSectionGetStorageSize (PetscSectionSetUp sec0)
      = ((loopRange sec0.pStart sec0.pEnd).map (fun q => (c q : Int))).sum := by
  have hnn : ∀ p, sec0.pStart ≤ p → p < sec0.pEnd → 0 ≤ sec0.atlasDof p := by
    intro p p1 p2; rw [hd p p1 p2]; exact Int.natCast_nonneg _
  refine ⟨⟨hnn, ?_⟩, ?_, ?_⟩
  · intro p p1 p2
    show (if _ ∧ _ then _ else _) = _
    rw [if_pos ⟨p1, p2⟩]
    rfl
  · intro v h1 h2
    refine ⟨hd v h1 h2, ?_⟩
    show (if _ ∧ _ then _ else _) = _
    rw [if_pos ⟨h1, h2⟩]
    apply sum_map_congr
    intro q hq
    obtain ⟨q1, q2⟩ := mem_loopRange.mp hq
    exact hd q q1 (by omega)
  · rw [storageSize_eq_sum (PetscSectionSetUp sec0) hnn]
    show ((loopRange sec0.pStart sec0.pEnd).map sec0.atlasDof).sum = _
    apply sum_map_congr
    intro q hq
    obtain ⟨q1, q2⟩ := mem_loopRange.mp hq
    exact hd q q1 q2

/-- The pieces of a successful run of the dof map builder. -/
theorem discretisationInfo_unfold (ord : IterOrder) (cellCounts : PetscSection) (cells : IS)
    (cellNumbering : PetscSection) (dofsPerCell : Int) (cellNodeMap : Int → Int)
    (out : DiscretisationInfo)
    (hok : PCPatchCreateCellPatchDiscretisationInfo ord cellCounts cells cellNumbering
      dofsPerCell cellNodeMap = .ok out) :
    ∃ st : DofState,
      (loopRange cellCounts.pStart cellCounts.pEnd).foldlM
        (dofsVertex cellCounts cellNumbering dofsPerCell
          (PetscSectionGetStorageSize cellCounts * dofsPerCell) cellNodeMap (ISGetIndices cells))
        { ht := PetscHashIClear, localIndex := 0, globalIndex := 0, dofsArray := PetscMalloc1,
          newCellsArray := PetscMalloc1,
          gtolCounts := PetscSectionSetChart cellCounts.pStart cellCounts.pEnd } = .ok st ∧
      out.cells = ISCreateGeneral (PetscSectionGetStorageSize cellCounts) st.newCellsArray ∧
      out.dofs = ISCreateGeneral (PetscSectionGetStorageSize cellCounts * dofsPerCell)
        st.dofsArray ∧
      out.gtolCounts = PetscSectionSetUp st.gtolCounts ∧
      out.gtol = ISCreateGeneral (PetscSectionGetStorageSize (PetscSectionSetUp st.gtolCounts))
        ((loopRange cellCounts.pStart cellCounts.pEnd).foldl
          (gtolVertex ord cellCounts cellNumbering (PetscSectionSetUp st.gtolCounts) dofsPerCell
            cellNodeMap (ISGetIndices cells) st.dofsArray) PetscMalloc1) := by
  unfold PCPatchCreateCellPatchDiscretisationInfo at hok
  simp only at hok
  cases h1 : (loopRange cellCounts.pStart cellCounts.pEnd).foldlM
        (dofsVertex cellCounts cellNumbering dofsPerCell
          (PetscSectionGetStorageSize cellCounts * dofsPerCell) cellNodeMap (ISGetIndices cells))
        { ht := PetscHashIClear, localIndex := 0, globalIndex := 0, dofsArray := PetscMalloc1,
          newCellsArray := PetscMalloc1,
          gtolCounts := PetscSectionSetChart cellCounts.pStart cellCounts.pEnd } with
  | error e => rw [h1] at hok; cases hok
  | ok st =>
    rw [h1] at hok
    simp only [Except.ok.injEq] at hok
    subst hok
    exact ⟨st, rfl, rfl, rfl, rfl, rfl⟩

/-- The state after a successful first pass. -/
theorem pass1_spec (cellCounts : PetscSection) (cells : IS) (cellNumbering : PetscSection)
    (dofsPerCell numDofs : Int) (cellNodeMap : Int → Int) (st : DofState)
    (hok : (loopRange cellCounts.pStart cellCounts.pEnd).foldlM
        (dofsVertex cellCounts cellNumbering dofsPerCell numDofs cellNodeMap (ISGetIndices cells))
        { ht := PetscHashIClear, localIndex := 0, globalIndex := 0, dofsArray := PetscMalloc1,
          newCellsArray := PetscMalloc1,
          gtolCounts := PetscSectionSetChart cellCounts.pStart cellCounts.pEnd } = .ok st) :
    st.dofsArray = PetscMalloc1.writeList 0
      ((loopRange cellCounts.pStart cellCounts.pEnd).map (fun q => localIndices
        (patchGlobalDofs cellCounts cells cellNumbering dofsPerCell cellNodeMap q))).flatten ∧
    st.gtolCounts.pStart = cellCounts.pStart ∧ st.gtolCounts.pEnd = cellCounts.pEnd ∧
    (∀ w, cellCounts.pStart ≤ w → w < cellCounts.pEnd →
      st.gtolCounts.atlasDof w = (((firstOccurrences (patchGlobalDofs cellCounts cells
        cellNumbering dofsPerCell cellNodeMap w)).length : Nat) : Int)) := by
  obtain ⟨_, e2, e3, g1, g2, _⟩ := foldlM_running
    (dofsVertex cellCounts cellNumbering dofsPerCell numDofs cellNodeMap (ISGetIndices cells))
    DofState.globalIndex DofState.dofsArray DofState.gtolCounts
    (fun q => localIndices
      (patchGlobalDofs cellCounts cells cellNumbering dofsPerCell cellNodeMap q))
    (fun v (_ : Int) => (((firstOccurrences (patchGlobalDofs cellCounts cells cellNumbering
            dofsPerCell cellNodeMap v)).length : Nat) : Int))
    (loopRange cellCounts.pStart cellCounts.pEnd)
    (fun st v st' _ h => dofsVertex_spec cellCounts cells cellNumbering dofsPerCell numDofs
      cellNodeMap st st' v h)
    (loopRange_nodup _ _) _ st hok
  refine ⟨e2, g1, g2, ?_⟩
  intro w h1 h2
  rw [e3, if_pos (mem_loopRange.mpr ⟨h1, h2⟩)]

theorem sum_map_mul_const (l : List Int) (f : Int → Int) (c : Int) :
    (l.map (fun q => f q * c)).sum = (l.map f).sum * c := by
  induction l with
  | nil => simp
  | cons x xs ih => simp only [List.map_cons, List.sum_cons, ih]; ring

theorem mul_add_lt_mul {a n j m : Nat} (ha : a < n) (hj : j < m) : a * m + j < n * m := by
  calc a * m + j < a * m + m := by omega
    _ = (a + 1) * m := by rw [Nat.succ_mul]
    _ ≤ n * m := Nat.mul_le_mul_right m ha

/-- Where the first pass stores the local index of slot `j` of the cell at
position `i` of the cells array, and what it stores there. -/
theorem dofs_entry (cellCounts : PetscSection) (cells : IS) (cellNumbering : PetscSection)
    (dofsPerCell : Int) (cellNodeMap : Int → Int) (hcc : cellCounts.IsIndexedList)
    (dofsArray : IntArray)
    (harr : dofsArray = PetscMalloc1.writeList 0
      ((loopRange cellCounts.pStart cellCounts.pEnd).map (fun q => localIndices
        (patchGlobalDofs cellCounts cells cellNumbering dofsPerCell cellNodeMap q))).flatten)
    (v i j : Int) (hv1 : cellCounts.pStart ≤ v) (hv2 : v < cellCounts.pEnd)
    (hi1 : cellCounts.atlasOff v ≤ i) (hi2 : i < cellCounts.atlasOff v + cellCounts.atlasDof v)
    (hj1 : 0 ≤ j) (hj2 : j < dofsPerCell) :
    dofsArray (i * dofsPerCell + j)
      = some ((List.indexOf
          (cellNodeMap (cellNumbering.atlasOff (ISGetIndices cells i) * dofsPerCell + j))
          (firstOccurrences (patchGlobalDofs cellCounts cells cellNumbering dofsPerCell
            cellNodeMap v)) : Nat) : Int) := by
  obtain ⟨hnn, hoff⟩ := hcc
  have hlen : ∀ q, cellCounts.pStart ≤ q → q < cellCounts.pEnd →
      (((localIndices (patchGlobalDofs cellCounts cells cellNumbering dofsPerCell
        cellNodeMap q)).length : Nat) : Int) = cellCounts.atlasDof q * dofsPerCell := by
    intro q q1 q2
    rw [length_localIndices, length_patchGlobalDofs, Nat.cast_mul,
      Int.toNat_of_nonneg (hnn q q1 q2), Int.toNat_of_nonneg (by omega)]
  -- position of the entry inside the list of its patch
  have hp : (i - cellCounts.atlasOff v).toNat * dofsPerCell.toNat + j.toNat
      < (localIndices (patchGlobalDofs cellCounts cells cellNumbering dofsPerCell
        cellNodeMap v)).length := by
    rw [length_localIndices, length_patchGlobalDofs]
    exact mul_add_lt_mul (by omega) (by omega)
  have hA : ((((loopRange cellCounts.pStart v).map (fun q => localIndices
        (patchGlobalDofs cellCounts cells cellNumbering dofsPerCell cellNodeMap q))).flatten.length
        : Nat) : Int) = cellCounts.atlasOff v * dofsPerCell := by
    rw [← sum_length_flatten, hoff v hv1 hv2, ← sum_map_mul_const]
    apply sum_map_congr
    intro q hq
    obtain ⟨q1, q2⟩ := mem_loopRange.mp hq
    exact hlen q q1 (by omega)
  have hget := flatten_loopRange_getElem? (fun q => localIndices
      (patchGlobalDofs cellCounts cells cellNumbering dofsPerCell cellNodeMap q))
      cellCounts.pStart cellCounts.pEnd v hv1 hv2 _ hp
  have hval : (localIndices (patchGlobalDofs cellCounts cells cellNumbering dofsPerCell
        cellNodeMap v))[(i - cellCounts.atlasOff v).toNat * dofsPerCell.toNat + j.toNat]?
      = some ((List.indexOf
          (cellNodeMap (cellNumbering.atlasOff (ISGetIndices cells i) * dofsPerCell + j))
          (firstOccurrences (patchGlobalDofs cellCounts cells cellNumbering dofsPerCell
            cellNodeMap v)) : Nat) : Int) := by
    unfold localIndices
    rw [List.getElem?_map, patchGlobalDofs_getElem? _ _ _ _ _ _ _ _ hi1 hi2 hj1 hj2]
    rfl
  simp only at hget
  rw [hval] at hget
  have hk : i * dofsPerCell + j
      = (((((loopRange cellCounts.pStart v).map (fun q => localIndices
        (patchGlobalDofs cellCounts cells cellNumbering dofsPerCell cellNodeMap q))).flatten.length
        + ((i - cellCounts.atlasOff v).toNat * dofsPerCell.toNat + j.toNat) : Nat)) : Int) := by
    rw [Nat.cast_add, hA, Nat.cast_add, Nat.cast_mul, Int.toNat_of_nonneg (by omega),
      Int.toNat_of_nonneg (by omega), Int.toNat_of_nonneg hj1]
    ring
  obtain ⟨hlt, _⟩ := List.getElem?_eq_some.mp hget
  rw [harr, writeList_apply, hk]
  rw [if_pos ⟨Int.natCast_nonneg _, by omega⟩]
  simp only [sub_zero, Int.toNat_ofNat]
  exact hget

/-! ### Pure facts on local indices -/

theorem not_mem_take_indexOf (l : List Int) (x : Int) : x ∉ l.take (List.indexOf x l) := by
  induction l with
  | nil => simp
  | cons y ys ih =>
    by_cases h : y = x
    · subst h; simp
    · rw [List.indexOf_cons_ne _ h, List.take_succ_cons, List.mem_cons, not_or]
      exact ⟨fun h' => h h'.symm, ih⟩

theorem localIndices_getElem? (gs : List Int) (p : Nat) (hp : p < gs.length) :
    (localIndices gs)[p]?
      = some (((gs.take (List.indexOf gs[p] gs)).toFinset.card : Nat) : Int) := by
  have hmem : gs[p] ∈ gs := List.getElem_mem hp
  have hlt : List.indexOf gs[p] gs < gs.length := List.indexOf_lt_length.mpr hmem
  have hsame : gs[List.indexOf gs[p] gs] = gs[p] := List.getElem_indexOf hlt
  have h := indexOf_first_time gs (List.indexOf gs[p] gs) hlt (by
    rw [hsame]; exact not_mem_take_indexOf gs gs[p])
  rw [hsame] at h
  unfold localIndices
  rw [List.getElem?_map, List.getElem?_eq_getElem hp, Option.map_some', h]

theorem mem_localIndices (gs : List Int) (l : Int) :
    l ∈ localIndices gs ↔ 0 ≤ l ∧ l < ((firstOccurrences gs).length : Int) := by
  unfold localIndices
  rw [List.mem_map]
  constructor
  · rintro ⟨g, hg, rfl⟩
    have := List.indexOf_lt_length.mpr ((mem_firstOccurrences gs g).mpr hg)
    omega
  · rintro ⟨h0, h1⟩
    have hl : l.toNat < (firstOccurrences gs).length := by omega
    refine ⟨(firstOccurrences gs)[l.toNat], ?_, ?_⟩
    · exact (mem_firstOccurrences gs _).mp (List.getElem_mem hl)
    · rw [List.indexOf_getElem (nodup_firstOccurrences gs) _ hl]
      omega

theorem indexOf_firstOccurrences_inj (gs : List Int) (g g' : Int) (hg : g ∈ gs) (hg' : g' ∈ gs) :
    ((List.indexOf g (firstOccurrences gs) : Nat) : Int)
        = ((List.indexOf g' (firstOccurrences gs) : Nat) : Int) ↔ g = g' := by
  rw [Nat.cast_inj]
  exact List.indexOf_inj ((mem_firstOccurrences gs g).mpr hg)
    ((mem_firstOccurrences gs g').mpr hg')

/-- The segment of the dofs array of patch `v`. -/
theorem dofs_segment (cellCounts : PetscSection) (cells : IS) (cellNumbering : PetscSection)
    (dofsPerCell : Int) (cellNodeMap : Int → Int) (hcc : cellCounts.IsIndexedList)
    (dofsArray : IntArray)
    (harr : dofsArray = PetscMalloc1.writeList 0
      ((loopRange cellCounts.pStart cellCounts.pEnd).map (fun q => localIndices
        (patchGlobalDofs cellCounts cells cellNumbering dofsPerCell cellNodeMap q))).flatten)
    (v : Int) (hv1 : cellCounts.pStart ≤ v) (hv2 : v < cellCounts.pEnd) :
    dofsArray.segment (cellCounts.atlasOff v * dofsPerCell)
        (cellCounts.atlasDof v * dofsPerCell)
      = (localIndices (patchGlobalDofs cellCounts cells cellNumbering dofsPerCell
          cellNodeMap v)).map some := by
  obtain ⟨hnn, hoff⟩ := hcc
  by_cases hd : 0 ≤ dofsPerCell
  · have hlen : ∀ q, cellCounts.pStart ≤ q → q < cellCounts.pEnd →
        (((localIndices (patchGlobalDofs cellCounts cells cellNumbering dofsPerCell
          cellNodeMap q)).length : Nat) : Int) = cellCounts.atlasDof q * dofsPerCell := by
      intro q q1 q2
      rw [length_localIndices, length_patchGlobalDofs, Nat.cast_mul,
        Int.toNat_of_nonneg (hnn q q1 q2), Int.toNat_of_nonneg hd]
    have hA : ((loopRange cellCounts.pStart v).map (fun q =>
        (((localIndices (patchGlobalDofs cellCounts cells cellNumbering dofsPerCell
          cellNodeMap q)).length : Nat) : Int))).sum = cellCounts.atlasOff v * dofsPerCell := by
      rw [hoff v hv1 hv2, ← sum_map_mul_const]
      apply sum_map_congr
      intro q hq
      obtain ⟨q1, q2⟩ := mem_loopRange.mp hq
      exact hlen q q1 (by omega)
    have h := segment_flatten PetscMalloc1 (fun q => localIndices
      (patchGlobalDofs cellCounts cells cellNumbering dofsPerCell cellNodeMap q))
      cellCounts.pStart cellCounts.pEnd v hv1 hv2
    simp only at h
    rw [hA, hlen v hv1 hv2, ← harr] at h
    exact h
  · have h0 : dofsPerCell.toNat = 0 := by omega
    have hgs : patchGlobalDofs cellCounts cells cellNumbering dofsPerCell cellNodeMap v = [] := by
      apply List.eq_nil_of_length_eq_zero
      rw [length_patchGlobalDofs, h0, Nat.mul_zero]
    have hneg : cellCounts.atlasDof v * dofsPerCell ≤ 0 :=
      Int.mul_nonpos_of_nonneg_of_nonpos (hnn v hv1 hv2) (by omega)
    rw [hgs]
    unfold IntArray.segment
    rw [loopRange_empty hneg]
    rfl

/-! ### Second pass of the dof map builder: the table -/

theorem foldl_flatMap' {α β γ : Type} (f : α → List β) (g : γ → β → γ) (l : List α) (a : γ) :
    (l.flatMap f).foldl g a = l.foldl (fun a i => (f i).foldl g a) a := by
  induction l generalizing a with
  | nil => rfl
  | cons x xs ih => rw [List.flatMap_cons, List.foldl_append, ih, List.foldl_cons]

theorem indexOf_firstOccurrences_initial (l1 l2 : List Int) (h : l1 <+: l2) (g : Int)
    (hg : g ∈ l1) :
    List.indexOf g (firstOccurrences l2) = List.indexOf g (firstOccurrences l1) := by
  obtain ⟨r, rfl⟩ := h
  obtain ⟨t, ht⟩ := firstOccurrences_append l1 r
  rw [ht, List.indexOf_append_of_mem ((mem_firstOccurrences l1 g).mpr hg)]

theorem add_table_step (gsFull pre : List Int) (g : Int) (h : (pre ++ [g]) <+: gsFull) :
    PetscHashIAdd (numberedFrom 0 (firstOccurrences pre)) g
        ((List.indexOf g (firstOccurrences gsFull) : Nat) : Int)
      = numberedFrom 0 (firstOccurrences (pre ++ [g])) := by
  rw [indexOf_firstOccurrences_initial _ _ h g (by simp), firstOccurrences_concat]
  by_cases hg : g ∈ firstOccurrences pre
  · rw [if_pos hg]
    have := add_numberedFrom_old 0 _ (nodup_firstOccurrences pre) g hg
    rw [Nat.zero_add] at this
    exact this
  · rw [if_neg hg, List.indexOf_append_of_not_mem hg]
    have := add_numberedFrom_new 0 _ g hg
    simp only [Nat.zero_add] at this
    simpa using this

theorem foldl_table {α : Type} (G V : α → Int) (gsFull : List Int) (ps : List α)
    (pre : List Int) (h : (pre ++ ps.map G) <+: gsFull)
    (hV : ∀ p ∈ ps, V p = ((List.indexOf (G p) (firstOccurrences gsFull) : Nat) : Int)) :
    ps.foldl (fun ht p => PetscHashIAdd ht (G p) (V p)) (numberedFrom 0 (firstOccurrences pre))
      = numberedFrom 0 (firstOccurrences (pre ++ ps.map G)) := by
  induction ps generalizing pre with
  | nil => simp
  | cons p ps ih =>
    have h' : ((pre ++ [G p]) ++ ps.map G) <+: gsFull := by
      simpa using h
    have h1 : (pre ++ [G p]) <+: gsFull := (List.prefix_append _ _).trans h'
    rw [List.foldl_cons, hV p (List.mem_cons_self _ _), add_table_step gsFull pre (G p) h1,
      ih (pre ++ [G p]) h' (fun q hq => hV q (List.mem_cons_of_mem _ hq))]
    simp

/-- The table rebuilt for patch `v` in the second pass binds the distinct
global dof ids of the patch, in first-occurrence order, to `0, 1, ...`. -/
theorem gtolTable_spec (cellCounts : PetscSection) (cells : IS) (cellNumbering : PetscSection)
    (dofsPerCell : Int) (cellNodeMap : Int → Int) (hcc : cellCounts.IsIndexedList)
    (dofsArray : IntArray)
    (harr : dofsArray = PetscMalloc1.writeList 0
      ((loopRange cellCounts.pStart cellCounts.pEnd).map (fun q => localIndices
        (patchGlobalDofs cellCounts cells cellNumbering dofsPerCell cellNodeMap q))).flatten)
    (v : Int) (hv1 : cellCounts.pStart ≤ v) (hv2 : v < cellCounts.pEnd) :
    gtolTable cellCounts cellNumbering dofsPerCell cellNodeMap (ISGetIndices cells) dofsArray v
      = numberedFrom 0 (firstOccurrences
          (patchGlobalDofs cellCounts cells cellNumbering dofsPerCell cellNodeMap v)) := by
  have hgs : patchGlobalDofs cellCounts cells cellNumbering dofsPerCell cellNodeMap v
      = ((loopRange (cellCounts.atlasOff v)
          (cellCounts.atlasOff v + cellCounts.atlasDof v)).flatMap
          (fun i => (loopRange 0 dofsPerCell).map (fun j => (i, j)))).map
        (fun p => cellNodeMap (cellNumbering.atlasOff (ISGetIndices cells p.1) * dofsPerCell
          + p.2)) := by
    unfold patchGlobalDofs
    rw [List.map_flatMap]
    simp only [List.map_map]
    rfl
  have hfold : gtolTable cellCounts cellNumbering dofsPerCell cellNodeMap (ISGetIndices cells)
        dofsArray v
      = ((loopRange (cellCounts.atlasOff v)
          (cellCounts.atlasOff v + cellCounts.atlasDof v)).flatMap
          (fun i => (loopRange 0 dofsPerCell).map (fun j => (i, j)))).foldl
        (fun ht p => PetscHashIAdd ht
          (cellNodeMap (cellNumbering.atlasOff (ISGetIndices cells p.1) * dofsPerCell + p.2))
          (dofsArray.read (p.1 * dofsPerCell + p.2))) (numberedFrom 0 (firstOccurrences [])) := by
    rw [foldl_flatMap']
    unfold gtolTable gtolCell gtolSlot
    simp only [PetscSectionGetDof, PetscSectionGetOffset, List.foldl_map]
    rfl
  rw [hfold, foldl_table (fun p : Int × Int => cellNodeMap
      (cellNumbering.atlasOff (ISGetIndices cells p.1) * dofsPerCell + p.2))
    (fun p => dofsArray.read (p.1 * dofsPerCell + p.2))
    (patchGlobalDofs cellCounts cells cellNumbering dofsPerCell cellNodeMap v) _ []
    (by rw [List.nil_append, ← hgs]) ?_]
  · rw [List.nil_append, ← hgs]
  · intro p hp
    simp only [List.mem_flatMap, List.mem_map] at hp
    obtain ⟨i, hi, j, hj, rfl⟩ := hp
    obtain ⟨hi1, hi2⟩ := mem_loopRange.mp hi
    obtain ⟨hj1, hj2⟩ := mem_loopRange.mp hj
    show (dofsArray (i * dofsPerCell + j)).getD 0 = _
    rw [dofs_entry cellCounts cells cellNumbering dofsPerCell cellNodeMap hcc dofsArray harr
      v i j hv1 hv2 hi1 hi2 hj1 hj2]
    rfl

/-! ### Second pass of the dof map builder: the gtol array -/

theorem sum_nonneg_of_forall {l : List Int} {f : Int → Int} (h : ∀ x ∈ l, 0 ≤ f x) :
    0 ≤ (l.map f).sum := by
  induction l with
  | nil => simp
  | cons x xs ih =>
    simp only [List.map_cons, List.sum_cons]
    have := h x (List.mem_cons_self _ _)
    have := ih (fun y hy => h y (List.mem_cons_of_mem _ hy))
    omega

/-- In an Indexed List the segment of a point ends before the segment of
every later point starts. -/
theorem indexedList_mono (s : PetscSection) (hs : s.IsIndexedList) (p q : Int)
    (hp : s.pStart ≤ p) (hpq : p < q) (hq : q < s.pEnd) :
    s.atlasOff p + s.atlasDof p ≤ s.atlasOff q := by
  obtain ⟨hnn, hoff⟩ := hs
  rw [hoff p hp (by omega), hoff q (by omega) hq, loopRange_split hp hpq]
  simp only [List.map_append, List.map_cons, List.sum_append, List.sum_cons]
  have : 0 ≤ ((loopRange (p + 1) q).map s.atlasDof).sum := by
    apply sum_nonneg_of_forall
    intro x hx
    obtain ⟨x1, x2⟩ := mem_loopRange.mp hx
    exact hnn x (by omega) (by omega)
  omega

theorem gtolEntry_apply (off : Int) (arr : IntArray) (e : Int × Int) (k : Int) :
    gtolEntry off arr e k = if e.1 ≥ 0 ∧ k = off + e.2 then some e.1 else arr k := by
  unfold gtolEntry
  by_cases h : e.1 ≥ 0
  · simp only [h, if_true, true_and, IntArray.write]
  · simp only [h, if_false, false_and]

theorem foldl_gtolEntry_frame (off : Int) (es : List (Int × Int)) (arr : IntArray) (k : Int)
    (h : ∀ e ∈ es, e.1 ≥ 0 → k ≠ off + e.2) :
    (es.foldl (gtolEntry off) arr) k = arr k := by
  induction es generalizing arr with
  | nil => rfl
  | cons e es ih =>
    rw [List.foldl_cons, ih _ (fun e' he' => h e' (List.mem_cons_of_mem _ he')),
      gtolEntry_apply, if_neg]
    rintro ⟨h1, h2⟩
    exact h e (List.mem_cons_self _ _) h1 h2

theorem foldl_gtolEntry_written (off : Int) (es : List (Int × Int)) (arr : IntArray)
    (hnd : (es.map Prod.snd).Nodup) (e : Int × Int) (he : e ∈ es) (hpos : e.1 ≥ 0) :
    (es.foldl (gtolEntry off) arr) (off + e.2) = some e.1 := by
  induction es generalizing arr with
  | nil => cases he
  | cons x xs ih =>
    rw [List.map_cons, List.nodup_cons] at hnd
    rw [List.foldl_cons]
    rcases List.mem_cons.mp he with rfl | hmem
    · rw [foldl_gtolEntry_frame, gtolEntry_apply, if_pos ⟨hpos, rfl⟩]
      intro e' he' _ heq
      apply hnd.1
      have : e'.2 = e.2 := by omega
      rw [← this]
      exact List.mem_map_of_mem _ he'
    · exact ih _ hnd.2 hmem

theorem foldl_gtolEntry_local (off : Int) (es : List (Int × Int)) (arr arr' : IntArray) (k : Int)
    (h : arr k = arr' k) :
    (es.foldl (gtolEntry off) arr) k = (es.foldl (gtolEntry off) arr') k := by
  induction es generalizing arr arr' with
  | nil => exact h
  | cons e es ih =>
    rw [List.foldl_cons, List.foldl_cons]
    apply ih
    rw [gtolEntry_apply, gtolEntry_apply, h]

theorem snd_numberedFrom_nodup (n : Nat) (K : List Int) :
    ((numberedFrom n K).map Prod.snd).Nodup := by
  induction K generalizing n with
  | nil => simp [numberedFrom]
  | cons k ks ih =>
    simp only [numberedFrom, List.map_cons, List.nodup_cons]
    refine ⟨?_, ih (n + 1)⟩
    intro hmem
    obtain ⟨e, he, heq⟩ := List.mem_map.mp hmem
    obtain ⟨i, _, rfl⟩ := (mem_numberedFrom (n + 1) ks e).mp he
    simp only at heq
    omega

/-- What the second pass does to the gtol array while it handles a patch whose
table binds the keys `K` to `0, 1, ...`. -/
theorem foldl_gtolEntry_numbered (ord : IterOrder) (off : Int) (K : List Int)
    (arr : IntArray) :
    (∀ (l : Nat) (hl : l < K.length),
      ((ord.iter (numberedFrom 0 K)).foldl (gtolEntry off) arr) (off + l)
        = if 0 ≤ K[l] then some K[l] else arr (off + l)) ∧
    (∀ k, ¬ (off ≤ k ∧ k < off + K.length) →
      ((ord.iter (numberedFrom 0 K)).foldl (gtolEntry off) arr) k = arr k) := by
  have hperm := ord.perm (numberedFrom 0 K)
  have hnd : ((ord.iter (numberedFrom 0 K)).map Prod.snd).Nodup :=
    ((hperm.map Prod.snd).nodup_iff).mpr (snd_numberedFrom_nodup 0 K)
  have hmem : ∀ e, e ∈ ord.iter (numberedFrom 0 K)
      ↔ ∃ i, ∃ h : i < K.length, e = (K[i], ((i : Nat) : Int)) := by
    intro e
    rw [hperm.mem_iff, mem_numberedFrom]
    simp only [Nat.zero_add]
  constructor
  · intro l hl
    by_cases hpos : 0 ≤ K[l]
    · rw [if_pos hpos]
      exact foldl_gtolEntry_written off _ arr hnd (K[l], (l : Int))
        ((hmem _).mpr ⟨l, hl, rfl⟩) hpos
    · rw [if_neg hpos]
      apply foldl_gtolEntry_frame
      intro e he hge heq
      obtain ⟨i, hi, rfl⟩ := (hmem e).mp he
      simp only at hge heq
      have : i = l := by omega
      subst this
      exact hpos hge
  · intro k hk
    apply foldl_gtolEntry_frame
    intro e he _ heq
    obtain ⟨i, hi, rfl⟩ := (hmem e).mp he
    simp only at heq
    omega

theorem foldl_frame (step : IntArray → Int → IntArray) (lo hi : Int → Int) (vs : List Int)
    (hframe : ∀ arr w k, w ∈ vs → ¬ (lo w ≤ k ∧ k < hi w) → step arr w k = arr k)
    (k : Int) (hk : ∀ w ∈ vs, ¬ (lo w ≤ k ∧ k < hi w)) (arr : IntArray) :
    (vs.foldl step arr) k = arr k := by
  induction vs generalizing arr with
  | nil => rfl
  | cons x xs ih =>
    rw [List.foldl_cons, ih (fun arr w k hw => hframe arr w k (List.mem_cons_of_mem _ hw))
      (fun w hw => hk w (List.mem_cons_of_mem _ hw)),
      hframe arr x k (List.mem_cons_self _ _) (hk x (List.mem_cons_self _ _))]

/-- A loop whose body for `w` touches only the window `[lo w, hi w)` and
decides each slot from its old content alone: inside the window of `v`, away
from the other windows, only the body for `v` matters. -/
theorem foldl_window (step : IntArray → Int → IntArray) (lo hi : Int → Int) (vs : List Int)
    (hframe : ∀ arr w k, w ∈ vs → ¬ (lo w ≤ k ∧ k < hi w) → step arr w k = arr k)
    (hloc : ∀ arr arr' w k, w ∈ vs → arr k = arr' k → step arr w k = step arr' w k)
    (hnd : vs.Nodup) (v : Int) (hv : v ∈ vs) (k : Int)
    (hdisj : ∀ w ∈ vs, w ≠ v → ¬ (lo w ≤ k ∧ k < hi w)) (arr : IntArray) :
    (vs.foldl step arr) k = step arr v k := by
  induction vs generalizing arr with
  | nil => cases hv
  | cons x xs ih =>
    rw [List.nodup_cons] at hnd
    rw [List.foldl_cons]
    by_cases hx : x = v
    · subst hx
      apply foldl_frame step lo hi xs
        (fun arr w k hw => hframe arr w k (List.mem_cons_of_mem _ hw))
      intro w hw
      exact hdisj w (List.mem_cons_of_mem _ hw) (fun h => hnd.1 (h ▸ hw))
    · have hv' : v ∈ xs := by
        rcases List.mem_cons.mp hv with h | h
        · exact absurd h.symm hx
        · exact h
      rw [ih (fun arr w k hw => hframe arr w k (List.mem_cons_of_mem _ hw))
        (fun arr arr' w k hw => hloc arr arr' w k (List.mem_cons_of_mem _ hw)) hnd.2 hv'
        (fun w hw => hdisj w (List.mem_cons_of_mem _ hw))]
      apply hloc _ _ _ _ hv
      exact hframe arr x k (List.mem_cons_self _ _) (hdisj x (List.mem_cons_self _ _) hx)

/-- The section `gtolCounts` of a successful run. -/
theorem gtolCounts_spec (ord : IterOrder) (cellCounts : PetscSection) (cells : IS)
    (cellNumbering : PetscSection) (dofsPerCell : Int) (cellNodeMap : Int → Int)
    (out : DiscretisationInfo)
    (hok : PCPatchCreateCellPatchDiscretisationInfo ord cellCounts cells cellNumbering
      dofsPerCell cellNodeMap = .ok out) :
    out.gtolCounts.pStart = cellCounts.pStart ∧ out.gtolCounts.pEnd = cellCounts.pEnd ∧
    out.gtolCounts.IsIndexedList ∧
    (∀ w, cellCounts.pStart ≤ w → w < cellCounts.pEnd →
      out.gtolCounts.atlasDof w = (((firstOccurrences (patchGlobalDofs cellCounts cells
        cellNumbering dofsPerCell cellNodeMap w)).length : Nat) : Int)) ∧
    PetscSectionGetStorageSize out.gtolCounts = out.gtol.n := by
  obtain ⟨st, hst, _, _, hcnt, hgtol⟩ := discretisationInfo_unfold ord cellCounts cells
    cellNumbering dofsPerCell cellNodeMap out hok
  obtain ⟨_, g1, g2, hd⟩ := pass1_spec cellCounts cells cellNumbering dofsPerCell _
    cellNodeMap st hst
  obtain ⟨s1, s2, _⟩ := setUp_spec st.gtolCounts
    (fun w => (firstOccurrences (patchGlobalDofs cellCounts cells
        cellNumbering dofsPerCell cellNodeMap w)).length)
    (fun w h1 h2 => hd w (g1 ▸ h1) (g2 ▸ h2))
  rw [hcnt, hgtol]
  exact ⟨g1, g2, s1, fun w h1 h2 => (s2 w (g1.symm ▸ h1) (g2.symm ▸ h2)).1, rfl⟩

/-- Content of the gtol array of a successful run: slot `l` of patch `v` holds
the `l`-th distinct global dof id of the patch if that id is not negative, and
is never written otherwise. -/
theorem gtol_entry (ord : IterOrder) (cellCounts : PetscSection) (cells : IS)
    (cellNumbering : PetscSection) (dofsPerCell : Int) (cellNodeMap : Int → Int)
    (out : DiscretisationInfo) (hcc : cellCounts.IsIndexedList)
    (hok : PCPatchCreateCellPatchDiscretisationInfo ord cellCounts cells cellNumbering
      dofsPerCell cellNodeMap = .ok out)
    (v : Int) (hv1 : cellCounts.pStart ≤ v) (hv2 : v < cellCounts.pEnd) (l : Nat)
    (hl : l < (firstOccurrences (patchGlobalDofs cellCounts cells cellNumbering dofsPerCell
      cellNodeMap v)).length) :
    out.gtol.idx (out.gtolCounts.atlasOff v + l)
      = if 0 ≤ (firstOccurrences (patchGlobalDofs cellCounts cells cellNumbering dofsPerCell
          cellNodeMap v))[l]
        then some (firstOccurrences (patchGlobalDofs cellCounts cells cellNumbering dofsPerCell
          cellNodeMap v))[l]
        else none := by
  obtain ⟨c1, c2, c3, c4, _⟩ := gtolCounts_spec ord cellCounts cells cellNumbering dofsPerCell
    cellNodeMap out hok
  obtain ⟨st, hst, _, _, hcnt, hgtol⟩ := discretisationInfo_unfold ord cellCounts cells
    cellNumbering dofsPerCell cellNodeMap out hok
  obtain ⟨harr, _, _, _⟩ := pass1_spec cellCounts cells cellNumbering dofsPerCell _
    cellNodeMap st hst
  have hstep : ∀ arr w, w ∈ loopRange cellCounts.pStart cellCounts.pEnd →
      gtolVertex ord cellCounts cellNumbering out.gtolCounts dofsPerCell cellNodeMap
        (ISGetIndices cells) st.dofsArray arr w
      = (ord.iter (numberedFrom 0 (firstOccurrences (patchGlobalDofs cellCounts cells
          cellNumbering dofsPerCell cellNodeMap w)))).foldl
          (gtolEntry (out.gtolCounts.atlasOff w)) arr := by
    intro arr w hw
    obtain ⟨w1, w2⟩ := mem_loopRange.mp hw
    unfold gtolVertex
    simp only [PetscSectionGetOffset]
    rw [gtolTable_spec cellCounts cells cellNumbering dofsPerCell cellNodeMap hcc st.dofsArray
      harr w w1 w2]
  have hidx : out.gtol.idx = (loopRange cellCounts.pStart cellCounts.pEnd).foldl
      (gtolVertex ord cellCounts cellNumbering out.gtolCounts dofsPerCell cellNodeMap
        (ISGetIndices cells) st.dofsArray) PetscMalloc1 := by
    rw [hgtol, hcnt]; rfl
  rw [hidx, foldl_window _ (fun w => out.gtolCounts.atlasOff w)
    (fun w => out.gtolCounts.atlasOff w + out.gtolCounts.atlasDof w)
    (loopRange cellCounts.pStart cellCounts.pEnd) ?_ ?_ (loopRange_nodup _ _) v
    (mem_loopRange.mpr ⟨hv1, hv2⟩) _ ?_ PetscMalloc1]
  · rw [hstep _ v (mem_loopRange.mpr ⟨hv1, hv2⟩),
      (foldl_gtolEntry_numbered ord _ _ PetscMalloc1).1 l hl]
    rfl
  · intro arr w k hw hk
    obtain ⟨w1, w2⟩ := mem_loopRange.mp hw
    rw [hstep arr w hw]
    apply (foldl_gtolEntry_numbered ord _ _ arr).2 k
    rw [← c4 w w1 w2]
    exact hk
  · intro arr arr' w k hw h
    rw [hstep arr w hw, hstep arr' w hw]
    exact foldl_gtolEntry_local _ _ _ _ _ h
  · intro w hw hne
    obtain ⟨w1, w2⟩ := mem_loopRange.mp hw
    have hlv : (l : Int) < out.gtolCounts.atlasDof v := by rw [c4 v hv1 hv2]; omega
    have hnn := c3.1 w (c1 ▸ w1) (c2 ▸ w2)
    rcases lt_or_gt_of_ne hne with h | h
    · have := indexedList_mono out.gtolCounts c3 w v (c1 ▸ w1) h (c2 ▸ hv2)
      simp only; omega
    · have := indexedList_mono out.gtolCounts c3 v w (c1 ▸ hv1) h (c2 ▸ w2)
      simp only; omega

/-! ### The table rebuilt from a gtol segment -/

theorem firstOccurrences_of_nodup (K : List Int) (hK : K.Nodup) : firstOccurrences K = K := by
  induction K using List.reverseRecOn with
  | nil => rfl
  | append_singleton xs x ih =>
    rw [List.nodup_append] at hK
    obtain ⟨h1, _, h3⟩ := hK
    rw [firstOccurrences_concat, ih h1, if_neg]
    intro hx
    exact h3 hx (List.mem_singleton_self x)

theorem fst_foldl_bcsGtolEntry (globalBcs : PetscHashI) (gtolArray : Int → Int) (off : Int)
    (is : List Int) (st : PetscHashI × PetscHashI) :
    (is.foldl (bcsGtolEntry globalBcs gtolArray off) st).1
      = is.foldl (fun ht i => PetscHashIAdd ht (gtolArray i) (i - off)) st.1 := by
  induction is generalizing st with
  | nil => rfl
  | cons i is ih =>
    rw [List.foldl_cons, List.foldl_cons, ih]
    congr 1
    unfold bcsGtolEntry
    simp only
    split <;> rfl

/-- The table `patchDofs` rebuilt from a gtol segment that lists distinct
ids `K` binds them to their positions. -/
theorem patchDofs_of_nodup (globalBcs : PetscHashI) (gtolCounts : PetscSection)
    (gtolArray : Int → Int) (v : Int) (K : List Int) (hK : K.Nodup)
    (hn : gtolCounts.atlasDof v = (K.length : Int))
    (hseg : ∀ (l : Nat) (hl : l < K.length), gtolArray (gtolCounts.atlasOff v + l) = K[l]) :
    (bcsPatchTables globalBcs gtolCounts gtolArray v).1 = numberedFrom 0 K := by
  unfold bcsPatchTables
  simp only [PetscSectionGetDof, PetscSectionGetOffset]
  rw [fst_foldl_bcsGtolEntry]
  have hmap : (loopRange (gtolCounts.atlasOff v)
      (gtolCounts.atlasOff v + gtolCounts.atlasDof v)).map gtolArray = K := by
    apply List.ext_getElem?
    intro l
    rw [List.getElem?_map]
    by_cases hl : l < K.length
    · rw [getElem?_loopRange _ _ _ (by omega), Option.map_some', hseg l hl,
        List.getElem?_eq_getElem hl]
    · have h1 : (loopRange (gtolCounts.atlasOff v)
          (gtolCounts.atlasOff v + gtolCounts.atlasDof v))[l]? = none := by
        rw [List.getElem?_eq_none]
        rw [length_loopRange]; omega
      have h2 : K[l]? = none := by rw [List.getElem?_eq_none]; omega
      rw [h1, h2]; rfl
  have h := foldl_table gtolArray (fun i => i - gtolCounts.atlasOff v) K
    (loopRange (gtolCounts.atlasOff v) (gtolCounts.atlasOff v + gtolCounts.atlasDof v)) []
    (by rw [List.nil_append, hmap]) (by
      intro i hi
      obtain ⟨i1, i2⟩ := mem_loopRange.mp hi
      have hl : (i - gtolCounts.atlasOff v).toNat < K.length := by omega
      have e : i = gtolCounts.atlasOff v + ((i - gtolCounts.atlasOff v).toNat : Int) := by omega
      have hg : gtolArray i = K[(i - gtolCounts.atlasOff v).toNat] := by
        rw [← hseg _ hl, ← e]
      rw [hg, firstOccurrences_of_nodup K hK, List.indexOf_getElem hK _ hl]
      show i - gtolCounts.atlasOff v = _
      omega)
  rw [List.nil_append, hmap, firstOccurrences_of_nodup K hK] at h
  exact h

theorem negativeDof_indexedList : negativeDof.cellCounts.IsIndexedList := by
  constructor
  · intro p h1 h2
    have : p = 0 := by simp only [negativeDof.cellCounts] at h1 h2; omega
    subst this
    decide
  · intro p h1 h2
    have : p = 0 := by simp only [negativeDof.cellCounts] at h1 h2; omega
    subst this
    rfl

/-! ### PCPatchCreateCellPatchBCs -/

theorem mem_add (ht : PetscHashI) (k v : Int) (e : Int × Int)
    (he : e ∈ PetscHashIAdd ht k v) : e ∈ ht ∨ e = (k, v) := by
  unfold PetscHashIAdd at he
  split at he
  · obtain ⟨e', he', rfl⟩ := List.mem_map.mp he
    by_cases h : e'.1 = k
    · right; simp [h]
    · left; simp [h, he']
  · rcases List.mem_append.mp he with h | h
    · exact Or.inl h
    · exact Or.inr (List.mem_singleton.mp h)

theorem map_eq_neg_one_or_mem (ht : PetscHashI) (k : Int) :
    PetscHashIMap ht k = -1 ∨ ∃ e ∈ ht, e.2 = PetscHashIMap ht k := by
  unfold PetscHashIMap
  cases h : ht.find? (fun e => decide (e.1 = k)) with
  | none => exact Or.inl rfl
  | some e => exact Or.inr ⟨e, List.mem_of_find?_eq_some h, rfl⟩

theorem valuesInRange_add (n : Int) (ht : PetscHashI) (k v : Int) (h : ValuesInRange n ht)
    (hv : 0 ≤ v ∧ v < n) : ValuesInRange n (PetscHashIAdd ht k v) := by
  intro e he
  rcases mem_add ht k v e he with h' | rfl
  · exact h e h'
  · exact hv

theorem keysGrow_refl (n : Int) (s : PetscHashI) : KeysGrow n s s :=
  ⟨fun h => h, fun _ h => h⟩

theorem keysGrow_trans (n : Int) (a b c : PetscHashI) (h1 : KeysGrow n a b)
    (h2 : KeysGrow n b c) : KeysGrow n a c :=
  ⟨fun h => h2.1 (h1.1 h), fun k hk => h2.2 k (h1.2 k hk)⟩

theorem keysGrow_add (n : Int) (ht : PetscHashI) (k : Int) (hk : 0 ≤ k ∧ k < n) :
    KeysGrow n ht (PetscHashIAdd ht k 0) := by
  constructor
  · rintro ⟨h1, h2⟩
    refine ⟨nodup_keys_add ht k 0 h1, ?_⟩
    intro x hx
    rcases (mem_keys_add ht k 0 x).mp hx with h | rfl
    · exact h2 x h
    · exact hk
  · intro x hx
    exact (mem_keys_add ht k 0 x).mpr (Or.inl hx)

theorem foldlM_rel {σ α ε : Type} (Rel : σ → σ → Prop) (hrefl : ∀ s, Rel s s)
    (htrans : ∀ a b c, Rel a b → Rel b c → Rel a c) (step : σ → α → Except ε σ) (xs : List α)
    (hstep : ∀ s x s', x ∈ xs → step s x = .ok s' → Rel s s') (s s' : σ)
    (h : xs.foldlM step s = .ok s') : Rel s s' := by
  induction xs generalizing s with
  | nil =>
    simp only [List.foldlM_nil, pure, Except.pure, Except.ok.injEq] at h
    subst h
    exact hrefl s
  | cons x xs ih =>
    rw [List.foldlM_cons] at h
    cases h1 : step s x with
    | error e => rw [h1] at h; cases h
    | ok s1 =>
      rw [h1] at h
      exact htrans _ _ _ (hstep s x s1 (List.mem_cons_self _ _) h1)
        (ih (fun s x s' hx => hstep s x s' (List.mem_cons_of_mem _ hx)) s1 h)

theorem bcsFacetDof_grow (n : Int) (patchDofs : PetscHashI) (hpd : ValuesInRange n patchDofs)
    (lb lb' : PetscHashI) (j : Int) (h : bcsFacetDof patchDofs lb j = .ok lb') :
    KeysGrow n lb lb' := by
  unfold bcsFacetDof at h
  simp only at h
  split at h
  · cases h
  · rename_i hne
    simp only [Except.ok.injEq] at h
    subst h
    rcases map_eq_neg_one_or_mem patchDofs j with h1 | ⟨e, he, h2⟩
    · exact absurd h1 hne
    · rw [← h2]
      exact keysGrow_add n lb e.2 (hpd e he)

theorem bcsClosurePoint_grow (n : Int) (dofSection : PetscSection) (patchDofs : PetscHashI)
    (hpd : ValuesInRange n patchDofs) (f : Int) (lb lb' : PetscHashI) (ci : Nat)
    (h : bcsClosurePoint dofSection patchDofs f lb ci = .ok lb') : KeysGrow n lb lb' := by
  unfold bcsClosurePoint at h
  simp only at h
  split at h
  · exact foldlM_rel (KeysGrow n) (keysGrow_refl n) (keysGrow_trans n) _ _
      (fun s x s' _ hs => bcsFacetDof_grow n patchDofs hpd s s' x hs) lb lb' h
  · simp only [Except.ok.injEq] at h
    subst h
    exact keysGrow_refl n lb

theorem bcsFacet_grow (n : Int) (dm : DM) (dofSection : PetscSection) (facetsArray : Int → Int)
    (patchDofs : PetscHashI) (hpd : ValuesInRange n patchDofs) (lb lb' : PetscHashI) (i : Int)
    (h : bcsFacet dm dofSection facetsArray patchDofs lb i = .ok lb') : KeysGrow n lb lb' := by
  unfold bcsFacet at h
  exact foldlM_rel (KeysGrow n) (keysGrow_refl n) (keysGrow_trans n) _ _
    (fun s x s' _ hs => bcsClosurePoint_grow n dofSection patchDofs hpd _ s s' x hs) lb lb' h

theorem foldl_bcsGtolEntry_ok (n : Int) (globalBcs : PetscHashI) (gtolArray : Int → Int)
    (off : Int) (is : List Int) (his : ∀ i ∈ is, 0 ≤ i - off ∧ i - off < n)
    (st : PetscHashI × PetscHashI) (h1 : ValuesInRange n st.1) :
    ValuesInRange n (is.foldl (bcsGtolEntry globalBcs gtolArray off) st).1 ∧
    KeysGrow n st.2 (is.foldl (bcsGtolEntry globalBcs gtolArray off) st).2 ∧
    (∀ i ∈ is, PetscHashIHasKey globalBcs (gtolArray i) = true →
      i - off ∈ ((is.foldl (bcsGtolEntry globalBcs gtolArray off) st).2).map Prod.fst) := by
  induction is generalizing st with
  | nil => exact ⟨h1, keysGrow_refl n _, fun i hi => absurd hi (List.not_mem_nil i)⟩
  | cons i is ih =>
    rw [List.foldl_cons]
    have hi := his i (List.mem_cons_self _ _)
    have hv : ValuesInRange n (bcsGtolEntry globalBcs gtolArray off st i).1 := by
      unfold bcsGtolEntry
      simp only
      split <;> exact valuesInRange_add n _ _ _ h1 hi
    have hg : KeysGrow n st.2 (bcsGtolEntry globalBcs gtolArray off st i).2 := by
      unfold bcsGtolEntry
      simp only
      split
      · exact keysGrow_add n _ _ hi
      · exact keysGrow_refl n _
    obtain ⟨e1, e2, e3⟩ := ih (fun x hx => his x (List.mem_cons_of_mem _ hx)) _ hv
    refine ⟨e1, keysGrow_trans n _ _ _ hg e2, ?_⟩
    intro x hx hkey
    rcases List.mem_cons.mp hx with rfl | hx'
    · apply e2.2
      unfold bcsGtolEntry
      simp only [hkey, if_true]
      exact (mem_keys_add _ _ _ _).mpr (Or.inr rfl)
    · exact e3 x hx' hkey

/-- The table `localBcs` of a patch: its keys are distinct local dof indices
of the patch, among them every local index whose global id is a key of
`globalBcs`. -/
theorem bcsLocalTable_spec (dm : DM) (globalBcs : PetscHashI) (facetCounts : PetscSection)
    (facetsArray : Int → Int) (gtolCounts : PetscSection) (gtolArray : Int → Int)
    (dofSection : PetscSection) (v : Int) (lb : PetscHashI)
    (h : bcsLocalTable dm globalBcs facetCounts facetsArray gtolCounts gtolArray dofSection v
      = .ok lb) :
    KeysInRange (gtolCounts.atlasDof v) lb ∧
    (∀ l, 0 ≤ l → l < gtolCounts.atlasDof v →
      PetscHashIHasKey globalBcs (gtolArray (gtolCounts.atlasOff v + l)) = true →
      l ∈ lb.map Prod.fst) := by
  obtain ⟨t1, t2, t3⟩ := foldl_bcsGtolEntry_ok (gtolCounts.atlasDof v) globalBcs gtolArray
    (gtolCounts.atlasOff v)
    (loopRange (gtolCounts.atlasOff v) (gtolCounts.atlasOff v + gtolCounts.atlasDof v))
    (by intro i hi; obtain ⟨i1, i2⟩ := mem_loopRange.mp hi; omega)
    (PetscHashIClear, PetscHashIClear) (by intro e he; cases he)
  unfold bcsLocalTable at h
  simp only [PetscSectionGetDof, PetscSectionGetOffset] at h
  have hgrow := foldlM_rel (KeysGrow (gtolCounts.atlasDof v))
    (keysGrow_refl _) (keysGrow_trans _) _ _
    (fun s x s' _ hs => bcsFacet_grow (gtolCounts.atlasDof v) dm dofSection facetsArray
      (bcsPatchTables globalBcs gtolCounts gtolArray v).1 t1 s s' x hs) _ lb h
  have h0 : KeysInRange (gtolCounts.atlasDof v) PetscHashIClear :=
    ⟨List.nodup_nil, fun k hk => absurd hk (List.not_mem_nil k)⟩
  refine ⟨hgrow.1 (t2.1 h0), ?_⟩
  intro l l0 l1 hkey
  apply hgrow.2
  have := t3 (gtolCounts.atlasOff v + l) (mem_loopRange.mpr ⟨by omega, by omega⟩) hkey
  simpa using this

theorem writeList_writeList_same (a : IntArray) (s : Int) (l1 l2 : List Int)
    (h : l1.length = l2.length) :
    (a.writeList s l1).writeList s l2 = a.writeList s l2 := by
  funext k
  rw [writeList_apply, writeList_apply, writeList_apply, h]
  split <;> rfl

theorem read_back_writeList (a : IntArray) (s : Int) (l : List Int) :
    (loopRange 0 (l.length : Int)).map (fun k => (a.writeList s l).read (s + k)) = l := by
  apply List.ext_getElem?
  intro i
  rw [List.getElem?_map]
  by_cases hi : i < l.length
  · rw [getElem?_loopRange _ _ _ (by omega), Option.map_some']
    unfold IntArray.read
    rw [writeList_apply, if_pos (by omega)]
    have e : (s + (0 + (i : Int)) - s).toNat = i := by omega
    rw [e, List.getElem?_eq_getElem hi]
    rfl
  · have h1 : (loopRange 0 (l.length : Int))[i]? = none := by
      rw [List.getElem?_eq_none]
      rw [length_loopRange]; omega
    rw [h1, List.getElem?_eq_none (by omega)]
    rfl

theorem length_sort (l : List Int) : (PetscSortInt l).length = l.length :=
  List.length_insertionSort _ l

theorem sortSegment_writeList (a : IntArray) (s : Int) (l : List Int) :
    sortSegment (l.length : Int) s (a.writeList s l) = a.writeList s (PetscSortInt l) := by
  unfold sortSegment
  rw [read_back_writeList, writeList_writeList_same _ _ _ _ (length_sort l).symm]

theorem bcsVertex_spec (ord : IterOrder) (dm : DM) (globalBcs : PetscHashI)
    (facetCounts : PetscSection) (facetsArray : Int → Int) (gtolCounts : PetscSection)
    (gtolArray : Int → Int) (dofSection : PetscSection) (st st' : BcState) (v : Int)
    (h : bcsVertex ord dm globalBcs facetCounts facetsArray gtolCounts gtolArray dofSection st v
      = .ok st') :
    st'.bcIndex = st.bcIndex + (((patchBcList ord dm globalBcs facetCounts facetsArray
      gtolCounts gtolArray dofSection v).length : Nat) : Int) ∧
    st'.bcsArray = st.bcsArray.writeList st.bcIndex (patchBcList ord dm globalBcs facetCounts
      facetsArray gtolCounts gtolArray dofSection v) ∧
    (∀ w, st'.bcCounts.atlasDof w
      = if w = v then
          (fun v (_ : Int) => (((patchBcList ord dm globalBcs facetCounts facetsArray
            gtolCounts gtolArray dofSection v).length : Nat) : Int)) v (st.bcCounts.atlasDof w)
        else st.bcCounts.atlasDof w) ∧
    SameLayout st.bcCounts st'.bcCounts := by
  unfold bcsVertex at h
  cases hl : bcsLocalTable dm globalBcs facetCounts facetsArray gtolCounts gtolArray
      dofSection v with
  | error e => rw [hl] at h; cases h
  | ok lb =>
    rw [hl] at h
    simp only [Except.ok.injEq] at h
    subst h
    have hpl : patchBcList ord dm globalBcs facetCounts facetsArray gtolCounts gtolArray
        dofSection v = PetscSortInt ((ord.iter lb).map Prod.fst) := by
      unfold patchBcList
      rw [hl]
    have hlen : ((ord.iter lb).map Prod.fst).length = lb.length := by
      rw [List.length_map]; exact (ord.perm lb).length_eq
    rw [hpl]
    simp only [PetscHashIGetKeys, PetscHashISize, length_sort, hlen]
    refine ⟨trivial, ?_, ?_, ⟨rfl, rfl, rfl⟩⟩
    · have e : st.bcIndex + (lb.length : Int) - (lb.length : Int) = st.bcIndex := by omega
      rw [e, ← hlen, sortSegment_writeList]
    · intro w
      by_cases hw : w = v
      · simp [hw, PetscSectionSetDof, hpl, length_sort, hlen]
      · simp [hw, PetscSectionSetDof]

/-- The pieces of a successful run of `PCPatchCreateCellPatchBCs`. -/
theorem bcs_spec (ord : IterOrder) (dm : DM) (numBcs : Int) (bcNodes : Int → Int)
    (facetCounts : PetscSection) (facets : IS) (gtolCounts : PetscSection) (gtol : IS)
    (dofSection : PetscSection) (out : PetscSection × IS)
    (hok : PCPatchCreateCellPatchBCs ord dm numBcs bcNodes facetCounts facets gtolCounts gtol
      dofSection = .ok out) :
    out.1.pStart = facetCounts.pStart ∧ out.1.pEnd = facetCounts.pEnd ∧
    out.1.IsIndexedList ∧
    (∀ v, facetCounts.pStart ≤ v → v < facetCounts.pEnd →
      out.1.atlasDof v = (((patchBcList ord dm (bcsGlobalTable numBcs bcNodes) facetCounts
          (ISGetIndices facets) gtolCounts (ISGetIndices gtol) dofSection v).length : Nat) : Int) ∧
      out.2.idx.segment (out.1.atlasOff v) (out.1.atlasDof v)
        = (patchBcList ord dm (bcsGlobalTable numBcs bcNodes) facetCounts
          (ISGetIndices facets) gtolCounts (ISGetIndices gtol) dofSection v).map some ∧
      ∃ lb, bcsLocalTable dm (bcsGlobalTable numBcs bcNodes) facetCounts (ISGetIndices facets)
        gtolCounts (ISGetIndices gtol) dofSection v = .ok lb) ∧
    PetscSectionGetStorageSize out.1 = out.2.n := by
  unfold PCPatchCreateCellPatchBCs at hok
  simp only at hok
  cases hF : (loopRange facetCounts.pStart facetCounts.pEnd).foldlM
      (bcsVertex ord dm (bcsGlobalTable numBcs bcNodes) facetCounts (ISGetIndices facets)
        gtolCounts (ISGetIndices gtol) dofSection)
      { bcCounts := PetscSectionSetChart facetCounts.pStart facetCounts.pEnd
        totalNumBcs := PetscSectionGetStorageSize facetCounts
        bcIndex := 0
        bcsArray := PetscMalloc1 } with
  | error e => rw [hF] at hok; cases hok
  | ok st =>
    rw [hF] at hok
    simp only [Except.ok.injEq] at hok
    subst hok
    obtain ⟨r1, r2, r3, r4, r5, _⟩ := running_setup
      (bcsVertex ord dm (bcsGlobalTable numBcs bcNodes) facetCounts (ISGetIndices facets)
        gtolCounts (ISGetIndices gtol) dofSection)
      BcState.bcIndex BcState.bcsArray BcState.bcCounts
      (patchBcList ord dm (bcsGlobalTable numBcs bcNodes) facetCounts
          (ISGetIndices facets) gtolCounts (ISGetIndices gtol) dofSection)
      (fun v (_ : Int) => (((patchBcList ord dm (bcsGlobalTable numBcs bcNodes) facetCounts
          (ISGetIndices facets) gtolCounts (ISGetIndices gtol) dofSection v).length : Nat) : Int))
      facetCounts.pStart facetCounts.pEnd
      (fun s v s' _ hs => bcsVertex_spec ord dm _ facetCounts _ gtolCounts _ dofSection s s' v hs)
      (fun v => rfl) _ st rfl rfl rfl hF
    refine ⟨r1, r2, r3, ?_, r5⟩
    intro v h1 h2
    refine ⟨(r4 v h1 h2).1, (r4 v h1 h2).2, ?_⟩
    -- every vertex of the chart went through the loop body without error
    have hall : ∀ (vs : List Int) (s s' : BcState),
        vs.foldlM (bcsVertex ord dm (bcsGlobalTable numBcs bcNodes) facetCounts
          (ISGetIndices facets) gtolCounts (ISGetIndices gtol) dofSection) s = .ok s' →
        ∀ w ∈ vs, ∃ lb, bcsLocalTable dm (bcsGlobalTable numBcs bcNodes) facetCounts
          (ISGetIndices facets) gtolCounts (ISGetIndices gtol) dofSection w = .ok lb := by
      intro vs
      induction vs with
      | nil => intro _ _ _ w hw; cases hw
      | cons x xs ih =>
        intro s s' hs w hw
        rw [List.foldlM_cons] at hs
        cases hx : bcsVertex ord dm (bcsGlobalTable numBcs bcNodes) facetCounts
          (ISGetIndices facets) gtolCounts (ISGetIndices gtol) dofSection s x with
        | error e => rw [hx] at hs; cases hs
        | ok s1 =>
          rw [hx] at hs
          rcases List.mem_cons.mp hw with rfl | hw'
          · unfold bcsVertex at hx
            cases hl : bcsLocalTable dm (bcsGlobalTable numBcs bcNodes) facetCounts
              (ISGetIndices facets) gtolCounts (ISGetIndices gtol) dofSection w with
            | error e => rw [hl] at hx; cases hx
            | ok lb => exact ⟨lb, rfl⟩
          · exact ih s1 s' hs w hw'
    exact hall _ _ _ hF v (mem_loopRange.mpr ⟨h1, h2⟩)

theorem hasKey_globalTable (numBcs : Int) (bcNodes : Int → Int) (g : Int) :
    PetscHashIHasKey (bcsGlobalTable numBcs bcNodes) g = true
      ↔ ∃ i, 0 ≤ i ∧ i < numBcs ∧ bcNodes i = g := by
  unfold bcsGlobalTable
  rw [hasKey_iff, mem_keys_foldl_add bcNodes (fun _ => 0)]
  simp only [PetscHashIClear, List.map_nil, List.not_mem_nil, false_or, List.mem_map,
    mem_loopRange]
  constructor
  · rintro ⟨i, ⟨i1, i2⟩, rfl⟩; exact ⟨i, i1, i2, rfl⟩
  · rintro ⟨i, i1, i2, rfl⟩; exact ⟨i, ⟨i1, i2⟩, rfl⟩

/-- The list stored for a patch whose table `localBcs` was built without error. -/
theorem patchBcList_spec (ord : IterOrder) (dm : DM) (globalBcs : PetscHashI)
    (facetCounts : PetscSection) (facetsArray : Int → Int) (gtolCounts : PetscSection)
    (gtolArray : Int → Int) (dofSection : PetscSection) (v : Int) (lb : PetscHashI)
    (h : bcsLocalTable dm globalBcs facetCounts facetsArray gtolCounts gtolArray dofSection v
      = .ok lb) :
    (patchBcList ord dm globalBcs facetCounts facetsArray gtolCounts gtolArray
      dofSection v).Sorted (fun a b => a < b) ∧
    (∀ x, x ∈ patchBcList ord dm globalBcs facetCounts facetsArray gtolCounts gtolArray
      dofSection v ↔ x ∈ lb.map Prod.fst) := by
  obtain ⟨⟨hnd, _⟩, _⟩ := bcsLocalTable_spec dm globalBcs facetCounts facetsArray gtolCounts
    gtolArray dofSection v lb h
  have hpl : patchBcList ord dm globalBcs facetCounts facetsArray gtolCounts gtolArray
      dofSection v = PetscSortInt ((ord.iter lb).map Prod.fst) := by
    unfold patchBcList
    rw [h]
  have hperm : ((ord.iter lb).map Prod.fst).Perm (lb.map Prod.fst) := (ord.perm lb).map _
  rw [hpl]
  unfold PetscSortInt
  constructor
  · apply List.Sorted.lt_of_le (List.sorted_insertionSort _ _)
    exact ((List.perm_insertionSort _ _).nodup_iff).mpr (hperm.nodup_iff.mpr hnd)
  · intro x
    rw [List.mem_insertionSort, hperm.mem_iff]

/-! ### The Indexed List invariant -/

theorem indexedListInvariant_of (s : PetscSection) (n : Int) (h : s.IsIndexedList)
    (hn : PetscSectionGetStorageSize s = n) : IndexedListInvariant s n := by
  obtain ⟨hnn, hoff⟩ := h
  refine ⟨hnn, ?_, (storageSize_eq_sum s hnn).symm, hn⟩
  intro p p1 p2
  rw [hoff p p1 (by omega), hoff (p + 1) (by omega) p2, loopRange_succ p1, List.map_append,
    List.sum_append]
  simp

theorem cellPatches_indexedList (dm : DM) : (PCPatchCreateCellPatches dm).1.IsIndexedList := by
  obtain ⟨e1, e2, hd, ho⟩ := cellPatches_counts dm
  constructor
  · intro p p1 p2
    rw [hd p (e1 ▸ p1) (e2 ▸ p2)]
    exact Int.natCast_nonneg _
  · intro p p1 p2
    rw [ho p (e1 ▸ p1) (e2 ▸ p2), e1]
    apply sum_map_congr
    intro q hq
    obtain ⟨q1, q2⟩ := mem_loopRange.mp hq
    exact (hd q q1 (by rw [e2] at p2; omega)).symm

theorem exists_of_isOk {ε α : Type} (r : Except ε α) (h : isOk r = true) : ∃ o, r = .ok o := by
  cases r with
  | error e => cases h
  | ok o => exact ⟨o, rfl⟩

/-! ### Loops that cannot fail -/

/-- A loop whose steps each use up a known part of a budget succeeds when the
budget is large enough. -/
theorem foldlM_budget {σ α ε : Type} (step : σ → α → Except ε σ) (g : σ → Int) (w : α → Nat)
    (B : Int) (xs : List α)
    (hstep : ∀ s x, x ∈ xs → (w x = 0 ∨ g s + (w x : Int) ≤ B) →
      ∃ s', step s x = .ok s' ∧ g s' = g s + (w x : Int))
    (s : σ) (h : (xs.map w).sum = 0 ∨ g s + (((xs.map w).sum : Nat) : Int) ≤ B) :
    ∃ s', xs.foldlM step s = .ok s' ∧ g s' = g s + (((xs.map w).sum : Nat) : Int) := by
  induction xs generalizing s with
  | nil => exact ⟨s, rfl, by simp⟩
  | cons x xs ih =>
    simp only [List.map_cons, List.sum_cons] at h ⊢
    obtain ⟨s1, h1, g1⟩ := hstep s x (List.mem_cons_self _ _) (by omega)
    obtain ⟨s2, h2, g2⟩ := ih (fun s y hy hc => hstep s y (List.mem_cons_of_mem _ hy) hc) s1
      (by omega)
    refine ⟨s2, ?_, ?_⟩
    · rw [List.foldlM_cons, h1]; exact h2
    · rw [g2, g1]; push_cast; ring

/-- A loop that ends without error has run each of its steps without error. -/
theorem foldlM_ok_step {σ α ε : Type} (step : σ → α → Except ε σ) (xs : List α) (s s' : σ)
    (h : xs.foldlM step s = .ok s') (x : α) (hx : x ∈ xs) :
    ∃ s1 s2, step s1 x = .ok s2 := by
  induction xs generalizing s with
  | nil => cases hx
  | cons y ys ih =>
    rw [List.foldlM_cons] at h
    cases h1 : step s y with
    | error e => rw [h1] at h; cases h
    | ok s1 =>
      rw [h1] at h
      rcases List.mem_cons.mp hx with rfl | hx'
      · exact ⟨s, s1, h1⟩
      · exact ih s1 h hx'

/-- The error of a loop is the error of one of its steps. -/
theorem foldlM_error_step {σ α ε : Type} (step : σ → α → Except ε σ) (xs : List α) (s : σ)
    (e : ε) (h : xs.foldlM step s = .error e) : ∃ s1 x, x ∈ xs ∧ step s1 x = .error e := by
  induction xs generalizing s with
  | nil => cases h
  | cons y ys ih =>
    rw [List.foldlM_cons] at h
    cases h1 : step s y with
    | error e1 =>
      rw [h1] at h
      have : e1 = e := by cases h; rfl
      exact ⟨s, y, List.mem_cons_self _ _, this ▸ h1⟩
    | ok s1 =>
      rw [h1] at h
      obtain ⟨s2, x, hx, hs⟩ := ih s1 h
      exact ⟨s2, x, List.mem_cons_of_mem _ hx, hs⟩

/-! ### When the dof map builder fails -/

theorem dofsSlot_ok (dofsPerCell numDofs : Int) (cellNodeMap : Int → Int) (cell : Int)
    (st : DofState) (j : Int) (h : st.globalIndex + 1 ≤ numDofs) :
    ∃ st', dofsSlot dofsPerCell numDofs cellNodeMap cell st j = .ok st' ∧
      st'.globalIndex = st.globalIndex + 1 := by
  unfold dofsSlot
  simp only
  rw [if_neg (by omega)]
  exact ⟨_, rfl, rfl⟩

theorem sum_map_const_nat {α : Type} (l : List α) (m : Nat) :
    (l.map (fun _ => m)).sum = l.length * m := by
  induction l with
  | nil => simp
  | cons x xs ih => simp only [List.map_cons, List.sum_cons, ih, List.length_cons]; ring

theorem dofsCell_ok (cellNumbering : PetscSection) (dofsPerCell numDofs : Int)
    (cellNodeMap : Int → Int) (cellsArray : Int → Int) (st : DofState) (i : Int)
    (hnum : 0 < PetscSectionGetDof cellNumbering (cellsArray i))
    (h : (loopRange 0 dofsPerCell).length = 0 ∨
      st.globalIndex + (((loopRange 0 dofsPerCell).length : Nat) : Int) ≤ numDofs) :
    ∃ st', dofsCell cellNumbering dofsPerCell numDofs cellNodeMap cellsArray st i = .ok st' ∧
      st'.globalIndex = st.globalIndex + (((loopRange 0 dofsPerCell).length : Nat) : Int) := by
  unfold dofsCell
  simp only
  rw [if_neg (by omega)]
  have := foldlM_budget
    (dofsSlot dofsPerCell numDofs cellNodeMap (PetscSectionGetOffset cellNumbering (cellsArray i)))
    DofState.globalIndex (fun _ => 1) numDofs (loopRange 0 dofsPerCell)
    (fun s x _ hc => by
      have := dofsSlot_ok dofsPerCell numDofs cellNodeMap
        (PetscSectionGetOffset cellNumbering (cellsArray i)) s x (by simpa using hc)
      simpa using this)
    { st with
      newCellsArray :=
        (st.newCellsArray.write i (PetscSectionGetOffset cellNumbering (cellsArray i))) }
    (by rw [sum_map_const_nat]; simpa using h)
  rw [sum_map_const_nat] at this
  simpa using this

theorem dofsVertex_ok (cellCounts cellNumbering : PetscSection) (dofsPerCell numDofs : Int)
    (cellNodeMap : Int → Int) (cellsArray : Int → Int) (st : DofState) (v : Int)
    (hnum : ∀ i, cellCounts.atlasOff v ≤ i → i < cellCounts.atlasOff v + cellCounts.atlasDof v →
      0 < PetscSectionGetDof cellNumbering (cellsArray i))
    (h : (cellCounts.atlasDof v).toNat * (loopRange 0 dofsPerCell).length = 0 ∨
      st.globalIndex + (((cellCounts.atlasDof v).toNat * (loopRange 0 dofsPerCell).length : Nat)
        : Int) ≤ numDofs) :
    ∃ st', dofsVertex cellCounts cellNumbering dofsPerCell numDofs cellNodeMap cellsArray st v
        = .ok st' ∧
      st'.globalIndex = st.globalIndex
        + (((cellCounts.atlasDof v).toNat * (loopRange 0 dofsPerCell).length : Nat) : Int) := by
  unfold dofsVertex
  simp only [PetscSectionGetDof, PetscSectionGetOffset]
  have hlen : (loopRange (cellCounts.atlasOff v)
      (cellCounts.atlasOff v + cellCounts.atlasDof v)).length = (cellCounts.atlasDof v).toNat := by
    rw [length_loopRange]; congr 1; omega
  obtain ⟨st1, h1, g1⟩ := foldlM_budget
    (dofsCell cellNumbering dofsPerCell numDofs cellNodeMap cellsArray)
    DofState.globalIndex (fun _ => (loopRange 0 dofsPerCell).length) numDofs
    (loopRange (cellCounts.atlasOff v) (cellCounts.atlasOff v + cellCounts.atlasDof v))
    (fun s x hx hc => dofsCell_ok cellNumbering dofsPerCell numDofs cellNodeMap cellsArray s x
      (hnum x (mem_loopRange.mp hx).1 (mem_loopRange.mp hx).2) hc)
    { st with localIndex := 0, ht := PetscHashIClear }
    (by rw [sum_map_const_nat, hlen]; exact h)
  rw [sum_map_const_nat, hlen] at g1
  rw [h1]
  exact ⟨_, rfl, g1⟩

/-- Every error raised by the first pass carries the out-of-range code. -/
theorem dofsVertex_error (cellCounts cellNumbering : PetscSection) (dofsPerCell numDofs : Int)
    (cellNodeMap : Int → Int) (cellsArray : Int → Int) (st : DofState) (v : Int)
    (e : PetscErrorCode)
    (h : dofsVertex cellCounts cellNumbering dofsPerCell numDofs cellNodeMap cellsArray st v
      = .error e) : e = .PETSC_ERR_ARG_OUTOFRANGE := by
  unfold dofsVertex at h
  simp only at h
  split at h
  · rename_i e1 h1
    have he : e1 = e := by cases h; rfl
    subst he
    obtain ⟨s1, i, _, hi⟩ := foldlM_error_step _ _ _ _ h1
    unfold dofsCell at hi
    simp only at hi
    split at hi
    · cases hi; rfl
    · obtain ⟨s2, j, _, hj⟩ := foldlM_error_step _ _ _ _ hi
      unfold dofsSlot at hj
      simp only at hj
      split at hj
      · cases hj; rfl
      · cases hj
  · cases h

/-- A patch cell met by a successful first pass has an entry in the cell numbering. -/
theorem dofsVertex_numbered (cellCounts cellNumbering : PetscSection) (dofsPerCell numDofs : Int)
    (cellNodeMap : Int → Int) (cellsArray : Int → Int) (st st' : DofState) (v : Int)
    (h : dofsVertex cellCounts cellNumbering dofsPerCell numDofs cellNodeMap cellsArray st v
      = .ok st') (i : Int) (h1 : cellCounts.atlasOff v ≤ i)
    (h2 : i < cellCounts.atlasOff v + cellCounts.atlasDof v) :
    0 < PetscSectionGetDof cellNumbering (cellsArray i) := by
  unfold dofsVertex at h
  simp only [PetscSectionGetDof, PetscSectionGetOffset] at h
  split at h
  · cases h
  · rename_i st1 hst1
    obtain ⟨s1, s2, hs⟩ := foldlM_ok_step _ _ _ _ hst1 i (mem_loopRange.mpr ⟨h1, h2⟩)
    unfold dofsCell at hs
    simp only at hs
    split at hs
    · cases hs
    · rename_i hn
      simp only [PetscSectionGetDof] at hn ⊢
      omega

theorem cast_sum_mul (l : List Int) (f : Int → Int) (m : Nat) (h : ∀ x ∈ l, 0 ≤ f x) :
    (((l.map (fun x => (f x).toNat * m)).sum : Nat) : Int) = (l.map f).sum * (m : Int) := by
  induction l with
  | nil => simp
  | cons x xs ih =>
    simp only [List.map_cons, List.sum_cons, Nat.cast_add, Nat.cast_mul]
    rw [ih (fun y hy => h y (List.mem_cons_of_mem _ hy)),
      Int.toNat_of_nonneg (h x (List.mem_cons_self _ _))]
    ring

theorem sum_eq_zero_of_forall (l : List Int) (f : Int → Nat) (h : ∀ x ∈ l, f x = 0) :
    (l.map f).sum = 0 := by
  induction l with
  | nil => rfl
  | cons x xs ih =>
    simp only [List.map_cons, List.sum_cons, h x (List.mem_cons_self _ _),
      ih (fun y hy => h y (List.mem_cons_of_mem _ hy))]

/-- The first pass of the dof map builder ends without error when the cell
counts form an Indexed List and every patch cell has an entry in the cell
numbering. -/
theorem pass1_ok (cellCounts : PetscSection) (cells : IS) (cellNumbering : PetscSection)
    (dofsPerCell : Int) (cellNodeMap : Int → Int) (st0 : DofState) (h0 : st0.globalIndex = 0)
    (hcc : cellCounts.IsIndexedList)
    (hnum : ∀ v i, cellCounts.pStart ≤ v → v < cellCounts.pEnd → cellCounts.atlasOff v ≤ i →
      i < cellCounts.atlasOff v + cellCounts.atlasDof v →
      0 < PetscSectionGetDof cellNumbering (ISGetIndices cells i)) :
    ∃ st, (loopRange cellCounts.pStart cellCounts.pEnd).foldlM
        (dofsVertex cellCounts cellNumbering dofsPerCell
          (PetscSectionGetStorageSize cellCounts * dofsPerCell) cellNodeMap (ISGetIndices cells))
        st0 = .ok st := by
  obtain ⟨st, hst, _⟩ := foldlM_budget
    (dofsVertex cellCounts cellNumbering dofsPerCell
      (PetscSectionGetStorageSize cellCounts * dofsPerCell) cellNodeMap (ISGetIndices cells))
    DofState.globalIndex
    (fun v => (cellCounts.atlasDof v).toNat * (loopRange 0 dofsPerCell).length)
    (PetscSectionGetStorageSize cellCounts * dofsPerCell)
    (loopRange cellCounts.pStart cellCounts.pEnd)
    (fun s v hv hc => dofsVertex_ok cellCounts cellNumbering dofsPerCell _ cellNodeMap
      (ISGetIndices cells) s v
      (fun i i1 i2 => hnum v i (mem_loopRange.mp hv).1 (mem_loopRange.mp hv).2 i1 i2) hc)
    st0
    (by
      rw [h0]
      by_cases hd : dofsPerCell ≤ 0
      · left
        apply sum_eq_zero_of_forall
        intro x _
        rw [loopRange_empty hd]
        simp
      · right
        rw [cast_sum_mul _ _ _ (fun x hx =>
          hcc.1 x (mem_loopRange.mp hx).1 (mem_loopRange.mp hx).2),
          storageSize_eq_sum _ hcc.1, length_loopRange]
        have : (((dofsPerCell - 0).toNat : Nat) : Int) = dofsPerCell := by omega
        rw [this]
        omega)
  exact ⟨st, hst⟩

/-! ### Sequencing and loops of routines that may invoke the callback -/

theorem Outcome.bind_result_ok {α β : Type} (o : Outcome α) (f : α → Outcome β) (b : β) :
    (o.bind f).result = .ok b ↔ ∃ a, o.result = .ok a ∧ (f a).result = .ok b := by
  unfold Outcome.bind
  cases h : o.result with
  | error e => simp
  | ok a => simp

theorem Outcome.bind_of_error {α β : Type} (o : Outcome α) (f : α → Outcome β)
    (e : PetscErrorCode) (h : o.result = .error e) : o.bind f = ⟨o.calls, .error e⟩ := by
  unfold Outcome.bind
  rw [h]

theorem Outcome.bind_of_ok {α β : Type} (o : Outcome α) (f : α → Outcome β) (a : α)
    (h : o.result = .ok a) : o.bind f = ⟨o.calls ++ (f a).calls, (f a).result⟩ := by
  unfold Outcome.bind
  rw [h]

theorem Outcome.bind_result_isOk {α β : Type} (o : Outcome α) (f : α → Outcome β) :
    (∃ b, (o.bind f).result = .ok b) ↔ ∃ a, o.result = .ok a ∧ ∃ b, (f a).result = .ok b := by
  constructor
  · rintro ⟨b, hb⟩
    obtain ⟨a, h1, h2⟩ := (Outcome.bind_result_ok o f b).mp hb
    exact ⟨a, h1, b, h2⟩
  · rintro ⟨a, h1, b, h2⟩
    exact ⟨b, (Outcome.bind_result_ok o f b).mpr ⟨a, h1, h2⟩⟩

/-- A loop ends without error exactly when each of its steps does, for steps
whose success is settled by an invariant of the loop. -/
theorem Outcome.loop_ok_iff {σ : Type} (body : σ → Int → Outcome σ) (P : Int → Prop)
    (Inv : List Int → σ → Prop)
    (hstep : ∀ i is s, Inv (i :: is) s →
      ((∃ s', (body s i).result = .ok s') ↔ P i) ∧
      (∀ s', (body s i).result = .ok s' → Inv is s'))
    (l : List Int) (s : σ) (h : Inv l s) :
    (∃ s', (Outcome.loop body l s).result = .ok s') ↔ ∀ i ∈ l, P i := by
  induction l generalizing s with
  | nil => simp [Outcome.loop, Outcome.ok]
  | cons i is ih =>
    obtain ⟨h1, h2⟩ := hstep i is s h
    rw [Outcome.loop, Outcome.bind_result_isOk]
    constructor
    · rintro ⟨s1, hs1, hrest⟩ j hj
      rcases List.mem_cons.mp hj with rfl | hj'
      · exact h1.mp ⟨s1, hs1⟩
      · exact (ih s1 (h2 s1 hs1)).mp hrest j hj'
    · intro hall
      obtain ⟨s1, hs1⟩ := h1.mpr (hall i (List.mem_cons_self _ _))
      exact ⟨s1, hs1, (ih s1 (h2 s1 hs1)).mpr
        (fun j hj => hall j (List.mem_cons_of_mem _ hj))⟩

/-- An invariant of a loop holds when the loop has ended without error. -/
theorem Outcome.loop_ok_inv {σ : Type} (body : σ → Int → Outcome σ)
    (Inv : List Int → σ → Prop)
    (hstep : ∀ i is s s', Inv (i :: is) s → (body s i).result = .ok s' → Inv is s')
    (l : List Int) (s s' : σ) (h : Inv l s) (hok : (Outcome.loop body l s).result = .ok s') :
    Inv [] s' := by
  induction l generalizing s with
  | nil =>
    simp only [Outcome.loop, Outcome.ok, Except.ok.injEq] at hok
    subst hok
    exact h
  | cons i is ih =>
    rw [Outcome.loop, Outcome.bind_result_ok] at hok
    obtain ⟨s1, hs1, hrest⟩ := hok
    exact ih s1 (hstep i is s s1 h hs1) hrest

/-- The error of a loop is the error of one of its steps. -/
theorem Outcome.loop_error {σ : Type} (body : σ → Int → Outcome σ) (l : List Int) (s : σ)
    (e : PetscErrorCode) (h : (Outcome.loop body l s).result = .error e) :
    ∃ s1 i, i ∈ l ∧ (body s1 i).result = .error e := by
  induction l generalizing s with
  | nil => simp [Outcome.loop, Outcome.ok] at h
  | cons i is ih =>
    rw [Outcome.loop] at h
    cases h1 : (body s i).result with
    | error e1 =>
      rw [Outcome.bind_of_error _ _ e1 h1] at h
      simp only [Except.error.injEq] at h
      subst h
      exact ⟨s, i, List.mem_cons_self _ _, h1⟩
    | ok s1 =>
      rw [Outcome.bind_of_ok _ _ s1 h1] at h
      obtain ⟨s2, j, hj, hs⟩ := ih s1 h
      exact ⟨s2, j, List.mem_cons_of_mem _ hj, hs⟩

/-! ### Broadcast and reduce -/

/-- Units of `bs` scalars do not overlap. -/
theorem unit_disjoint {bs i j k : Int} (hbs : 0 < bs) (h1 : i * bs ≤ k) (h2 : k < i * bs + bs)
    (h3 : j * bs ≤ k) (h4 : k < j * bs + bs) : i = j := by
  have a1 : i * bs < (j + 1) * bs := by
    have : (j + 1) * bs = j * bs + bs := by ring
    omega
  have a2 : j * bs < (i + 1) * bs := by
    have : (i + 1) * bs = i * bs + bs := by ring
    omega
  have b1 := Int.lt_of_mul_lt_mul_right a1 (le_of_lt hbs)
  have b2 := Int.lt_of_mul_lt_mul_right a2 (le_of_lt hbs)
  omega

theorem bcastUnit_other {R : Type} (sf : PetscSF) (bs : Int) (rootdata leafdata : Int → R)
    (i j k : Int) (hbs : 0 < bs) (h1 : i * bs ≤ k) (h2 : k < i * bs + bs) (hij : j ≠ i) :
    bcastUnit sf bs rootdata leafdata j k = leafdata k := by
  unfold bcastUnit
  cases sf.iremote j with
  | none => rfl
  | some r =>
    simp only
    rw [if_neg]
    rintro ⟨h3, h4⟩
    exact hij (unit_disjoint hbs h3 h4 h1 h2)

theorem foldl_bcastUnit_frame {R : Type} (sf : PetscSF) (bs : Int) (rootdata : Int → R)
    (l : List Int) (leafdata : Int → R) (i k : Int) (hbs : 0 < bs) (h1 : i * bs ≤ k)
    (h2 : k < i * bs + bs) (hi : i ∉ l) :
    l.foldl (bcastUnit sf bs rootdata) leafdata k = leafdata k := by
  induction l generalizing leafdata with
  | nil => rfl
  | cons j js ih =>
    rw [List.foldl_cons, ih _ (fun h => hi (List.mem_cons_of_mem _ h))]
    exact bcastUnit_other sf bs rootdata leafdata i j k hbs h1 h2
      (fun h => hi (h ▸ List.mem_cons_self _ _))

theorem foldl_bcastUnit {R : Type} (sf : PetscSF) (bs : Int) (rootdata : Int → R)
    (l : List Int) (hl : l.Nodup) (leafdata : Int → R) (i c : Int) (r : PetscSFNode)
    (hbs : 0 < bs) (hc1 : 0 ≤ c) (hc2 : c < bs) (hi : i ∈ l) (hr : sf.iremote i = some r) :
    l.foldl (bcastUnit sf bs rootdata) leafdata (i * bs + c) = rootdata (r.index * bs + c) := by
  induction l generalizing leafdata with
  | nil => cases hi
  | cons j js ih =>
    rw [List.foldl_cons]
    obtain ⟨hj, hjs⟩ := List.nodup_cons.mp hl
    by_cases hij : i = j
    · subst hij
      rw [foldl_bcastUnit_frame sf bs rootdata js _ i _ hbs (by omega) (by omega) hj]
      unfold bcastUnit
      rw [hr]
      simp only
      rw [if_pos (by omega)]
      congr 1
      omega
    · rcases List.mem_cons.mp hi with h | h
      · exact absurd h hij
      · exact ih hjs _ h

/-- What the broadcast stores in the unit of a leaf. -/
theorem bcast_apply {R : Type} (sf : PetscSF) (bs : Int) (rootdata leafdata : Int → R)
    (i c : Int) (r : PetscSFNode) (hi1 : 0 ≤ i) (hi2 : i < sf.nleaves) (hc1 : 0 ≤ c)
    (hc2 : c < bs) (hr : sf.iremote i = some r) :
    PetscSFBcast sf bs rootdata leafdata (i * bs + c) = rootdata (r.index * bs + c) :=
  foldl_bcastUnit sf bs rootdata _ (loopRange_nodup _ _) leafdata i c r (by omega) hc1 hc2
    (mem_loopRange.mpr ⟨hi1, hi2⟩) hr

theorem foldl_reduceUnit {R : Type} [AddMonoid R] (sf : PetscSF) (bs : Int) (leafdata : Int → R)
    (l : List Int) (rootdata : Int → R) (g c : Int) (hbs : 0 < bs) (hc1 : 0 ≤ c)
    (hc2 : c < bs) :
    l.foldl (reduceUnit sf bs leafdata) rootdata (g * bs + c)
      = rootdata (g * bs + c)
        + ((l.filter (attachedTo sf g)).map (fun i => leafdata (i * bs + c))).sum := by
  induction l generalizing rootdata with
  | nil => simp
  | cons j js ih =>
    rw [List.foldl_cons, ih]
    unfold reduceUnit attachedTo
    cases hr : sf.iremote j with
    | none => simp [List.filter_cons, hr]
    | some r =>
      simp only [List.filter_cons, hr]
      by_cases hg : r.index = g
      · subst hg
        rw [if_pos (by omega)]
        simp only [decide_True, if_true, List.map_cons, List.sum_cons]
        have : j * bs + (r.index * bs + c - r.index * bs) = j * bs + c := by omega
        rw [this, add_assoc]
      · rw [if_neg]
        · simp [hg]
        · rintro ⟨h3, h4⟩
          exact hg (unit_disjoint hbs h3 h4 (by omega) (by omega))

/-- What the reduce with `MPI_SUM` leaves in the unit of a root. -/
theorem reduce_apply {R : Type} [AddMonoid R] (sf : PetscSF) (bs : Int)
    (leafdata rootdata : Int → R) (g c : Int) (hc1 : 0 ≤ c) (hc2 : c < bs) :
    PetscSFReduce sf bs leafdata rootdata (g * bs + c)
      = rootdata (g * bs + c)
        + (((loopRange 0 sf.nleaves).filter (attachedTo sf g)).map
            (fun i => leafdata (i * bs + c))).sum :=
  foldl_reduceUnit sf bs leafdata _ rootdata g c (by omega) hc1 hc2

/-! ### The plan built by `PCPatchCreateGlobalToLocalSF` -/

theorem foldl_update {β : Type} (f : Int → β) (l : List Int) (init : Int → Option β) (k : Int) :
    l.foldl (fun (a : Int → Option β) i => fun k => if k = i then some (f i) else a k) init k
      = if k ∈ l then some (f k) else init k := by
  induction l generalizing init with
  | nil => simp
  | cons j js ih =>
    rw [List.foldl_cons, ih]
    by_cases h1 : k ∈ js
    · simp [h1]
    · by_cases h2 : k = j
      · subst h2; simp [h1]
      · simp [h1, h2]

theorem localSF_nleaves (gtolSF : PetscSF) (gtolCounts : PetscSection) (gtol : IS) :
    (PCPatchCreateLocalSF gtolSF gtolCounts gtol).nleaves
      = PetscSectionGetStorageSize gtolCounts := rfl

theorem localSF_iremote (gtolSF : PetscSF) (gtolCounts : PetscSection) (gtol : IS) (i : Int) :
    (PCPatchCreateLocalSF gtolSF gtolCounts gtol).iremote i
      = if 0 ≤ i ∧ i < PetscSectionGetStorageSize gtolCounts then
          some ⟨0, ISGetIndices gtol i⟩ else none := by
  unfold PCPatchCreateLocalSF PetscSFSetGraph
  simp only
  rw [foldl_update (fun i => (⟨0, ISGetIndices gtol i⟩ : PetscSFNode))]
  simp only [mem_loopRange]

theorem globalToLocal_nleaves (gtolSF : PetscSF) (gtolCounts : PetscSection) (gtol : IS) :
    (PCPatchCreateGlobalToLocalSF gtolSF gtolCounts gtol).nleaves
      = PetscSectionGetStorageSize gtolCounts := rfl

/-- The roots of the composed plan when the default plan is the identity on
the dofs of `gtol`. -/
theorem globalToLocal_iremote (gtolSF : PetscSF) (gtolCounts : PetscSection) (gtol : IS)
    (hid : ∀ i, 0 ≤ i → i < PetscSectionGetStorageSize gtolCounts →
      gtolSF.iremote (ISGetIndices gtol i) = some ⟨0, ISGetIndices gtol i⟩)
    (i : Int) (h1 : 0 ≤ i) (h2 : i < PetscSectionGetStorageSize gtolCounts) :
    (PCPatchCreateGlobalToLocalSF gtolSF gtolCounts gtol).iremote i
      = some ⟨0, ISGetIndices gtol i⟩ := by
  unfold PCPatchCreateGlobalToLocalSF PetscSFCompose
  simp only
  rw [localSF_iremote, if_pos ⟨h1, h2⟩]
  exact hid i h1 h2

theorem filter_attachedTo (gtolSF : PetscSF) (gtolCounts : PetscSection) (gtol : IS)
    (hid : ∀ i, 0 ≤ i → i < PetscSectionGetStorageSize gtolCounts →
      gtolSF.iremote (ISGetIndices gtol i) = some ⟨0, ISGetIndices gtol i⟩) (g : Int) :
    (loopRange 0 (PetscSectionGetStorageSize gtolCounts)).filter
        (attachedTo (PCPatchCreateGlobalToLocalSF gtolSF gtolCounts gtol) g)
      = (loopRange 0 (PetscSectionGetStorageSize gtolCounts)).filter
        (fun i => decide (ISGetIndices gtol i = g)) := by
  apply List.filter_congr
  intro i hi
  obtain ⟨h1, h2⟩ := mem_loopRange.mp hi
  unfold attachedTo
  rw [globalToLocal_iremote gtolSF gtolCounts gtol hid i h1 h2]

/-- Every slot below the storage size of an Indexed List lies in the segment
of one point of the chart. -/
theorem slot_of_index (s : PetscSection) (hs : s.IsIndexedList) (i : Int) (h1 : 0 ≤ i)
    (h2 : i < PetscSectionGetStorageSize s) :
    ∃ v, s.pStart ≤ v ∧ v < s.pEnd ∧ PetscSectionGetOffset s v ≤ i ∧
      i < PetscSectionGetOffset s v + PetscSectionGetDof s v := by
  rw [storageSize_eq_sum s hs.1] at h2
  have key : ∀ n : Nat, s.pStart + n ≤ s.pEnd →
      i < ((loopRange s.pStart (s.pStart + n)).map s.atlasDof).sum →
      ∃ v, s.pStart ≤ v ∧ v < s.pStart + n ∧ s.atlasOff v ≤ i ∧ i < s.atlasOff v + s.atlasDof v := by
    intro n
    induction n with
    | zero =>
      intro _ h
      rw [loopRange_empty (by omega)] at h
      simp at h
      omega
    | succ m ih =>
      intro hm h
      have e : s.pStart + ((m + 1 : Nat) : Int) = (s.pStart + m) + 1 := by push_cast; ring
      rw [e, loopRange_succ (by omega), List.map_append, List.sum_append] at h
      simp only [List.map_cons, List.map_nil, List.sum_cons, List.sum_nil, add_zero] at h
      by_cases hlt : i < ((loopRange s.pStart (s.pStart + m)).map s.atlasDof).sum
      · obtain ⟨v, v1, v2, v3, v4⟩ := ih (by omega) hlt
        exact ⟨v, v1, by omega, v3, v4⟩
      · refine ⟨s.pStart + m, by omega, by omega, ?_, ?_⟩
        · rw [hs.2 _ (by omega) (by omega)]; omega
        · rw [hs.2 _ (by omega) (by omega)]; omega
  by_cases hch : s.pStart ≤ s.pEnd
  · obtain ⟨n, hn⟩ : ∃ n : Nat, s.pEnd = s.pStart + n :=
      ⟨(s.pEnd - s.pStart).toNat, by omega⟩
    rw [hn] at h2
    obtain ⟨v, v1, v2, v3, v4⟩ := key n (by omega) h2
    exact ⟨v, v1, by omega, v3, v4⟩
  · rw [loopRange_empty (by omega)] at h2
    simp at h2
    omega

/-- The slots of the segment of a point lie below the storage size. -/
theorem index_of_slot (s : PetscSection) (hs : s.IsIndexedList) (v l : Int) (v1 : s.pStart ≤ v)
    (v2 : v < s.pEnd) (l1 : 0 ≤ l) (l2 : l < PetscSectionGetDof s v) :
    0 ≤ PetscSectionGetOffset s v + l ∧
      PetscSectionGetOffset s v + l < PetscSectionGetStorageSize s := by
  rw [storageSize_eq_sum s hs.1]
  simp only [PetscSectionGetOffset, PetscSectionGetDof] at *
  rw [hs.2 v v1 v2, loopRange_split v1 v2]
  simp only [List.map_append, List.map_cons, List.sum_append, List.sum_cons]
  have a1 : 0 ≤ ((loopRange s.pStart v).map s.atlasDof).sum :=
    sum_nonneg_of_forall (fun x hx => hs.1 x (mem_loopRange.mp hx).1 (by
      have := (mem_loopRange.mp hx).2; omega))
  have a2 : 0 ≤ ((loopRange (v + 1) s.pEnd).map s.atlasDof).sum :=
    sum_nonneg_of_forall (fun x hx => hs.1 x (by
      have := (mem_loopRange.mp hx).1; omega) (mem_loopRange.mp hx).2)
  omega

/-! ### `PCPatchComputeOperator` -/

theorem computeOperator_none {R : Type} (pc : PC R) (mat : Mat R) (which : Int)
    (h : pc.usercomputeop = none) :
    PCPatchComputeOperator pc mat which = Outcome.error .PETSC_ERR_ARG_WRONGSTATE := by
  unfold PCPatchComputeOperator
  rw [h]

theorem computeOperator_empty {R : Type} (pc : PC R) (mat : Mat R) (which : Int)
    (f : ComputeOperator R) (h : pc.usercomputeop = some f)
    (hn : PetscSectionGetDof pc.cellCounts (which + pc.cellCounts.pStart) ≤ 0) :
    PCPatchComputeOperator pc mat which = Outcome.error .PETSC_ERR_ARG_OUTOFRANGE := by
  unfold PCPatchComputeOperator
  rw [h]
  simp only
  split
  · rfl
  · rfl

theorem createMatrix_some {R : Type} [Zero R] (px py : PatchVec) :
    (PCPatchCreateMatrix (some px) (some py) : Except PetscErrorCode (Mat R))
      = .ok (patchMatrix px py) := rfl

/-! ### The loop over the patches in `PCApply_PATCH` -/

theorem applyPatch_ok_iff {R : Type} [Zero R] (pc : PC R) (localX : Int → R)
    (st : ApplyState R) (i : Int) :
    (∃ st', (applyPatch pc localX st i).result = .ok st') ↔ PatchApplies pc i := by
  unfold applyPatch PatchApplies
  simp only
  by_cases hlen : PetscSectionGetDof pc.localToPatch (i + pc.localToPatch.pStart) ≤ 0
  · rw [if_pos hlen]
    simp only [Outcome.error]
    constructor
    · rintro ⟨_, h⟩; cases h
    · rintro ⟨h, _⟩; omega
  · rw [if_neg hlen]
    cases hx : pc.patchX i with
    | none =>
      simp only [Outcome.error]
      constructor
      · rintro ⟨_, h⟩; cases h
      · rintro ⟨_, px, py, h, _⟩; cases h
    | some px =>
      cases hy : pc.patchY i with
      | none =>
        simp only [Outcome.error]
        constructor
        · rintro ⟨_, h⟩; cases h
        · rintro ⟨_, px, py, _, h, _⟩; cases h
      | some py =>
        simp only
        rw [Outcome.bind_result_isOk]
        by_cases hs : pc.save_operators = true
        · rw [if_pos hs]
          constructor
          · intro _
            exact ⟨by omega, px, py, rfl, rfl, Or.inl hs⟩
          · intro _
            exact ⟨_, rfl, _, rfl⟩
        · rw [if_neg hs]
          constructor
          · rintro ⟨ksp, h1, _⟩
            rw [Outcome.bind_result_ok] at h1
            obtain ⟨mat, h2, h3⟩ := h1
            rw [Outcome.bind_result_ok] at h3
            obtain ⟨mat', h4, _⟩ := h3
            simp only [Outcome.ofExcept, createMatrix_some, Except.ok.injEq] at h2
            subst h2
            exact ⟨by omega, px, py, rfl, rfl, Or.inr ⟨mat', h4⟩⟩
          · rintro ⟨_, px', py', e1, e2, h⟩
            simp only [Option.some.injEq] at e1 e2
            subst e1 e2
            rcases h with h | ⟨m, hm⟩
            · exact absurd h hs
            · refine ⟨KSPSetOperators (KSPSetOperators st.kspOperators i (some m)) i none,
                ?_, _, rfl⟩
              rw [Outcome.bind_result_ok]
              refine ⟨patchMatrix px py, rfl, ?_⟩
              rw [Outcome.bind_result_ok]
              exact ⟨m, hm, rfl⟩

theorem applyPatch_localY {R : Type} [Zero R] (pc : PC R) (localX : Int → R)
    (st st' : ApplyState R) (i : Int) (h : (applyPatch pc localX st i).result = .ok st') :
    st'.localY = copyWindows pc.localToPatch pc.bs pc.patchX localX [i] st.localY := by
  unfold applyPatch at h
  simp only at h
  split at h
  · cases h
  · split at h
    · rename_i px py hx hy
      rw [Outcome.bind_result_ok] at h
      obtain ⟨ksp, _, h2⟩ := h
      simp only [Outcome.ok, Except.ok.injEq] at h2
      subst h2
      simp only [copyWindows, List.foldl_cons, List.foldl_nil, hx]
    · cases h

/-- The loop over the patches in `PCApply_PATCH` ends without error exactly
when every patch of the list applies. -/
theorem applyLoop_ok_iff {R : Type} [Zero R] (pc : PC R) (localX : Int → R) (l : List Int)
    (st : ApplyState R) :
    (∃ st', (Outcome.loop (applyPatch pc localX) l st).result = .ok st') ↔
      ∀ i ∈ l, PatchApplies pc i :=
  Outcome.loop_ok_iff (applyPatch pc localX) (PatchApplies pc) (fun _ _ => True)
    (fun i _ s _ => ⟨applyPatch_ok_iff pc localX s i, fun _ _ => trivial⟩) l st trivial

/-- The array `localY` after the loop over the patches in `PCApply_PATCH`. -/
theorem applyLoop_localY {R : Type} [Zero R] (pc : PC R) (localX : Int → R) (l : List Int)
    (st st' : ApplyState R) (h : (Outcome.loop (applyPatch pc localX) l st).result = .ok st') :
    st'.localY = copyWindows pc.localToPatch pc.bs pc.patchX localX l st.localY := by
  have := Outcome.loop_ok_inv (applyPatch pc localX)
    (fun rest s => copyWindows pc.localToPatch pc.bs pc.patchX localX rest s.localY
      = copyWindows pc.localToPatch pc.bs pc.patchX localX l st.localY)
    (fun i is s s' hinv hs => by
      simp only at hinv ⊢
      rw [applyPatch_localY pc localX s s' i hs, ← hinv]
      simp only [copyWindows, List.foldl_cons, List.foldl_nil])
    l st st' rfl h
  simpa [copyWindows] using this

/-! ### What `PCApply_PATCH` returns -/

/-- The work vectors and the output vector after an apply that returned
without error. -/
theorem apply_result {R : Type} [AddMonoid R] (pc : PC R) (x y : Vec R) (r : PC R × Vec R)
    (h : (PCApply_PATCH pc x y).result = .ok r) :
    r.1.localX.data = PetscSFBcast pc.globalToLocal pc.bs x.data pc.localX.data ∧
    r.1.localY.data = copyWindows pc.localToPatch pc.bs pc.patchX
      (PetscSFBcast pc.globalToLocal pc.bs x.data pc.localX.data) (loopRange 0 pc.npatch)
      pc.localY.data ∧
    r.2.n = y.n ∧
    r.2.data = PetscSFReduce pc.globalToLocal pc.bs r.1.localY.data (VecSet y 0).data := by
  unfold PCApply_PATCH at h
  simp only at h
  rw [Outcome.bind_result_ok] at h
  obtain ⟨st, h1, h2⟩ := h
  have h3 := applyLoop_localY pc _ _ _ _ h1
  simp only [Outcome.ok, Except.ok.injEq] at h2
  subst h2
  exact ⟨rfl, h3, rfl, rfl⟩

/-- The apply returns without error exactly when every patch applies. -/
theorem apply_ok_iff {R : Type} [AddMonoid R] (pc : PC R) (x y : Vec R) :
    (∃ r, (PCApply_PATCH pc x y).result = .ok r) ↔
      ∀ i ∈ loopRange 0 pc.npatch, PatchApplies pc i := by
  unfold PCApply_PATCH
  simp only
  rw [Outcome.bind_result_isOk, ← applyLoop_ok_iff pc
    (PetscSFBcast pc.globalToLocal pc.bs x.data pc.localX.data) (loopRange 0 pc.npatch)
    ⟨pc.localY.data, pc.kspOperators⟩]
  constructor
  · rintro ⟨st, h, _⟩
    exact ⟨st, h⟩
  · rintro ⟨st, h⟩
    exact ⟨st, h, _, rfl⟩

/-- Whether the apply fails, and with which code, does not depend on `y`. -/
theorem apply_error_of_loop {R : Type} [AddMonoid R] (pc : PC R) (x y : Vec R)
    (e : PetscErrorCode)
    (h : (Outcome.loop (applyPatch pc (PetscSFBcast pc.globalToLocal pc.bs x.data pc.localX.data))
      (loopRange 0 pc.npatch) ⟨pc.localY.data, pc.kspOperators⟩).result = .error e) :
    (PCApply_PATCH pc x y).result = .error e := by
  unfold PCApply_PATCH
  simp only
  rw [Outcome.bind_of_error _ _ e h]

theorem foldl_reduceUnit_congr {R : Type} [AddMonoid R] (sf : PetscSF) (bs : Int)
    (leafdata : Int → R) (l : List Int) (rd rd' : Int → R) (k : Int) (h : rd k = rd' k) :
    l.foldl (reduceUnit sf bs leafdata) rd k = l.foldl (reduceUnit sf bs leafdata) rd' k := by
  induction l generalizing rd rd' with
  | nil => exact h
  | cons j js ih =>
    rw [List.foldl_cons, List.foldl_cons]
    apply ih
    unfold reduceUnit
    cases sf.iremote j with
    | none => exact h
    | some r =>
      simp only
      split
      · rw [h]
      · exact h

/-- An entry of the reduced root array depends on the root array before the
reduce through the same entry only. -/
theorem reduce_congr {R : Type} [AddMonoid R] (sf : PetscSF) (bs : Int) (leafdata : Int → R)
    (rd rd' : Int → R) (k : Int) (h : rd k = rd' k) :
    PetscSFReduce sf bs leafdata rd k = PetscSFReduce sf bs leafdata rd' k :=
  foldl_reduceUnit_congr sf bs leafdata _ rd rd' k h

/-- The entries of `y` after the apply are those of a reduce into zeros. -/
theorem apply_entries {R : Type} [AddMonoid R] (pc : PC R) (x y : Vec R) (r : PC R × Vec R)
    (h : (PCApply_PATCH pc x y).result = .ok r) (k : Int) (h1 : 0 ≤ k) (h2 : k < y.n) :
    r.2.data k = PetscSFReduce pc.globalToLocal pc.bs r.1.localY.data (fun _ => 0) k := by
  obtain ⟨_, _, _, e⟩ := apply_result pc x y r h
  rw [e]
  apply reduce_congr
  simp only [VecSet]
  rw [if_pos ⟨h1, h2⟩]

/-- The entry of `y` after the apply in the unit of the global dof `g`. -/
theorem apply_sum {R : Type} [AddMonoid R] (pc : PC R) (x y : Vec R) (r : PC R × Vec R)
    (h : (PCApply_PATCH pc x y).result = .ok r) (g c : Int) (hc1 : 0 ≤ c) (hc2 : c < pc.bs)
    (h1 : 0 ≤ g * pc.bs + c) (h2 : g * pc.bs + c < y.n) :
    r.2.data (g * pc.bs + c)
      = (((loopRange 0 pc.globalToLocal.nleaves).filter (attachedTo pc.globalToLocal g)).map
          (fun i => r.1.localY.data (i * pc.bs + c))).sum := by
  rw [apply_entries pc x y r h _ h1 h2, reduce_apply _ _ _ _ g c hc1 hc2, zero_add]

/-- The output of the apply, as far as the entries of `y` go, does not depend
on what `y` held before. -/
theorem apply_independent {R : Type} [AddMonoid R] (pc : PC R) (x y y' : Vec R)
    (hn : y'.n = y.n) :
    (PCApply_PATCH pc x y').result.map (fun r => r.2.entries)
      = (PCApply_PATCH pc x y).result.map (fun r => r.2.entries) := by
  cases hl : (Outcome.loop
      (applyPatch pc (PetscSFBcast pc.globalToLocal pc.bs x.data pc.localX.data))
      (loopRange 0 pc.npatch) ⟨pc.localY.data, pc.kspOperators⟩).result with
  | error e =>
    rw [apply_error_of_loop pc x y e hl, apply_error_of_loop pc x y' e hl]
  | ok st =>
    have e1 : ∀ z : Vec R, (PCApply_PATCH pc x z).result = .ok
        ({ pc with
            localX := { pc.localX with
              data := PetscSFBcast pc.globalToLocal pc.bs x.data pc.localX.data }
            localY := { pc.localY with data := st.localY }
            kspOperators := st.kspOperators },
          { VecSet z 0 with
            data := PetscSFReduce pc.globalToLocal pc.bs st.localY (VecSet z 0).data }) := by
      intro z
      unfold PCApply_PATCH
      simp only
      rw [Outcome.bind_of_ok _ _ st hl]
      rfl
    rw [e1 y, e1 y']
    simp only [Except.map, Vec.entries, VecSet, Except.ok.injEq, hn]
    apply List.map_congr_left
    intro k hk
    obtain ⟨k1, k2⟩ := mem_loopRange.mp hk
    apply reduce_congr
    rw [if_pos ⟨k1, by omega⟩, if_pos ⟨k1, k2⟩]

theorem filter_singleton (l : List Int) (p : Int → Bool) (i : Int) (hl : l.Nodup) (hi : i ∈ l)
    (hp : ∀ j ∈ l, p j = true ↔ j = i) : l.filter p = [i] := by
  induction l with
  | nil => cases hi
  | cons a as ih =>
    obtain ⟨ha, has⟩ := List.nodup_cons.mp hl
    by_cases hai : a = i
    · subst hai
      have h1 : p a = true := (hp a (List.mem_cons_self _ _)).mpr rfl
      rw [List.filter_cons, if_pos h1]
      congr 1
      rw [List.filter_eq_nil_iff]
      intro j hj hpj
      have := (hp j (List.mem_cons_of_mem _ hj)).mp hpj
      exact ha (this ▸ hj)
    · have h1 : ¬ p a = true := fun h => hai ((hp a (List.mem_cons_self _ _)).mp h)
      rw [List.filter_cons, if_neg h1]
      rcases List.mem_cons.mp hi with h | h
      · exact absurd h.symm hai
      · exact ih has h (fun j hj => hp j (List.mem_cons_of_mem _ hj))

/-- The entry of `y` after the apply in the unit of the global dof `g`, in
terms of the array `gtol` from which the plan was built. -/
theorem apply_sum_gtol {R : Type} [AddMonoid R] (pc : PC R) (x y : Vec R) (gtolSF : PetscSF)
    (gtolCounts : PetscSection) (gtol : IS)
    (hsf : pc.globalToLocal = PCPatchCreateGlobalToLocalSF gtolSF gtolCounts gtol)
    (hid : ∀ i, 0 ≤ i → i < PetscSectionGetStorageSize gtolCounts →
      gtolSF.iremote (ISGetIndices gtol i) = some ⟨0, ISGetIndices gtol i⟩)
    (r : PC R × Vec R) (h : (PCApply_PATCH pc x y).result = .ok r) (g c : Int) (hc1 : 0 ≤ c)
    (hc2 : c < pc.bs) (h1 : 0 ≤ g * pc.bs + c) (h2 : g * pc.bs + c < y.n) :
    r.2.data (g * pc.bs + c)
      = (((loopRange 0 (PetscSectionGetStorageSize gtolCounts)).filter
            (fun i => decide (ISGetIndices gtol i = g))).map
          (fun i => r.1.localY.data (i * pc.bs + c))).sum := by
  rw [apply_sum pc x y r h g c hc1 hc2 h1 h2, hsf, globalToLocal_nleaves,
    filter_attachedTo gtolSF gtolCounts gtol hid]

/-! ### The first-time part of `PCSetUp_PATCH` -/

theorem vec_ext {R : Type} (a b : Vec R) (hn : a.n = b.n) (hd : a.data = b.data) : a = b := by
  cases a; cases b; simp_all

/-- The flag `save_operators` is not looked at while the structures are built. -/
theorem structures_save {R : Type} [Zero R] (ord : IterOrder) (pc : PC R) (flg : Bool) :
    PCSetUp_PATCH_structures ord (PCPatchSetSaveOperators pc flg)
      = (PCSetUp_PATCH_structures ord pc).map (fun p => PCPatchSetSaveOperators p flg) := by
  unfold PCSetUp_PATCH_structures PCPatchSetSaveOperators
  simp only
  cases PCPatchCreateCellPatchDiscretisationInfo ord (PCPatchCreateCellPatches pc.dm).1
      (PCPatchCreateCellPatches pc.dm).2 pc.cellNumbering pc.nodesPerCell pc.cellNodeMap with
  | error e => rfl
  | ok info =>
    simp only
    cases PCPatchCreateCellPatchBCs ord pc.dm pc.numBcs pc.bcNodes
        (PCPatchCreateCellPatchFacets pc.dm (PCPatchCreateCellPatches pc.dm).1
          (PCPatchCreateCellPatches pc.dm).2).1
        (PCPatchCreateCellPatchFacets pc.dm (PCPatchCreateCellPatches pc.dm).1
          (PCPatchCreateCellPatches pc.dm).2).2 info.gtolCounts info.gtol pc.dofSection with
    | error e => rfl
    | ok bc => rfl

/-- What the structures part leaves untouched, and the number of patches it
sets. -/
theorem structures_fields {R : Type} [Zero R] (ord : IterOrder) (pc p1 : PC R)
    (h : PCSetUp_PATCH_structures ord pc = .ok p1) :
    p1.save_operators = pc.save_operators ∧ p1.usercomputeop = pc.usercomputeop ∧
    p1.setupcalled = pc.setupcalled ∧ p1.mat = pc.mat ∧
    p1.cellCounts = (PCPatchCreateCellPatches pc.dm).1 ∧
    p1.npatch = (PCPatchCreateCellPatches pc.dm).1.pEnd
      - (PCPatchCreateCellPatches pc.dm).1.pStart ∧
    p1.patchY = p1.patchX := by
  unfold PCSetUp_PATCH_structures at h
  simp only at h
  split at h
  · cases h
  · split at h
    · cases h
    · simp only [Except.ok.injEq] at h
      subst h
      exact ⟨rfl, rfl, rfl, rfl, rfl, rfl, rfl⟩

/-- The loop that creates the patch matrices. -/
theorem foldlM_createPatchMat {R : Type} [Zero R] (X Y : Int → Option PatchVec) (l : List Int)
    (init m : Int → Option (Mat R)) (h : l.foldlM (createPatchMat X Y) init = .ok m) (k : Int) :
    (k ∈ l → ∃ px py, X k = some px ∧ Y k = some py ∧ m k = some (patchMatrix px py)) ∧
    (k ∉ l → m k = init k) := by
  induction l generalizing init with
  | nil =>
    simp only [List.foldlM_nil, pure, Except.pure, Except.ok.injEq] at h
    subst h
    simp
  | cons j js ih =>
    rw [List.foldlM_cons] at h
    cases h1 : createPatchMat X Y init j with
    | error e => rw [h1] at h; cases h
    | ok m1 =>
      rw [h1] at h
      obtain ⟨a1, a2⟩ := ih m1 h
      unfold createPatchMat PCPatchCreateMatrix at h1
      cases hx : X j with
      | none => rw [hx] at h1; cases h1
      | some px =>
        cases hy : Y j with
        | none => rw [hx, hy] at h1; cases h1
        | some py =>
          rw [hx, hy] at h1
          simp only [Except.ok.injEq] at h1
          subst h1
          constructor
          · intro hk
            by_cases hkj : k ∈ js
            · exact a1 hkj
            · have hkj' : k = j := by
                rcases List.mem_cons.mp hk with h' | h'
                · exact h'
                · exact absurd h' hkj
              subst hkj'
              refine ⟨px, py, hx, hy, ?_⟩
              rw [a2 hkj]
              simp [patchMatrix]
          · intro hk
            have h2 : k ∉ js := fun h' => hk (List.mem_cons_of_mem _ h')
            have h3 : k ≠ j := fun h' => hk (h' ▸ List.mem_cons_self _ _)
            rw [a2 h2]
            simp [h3]

/-- The loop that creates the patch matrices ends without error when every
patch has its work vectors. -/
theorem foldlM_createPatchMat_ok {R : Type} [Zero R] (X Y : Int → Option PatchVec)
    (l : List Int) (init : Int → Option (Mat R))
    (h : ∀ i ∈ l, ∃ px py, X i = some px ∧ Y i = some py) :
    ∃ m, l.foldlM (createPatchMat X Y) init = .ok m := by
  induction l generalizing init with
  | nil => exact ⟨init, rfl⟩
  | cons j js ih =>
    obtain ⟨px, py, hx, hy⟩ := h j (List.mem_cons_self _ _)
    rw [List.foldlM_cons]
    unfold createPatchMat PCPatchCreateMatrix
    rw [hx, hy]
    exact ih _ (fun i hi => h i (List.mem_cons_of_mem _ hi))

/-- The two ways in which the first-time part returns without error. -/
theorem first_fields {R : Type} [Zero R] (ord : IterOrder) (pc pc1 : PC R)
    (h : PCSetUp_PATCH_first ord pc = .ok pc1) :
    ∃ p1, PCSetUp_PATCH_structures ord pc = .ok p1 ∧
      ((pc.save_operators = false ∧ pc1 = p1) ∨
       (pc.save_operators = true ∧ ∃ mat,
          (loopRange 0 p1.npatch).foldlM (createPatchMat p1.patchX p1.patchY) (fun _ => none)
            = .ok mat ∧ pc1 = { p1 with mat := mat })) := by
  unfold PCSetUp_PATCH_first at h
  cases h1 : PCSetUp_PATCH_structures ord pc with
  | error e => rw [h1] at h; cases h
  | ok p1 =>
    rw [h1] at h
    simp only at h
    have hs := (structures_fields ord pc p1 h1).1
    refine ⟨p1, rfl, ?_⟩
    by_cases hsave : p1.save_operators = true
    · rw [if_pos hsave] at h
      right
      refine ⟨hs ▸ hsave, ?_⟩
      split at h
      · cases h
      · rename_i mat hmat
        simp only [Except.ok.injEq] at h
        exact ⟨mat, hmat, h.symm⟩
    · rw [if_neg hsave] at h
      left
      simp only [Except.ok.injEq] at h
      refine ⟨?_, h.symm⟩
      rw [← hs]
      simpa using hsave

/-! ### The loop over the patches at the end of `PCSetUp_PATCH` -/

theorem setUpLoop_ok_iff {R : Type} (pc : PC R) (l : List Int) (hl : l.Nodup)
    (st : OperatorState R) :
    (∃ st', (Outcome.loop (setUpOperator pc) l st).result = .ok st') ↔
      ∀ i ∈ l, ∃ m m', st.mat i = some m ∧ (PCPatchComputeOperator pc m i).result = .ok m' := by
  apply Outcome.loop_ok_iff (setUpOperator pc)
    (fun i => ∃ m m', st.mat i = some m ∧ (PCPatchComputeOperator pc m i).result = .ok m')
    (fun rest s => rest.Nodup ∧ ∀ j ∈ rest, s.mat j = st.mat j)
  · intro i is s hinv
    obtain ⟨hnd, hmat⟩ := hinv
    obtain ⟨hi, his⟩ := List.nodup_cons.mp hnd
    have hsi := hmat i (List.mem_cons_self _ _)
    constructor
    · unfold setUpOperator
      cases hm : s.mat i with
      | none =>
        simp only [Outcome.error]
        constructor
        · rintro ⟨_, h⟩; cases h
        · rintro ⟨m, m', h, _⟩
          rw [← hsi, hm] at h
          cases h
      | some m =>
        simp only
        rw [Outcome.bind_result_isOk]
        constructor
        · rintro ⟨m', h, _⟩
          exact ⟨m, m', by rw [← hsi, hm], h⟩
        · rintro ⟨m0, m', h, hco⟩
          rw [← hsi, hm] at h
          simp only [Option.some.injEq] at h
          subst h
          exact ⟨m', hco, _, rfl⟩
    · intro s' hs'
      refine ⟨his, ?_⟩
      intro j hj
      have hji : j ≠ i := fun h => hi (h ▸ hj)
      unfold setUpOperator at hs'
      cases hm : s.mat i with
      | none => rw [hm] at hs'; cases hs'
      | some m =>
        rw [hm] at hs'
        simp only at hs'
        rw [Outcome.bind_result_ok] at hs'
        obtain ⟨m', _, h2⟩ := hs'
        simp only [Outcome.ok, Except.ok.injEq] at h2
        subst h2
        simp only [hji, if_false]
        exact hmat j (List.mem_cons_of_mem _ hj)
  · exact ⟨hl, fun _ _ => rfl⟩

/-! ### A first setup followed by an apply -/

/-- A first setup without saved operators followed by an apply. -/
theorem run_unsaved {R : Type} [AddMonoid R] (ord : IterOrder) (pc : PC R) (x y : Vec R)
    (hfresh : pc.setupcalled = false) (r : PC R × Vec R) :
    ((PCSetUp_PATCH ord (PCPatchSetSaveOperators pc false)).bind
        (fun p => PCApply_PATCH p x y)).result = .ok r ↔
      ∃ p1, PCSetUp_PATCH_structures ord pc = .ok p1 ∧
        (PCApply_PATCH (PCPatchSetSaveOperators p1 false) x y).result = .ok r := by
  rw [Outcome.bind_result_ok]
  unfold PCSetUp_PATCH
  have e0 : (PCPatchSetSaveOperators pc false).setupcalled = false := hfresh
  rw [e0]
  simp only [Bool.false_eq_true, if_false]
  unfold PCSetUp_PATCH_first
  rw [structures_save]
  cases h1 : PCSetUp_PATCH_structures ord pc with
  | error e =>
    simp [Except.map, Outcome.ofExcept, Outcome.bind]
  | ok p1 =>
    have e1 : (PCPatchSetSaveOperators p1 false).save_operators = false := rfl
    simp only [Except.map, e1, Bool.false_eq_true, if_false]
    constructor
    · rintro ⟨a, ha, hr⟩
      rw [Outcome.bind_result_ok] at ha
      obtain ⟨b, hb, hc⟩ := ha
      simp only [Outcome.ofExcept, Except.ok.injEq] at hb
      subst hb
      unfold PCSetUp_PATCH_operators at hc
      rw [e1] at hc
      simp only [Bool.false_eq_true, if_false, Outcome.ok, Except.ok.injEq] at hc
      subst hc
      exact ⟨p1, rfl, hr⟩
    · rintro ⟨p, hp, hr⟩
      simp only [Except.ok.injEq] at hp
      subst hp
      refine ⟨PCPatchSetSaveOperators p1 false, ?_, hr⟩
      rw [Outcome.bind_result_ok]
      refine ⟨_, rfl, ?_⟩
      unfold PCSetUp_PATCH_operators
      rw [e1]
      rfl

/-- A first setup with saved operators followed by an apply. -/
theorem run_saved {R : Type} [AddMonoid R] (ord : IterOrder) (pc : PC R) (x y : Vec R)
    (hfresh : pc.setupcalled = false) (r : PC R × Vec R) :
    ((PCSetUp_PATCH ord (PCPatchSetSaveOperators pc true)).bind
        (fun p => PCApply_PATCH p x y)).result = .ok r ↔
      ∃ p1 mat st, PCSetUp_PATCH_structures ord pc = .ok p1 ∧
        (loopRange 0 p1.npatch).foldlM (createPatchMat p1.patchX p1.patchY) (fun _ => none)
          = .ok mat ∧
        (Outcome.loop (setUpOperator { PCPatchSetSaveOperators p1 true with mat := mat })
          (loopRange 0 p1.npatch) ⟨mat, p1.kspOperators⟩).result = .ok st ∧
        (PCApply_PATCH { PCPatchSetSaveOperators p1 true with
            mat := st.mat, kspOperators := st.kspOperators } x y).result = .ok r := by
  rw [Outcome.bind_result_ok]
  unfold PCSetUp_PATCH
  have e0 : (PCPatchSetSaveOperators pc true).setupcalled = false := hfresh
  rw [e0]
  simp only [Bool.false_eq_true, if_false]
  unfold PCSetUp_PATCH_first
  rw [structures_save]
  cases h1 : PCSetUp_PATCH_structures ord pc with
  | error e =>
    simp [Except.map, Outcome.ofExcept, Outcome.bind]
  | ok p1 =>
    have e1 : (PCPatchSetSaveOperators p1 true).save_operators = true := rfl
    have e2 : (PCPatchSetSaveOperators p1 true).npatch = p1.npatch := rfl
    have e3 : (PCPatchSetSaveOperators p1 true).patchX = p1.patchX := rfl
    have e4 : (PCPatchSetSaveOperators p1 true).patchY = p1.patchY := rfl
    simp only [Except.map, e1, e2, e3, e4, if_true]
    cases h2 : (loopRange 0 p1.npatch).foldlM (createPatchMat p1.patchX p1.patchY)
        (fun _ => (none : Option (Mat R))) with
    | error e =>
      simp [Outcome.ofExcept, Outcome.bind, h2]
    | ok mat =>
      simp only
      constructor
      · rintro ⟨a, ha, hr⟩
        rw [Outcome.bind_result_ok] at ha
        obtain ⟨b, hb, hc⟩ := ha
        simp only [Outcome.ofExcept, Except.ok.injEq] at hb
        subst hb
        unfold PCSetUp_PATCH_operators at hc
        simp only [PCPatchSetSaveOperators, if_true] at hc
        rw [Outcome.bind_result_ok] at hc
        obtain ⟨st, hst, hd⟩ := hc
        simp only [Outcome.ok, Except.ok.injEq] at hd
        subst hd
        exact ⟨p1, mat, st, rfl, h2, hst, hr⟩
      · rintro ⟨p, mat', st, hp, hmat, hst, hr⟩
        simp only [Except.ok.injEq] at hp
        subst hp
        rw [h2] at hmat
        simp only [Except.ok.injEq] at hmat
        subst hmat
        refine ⟨_, ?_, hr⟩
        rw [Outcome.bind_result_ok]
        refine ⟨_, rfl, ?_⟩
        unfold PCSetUp_PATCH_operators
        simp only [PCPatchSetSaveOperators, if_true]
        rw [Outcome.bind_result_ok]
        exact ⟨st, hst, rfl⟩

/-! ### The windows of `localY` after the apply -/

theorem copyWindows_keep {R : Type} (localToPatch : PetscSection) (bs : Int)
    (patchX : Int → Option PatchVec) (localX : Int → R) (l : List Int) (localY : Int → R)
    (k : Int) (h : localY k = localX k) :
    copyWindows localToPatch bs patchX localX l localY k = localX k := by
  unfold copyWindows
  induction l generalizing localY with
  | nil => exact h
  | cons i is ih =>
    rw [List.foldl_cons]
    apply ih
    cases patchX i with
    | none => exact h
    | some px =>
      simp only [VecCopy]
      split
      · rfl
      · exact h

/-- After the loop over the patches the window of every patch of the list
holds what the same window of `localX` holds. -/
theorem copyWindows_mem {R : Type} (localToPatch : PetscSection) (bs : Int)
    (patchX : Int → Option PatchVec) (localX : Int → R) (l : List Int) (localY : Int → R)
    (k i : Int) (px : PatchVec) (hi : i ∈ l) (hx : patchX i = some px)
    (h1 : PetscSectionGetOffset localToPatch (i + localToPatch.pStart) * bs ≤ k)
    (h2 : k < PetscSectionGetOffset localToPatch (i + localToPatch.pStart) * bs + px.n) :
    copyWindows localToPatch bs patchX localX l localY k = localX k := by
  induction l generalizing localY with
  | nil => cases hi
  | cons j js ih =>
    by_cases hj : i = j
    · subst hj
      have : copyWindows localToPatch bs patchX localX (i :: js) localY
          = copyWindows localToPatch bs patchX localX js
            (VecCopy px.n (PetscSectionGetOffset localToPatch (i + localToPatch.pStart) * bs)
              localX localY) := by
        simp only [copyWindows, List.foldl_cons, hx]
      rw [this]
      apply copyWindows_keep
      simp only [VecCopy]
      rw [if_pos ⟨h1, h2⟩]
    · have hjs : i ∈ js := by
        rcases List.mem_cons.mp hi with h | h
        · exact absurd h hj
        · exact h
      unfold copyWindows at ih ⊢
      rw [List.foldl_cons]
      exact ih _ hjs

/-- The sizes of the work vectors are not changed by the apply. -/
theorem apply_sizes {R : Type} [AddMonoid R] (pc : PC R) (x y : Vec R) (r : PC R × Vec R)
    (h : (PCApply_PATCH pc x y).result = .ok r) :
    r.1.localX.n = pc.localX.n ∧ r.1.localY.n = pc.localY.n := by
  unfold PCApply_PATCH at h
  simp only at h
  rw [Outcome.bind_result_ok] at h
  obtain ⟨st, _, h2⟩ := h
  simp only [Outcome.ok, Except.ok.injEq] at h2
  subst h2
  exact ⟨rfl, rfl⟩

/-- In the window of a patch, `localY` holds after the apply what `localX`
holds: the window is copied, whatever the operator of the patch. -/
theorem apply_window {R : Type} [AddMonoid R] (pc : PC R) (x y : Vec R) (r : PC R × Vec R)
    (h : (PCApply_PATCH pc x y).result = .ok r) (i k : Int) (px : PatchVec) (i1 : 0 ≤ i)
    (i2 : i < pc.npatch) (hx : pc.patchX i = some px)
    (h1 : PetscSectionGetOffset pc.localToPatch (i + pc.localToPatch.pStart) * pc.bs ≤ k)
    (h2 : k < PetscSectionGetOffset pc.localToPatch (i + pc.localToPatch.pStart) * pc.bs
      + px.n) :
    r.1.localY.data k = r.1.localX.data k := by
  obtain ⟨a1, a2, _, _⟩ := apply_result pc x y r h
  rw [a1, a2]
  exact copyWindows_mem _ _ _ _ _ _ k i px (mem_loopRange.mpr ⟨i1, i2⟩) hx h1 h2

/-! ### Setup and apply without callback -/

theorem apply_no_callback {R : Type} [AddMonoid R] (pc : PC R) (x y : Vec R)
    (px py : PatchVec) (hop : pc.usercomputeop = none) (hsave : pc.save_operators = false)
    (hn : 0 < pc.npatch)
    (hlen : 0 < PetscSectionGetDof pc.localToPatch (0 + pc.localToPatch.pStart))
    (hx : pc.patchX 0 = some px) (hy : pc.patchY 0 = some py) :
    PCApply_PATCH pc x y = Outcome.error .PETSC_ERR_ARG_WRONGSTATE := by
  unfold PCApply_PATCH
  simp only
  rw [loopRange_cons hn, Outcome.loop]
  have h0 : ∀ lx st, applyPatch pc lx st 0 = Outcome.error .PETSC_ERR_ARG_WRONGSTATE := by
    intro lx st
    unfold applyPatch
    simp only
    rw [if_neg (by omega), hx, hy]
    simp only [hsave, Bool.false_eq_true, if_false, createMatrix_some, Outcome.ofExcept,
      Outcome.bind, computeOperator_none pc _ 0 hop, Outcome.error, List.append_nil]
  rw [h0]
  rfl

theorem setUp_no_callback {R : Type} [AddMonoid R] (ord : IterOrder) (pc pc1 : PC R)
    (hop : pc.usercomputeop = none) (hsave : pc.save_operators = true)
    (hfresh : pc.setupcalled = false) (hfirst : PCSetUp_PATCH_first ord pc = .ok pc1)
    (hn : 0 < pc1.npatch) :
    PCSetUp_PATCH ord pc = Outcome.error .PETSC_ERR_ARG_WRONGSTATE := by
  obtain ⟨p1, hp1, hcase⟩ := first_fields ord pc pc1 hfirst
  obtain ⟨s1, s2, _⟩ := structures_fields ord pc p1 hp1
  rcases hcase with ⟨hc, _⟩ | ⟨_, mat, hmat, hpc1⟩
  · rw [hsave] at hc; cases hc
  · subst hpc1
    have hn' : 0 < p1.npatch := hn
    obtain ⟨px, py, _, _, hm⟩ := (foldlM_createPatchMat _ _ _ _ _ hmat 0).1
      (mem_loopRange.mpr ⟨le_refl _, hn'⟩)
    have hops : PCSetUp_PATCH_operators { p1 with mat := mat }
        = Outcome.error .PETSC_ERR_ARG_WRONGSTATE := by
      unfold PCSetUp_PATCH_operators
      have e1 : ({ p1 with mat := mat } : PC R).save_operators = true := by
        show p1.save_operators = true
        rw [s1, hsave]
      rw [if_pos e1]
      have e2 : ({ p1 with mat := mat } : PC R).npatch = p1.npatch := rfl
      rw [e2, loopRange_cons hn', Outcome.loop]
      have h0 : setUpOperator { p1 with mat := mat }
          ⟨({ p1 with mat := mat } : PC R).mat, ({ p1 with mat := mat } : PC R).kspOperators⟩ 0
          = Outcome.error .PETSC_ERR_ARG_WRONGSTATE := by
        unfold setUpOperator
        simp only [hm]
        rw [computeOperator_none _ _ 0 (by show p1.usercomputeop = none; rw [s2, hop])]
        rfl
      rw [h0]
      rfl
    unfold PCSetUp_PATCH
    rw [hfresh]
    simp only [Bool.false_eq_true, if_false, hfirst, Outcome.ofExcept, Outcome.bind, hops,
      Outcome.error, List.append_nil]

theorem setUp_again_no_callback {R : Type} [AddMonoid R] (ord : IterOrder) (pc : PC R)
    (m : Mat R) (hop : pc.usercomputeop = none) (hsave : pc.save_operators = true)
    (hdone : pc.setupcalled = true) (hn : 0 < pc.npatch) (hm : pc.mat 0 = some m) :
    PCSetUp_PATCH ord pc = Outcome.error .PETSC_ERR_ARG_WRONGSTATE := by
  have hops : PCSetUp_PATCH_operators pc = Outcome.error .PETSC_ERR_ARG_WRONGSTATE := by
    unfold PCSetUp_PATCH_operators
    rw [if_pos hsave, loopRange_cons hn, Outcome.loop]
    have h0 : setUpOperator pc ⟨pc.mat, pc.kspOperators⟩ 0
        = Outcome.error .PETSC_ERR_ARG_WRONGSTATE := by
      unfold setUpOperator
      simp only [hm]
      rw [computeOperator_none _ _ 0 hop]
      rfl
    rw [h0]
    rfl
  unfold PCSetUp_PATCH
  rw [hdone]
  simp only [if_true, Outcome.ok, Outcome.bind, hops, Outcome.error, List.append_nil]

/-! ### Facts about the examples -/

theorem onePatch.gtolCounts_indexedList : onePatch.gtolCounts.IsIndexedList := by
  constructor
  · intro p _ _
    show 0 ≤ (if p = 1 then (2 : Int) else 0)
    split <;> omega
  · intro p h1 h2
    have hp : p = 1 := by
      have a : onePatch.gtolCounts.pStart = 1 := rfl
      have b : onePatch.gtolCounts.pEnd = 2 := rfl
      omega
    subst hp
    decide

theorem onePatch.storageSize : PetscSectionGetStorageSize onePatch.gtolCounts = 2 := by decide

/-- The identity plan on two dofs is the identity on the dofs of `onePatch.gtol`. -/
theorem onePatch.identity_on_gtol (i : Int) (h1 : 0 ≤ i)
    (h2 : i < PetscSectionGetStorageSize onePatch.gtolCounts) :
    (identitySF 2).iremote (ISGetIndices onePatch.gtol i)
      = some ⟨0, ISGetIndices onePatch.gtol i⟩ := by
  rw [onePatch.storageSize] at h2
  have hi : i = 0 ∨ i = 1 := by omega
  rcases hi with rfl | rfl
  · decide
  · decide

/-- Every global dof of `onePatch.gtol` is referenced by one slot. -/
theorem onePatch.gtol_injective (i j : Int) (i1 : 0 ≤ i)
    (i2 : i < PetscSectionGetStorageSize onePatch.gtolCounts) (j1 : 0 ≤ j)
    (j2 : j < PetscSectionGetStorageSize onePatch.gtolCounts)
    (h : ISGetIndices onePatch.gtol i = ISGetIndices onePatch.gtol j) : i = j := by
  rw [onePatch.storageSize] at i2 j2
  have hi : i = 0 ∨ i = 1 := by omega
  have hj : j = 0 ∨ j = 1 := by omega
  rcases hi with rfl | rfl <;> rcases hj with rfl | rfl
  · rfl
  · revert h; decide
  · revert h; decide
  · rfl

/-- Every patch cell of `negativeDof` has an entry in the cell numbering. -/
theorem negativeDof.numbered (v i : Int) (v1 : negativeDof.cellCounts.pStart ≤ v)
    (v2 : v < negativeDof.cellCounts.pEnd)
    (i1 : PetscSectionGetOffset negativeDof.cellCounts v ≤ i)
    (i2 : i < PetscSectionGetOffset negativeDof.cellCounts v
      + PetscSectionGetDof negativeDof.cellCounts v) :
    0 < PetscSectionGetDof negativeDof.cellNumbering (ISGetIndices negativeDof.cells i) := by
  have hv : v = 0 := by
    have a : negativeDof.cellCounts.pStart = 0 := rfl
    have b : negativeDof.cellCounts.pEnd = 1 := rfl
    omega
  subst hv
  have hi : i = 0 := by
    have a : PetscSectionGetOffset negativeDof.cellCounts 0 = 0 := rfl
    have b : PetscSectionGetDof negativeDof.cellCounts 0 = 1 := rfl
    omega
  subst hi
  decide

/-! ### The invocations of the callback -/

/-- The invocations made by a loop that ends without error are those of its
steps, in order. -/
theorem Outcome.loop_calls {σ : Type} (body : σ → Int → Outcome σ) (c : Int → List CallbackArgs)
    (l : List Int)
    (hstep : ∀ s i s', i ∈ l → (body s i).result = .ok s' → (body s i).calls = c i)
    (s s' : σ) (h : (Outcome.loop body l s).result = .ok s') :
    (Outcome.loop body l s).calls = (l.map c).flatten := by
  induction l generalizing s with
  | nil => rfl
  | cons i is ih =>
    rw [Outcome.loop] at h ⊢
    obtain ⟨s1, h1, h2⟩ := (Outcome.bind_result_ok _ _ _).mp h
    rw [Outcome.bind_of_ok _ _ s1 h1]
    simp only [List.map_cons, List.flatten_cons]
    rw [hstep s i s1 (List.mem_cons_self _ _) h1,
      ih (fun s j s' hj => hstep s j s' (List.mem_cons_of_mem _ hj)) s1 h2]

/-- A loop whose steps never invoke the callback does not invoke it. -/
theorem Outcome.loop_calls_nil {σ : Type} (body : σ → Int → Outcome σ) (l : List Int)
    (hstep : ∀ s i, (body s i).calls = []) (s : σ) : (Outcome.loop body l s).calls = [] := by
  induction l generalizing s with
  | nil => rfl
  | cons i is ih =>
    rw [Outcome.loop]
    unfold Outcome.bind
    cases h1 : (body s i).result with
    | error e => exact hstep s i
    | ok s1 =>
      simp only
      rw [hstep s i, ih s1]
      rfl

theorem flatten_map_singleton {α β : Type} (l : List α) (f : α → β) :
    (l.map (fun a => [f a])).flatten = l.map f := by
  induction l with
  | nil => rfl
  | cons a as ih => simp [ih]

/-- A call of `PCPatchComputeOperator` that returns without error has invoked
the callback once, with the arguments of the patch. -/
theorem computeOperator_calls {R : Type} (pc : PC R) (mat m : Mat R) (which : Int)
    (h : (PCPatchComputeOperator pc mat which).result = .ok m) :
    (PCPatchComputeOperator pc mat which).calls = [callbackArgs pc which] ∧
    which + pc.cellCounts.pStart < pc.cellCounts.pEnd ∧
    0 < PetscSectionGetDof pc.cellCounts (which + pc.cellCounts.pStart) ∧
    ∃ f, pc.usercomputeop = some f ∧ f (callbackArgs pc which) mat = .ok m := by
  unfold PCPatchComputeOperator at h ⊢
  cases hop : pc.usercomputeop with
  | none => rw [hop] at h; cases h
  | some f =>
    rw [hop] at h
    simp only at h ⊢
    by_cases h1 : which + pc.cellCounts.pStart ≥ pc.cellCounts.pEnd
    · rw [if_pos h1] at h; cases h
    · rw [if_neg h1] at h ⊢
      by_cases h2 : PetscSectionGetDof pc.cellCounts (which + pc.cellCounts.pStart) ≤ 0
      · rw [if_pos h2] at h; cases h
      · rw [if_neg h2] at h ⊢
        exact ⟨rfl, by omega, by omega, f, rfl, h⟩

theorem setUpOperator_calls {R : Type} (pc : PC R) (st st' : OperatorState R) (i : Int)
    (h : (setUpOperator pc st i).result = .ok st') :
    (setUpOperator pc st i).calls = [callbackArgs pc i] := by
  unfold setUpOperator at h ⊢
  cases hm : st.mat i with
  | none => rw [hm] at h; cases h
  | some m =>
    rw [hm] at h
    simp only at h ⊢
    obtain ⟨m', h1, _⟩ := (Outcome.bind_result_ok _ _ _).mp h
    rw [Outcome.bind_of_ok _ _ m' h1, (computeOperator_calls pc m m' i h1).1]
    rfl

theorem applyPatch_calls {R : Type} [Zero R] (pc : PC R) (localX : Int → R)
    (st st' : ApplyState R) (i : Int) (hsave : pc.save_operators = false)
    (h : (applyPatch pc localX st i).result = .ok st') :
    (applyPatch pc localX st i).calls = [callbackArgs pc i] := by
  unfold applyPatch at h ⊢
  simp only at h ⊢
  split at h
  · cases h
  · rename_i hlen
    rw [if_neg hlen]
    cases hx : pc.patchX i with
    | none => rw [hx] at h; cases h
    | some px =>
      cases hy : pc.patchY i with
      | none => rw [hx, hy] at h; cases h
      | some py =>
        rw [hx, hy] at h
        simp only [hsave, Bool.false_eq_true, if_false, createMatrix_some, Outcome.ofExcept]
          at h ⊢
        obtain ⟨ksp, h1, _⟩ := (Outcome.bind_result_ok _ _ _).mp h
        obtain ⟨mat, h2, h3⟩ := (Outcome.bind_result_ok _ _ _).mp h1
        simp only [Except.ok.injEq] at h2
        subst h2
        obtain ⟨m', h4, _⟩ := (Outcome.bind_result_ok _ _ _).mp h3
        have hc := (computeOperator_calls pc _ m' i h4).1
        simp only [Outcome.bind, h4, hc, Outcome.ok, List.nil_append, List.append_nil]

theorem applyPatch_calls_saved {R : Type} [Zero R] (pc : PC R) (localX : Int → R)
    (st : ApplyState R) (i : Int) (hsave : pc.save_operators = true) :
    (applyPatch pc localX st i).calls = [] := by
  unfold applyPatch
  simp only
  split
  · rfl
  · split
    · simp only [hsave, if_true, Outcome.bind, Outcome.ok, List.append_nil]
    · rfl

/-- The invocations made by `PCApply_PATCH`. -/
theorem apply_calls {R : Type} [AddMonoid R] (pc : PC R) (x y : Vec R) :
    (pc.save_operators = true → (PCApply_PATCH pc x y).calls = []) ∧
    (pc.save_operators = false → ∀ r, (PCApply_PATCH pc x y).result = .ok r →
      (PCApply_PATCH pc x y).calls = (loopRange 0 pc.npatch).map (callbackArgs pc)) := by
  constructor
  · intro hsave
    have hl := Outcome.loop_calls_nil
      (applyPatch pc (PetscSFBcast pc.globalToLocal pc.bs x.data pc.localX.data))
      (loopRange 0 pc.npatch) (fun s i => applyPatch_calls_saved pc _ s i hsave)
      ⟨pc.localY.data, pc.kspOperators⟩
    unfold PCApply_PATCH
    simp only
    unfold Outcome.bind
    split
    · exact hl
    · simp only [hl, Outcome.ok, List.append_nil]
  · intro hsave r hr
    unfold PCApply_PATCH at hr ⊢
    simp only at hr ⊢
    obtain ⟨st, h1, _⟩ := (Outcome.bind_result_ok _ _ _).mp hr
    rw [Outcome.bind_of_ok _ _ st h1]
    simp only [Outcome.ok, List.append_nil]
    rw [Outcome.loop_calls _ (fun i => [callbackArgs pc i]) _
      (fun s i s' _ hs => applyPatch_calls pc _ s s' i hsave hs) _ st h1,
      flatten_map_singleton]

/-- The invocations made by the part of `PCSetUp_PATCH` after the first-time
part. -/
theorem operators_calls {R : Type} (pc : PC R) :
    (pc.save_operators = false → PCSetUp_PATCH_operators pc = Outcome.ok pc) ∧
    (pc.save_operators = true → ∀ p, (PCSetUp_PATCH_operators pc).result = .ok p →
      (PCSetUp_PATCH_operators pc).calls = (loopRange 0 pc.npatch).map (callbackArgs pc) ∧
      ∃ st, (Outcome.loop (setUpOperator pc) (loopRange 0 pc.npatch)
          ⟨pc.mat, pc.kspOperators⟩).result = .ok st ∧
        p = { pc with mat := st.mat, kspOperators := st.kspOperators }) := by
  constructor
  · intro hsave
    unfold PCSetUp_PATCH_operators
    rw [hsave]
    rfl
  · intro hsave p hp
    unfold PCSetUp_PATCH_operators at hp ⊢
    rw [if_pos hsave] at hp ⊢
    obtain ⟨st, h1, h2⟩ := (Outcome.bind_result_ok _ _ _).mp hp
    rw [Outcome.bind_of_ok _ _ st h1]
    simp only [Outcome.ok, List.append_nil, Except.ok.injEq] at h2 ⊢
    rw [Outcome.loop_calls _ (fun i => [callbackArgs pc i]) _
      (fun s i s' _ hs => setUpOperator_calls pc s s' i hs) _ st h1, flatten_map_singleton]
    exact ⟨rfl, st, h1, h2.symm⟩

/-- The two parts of a setup that returns without error. -/
theorem setUp_parts {R : Type} [Zero R] (ord : IterOrder) (pc p : PC R)
    (h : (PCSetUp_PATCH ord pc).result = .ok p) :
    ∃ pc1, ((pc.setupcalled = true ∧ pc1 = pc) ∨
        (pc.setupcalled = false ∧ PCSetUp_PATCH_first ord pc = .ok pc1)) ∧
      (PCSetUp_PATCH_operators pc1).result = .ok p ∧
      (PCSetUp_PATCH ord pc).calls = (PCSetUp_PATCH_operators pc1).calls := by
  unfold PCSetUp_PATCH at h ⊢
  by_cases hs : pc.setupcalled = true
  · rw [if_pos hs] at h ⊢
    obtain ⟨pc1, h1, h2⟩ := (Outcome.bind_result_ok _ _ _).mp h
    simp only [Outcome.ok, Except.ok.injEq] at h1
    subst h1
    refine ⟨pc, Or.inl ⟨hs, rfl⟩, h2, ?_⟩
    simp only [Outcome.bind, Outcome.ok, List.nil_append]
  · rw [if_neg hs] at h ⊢
    obtain ⟨pc1, h1, h2⟩ := (Outcome.bind_result_ok _ _ _).mp h
    simp only [Outcome.ofExcept] at h1
    refine ⟨pc1, Or.inr ⟨by simpa using hs, h1⟩, h2, ?_⟩
    simp only [Outcome.ofExcept, Outcome.bind, h1, List.nil_append]

/-! ### The state after the loop over the patches of the setup -/

/-- What the loop over the patches at the end of `PCSetUp_PATCH` leaves: at
every index of the loop the operator that the callback computed from the
matrix of the patch, in the matrix slot and attached to the solver; everything
else as before. -/
theorem setUpLoop_final {R : Type} (pc : PC R) (l : List Int) (hl : l.Nodup)
    (st st' : OperatorState R) (h : (Outcome.loop (setUpOperator pc) l st).result = .ok st') :
    (∀ i ∈ l, ∃ m m', st.mat i = some m ∧ (PCPatchComputeOperator pc m i).result = .ok m' ∧
      st'.mat i = some m' ∧ st'.kspOperators i = some m') ∧
    (∀ k, k ∉ l → st'.mat k = st.mat k ∧ st'.kspOperators k = st.kspOperators k) := by
  induction l generalizing st with
  | nil =>
    simp only [Outcome.loop, Outcome.ok, Except.ok.injEq] at h
    subst h
    simp
  | cons i is ih =>
    obtain ⟨hi, his⟩ := List.nodup_cons.mp hl
    rw [Outcome.loop, Outcome.bind_result_ok] at h
    obtain ⟨s1, hs1, hrest⟩ := h
    obtain ⟨ih1, ih2⟩ := ih his s1 hrest
    unfold setUpOperator at hs1
    cases hm : st.mat i with
    | none => rw [hm] at hs1; cases hs1
    | some m =>
      rw [hm] at hs1
      simp only at hs1
      obtain ⟨m', hco, e⟩ := (Outcome.bind_result_ok _ _ _).mp hs1
      simp only [Outcome.ok, Except.ok.injEq] at e
      subst e
      constructor
      · intro j hj
        rcases List.mem_cons.mp hj with e | hjs
        · subst e
          obtain ⟨k1, k2⟩ := ih2 j hi
          refine ⟨m, m', hm, hco, ?_, ?_⟩
          · rw [k1]; simp
          · rw [k2]; simp [KSPSetOperators]
        · have hne : j ≠ i := fun e => hi (e ▸ hjs)
          obtain ⟨m0, m0', a1, a2, a3, a4⟩ := ih1 j hjs
          simp only [if_neg hne] at a1
          exact ⟨m0, m0', a1, a2, a3, a4⟩
      · intro k hk
        have hki : k ≠ i := fun e => hk (e ▸ List.mem_cons_self _ _)
        have hks : k ∉ is := fun e => hk (List.mem_cons_of_mem _ e)
        obtain ⟨k1, k2⟩ := ih2 k hks
        rw [k1, k2]
        simp [KSPSetOperators, hki]

/-! ### What the first setup builds -/

/-- The work vectors after the loop that creates them: a vector of `dof * bs`
entries at the index of every vertex of the loop with `dof > 0` local dofs. -/
theorem foldl_createPatchVec (gtolCounts : PetscSection) (bs pStart : Int) (l : List Int)
    (init : Int → Option PatchVec) (k : Int) :
    (l.foldl (createPatchVec gtolCounts bs pStart) init) k
      = if k + pStart ∈ l ∧ 0 < PetscSectionGetDof gtolCounts (k + pStart)
        then some ⟨bs, PetscSectionGetDof gtolCounts (k + pStart) * bs⟩ else init k := by
  induction l generalizing init with
  | nil => simp
  | cons j js ih =>
    rw [List.foldl_cons, ih]
    by_cases h1 : k + pStart ∈ js ∧ 0 < PetscSectionGetDof gtolCounts (k + pStart)
    · rw [if_pos h1, if_pos ⟨List.mem_cons_of_mem _ h1.1, h1.2⟩]
    · rw [if_neg h1]
      by_cases hd : 0 < PetscSectionGetDof gtolCounts (k + pStart)
      · have hjs : k + pStart ∉ js := fun e => h1 ⟨e, hd⟩
        by_cases hj : k + pStart = j
        · have hk : k = j - pStart := by omega
          have hd' : PetscSectionGetDof gtolCounts j > 0 := hj ▸ hd
          simp [createPatchVec, hd', hk]
        · have hk : ¬ k = j - pStart := by omega
          have hm : ¬ (k + pStart ∈ j :: js ∧ 0 < PetscSectionGetDof gtolCounts (k + pStart)) := by
            rintro ⟨hm, _⟩
            rcases List.mem_cons.mp hm with e | e
            · exact hj e
            · exact hjs e
          rw [if_neg hm]
          unfold createPatchVec
          split
          · exact if_neg hk
          · rfl
      · rw [if_neg (fun h => hd h.2)]
        unfold createPatchVec
        split
        · rename_i hd'
          have hk : ¬ k = j - pStart := by
            intro e
            apply hd
            have : k + pStart = j := by omega
            rw [this]
            exact hd'
          exact if_neg hk
        · rfl

/-- The object that the structures part of the first setup leaves, field by
field, in terms of what the builders return. -/
theorem structures_spec {R : Type} [Zero R] (ord : IterOrder) (pc p1 : PC R)
    (h : PCSetUp_PATCH_structures ord pc = .ok p1) :
    ∃ info bc,
      PCPatchCreateCellPatchDiscretisationInfo ord (PCPatchCreateCellPatches pc.dm).1
        (PCPatchCreateCellPatches pc.dm).2 pc.cellNumbering pc.nodesPerCell pc.cellNodeMap
        = .ok info ∧
      PCPatchCreateCellPatchBCs ord pc.dm pc.numBcs pc.bcNodes
        (PCPatchCreateCellPatchFacets pc.dm (PCPatchCreateCellPatches pc.dm).1
          (PCPatchCreateCellPatches pc.dm).2).1
        (PCPatchCreateCellPatchFacets pc.dm (PCPatchCreateCellPatches pc.dm).1
          (PCPatchCreateCellPatches pc.dm).2).2 info.gtolCounts info.gtol pc.dofSection
        = .ok bc ∧
      p1.cellCounts = (PCPatchCreateCellPatches pc.dm).1 ∧
      p1.cells = info.cells ∧ p1.dofs = info.dofs ∧ p1.localToPatch = info.gtolCounts ∧
      p1.bcCounts = bc.1 ∧ p1.bcs = bc.2 ∧
      p1.npatch = (PCPatchCreateCellPatches pc.dm).1.pEnd
        - (PCPatchCreateCellPatches pc.dm).1.pStart ∧
      p1.bs = pc.bs ∧ p1.nodesPerCell = pc.nodesPerCell ∧
      p1.globalToLocal = PCPatchCreateGlobalToLocalSF pc.defaultSF info.gtolCounts info.gtol ∧
      p1.localX = VecCreateSeq (PetscSectionGetStorageSize info.gtolCounts * pc.bs) ∧
      p1.localY = VecCreateSeq (PetscSectionGetStorageSize info.gtolCounts * pc.bs) ∧
      p1.patchX = (loopRange (PCPatchCreateCellPatches pc.dm).1.pStart
          (PCPatchCreateCellPatches pc.dm).1.pEnd).foldl
        (createPatchVec info.gtolCounts pc.bs (PCPatchCreateCellPatches pc.dm).1.pStart)
        (fun _ => none) ∧
      p1.patchY = p1.patchX := by
  unfold PCSetUp_PATCH_structures at h
  simp only at h
  split at h
  · cases h
  · rename_i info hinfo
    split at h
    · cases h
    · rename_i bc hbc
      simp only [Except.ok.injEq] at h
      subst h
      exact ⟨info, bc, hinfo, hbc, rfl, rfl, rfl, rfl, rfl, rfl, rfl, rfl, rfl, rfl, rfl, rfl,
        rfl, rfl⟩

/-- A first setup that returns without error leaves what its structures part
built, up to the patch matrices and the operators of the solvers. -/
theorem setUp_fields {R : Type} [Zero R] (ord : IterOrder) (pc p : PC R)
    (hfresh : pc.setupcalled = false) (h : (PCSetUp_PATCH ord pc).result = .ok p) :
    ∃ p1, PCSetUp_PATCH_structures ord pc = .ok p1 ∧
      { p with mat := p1.mat, kspOperators := p1.kspOperators } = p1 := by
  obtain ⟨pc1, hpc1, hres, _⟩ := setUp_parts ord pc p h
  rcases hpc1 with ⟨hs, _⟩ | ⟨_, hfirst⟩
  · rw [hfresh] at hs; cases hs
  · obtain ⟨p1, hp1, hcase⟩ := first_fields ord pc pc1 hfirst
    refine ⟨p1, hp1, ?_⟩
    have hop : { p with mat := pc1.mat, kspOperators := pc1.kspOperators } = pc1 := by
      by_cases hsave : pc1.save_operators = true
      · obtain ⟨_, st, _, e⟩ := (operators_calls pc1).2 hsave p hres
        rw [e]
      · have e := (operators_calls pc1).1 (by simpa using hsave)
        rw [e] at hres
        simp only [Outcome.ok, Except.ok.injEq] at hres
        rw [← hres]
    rcases hcase with ⟨_, e⟩ | ⟨_, mat, _, e⟩
    · rw [← e]; exact hop
    · rw [e] at hop
      have := congrArg (fun q : PC R => { q with mat := p1.mat }) hop
      exact this

/-- The entries of the segment of patch `v` of the dofs array lie in
`[0, gtolCounts(v))`. -/
theorem dofs_range (ord : IterOrder) (cellCounts : PetscSection) (cells : IS)
    (cellNumbering : PetscSection) (dofsPerCell : Int) (cellNodeMap : Int → Int)
    (out : DiscretisationInfo) (hcc : cellCounts.IsIndexedList)
    (hok : PCPatchCreateCellPatchDiscretisationInfo ord cellCounts cells cellNumbering
      dofsPerCell cellNodeMap = .ok out)
    (v : Int) (hv1 : cellCounts.pStart ≤ v) (hv2 : v < cellCounts.pEnd) (k : Int)
    (hk1 : 0 ≤ k) (hk2 : k < cellCounts.atlasDof v * dofsPerCell) :
    0 ≤ ISGetIndices out.dofs (cellCounts.atlasOff v * dofsPerCell + k) ∧
    ISGetIndices out.dofs (cellCounts.atlasOff v * dofsPerCell + k)
      < PetscSectionGetDof out.gtolCounts v := by
  obtain ⟨st, hst, _, hdofs, hcnt, _⟩ := discretisationInfo_unfold ord cellCounts cells
    cellNumbering dofsPerCell cellNodeMap out hok
  obtain ⟨harr, g1, g2, hd⟩ := pass1_spec cellCounts cells cellNumbering dofsPerCell _
    cellNodeMap st hst
  have hseg := dofs_segment cellCounts cells cellNumbering dofsPerCell cellNodeMap hcc
    st.dofsArray harr v hv1 hv2
  have hn : out.gtolCounts.atlasDof v = (((firstOccurrences (patchGlobalDofs cellCounts cells
      cellNumbering dofsPerCell cellNodeMap v)).length : Nat) : Int) := by
    rw [hcnt]; exact hd v hv1 hv2
  have hmem : st.dofsArray (cellCounts.atlasOff v * dofsPerCell + k)
      ∈ st.dofsArray.segment (cellCounts.atlasOff v * dofsPerCell)
        (cellCounts.atlasDof v * dofsPerCell) :=
    List.mem_map.mpr ⟨k, mem_loopRange.mpr ⟨hk1, hk2⟩, rfl⟩
  rw [hseg, List.mem_map] at hmem
  obtain ⟨l, hl, e⟩ := hmem
  have hl' := (mem_localIndices _ l).mp hl
  have hread : ISGetIndices out.dofs (cellCounts.atlasOff v * dofsPerCell + k) = l := by
    unfold ISGetIndices IntArray.read
    rw [hdofs]
    show (st.dofsArray _).getD 0 = l
    rw [← e]
    rfl
  rw [hread, PetscSectionGetDof, hn]
  exact hl'

/-! ### Segments of an Indexed List and the work buffers -/

/-- The segment of a point of an Indexed List lies inside `[0, storage size]`. -/
theorem indexedList_bounds (s : PetscSection) (hs : s.IsIndexedList) (v : Int)
    (v1 : s.pStart ≤ v) (v2 : v < s.pEnd) :
    0 ≤ PetscSectionGetOffset s v ∧ 0 ≤ PetscSectionGetDof s v ∧
      PetscSectionGetOffset s v + PetscSectionGetDof s v ≤ PetscSectionGetStorageSize s := by
  rw [storageSize_eq_sum s hs.1]
  simp only [PetscSectionGetOffset, PetscSectionGetDof]
  rw [hs.2 v v1 v2, loopRange_split v1 v2]
  simp only [List.map_append, List.map_cons, List.sum_append, List.sum_cons]
  have a1 : 0 ≤ ((loopRange s.pStart v).map s.atlasDof).sum :=
    sum_nonneg_of_forall (fun x hx => hs.1 x (mem_loopRange.mp hx).1 (by
      have := (mem_loopRange.mp hx).2; omega))
  have a2 : 0 ≤ ((loopRange (v + 1) s.pEnd).map s.atlasDof).sum :=
    sum_nonneg_of_forall (fun x hx => hs.1 x (by
      have := (mem_loopRange.mp hx).1; omega) (mem_loopRange.mp hx).2)
  have a3 := hs.1 v v1 v2
  omega

/-- What a first setup that returns without error leaves in the fields read
by the apply and by the callback. -/
theorem setUp_layout {R : Type} [Zero R] (ord : IterOrder) (pc p : PC R)
    (hfresh : pc.setupcalled = false) (h : (PCSetUp_PATCH ord pc).result = .ok p) :
    p.localToPatch.IsIndexedList ∧
    p.cellCounts = (PCPatchCreateCellPatches pc.dm).1 ∧
    p.localToPatch.pStart = p.cellCounts.pStart ∧ p.localToPatch.pEnd = p.cellCounts.pEnd ∧
    p.npatch = p.cellCounts.pEnd - p.cellCounts.pStart ∧
    p.bs = pc.bs ∧ p.nodesPerCell = pc.nodesPerCell ∧
    p.localX.n = PetscSectionGetStorageSize p.localToPatch * p.bs ∧
    p.localY.n = PetscSectionGetStorageSize p.localToPatch * p.bs ∧
    p.patchY = p.patchX ∧
    (∀ i, 0 ≤ i → i < p.npatch →
      p.patchX i = if 0 < PetscSectionGetDof p.localToPatch (i + p.localToPatch.pStart)
        then some ⟨p.bs, PetscSectionGetDof p.localToPatch (i + p.localToPatch.pStart) * p.bs⟩
        else none) ∧
    (∀ i k, 0 ≤ i → i < p.npatch → 0 ≤ k →
      k < PetscSectionGetDof p.cellCounts (i + p.cellCounts.pStart) * p.nodesPerCell →
      0 ≤ ISGetIndices p.dofs
        (PetscSectionGetOffset p.cellCounts (i + p.cellCounts.pStart) * p.nodesPerCell + k) ∧
      ISGetIndices p.dofs
        (PetscSectionGetOffset p.cellCounts (i + p.cellCounts.pStart) * p.nodesPerCell + k)
        < PetscSectionGetDof p.localToPatch (i + p.localToPatch.pStart)) := by
  obtain ⟨p1, hp1, heq⟩ := setUp_fields ord pc p hfresh h
  obtain ⟨info, bc, hinfo, _, s1, s2, s3, s4, _, _, s7, s8, s9, _, s11, s12, s13, s14⟩ :=
    structures_spec ord pc p1 hp1
  obtain ⟨g1, g2, g3, _, _⟩ := gtolCounts_spec ord _ _ _ _ _ info hinfo
  have e1 : p.cellCounts = p1.cellCounts := by have t := congrArg PC.cellCounts heq; exact t
  have e2 : p.localToPatch = p1.localToPatch := by have t := congrArg PC.localToPatch heq; exact t
  have e3 : p.npatch = p1.npatch := by have t := congrArg PC.npatch heq; exact t
  have e4 : p.bs = p1.bs := by have t := congrArg PC.bs heq; exact t
  have e5 : p.nodesPerCell = p1.nodesPerCell := by have t := congrArg PC.nodesPerCell heq; exact t
  have e6 : p.localX = p1.localX := by have t := congrArg PC.localX heq; exact t
  have e7 : p.localY = p1.localY := by have t := congrArg PC.localY heq; exact t
  have e8 : p.patchX = p1.patchX := by have t := congrArg PC.patchX heq; exact t
  have e9 : p.patchY = p1.patchY := by have t := congrArg PC.patchY heq; exact t
  have e10 : p.dofs = p1.dofs := by have t := congrArg PC.dofs heq; exact t
  rw [e1, e2, e3, e4, e5, e6, e7, e8, e9, e10, s14, s4, s1, s3, s7, s8, s9, s11, s12, s13, g1,
    g2]
  refine ⟨g3, rfl, rfl, rfl, rfl, rfl, rfl, rfl, rfl, rfl, ?_, ?_⟩
  · intro i i0 i1
    rw [foldl_createPatchVec]
    have hm : i + (PCPatchCreateCellPatches pc.dm).1.pStart
        ∈ loopRange (PCPatchCreateCellPatches pc.dm).1.pStart
          (PCPatchCreateCellPatches pc.dm).1.pEnd := mem_loopRange.mpr ⟨by omega, by omega⟩
    by_cases hd : 0 < PetscSectionGetDof info.gtolCounts
        (i + (PCPatchCreateCellPatches pc.dm).1.pStart)
    · rw [if_pos ⟨hm, hd⟩, if_pos hd]
    · rw [if_neg (fun hh => hd hh.2), if_neg hd]
  · intro i k i0 i1 k0 k1
    exact dofs_range ord _ _ _ _ _ info (cellPatches_indexedList pc.dm) hinfo
      (i + (PCPatchCreateCellPatches pc.dm).1.pStart) (by omega) (by omega) k k0 k1

/-! ### The new cells array of the dof map builder -/

theorem dofsSlot_cells (dofsPerCell numDofs : Int) (cellNodeMap : Int → Int) (cell : Int)
    (st st' : DofState) (j : Int)
    (hok : dofsSlot dofsPerCell numDofs cellNodeMap cell st j = .ok st') :
    st'.newCellsArray = st.newCellsArray := by
  unfold dofsSlot at hok
  simp only at hok
  split at hok
  · cases hok
  · simp only [Except.ok.injEq] at hok
    subst hok
    dsimp only
    split <;> rfl

theorem dofsCell_cells (cellNumbering : PetscSection) (dofsPerCell numDofs : Int)
    (cellNodeMap : Int → Int) (cellsArray : Int → Int) (st st' : DofState) (i : Int)
    (hok : dofsCell cellNumbering dofsPerCell numDofs cellNodeMap cellsArray st i = .ok st') :
    st'.newCellsArray
      = st.newCellsArray.write i (PetscSectionGetOffset cellNumbering (cellsArray i)) := by
  unfold dofsCell at hok
  simp only at hok
  split at hok
  · cases hok
  · exact foldlM_rel (fun s s' : DofState => s'.newCellsArray = s.newCellsArray)
      (fun _ => rfl) (fun a b c h1 h2 => h2.trans h1) _ _
      (fun s x s' _ h => dofsSlot_cells _ _ _ _ s s' x h) _ st' hok

theorem dofsVertex_cells (cellCounts cellNumbering : PetscSection) (dofsPerCell numDofs : Int)
    (cellNodeMap : Int → Int) (cellsArray : Int → Int) (st st' : DofState) (v : Int)
    (hok : dofsVertex cellCounts cellNumbering dofsPerCell numDofs cellNodeMap cellsArray st v
      = .ok st') (k : Int) :
    st'.newCellsArray k
      = if PetscSectionGetOffset cellCounts v ≤ k
          ∧ k < PetscSectionGetOffset cellCounts v + PetscSectionGetDof cellCounts v
        then some (PetscSectionGetOffset cellNumbering (cellsArray k))
        else st.newCellsArray k := by
  have key : ∀ (cis : List Int) (s s' : DofState),
      cis.foldlM (dofsCell cellNumbering dofsPerCell numDofs cellNodeMap cellsArray) s = .ok s' →
      s'.newCellsArray k = if k ∈ cis then some (PetscSectionGetOffset cellNumbering (cellsArray k))
        else s.newCellsArray k := by
    intro cis
    induction cis with
    | nil =>
      intro s s' h
      simp only [List.foldlM_nil, pure, Except.pure, Except.ok.injEq] at h
      subst h
      simp
    | cons i is ih =>
      intro s s' h
      rw [List.foldlM_cons] at h
      cases h1 : dofsCell cellNumbering dofsPerCell numDofs cellNodeMap cellsArray s i with
      | error e => rw [h1] at h; cases h
      | ok s1 =>
        rw [h1] at h
        rw [ih s1 s' h, dofsCell_cells _ _ _ _ _ s s1 i h1]
        by_cases hk : k ∈ is
        · rw [if_pos hk, if_pos (List.mem_cons_of_mem _ hk)]
        · rw [if_neg hk]
          by_cases hki : k = i
          · subst hki
            rw [if_pos (List.mem_cons_self _ _)]
            simp [IntArray.write]
          · rw [if_neg (fun hm => by
              rcases List.mem_cons.mp hm with e | e
              · exact hki e
              · exact hk e)]
            simp [IntArray.write, hki]
  unfold dofsVertex at hok
  simp only at hok
  split at hok
  · cases hok
  · rename_i st1 h1
    simp only [Except.ok.injEq] at hok
    subst hok
    have := key _ _ st1 h1
    simp only [mem_loopRange] at this
    exact this

/-- The new cells array after the first pass: at every position of the
segment of a vertex of the loop, the compact index of the cell that the cells
array holds there. -/
theorem pass1_cells (cellCounts cellNumbering : PetscSection) (dofsPerCell numDofs : Int)
    (cellNodeMap : Int → Int) (cellsArray : Int → Int) (vs : List Int) (st st' : DofState)
    (hok : vs.foldlM
      (dofsVertex cellCounts cellNumbering dofsPerCell numDofs cellNodeMap cellsArray) st
      = .ok st') (k : Int)
    (hk : (∃ v ∈ vs, PetscSectionGetOffset cellCounts v ≤ k
        ∧ k < PetscSectionGetOffset cellCounts v + PetscSectionGetDof cellCounts v)
      ∨ st.newCellsArray k = some (PetscSectionGetOffset cellNumbering (cellsArray k))) :
    st'.newCellsArray k = some (PetscSectionGetOffset cellNumbering (cellsArray k)) := by
  induction vs generalizing st with
  | nil =>
    simp only [List.foldlM_nil, pure, Except.pure, Except.ok.injEq] at hok
    subst hok
    rcases hk with ⟨v, hv, _⟩ | h
    · cases hv
    · exact h
  | cons w ws ih =>
    rw [List.foldlM_cons] at hok
    cases h1 : dofsVertex cellCounts cellNumbering dofsPerCell numDofs cellNodeMap cellsArray
        st w with
    | error e => rw [h1] at hok; cases hok
    | ok s1 =>
      rw [h1] at hok
      apply ih s1 hok
      have hw := dofsVertex_cells _ _ _ _ _ _ st s1 w h1 k
      rcases hk with ⟨v, hv, hseg⟩ | h
      · rcases List.mem_cons.mp hv with e | e
        · subst e
          right
          rw [hw, if_pos hseg]
        · exact Or.inl ⟨v, e, hseg⟩
      · right
        rw [hw]
        split
        · rfl
        · exact h

/-! ### The write index of the first pass of the dof map builder -/

/-- A loop over `l1 ++ x :: l2` that ends without error has passed through the
states before and after the step at `x`. -/
theorem foldlM_split {σ α ε : Type} (step : σ → α → Except ε σ) (l1 l2 : List α) (x : α)
    (s fin : σ) (h : (l1 ++ x :: l2).foldlM step s = .ok fin) :
    ∃ s1 s2, l1.foldlM step s = .ok s1 ∧ step s1 x = .ok s2 ∧ l2.foldlM step s2 = .ok fin := by
  induction l1 generalizing s with
  | nil =>
    rw [List.nil_append, List.foldlM_cons] at h
    cases h1 : step s x with
    | error e => rw [h1] at h; cases h
    | ok s2 =>
      rw [h1] at h
      exact ⟨s, s2, rfl, h1, h⟩
  | cons y ys ih =>
    rw [List.cons_append, List.foldlM_cons] at h
    cases h1 : step s y with
    | error e => rw [h1] at h; cases h
    | ok s' =>
      rw [h1] at h
      obtain ⟨s1, s2, a, b, c⟩ := ih s' h
      refine ⟨s1, s2, ?_, b, c⟩
      rw [List.foldlM_cons, h1]
      exact a

/-- A loop that ends without error has moved a counter by the sum of what its
steps add. -/
theorem foldlM_measure {σ α ε : Type} (step : σ → α → Except ε σ) (g : σ → Int) (w : α → Int)
    (xs : List α) (hstep : ∀ s x s', x ∈ xs → step s x = .ok s' → g s' = g s + w x)
    (s s' : σ) (h : xs.foldlM step s = .ok s') : g s' = g s + (xs.map w).sum := by
  induction xs generalizing s with
  | nil =>
    simp only [List.foldlM_nil, pure, Except.pure, Except.ok.injEq] at h
    subst h
    simp
  | cons x xs ih =>
    rw [List.foldlM_cons] at h
    cases h1 : step s x with
    | error e => rw [h1] at h; cases h
    | ok s1 =>
      rw [h1] at h
      rw [ih (fun s y s' hy => hstep s y s' (List.mem_cons_of_mem _ hy)) s1 h,
        hstep s x s1 (List.mem_cons_self _ _) h1]
      simp only [List.map_cons, List.sum_cons]
      ring

theorem sum_map_const_int (a b c : Int) (h : a ≤ b) :
    ((loopRange a b).map (fun _ => c)).sum = (b - a) * c := by
  have : ∀ l : List Int, (l.map (fun _ => c)).sum = (l.length : Int) * c := by
    intro l
    induction l with
    | nil => simp
    | cons x xs ih => simp only [List.map_cons, List.sum_cons, ih, List.length_cons]; push_cast; ring
  rw [this, length_loopRange, Int.toNat_of_nonneg (by omega)]

theorem dofsSlot_index (dofsPerCell numDofs : Int) (cellNodeMap : Int → Int) (cell : Int)
    (st st' : DofState) (j : Int)
    (hok : dofsSlot dofsPerCell numDofs cellNodeMap cell st j = .ok st') :
    st'.globalIndex = st.globalIndex + 1 ∧
    st'.dofsArray st.globalIndex
      = some (if PetscHashIMap st.ht (cellNodeMap (cell * dofsPerCell + j)) = -1
          then st.localIndex
          else PetscHashIMap st.ht (cellNodeMap (cell * dofsPerCell + j))) ∧
    DofsKept st st' := by
  unfold dofsSlot at hok
  simp only at hok
  split at hok
  · cases hok
  · simp only [Except.ok.injEq] at hok
    subst hok
    refine ⟨rfl, by simp [IntArray.write], by dsimp only; omega, ?_⟩
    intro k hk
    have hne : ¬ k = st.globalIndex := by omega
    dsimp only
    split <;> simp [IntArray.write, hne]

theorem dofsKept_refl (s : DofState) : DofsKept s s := ⟨le_refl _, fun _ _ => rfl⟩

theorem dofsKept_trans (a b c : DofState) (h1 : DofsKept a b) (h2 : DofsKept b c) :
    DofsKept a c :=
  ⟨le_trans h1.1 h2.1, fun k hk => (h2.2 k (lt_of_lt_of_le hk h1.1)).trans (h1.2 k hk)⟩

theorem foldlM_dofsSlot_index (dofsPerCell numDofs : Int) (cellNodeMap : Int → Int)
    (cell : Int) (a b : Int) (hab : a ≤ b) (st st' : DofState)
    (hok : (loopRange a b).foldlM (dofsSlot dofsPerCell numDofs cellNodeMap cell) st = .ok st') :
    st'.globalIndex = st.globalIndex + (b - a) ∧ DofsKept st st' := by
  constructor
  · rw [foldlM_measure _ DofState.globalIndex (fun _ => 1) _
      (fun s x s' _ h => (dofsSlot_index _ _ _ _ s s' x h).1) st st' hok,
      sum_map_const_int a b 1 hab]
    ring
  · exact foldlM_rel DofsKept dofsKept_refl dofsKept_trans _ _
      (fun s x s' _ h => (dofsSlot_index _ _ _ _ s s' x h).2.2) st st' hok

theorem dofsCell_index (cellNumbering : PetscSection) (dofsPerCell numDofs : Int)
    (cellNodeMap : Int → Int) (cellsArray : Int → Int) (hd : 0 ≤ dofsPerCell)
    (st st' : DofState) (i : Int)
    (hok : dofsCell cellNumbering dofsPerCell numDofs cellNodeMap cellsArray st i = .ok st') :
    st'.globalIndex = st.globalIndex + dofsPerCell ∧ DofsKept st st' ∧
    (loopRange 0 dofsPerCell).foldlM
      (dofsSlot dofsPerCell numDofs cellNodeMap (PetscSectionGetOffset cellNumbering (cellsArray i)))
      { st with newCellsArray :=
          st.newCellsArray.write i (PetscSectionGetOffset cellNumbering (cellsArray i)) }
      = .ok st' := by
  unfold dofsCell at hok
  simp only at hok
  split at hok
  · cases hok
  · obtain ⟨h1, h2⟩ := foldlM_dofsSlot_index _ _ _ _ 0 dofsPerCell hd _ st' hok
    refine ⟨?_, h2, hok⟩
    rw [h1]
    show st.globalIndex + (dofsPerCell - 0) = _
    ring

theorem foldlM_dofsCell_index (cellNumbering : PetscSection) (dofsPerCell numDofs : Int)
    (cellNodeMap : Int → Int) (cellsArray : Int → Int) (hd : 0 ≤ dofsPerCell)
    (a b : Int) (hab : a ≤ b) (st st' : DofState)
    (hok : (loopRange a b).foldlM
      (dofsCell cellNumbering dofsPerCell numDofs cellNodeMap cellsArray) st = .ok st') :
    st'.globalIndex = st.globalIndex + (b - a) * dofsPerCell ∧ DofsKept st st' := by
  constructor
  · rw [foldlM_measure _ DofState.globalIndex (fun _ => dofsPerCell) _
      (fun s x s' _ h => (dofsCell_index _ _ _ _ _ hd s s' x h).1) st st' hok,
      sum_map_const_int a b dofsPerCell hab]
  · exact foldlM_rel DofsKept dofsKept_refl dofsKept_trans _ _
      (fun s x s' _ h => (dofsCell_index _ _ _ _ _ hd s s' x h).2.1) st st' hok

theorem dofsVertex_index (cellCounts cellNumbering : PetscSection) (dofsPerCell numDofs : Int)
    (cellNodeMap : Int → Int) (cellsArray : Int → Int) (hd : 0 ≤ dofsPerCell)
    (st st' : DofState) (v : Int) (hv : 0 ≤ cellCounts.atlasDof v)
    (hok : dofsVertex cellCounts cellNumbering dofsPerCell numDofs cellNodeMap cellsArray st v
      = .ok st') :
    st'.globalIndex = st.globalIndex + cellCounts.atlasDof v * dofsPerCell ∧ DofsKept st st' ∧
    ∃ st1, (loopRange (PetscSectionGetOffset cellCounts v)
        (PetscSectionGetOffset cellCounts v + PetscSectionGetDof cellCounts v)).foldlM
      (dofsCell cellNumbering dofsPerCell numDofs cellNodeMap cellsArray)
      { st with localIndex := 0, ht := PetscHashIClear } = .ok st1 ∧
      DofsKept st1 st' := by
  unfold dofsVertex at hok
  simp only at hok
  split at hok
  · cases hok
  · rename_i st1 h1
    simp only [Except.ok.injEq] at hok
    subst hok
    obtain ⟨g1, g2⟩ := foldlM_dofsCell_index _ _ _ _ _ hd _ _
      (by simp only [PetscSectionGetDof]; omega) _ st1 h1
    refine ⟨?_, g2, st1, h1, dofsKept_refl st1⟩
    show st1.globalIndex = _
    rw [g1]
    show st.globalIndex + _ = _
    simp only [PetscSectionGetDof, PetscSectionGetOffset]
    ring

theorem foldlM_dofsVertex_index (cellCounts cellNumbering : PetscSection)
    (dofsPerCell numDofs : Int) (cellNodeMap : Int → Int) (cellsArray : Int → Int)
    (hd : 0 ≤ dofsPerCell) (vs : List Int) (hvs : ∀ v ∈ vs, 0 ≤ cellCounts.atlasDof v)
    (st st' : DofState)
    (hok : vs.foldlM
      (dofsVertex cellCounts cellNumbering dofsPerCell numDofs cellNodeMap cellsArray) st
      = .ok st') :
    st'.globalIndex = st.globalIndex + (vs.map cellCounts.atlasDof).sum * dofsPerCell
      ∧ DofsKept st st' := by
  constructor
  · rw [foldlM_measure _ DofState.globalIndex (fun v => cellCounts.atlasDof v * dofsPerCell) _
      (fun s x s' hx h => (dofsVertex_index _ _ _ _ _ _ hd s s' x (hvs x hx) h).1) st st' hok,
      sum_map_mul_const]
  · exact foldlM_rel DofsKept dofsKept_refl dofsKept_trans _ _
      (fun s x s' hx h => (dofsVertex_index _ _ _ _ _ _ hd s s' x (hvs x hx) h).2.1) st st' hok

/-! ### When the boundary condition builder fails -/

/-- A loop whose steps succeed or fail whatever the state succeeds exactly when
each of its steps does. -/
theorem foldlM_ok_iff {σ α ε : Type} (step : σ → α → Except ε σ) (P : α → Prop)
    (xs : List α) (hstep : ∀ s x, x ∈ xs → ((∃ s', step s x = .ok s') ↔ P x)) (s : σ) :
    (∃ s', xs.foldlM step s = .ok s') ↔ ∀ x ∈ xs, P x := by
  induction xs generalizing s with
  | nil => simp [pure, Except.pure]
  | cons x xs ih =>
    rw [List.foldlM_cons]
    have hx := hstep s x (List.mem_cons_self _ _)
    have ih' := fun s1 => ih (fun s y hy => hstep s y (List.mem_cons_of_mem _ hy)) s1
    cases h1 : step s x with
    | error e =>
      constructor
      · rintro ⟨s', h⟩; cases h
      · intro h
        obtain ⟨s', hs'⟩ := hx.mpr (h x (List.mem_cons_self _ _))
        rw [h1] at hs'
        cases hs'
    | ok s1 =>
      have hP : P x := hx.mp ⟨s1, h1⟩
      show (∃ s', xs.foldlM step s1 = .ok s') ↔ _
      rw [ih' s1]
      constructor
      · intro h y hy
        rcases List.mem_cons.mp hy with e | e
        · rw [e]; exact hP
        · exact h y e
      · intro h y hy
        exact h y (List.mem_cons_of_mem _ hy)

/-- In a table whose values are not negative, the answer `-1` of
`PetscHashIMap` means that the key is absent. -/
theorem map_eq_neg_one_iff (n : Int) (ht : PetscHashI) (hv : ValuesInRange n ht) (k : Int) :
    PetscHashIMap ht k = -1 ↔ k ∉ ht.map Prod.fst := by
  unfold PetscHashIMap
  cases h : ht.find? (fun e => decide (e.1 = k)) with
  | none =>
    simp only [true_iff]
    intro hk
    obtain ⟨e, he, e1⟩ := List.mem_map.mp hk
    have := List.find?_eq_none.mp h e he
    simp only [decide_eq_true_eq] at this
    exact this e1
  | some e =>
    have hmem := List.mem_of_find?_eq_some h
    have hkey := List.find?_some h
    simp only [decide_eq_true_eq] at hkey
    have := hv e hmem
    constructor
    · intro h'
      simp only at h'
      omega
    · intro h'
      exact absurd (List.mem_map.mpr ⟨e, hmem, hkey⟩) h'

/-- The keys of the table `patchDofs` of patch `v` are the entries of its gtol
segment, and its values are local indices. -/
theorem patchDofs_keys (globalBcs : PetscHashI) (gtolCounts : PetscSection)
    (gtolArray : Int → Int) (v : Int) :
    ValuesInRange (PetscSectionGetDof gtolCounts v)
      (bcsPatchTables globalBcs gtolCounts gtolArray v).1 ∧
    ∀ j, j ∈ (bcsPatchTables globalBcs gtolCounts gtolArray v).1.map Prod.fst ↔
      ∃ k, PetscSectionGetOffset gtolCounts v ≤ k ∧
        k < PetscSectionGetOffset gtolCounts v + PetscSectionGetDof gtolCounts v ∧
        gtolArray k = j := by
  constructor
  · exact (foldl_bcsGtolEntry_ok (PetscSectionGetDof gtolCounts v) globalBcs gtolArray
      (PetscSectionGetOffset gtolCounts v) _
      (by intro i hi; obtain ⟨i1, i2⟩ := mem_loopRange.mp hi; omega)
      (PetscHashIClear, PetscHashIClear) (by intro e he; cases he)).1
  · intro j
    unfold bcsPatchTables
    simp only
    rw [fst_foldl_bcsGtolEntry, mem_keys_foldl_add]
    simp only [PetscHashIClear, List.map_nil, List.not_mem_nil, false_or, List.mem_map,
      mem_loopRange]
    constructor
    · rintro ⟨k, ⟨k1, k2⟩, e⟩
      exact ⟨k, k1, k2, e⟩
    · rintro ⟨k, k1, k2, e⟩
      exact ⟨k, ⟨k1, k2⟩, e⟩

theorem bcsFacetDof_ok_iff (patchDofs localBcs : PetscHashI) (j : Int) :
    (∃ lb, bcsFacetDof patchDofs localBcs j = .ok lb) ↔ PetscHashIMap patchDofs j ≠ -1 := by
  unfold bcsFacetDof
  simp only
  split
  · rename_i h
    simp [h]
  · rename_i h
    simp [h]

theorem bcsFacet_ok_iff (dm : DM) (dofSection : PetscSection) (facetsArray : Int → Int)
    (patchDofs localBcs : PetscHashI) (i : Int) :
    (∃ lb, bcsFacet dm dofSection facetsArray patchDofs localBcs i = .ok lb) ↔
      (0 < closureSize (dm.transitiveClosure (facetsArray i) true) →
        ∀ j, PetscSectionGetOffset dofSection (facetsArray i) ≤ j →
          j < PetscSectionGetOffset dofSection (facetsArray i)
            + PetscSectionGetDof dofSection (facetsArray i) →
          PetscHashIMap patchDofs j ≠ -1) := by
  have hpoint : ∀ (lb : PetscHashI) (ci : Nat),
      (∃ lb', bcsClosurePoint dofSection patchDofs (facetsArray i) lb ci = .ok lb') ↔
        ∀ j, PetscSectionGetOffset dofSection (facetsArray i) ≤ j →
          j < PetscSectionGetOffset dofSection (facetsArray i)
            + PetscSectionGetDof dofSection (facetsArray i) →
          PetscHashIMap patchDofs j ≠ -1 := by
    intro lb ci
    unfold bcsClosurePoint
    simp only
    split
    · rw [foldlM_ok_iff (bcsFacetDof patchDofs) (fun j => PetscHashIMap patchDofs j ≠ -1) _
        (fun s x _ => bcsFacetDof_ok_iff patchDofs s x)]
      constructor
      · intro h j j1 j2
        exact h j (mem_loopRange.mpr ⟨j1, by omega⟩)
      · intro h j hj
        obtain ⟨j1, j2⟩ := mem_loopRange.mp hj
        exact h j j1 (by omega)
    · rename_i hl
      constructor
      · intro _ j j1 j2
        omega
      · intro _
        exact ⟨lb, rfl⟩
  unfold bcsFacet
  simp only
  rw [foldlM_ok_iff (bcsClosurePoint dofSection patchDofs (facetsArray i)) (fun _ =>
      ∀ j, PetscSectionGetOffset dofSection (facetsArray i) ≤ j →
        j < PetscSectionGetOffset dofSection (facetsArray i)
          + PetscSectionGetDof dofSection (facetsArray i) →
        PetscHashIMap patchDofs j ≠ -1) _ (fun s x _ => hpoint s x)]
  constructor
  · intro h hpos
    exact h 0 (List.mem_range.mpr hpos)
  · intro h ci hci
    exact h (by have := List.mem_range.mp hci; omega)

/-- The loop over the boundary facets of patch `v` succeeds exactly when every
id in the section range of a facet with a non-empty closure is an entry of the
gtol segment of the patch. -/
theorem bcsLocalTable_ok_iff (dm : DM) (globalBcs : PetscHashI) (facetCounts : PetscSection)
    (facetsArray : Int → Int) (gtolCounts : PetscSection) (gtolArray : Int → Int)
    (dofSection : PetscSection) (v : Int) :
    (∃ lb, bcsLocalTable dm globalBcs facetCounts facetsArray gtolCounts gtolArray dofSection v
        = .ok lb) ↔
      ∀ i j, PetscSectionGetOffset facetCounts v ≤ i →
        i < PetscSectionGetOffset facetCounts v + PetscSectionGetDof facetCounts v →
        0 < closureSize (dm.transitiveClosure (facetsArray i) true) →
        PetscSectionGetOffset dofSection (facetsArray i) ≤ j →
        j < PetscSectionGetOffset dofSection (facetsArray i)
          + PetscSectionGetDof dofSection (facetsArray i) →
        ∃ k, PetscSectionGetOffset gtolCounts v ≤ k ∧
          k < PetscSectionGetOffset gtolCounts v + PetscSectionGetDof gtolCounts v ∧
          gtolArray k = j := by
  obtain ⟨hval, hkeys⟩ := patchDofs_keys globalBcs gtolCounts gtolArray v
  unfold bcsLocalTable
  simp only
  rw [foldlM_ok_iff _ _ _ (fun s x _ => bcsFacet_ok_iff dm dofSection facetsArray
    (bcsPatchTables globalBcs gtolCounts gtolArray v).1 s x)]
  constructor
  · intro h i j i1 i2 hc j1 j2
    have := h i (mem_loopRange.mpr ⟨i1, i2⟩) hc j j1 j2
    rw [Ne, map_eq_neg_one_iff _ _ hval, not_not] at this
    exact (hkeys j).mp this
  · intro h i hi hc j j1 j2
    obtain ⟨i1, i2⟩ := mem_loopRange.mp hi
    rw [Ne, map_eq_neg_one_iff _ _ hval, not_not]
    exact (hkeys j).mpr (h i j i1 i2 hc j1 j2)

theorem bcsVertex_ok_iff (ord : IterOrder) (dm : DM) (globalBcs : PetscHashI)
    (facetCounts : PetscSection) (facetsArray : Int → Int) (gtolCounts : PetscSection)
    (gtolArray : Int → Int) (dofSection : PetscSection) (st : BcState) (v : Int) :
    (∃ st', bcsVertex ord dm globalBcs facetCounts facetsArray gtolCounts gtolArray dofSection
        st v = .ok st') ↔
      ∃ lb, bcsLocalTable dm globalBcs facetCounts facetsArray gtolCounts gtolArray dofSection v
        = .ok lb := by
  unfold bcsVertex
  cases bcsLocalTable dm globalBcs facetCounts facetsArray gtolCounts gtolArray dofSection v with
  | error e => simp
  | ok lb => simp

/-- The only error of the boundary condition builder is the out-of-range
error. -/
theorem bcs_error (ord : IterOrder) (dm : DM) (numBcs : Int) (bcNodes : Int → Int)
    (facetCounts : PetscSection) (facets : IS) (gtolCounts : PetscSection) (gtol : IS)
    (dofSection : PetscSection) (e : PetscErrorCode)
    (h : PCPatchCreateCellPatchBCs ord dm numBcs bcNodes facetCounts facets gtolCounts gtol
      dofSection = .error e) : e = .PETSC_ERR_ARG_OUTOFRANGE := by
  unfold PCPatchCreateCellPatchBCs at h
  simp only at h
  split at h
  · rename_i e1 h1
    have he : e1 = e := by cases h; rfl
    subst he
    obtain ⟨s1, v, _, hv⟩ := foldlM_error_step _ _ _ _ h1
    unfold bcsVertex at hv
    split at hv
    · rename_i e2 h2
      have he : e2 = e1 := by cases hv; rfl
      subst he
      unfold bcsLocalTable at h2
      simp only at h2
      obtain ⟨s2, i, _, hi⟩ := foldlM_error_step _ _ _ _ h2
      unfold bcsFacet at hi
      simp only at hi
      obtain ⟨s3, ci, _, hci⟩ := foldlM_error_step _ _ _ _ hi
      unfold bcsClosurePoint at hci
      simp only at hci
      split at hci
      · obtain ⟨s4, j, _, hj⟩ := foldlM_error_step _ _ _ _ hci
        unfold bcsFacetDof at hj
        simp only at hj
        split at hj
        · cases hj; rfl
        · cases hj
      · cases hci
    · cases hv
  · cases h

/-- The boundary condition builder succeeds exactly when the loop over the
boundary facets of every patch does. -/
theorem bcs_ok_iff (ord : IterOrder) (dm : DM) (numBcs : Int) (bcNodes : Int → Int)
    (facetCounts : PetscSection) (facets : IS) (gtolCounts : PetscSection) (gtol : IS)
    (dofSection : PetscSection) :
    (∃ out, PCPatchCreateCellPatchBCs ord dm numBcs bcNodes facetCounts facets gtolCounts gtol
        dofSection = .ok out) ↔
      ∀ v, facetCounts.pStart ≤ v → v < facetCounts.pEnd →
        ∃ lb, bcsLocalTable dm (bcsGlobalTable numBcs bcNodes) facetCounts (ISGetIndices facets)
          gtolCounts (ISGetIndices gtol) dofSection v = .ok lb := by
  have key := foldlM_ok_iff
    (bcsVertex ord dm (bcsGlobalTable numBcs bcNodes) facetCounts (ISGetIndices facets)
      gtolCounts (ISGetIndices gtol) dofSection)
    (fun v => ∃ lb, bcsLocalTable dm (bcsGlobalTable numBcs bcNodes) facetCounts
      (ISGetIndices facets) gtolCounts (ISGetIndices gtol) dofSection v = .ok lb)
    (loopRange facetCounts.pStart facetCounts.pEnd)
    (fun s x _ => bcsVertex_ok_iff ord dm _ facetCounts _ gtolCounts _ dofSection s x)
    { bcCounts := PetscSectionSetChart facetCounts.pStart facetCounts.pEnd
      totalNumBcs := PetscSectionGetStorageSize facetCounts
      bcIndex := 0
      bcsArray := PetscMalloc1 }
  unfold PCPatchCreateCellPatchBCs
  simp only
  constructor
  · rintro ⟨out, hout⟩ v v1 v2
    split at hout
    · cases hout
    · rename_i st hst
      exact key.mp ⟨st, hst⟩ v (mem_loopRange.mpr ⟨v1, v2⟩)
  · intro h
    obtain ⟨st, hst⟩ := key.mpr (fun v hv => h v (mem_loopRange.mp hv).1 (mem_loopRange.mp hv).2)
    rw [hst]
    exact ⟨_, rfl⟩

/-! ### The running indices and the capacities of the arrays -/

theorem foldl_inv {σ α : Type} (P : σ → Prop) (f : σ → α → σ) (h : ∀ s x, P s → P (f s x))
    (l : List α) (s : σ) (hs : P s) : P (l.foldl f s) := by
  induction l generalizing s with
  | nil => exact hs
  | cons x xs ih => exact ih (f s x) (h s x hs)

/-- The append of a facet writes below the capacity, regrown when the array is
full, and leaves the running index inside the array. -/
theorem addFacet_capacity (st : FacetState) (v f : Int) (h : st.InCapacity) :
    (addFacet st v f).facetsArray = st.facetsArray.write st.facetIndex f ∧
    st.facetIndex < (addFacet st v f).totalFacets ∧
    (addFacet st v f).facetIndex = st.facetIndex + 1 ∧
    (addFacet st v f).InCapacity := by
  obtain ⟨h1, h2⟩ := h
  have hT : st.facetIndex < (addFacet st v f).totalFacets := by
    show st.facetIndex
      < (if st.facetIndex ≥ st.totalFacets then (1 + st.totalFacets) * 6 / 5 else st.totalFacets)
    split
    · omega
    · omega
  refine ⟨rfl, hT, rfl, ?_, ?_⟩
  · show 0 ≤ st.facetIndex + 1
    omega
  · show st.facetIndex + 1 ≤ (addFacet st v f).totalFacets
    omega

theorem facetsFacet_capacity (dm : DM) (ht : PetscHashI) (v : Int) (st : FacetState) (f : Int)
    (h : st.InCapacity) : (facetsFacet dm ht v st f).InCapacity := by
  unfold facetsFacet
  split
  · exact h
  · simp only
    split
    · exact (addFacet_capacity st v f h).2.2.2
    · split
      · exact (addFacet_capacity st v f h).2.2.2
      · exact h

theorem facetsVertex_capacity (dm : DM) (cellCounts : PetscSection) (cellsArray : Int → Int)
    (st : FacetState) (v : Int) (h : st.InCapacity) :
    (facetsVertex dm cellCounts cellsArray st v).InCapacity := by
  unfold facetsVertex
  simp only
  split
  · exact h
  · apply foldl_inv FacetState.InCapacity _ _ _ st h
    intro s ci hs
    unfold facetsCell
    exact foldl_inv FacetState.InCapacity _ (fun s f hs => facetsFacet_capacity dm _ v s f hs)
      _ s hs

/-- The step of the boundary condition builder for a vertex writes below the
capacity, regrown when the array would be full, and leaves the running index
inside the array. -/
theorem bcsVertex_capacity (ord : IterOrder) (dm : DM) (globalBcs : PetscHashI)
    (facetCounts : PetscSection) (facetsArray : Int → Int) (gtolCounts : PetscSection)
    (gtolArray : Int → Int) (dofSection : PetscSection) (st st' : BcState) (v : Int)
    (hinv : st.InCapacity)
    (h : bcsVertex ord dm globalBcs facetCounts facetsArray gtolCounts gtolArray dofSection st v
      = .ok st') :
    st'.bcIndex = st.bcIndex + st'.bcCounts.atlasDof v ∧ 0 ≤ st'.bcCounts.atlasDof v ∧
    st'.bcIndex < st'.totalNumBcs ∧ st'.InCapacity := by
  obtain ⟨h1, h2⟩ := hinv
  unfold bcsVertex at h
  split at h
  · cases h
  · rename_i lb hlb
    simp only [Except.ok.injEq] at h
    subst h
    have hlen : (((ord.iter lb).map Prod.fst).length : Int) = PetscHashISize lb := by
      rw [List.length_map, (ord.perm lb).length_eq]
      rfl
    have hn : 0 ≤ PetscHashISize lb := Int.natCast_nonneg _
    have hidx : (PetscHashIGetKeys ord lb st.bcIndex st.bcsArray).1
        = st.bcIndex + PetscHashISize lb := by
      show st.bcIndex + _ = _
      rw [hlen]
    have hcnt : (PetscSectionSetDof st.bcCounts v (PetscHashISize lb)).atlasDof v
        = PetscHashISize lb := by
      simp [PetscSectionSetDof]
    have hT : st.bcIndex + PetscHashISize lb
        < (if PetscHashISize lb + st.bcIndex ≥ st.totalNumBcs
            then (1 + PetscHashISize lb + st.bcIndex) * 2 else st.totalNumBcs) := by
      split
      · omega
      · omega
    refine ⟨?_, ?_, ?_, ?_, ?_⟩
    · show (PetscHashIGetKeys ord lb st.bcIndex st.bcsArray).1 = _
      rw [hidx]
      show _ = st.bcIndex + (PetscSectionSetDof st.bcCounts v (PetscHashISize lb)).atlasDof v
      rw [hcnt]
    · show 0 ≤ (PetscSectionSetDof st.bcCounts v (PetscHashISize lb)).atlasDof v
      rw [hcnt]
      exact hn
    · show (PetscHashIGetKeys ord lb st.bcIndex st.bcsArray).1 < _
      rw [hidx]
      exact hT
    · show 0 ≤ (PetscHashIGetKeys ord lb st.bcIndex st.bcsArray).1
      rw [hidx]
      omega
    · show (PetscHashIGetKeys ord lb st.bcIndex st.bcsArray).1 ≤ _
      rw [hidx]
      exact le_of_lt hT

/-! ### The patch of a vertex in the output of the builders -/

theorem loopRange_shift (off n : Int) :
    loopRange off (n + off) = (loopRange 0 n).map (fun k => off + k) := by
  unfold loopRange
  rw [List.map_map]
  have e : (n + off - off).toNat = (n - 0).toNat := by congr 1; omega
  rw [e]
  apply List.map_congr_left
  intro k _
  simp only [Function.comp]
  omega

/-- The cells that the facets builder reads for the vertex `v` in the output
of `PCPatchCreateCellPatches` are the cells recorded for `v`. -/
theorem patchCells_cellPatches (dm : DM) (v : Int) (h1 : dm.vStart ≤ v) (h2 : v < dm.vEnd) :
    patchCells (PCPatchCreateCellPatches dm).1 (PCPatchCreateCellPatches dm).2 v
      = patchCellList dm v := by
  obtain ⟨_, _, hd, ho⟩ := cellPatches_counts dm
  have hseg := segment_flatten PetscMalloc1 (patchCellList dm) dm.vStart dm.vEnd v h1 h2
  rw [← cellPatches_cells, ← ho v h1 h2, ← hd v h1 h2] at hseg
  unfold patchCells
  rw [loopRange_shift]
  unfold IntArray.segment at hseg
  rw [List.map_map]
  have hget : ∀ l : List (Option Int), ∀ l' : List Int, l = l'.map some →
      l.map (fun o => o.getD 0) = l' := by
    intro l l' e
    subst e
    induction l' with
    | nil => rfl
    | cons x xs ih => simp only [List.map_cons, Option.getD_some, ih]
  have := hget _ _ hseg
  rw [List.map_map] at this
  exact this

/-! ### An apply on a chart with a vertex without local dofs -/

/-- A loop whose steps succeed up to an index at which the step fails with
the code `e` whatever the state fails with `e`. -/
theorem Outcome.loop_first_error {σ : Type} (body : σ → Int → Outcome σ) (l1 l2 : List Int)
    (i : Int) (e : PetscErrorCode)
    (hbefore : ∀ j ∈ l1, ∀ s, ∃ s', (body s j).result = .ok s')
    (hi : ∀ s, (body s i).result = .error e) (s : σ) :
    (Outcome.loop body (l1 ++ i :: l2) s).result = .error e := by
  induction l1 generalizing s with
  | nil =>
    rw [List.nil_append, Outcome.loop, Outcome.bind_of_error _ _ e (hi s)]
  | cons j js ih =>
    rw [List.cons_append, Outcome.loop]
    obtain ⟨s', hs'⟩ := hbefore j (List.mem_cons_self _ _) s
    rw [Outcome.bind_of_ok _ _ s' hs']
    exact ih (fun k hk => hbefore k (List.mem_cons_of_mem _ hk)) s'

/-- The step of the apply for a patch without local dofs. -/
theorem applyPatch_no_dofs {R : Type} [Zero R] (pc : PC R) (localX : Int → R)
    (st : ApplyState R) (i : Int)
    (h : PetscSectionGetDof pc.localToPatch (i + pc.localToPatch.pStart) ≤ 0) :
    applyPatch pc localX st i = Outcome.error .PETSC_ERR_ARG_SIZ := by
  unfold applyPatch
  simp only
  rw [if_pos h]

/-- A vertex for which no cell is recorded has no local dof. -/
theorem gtolCounts_no_cells (ord : IterOrder) (dm : DM) (cellNumbering : PetscSection)
    (dofsPerCell : Int) (cellNodeMap : Int → Int) (info : DiscretisationInfo)
    (hok : PCPatchCreateCellPatchDiscretisationInfo ord (PCPatchCreateCellPatches dm).1
      (PCPatchCreateCellPatches dm).2 cellNumbering dofsPerCell cellNodeMap = .ok info)
    (v : Int) (v1 : dm.vStart ≤ v) (v2 : v < dm.vEnd) (hv : patchCellList dm v = []) :
    info.gtolCounts.pStart = dm.vStart ∧ info.gtolCounts.pEnd = dm.vEnd ∧
    PetscSectionGetDof info.gtolCounts v = 0 := by
  obtain ⟨c1, c2, hd, _⟩ := cellPatches_counts dm
  obtain ⟨g1, g2, _, g4, _⟩ := gtolCounts_spec ord _ _ _ _ _ info hok
  refine ⟨g1.trans c1, g2.trans c2, ?_⟩
  rw [PetscSectionGetDof, g4 v (by rw [c1]; exact v1) (by rw [c2]; exact v2)]
  have hz : (PCPatchCreateCellPatches dm).1.atlasDof v = 0 := by
    rw [hd v v1 v2, hv]
    rfl
  have hnil : patchGlobalDofs (PCPatchCreateCellPatches dm).1 (PCPatchCreateCellPatches dm).2
      cellNumbering dofsPerCell cellNodeMap v = [] := by
    unfold patchGlobalDofs
    rw [hz, loopRange_empty (by omega)]
    rfl
  rw [hnil]
  rfl

/-! ### The apply in closed form -/

theorem sum_map_eq_nsmul {R : Type} [AddMonoid R] (l : List Int) (f : Int → R) (a : R)
    (h : ∀ i ∈ l, f i = a) : (l.map f).sum = l.length • a := by
  induction l with
  | nil => simp
  | cons i is ih =>
    rw [List.map_cons, List.sum_cons, h i (List.mem_cons_self _ _),
      ih (fun j hj => h j (List.mem_cons_of_mem _ hj)), List.length_cons, succ_nsmul']

/-- The entries of `y` after an apply with block size 1 and the identity as
default plan, on an object laid out as the setup lays it out: `y[g]` is `x[g]`
added up once per slot of the gtol array that holds `g`. -/
theorem apply_closed {R : Type} [AddMonoid R] (p : PC R) (x y : Vec R) (n : Int)
    (gtolCounts : PetscSection) (gtol : IS) (hbs : p.bs = 1)
    (hsf : p.globalToLocal = PCPatchCreateGlobalToLocalSF (identitySF n) gtolCounts gtol)
    (hl2p : p.localToPatch = gtolCounts) (hil : gtolCounts.IsIndexedList)
    (hn : p.npatch = gtolCounts.pEnd - gtolCounts.pStart)
    (hX : ∀ i, 0 ≤ i → i < p.npatch →
      0 < PetscSectionGetDof gtolCounts (i + gtolCounts.pStart) →
      p.patchX i = some ⟨p.bs, PetscSectionGetDof gtolCounts (i + gtolCounts.pStart) * p.bs⟩)
    (hrange : ∀ i, 0 ≤ i → i < PetscSectionGetStorageSize gtolCounts →
      0 ≤ ISGetIndices gtol i ∧ ISGetIndices gtol i < n)
    (r : PC R × Vec R) (h : (PCApply_PATCH p x y).result = .ok r) (g : Int) (g1 : 0 ≤ g)
    (g2 : g < y.n) :
    r.2.data g
      = ((loopRange 0 (PetscSectionGetStorageSize gtolCounts)).filter
          (fun i => decide (ISGetIndices gtol i = g))).length • x.data g := by
  have hid : ∀ i, 0 ≤ i → i < PetscSectionGetStorageSize gtolCounts →
      (identitySF n).iremote (ISGetIndices gtol i) = some ⟨0, ISGetIndices gtol i⟩ := by
    intro i i0 i1
    obtain ⟨a, b⟩ := hrange i i0 i1
    show (if 0 ≤ ISGetIndices gtol i ∧ ISGetIndices gtol i < n then _ else _) = _
    rw [if_pos ⟨a, b⟩]
  have hsum := apply_sum_gtol p x y (identitySF n) gtolCounts gtol hsf hid r h g 0 (le_refl _)
    (by rw [hbs]; decide) (by rw [hbs]; omega) (by rw [hbs]; omega)
  have eg : g * p.bs + 0 = g := by rw [hbs]; omega
  rw [eg] at hsum
  rw [hsum]
  apply sum_map_eq_nsmul
  intro i hi
  obtain ⟨hi1, hi2⟩ := List.mem_filter.mp hi
  obtain ⟨i0, i1⟩ := mem_loopRange.mp hi1
  have hgi : ISGetIndices gtol i = g := by simpa using hi2
  have ei : i * p.bs + 0 = i := by rw [hbs]; omega
  rw [ei]
  obtain ⟨a1, a2, _, _⟩ := apply_result p x y r h
  obtain ⟨v, v1, v2, o1, o2⟩ := slot_of_index gtolCounts hil i i0 i1
  have hv : v - gtolCounts.pStart + gtolCounts.pStart = v := by omega
  have hpx := hX (v - gtolCounts.pStart) (by omega) (by rw [hn]; omega) (by rw [hv]; omega)
  rw [hv] at hpx
  have hY : r.1.localY.data i = r.1.localX.data i := by
    rw [a1, a2]
    apply copyWindows_mem _ _ _ _ _ _ i (v - gtolCounts.pStart) _
      (mem_loopRange.mpr ⟨by omega, by rw [hn]; omega⟩) hpx
    · rw [hl2p, hv, hbs]
      omega
    · rw [hl2p, hv, hbs]
      show i < _ * 1 + _ * 1
      omega
  have hXi : r.1.localX.data i = x.data (ISGetIndices gtol i) := by
    rw [a1, hsf]
    have := bcast_apply (PCPatchCreateGlobalToLocalSF (identitySF n) gtolCounts gtol) p.bs
      x.data p.localX.data i 0 ⟨0, ISGetIndices gtol i⟩ i0
      (by rw [globalToLocal_nleaves]; exact i1) (le_refl _) (by rw [hbs]; decide)
      (globalToLocal_iremote (identitySF n) gtolCounts gtol hid i i0 i1)
    rw [ei] at this
    rw [this]
    congr 1
    show ISGetIndices gtol i * p.bs + 0 = _
    rw [hbs]
    omega
  rw [hY, hXi, hgi]

/-! ### Where the keys of the table of boundary dofs come from -/

/-- A key with an answer other than `-1` is bound to this answer. -/
theorem map_mem (ht : PetscHashI) (k : Int) (h : PetscHashIMap ht k ≠ -1) :
    (k, PetscHashIMap ht k) ∈ ht := by
  unfold PetscHashIMap at h ⊢
  cases hf : ht.find? (fun e => decide (e.1 = k)) with
  | none => rw [hf] at h; exact absurd rfl h
  | some e =>
    have hmem := List.mem_of_find?_eq_some hf
    have hkey := List.find?_some hf
    simp only [decide_eq_true_eq] at hkey
    simp only
    rw [← hkey]
    exact hmem

theorem keys_all_add (Q : Int → Prop) (ht : PetscHashI) (k v : Int)
    (h : ∀ x ∈ ht.map Prod.fst, Q x) (hk : Q k) :
    ∀ x ∈ (PetscHashIAdd ht k v).map Prod.fst, Q x := by
  intro x hx
  rcases (mem_keys_add ht k v x).mp hx with h' | rfl
  · exact h x h'
  · exact hk

/-- The bindings of the table `patchDofs` of patch `v`: an entry of the gtol
segment of the patch and its position in the segment. -/
theorem patchDofs_entries (globalBcs : PetscHashI) (gtolCounts : PetscSection)
    (gtolArray : Int → Int) (v : Int) (e : Int × Int)
    (he : e ∈ (bcsPatchTables globalBcs gtolCounts gtolArray v).1) :
    ∃ i, PetscSectionGetOffset gtolCounts v ≤ i ∧
      i < PetscSectionGetOffset gtolCounts v + PetscSectionGetDof gtolCounts v ∧
      e = (gtolArray i, i - PetscSectionGetOffset gtolCounts v) := by
  have key : ∀ (is : List Int) (ht : PetscHashI),
      (∀ e ∈ ht, ∃ i ∈ is, e = (gtolArray i, i - PetscSectionGetOffset gtolCounts v)) →
      ∀ (js : List Int), (∀ j ∈ js, j ∈ is) →
      ∀ e ∈ js.foldl (fun ht i => PetscHashIAdd ht (gtolArray i)
        (i - PetscSectionGetOffset gtolCounts v)) ht,
      ∃ i ∈ is, e = (gtolArray i, i - PetscSectionGetOffset gtolCounts v) := by
    intro is ht hht js
    induction js generalizing ht with
    | nil => intro _ e he; exact hht e he
    | cons j js ih =>
      intro hjs e he
      rw [List.foldl_cons] at he
      apply ih _ _ (fun k hk => hjs k (List.mem_cons_of_mem _ hk)) e he
      intro e' he'
      rcases mem_add _ _ _ _ he' with h | h
      · exact hht e' h
      · exact ⟨j, hjs j (List.mem_cons_self _ _), h⟩
  unfold bcsPatchTables at he
  simp only at he
  rw [fst_foldl_bcsGtolEntry] at he
  obtain ⟨i, hi, e1⟩ := key _ PetscHashIClear (by intro e he; cases he) _ (fun j hj => hj) e he
  obtain ⟨i1, i2⟩ := mem_loopRange.mp hi
  exact ⟨i, i1, i2, e1⟩

/-- The keys of the table `localBcs` after the loop over the gtol segment. -/
theorem foldl_bcsGtolEntry_keys (globalBcs : PetscHashI) (gtolArray : Int → Int) (off : Int)
    (Q : Int → Prop) (is : List Int)
    (hQ : ∀ i ∈ is, PetscHashIHasKey globalBcs (gtolArray i) = true → Q (i - off))
    (st : PetscHashI × PetscHashI) (h : ∀ x ∈ st.2.map Prod.fst, Q x) :
    ∀ x ∈ (is.foldl (bcsGtolEntry globalBcs gtolArray off) st).2.map Prod.fst, Q x := by
  induction is generalizing st with
  | nil => exact h
  | cons i is ih =>
    rw [List.foldl_cons]
    apply ih (fun j hj => hQ j (List.mem_cons_of_mem _ hj))
    unfold bcsGtolEntry
    simp only
    split
    · rename_i hkey
      exact keys_all_add Q _ _ _ h (hQ i (List.mem_cons_self _ _) hkey)
    · exact h

/-- A generic loop invariant for a loop with errors. -/
theorem foldlM_inv {σ α ε : Type} (P : σ → Prop) (step : σ → α → Except ε σ) (xs : List α)
    (hstep : ∀ s x s', x ∈ xs → P s → step s x = .ok s' → P s') (s s' : σ) (hs : P s)
    (h : xs.foldlM step s = .ok s') : P s' := by
  induction xs generalizing s with
  | nil =>
    simp only [List.foldlM_nil, pure, Except.pure, Except.ok.injEq] at h
    subst h
    exact hs
  | cons x xs ih =>
    rw [List.foldlM_cons] at h
    cases h1 : step s x with
    | error e => rw [h1] at h; cases h
    | ok s1 =>
      rw [h1] at h
      exact ih (fun s y s' hy => hstep s y s' (List.mem_cons_of_mem _ hy)) s1
        (hstep s x s1 (List.mem_cons_self _ _) hs h1) h

/-- The keys of the table `localBcs` of patch `v`: each is the position, in the
gtol segment of the patch, of an entry that is a key of `globalBcs` or lies in
the section range of a boundary facet of the patch. -/
theorem bcsLocalTable_keys (dm : DM) (globalBcs : PetscHashI) (facetCounts : PetscSection)
    (facetsArray : Int → Int) (gtolCounts : PetscSection) (gtolArray : Int → Int)
    (dofSection : PetscSection) (v : Int) (lb : PetscHashI)
    (h : bcsLocalTable dm globalBcs facetCounts facetsArray gtolCounts gtolArray dofSection v
      = .ok lb) (l : Int) (hl : l ∈ lb.map Prod.fst) :
    ∃ i, PetscSectionGetOffset gtolCounts v ≤ i ∧
      i < PetscSectionGetOffset gtolCounts v + PetscSectionGetDof gtolCounts v ∧
      l = i - PetscSectionGetOffset gtolCounts v ∧
      (PetscHashIHasKey globalBcs (gtolArray i) = true ∨
        ∃ fi, PetscSectionGetOffset facetCounts v ≤ fi ∧
          fi < PetscSectionGetOffset facetCounts v + PetscSectionGetDof facetCounts v ∧
          PetscSectionGetOffset dofSection (facetsArray fi) ≤ gtolArray i ∧
          gtolArray i < PetscSectionGetOffset dofSection (facetsArray fi)
            + PetscSectionGetDof dofSection (facetsArray fi)) := by
  let Q : Int → Prop := fun l =>
    ∃ i, PetscSectionGetOffset gtolCounts v ≤ i ∧
      i < PetscSectionGetOffset gtolCounts v + PetscSectionGetDof gtolCounts v ∧
      l = i - PetscSectionGetOffset gtolCounts v ∧
      (PetscHashIHasKey globalBcs (gtolArray i) = true ∨
        ∃ fi, PetscSectionGetOffset facetCounts v ≤ fi ∧
          fi < PetscSectionGetOffset facetCounts v + PetscSectionGetDof facetCounts v ∧
          PetscSectionGetOffset dofSection (facetsArray fi) ≤ gtolArray i ∧
          gtolArray i < PetscSectionGetOffset dofSection (facetsArray fi)
            + PetscSectionGetDof dofSection (facetsArray fi))
  have h0 : ∀ x ∈ (bcsPatchTables globalBcs gtolCounts gtolArray v).2.map Prod.fst, Q x := by
    unfold bcsPatchTables
    simp only
    apply foldl_bcsGtolEntry_keys globalBcs gtolArray _ Q
    · intro i hi hkey
      obtain ⟨i1, i2⟩ := mem_loopRange.mp hi
      exact ⟨i, i1, i2, rfl, Or.inl hkey⟩
    · intro x hx
      cases hx
  have hdof : ∀ (fi : Int), PetscSectionGetOffset facetCounts v ≤ fi →
      fi < PetscSectionGetOffset facetCounts v + PetscSectionGetDof facetCounts v →
      ∀ (s s' : PetscHashI) (j : Int),
      PetscSectionGetOffset dofSection (facetsArray fi) ≤ j →
      j < PetscSectionGetOffset dofSection (facetsArray fi)
        + PetscSectionGetDof dofSection (facetsArray fi) →
      (∀ x ∈ s.map Prod.fst, Q x) →
      bcsFacetDof (bcsPatchTables globalBcs gtolCounts gtolArray v).1 s j = .ok s' →
      ∀ x ∈ s'.map Prod.fst, Q x := by
    intro fi f1 f2 s s' j j1 j2 hs hstep
    unfold bcsFacetDof at hstep
    simp only at hstep
    split at hstep
    · cases hstep
    · rename_i hne
      simp only [Except.ok.injEq] at hstep
      subst hstep
      apply keys_all_add Q _ _ _ hs
      obtain ⟨i, i1, i2, e⟩ := patchDofs_entries globalBcs gtolCounts gtolArray v _
        (map_mem _ j hne)
      have ej : j = gtolArray i := congrArg Prod.fst e
      have el : PetscHashIMap (bcsPatchTables globalBcs gtolCounts gtolArray v).1 j
          = i - PetscSectionGetOffset gtolCounts v := congrArg Prod.snd e
      exact ⟨i, i1, i2, el, Or.inr ⟨fi, f1, f2, ej ▸ j1, ej ▸ j2⟩⟩
  unfold bcsLocalTable at h
  simp only at h
  have := foldlM_inv (fun s : PetscHashI => ∀ x ∈ s.map Prod.fst, Q x) _ _
    (fun s fi s' hfi hs hstep => by
      obtain ⟨f1, f2⟩ := mem_loopRange.mp hfi
      unfold bcsFacet at hstep
      simp only at hstep
      exact foldlM_inv (fun s : PetscHashI => ∀ x ∈ s.map Prod.fst, Q x) _ _
        (fun s ci s' _ hs hstep => by
          unfold bcsClosurePoint at hstep
          simp only at hstep
          split at hstep
          · exact foldlM_inv (fun s : PetscHashI => ∀ x ∈ s.map Prod.fst, Q x) _ _
              (fun s j s' hj hs hstep => by
                obtain ⟨j1, j2⟩ := mem_loopRange.mp hj
                exact hdof fi f1 f2 s s' j j1 (by omega) hs hstep) _ _ hs hstep
          · simp only [Except.ok.injEq] at hstep
            subst hstep
            exact hs) _ _ hs hstep) _ lb h0 h
  exact this l hl

/-! ### The order in which a hash table is visited -/

/-- The writes of the second pass for the bindings of a table with distinct
values do not depend on the order of the bindings. -/
theorem foldl_gtolEntry_perm (off : Int) (es1 es2 : List (Int × Int)) (arr : IntArray)
    (hperm : es1.Perm es2) (hnd : (es1.map Prod.snd).Nodup) :
    es1.foldl (gtolEntry off) arr = es2.foldl (gtolEntry off) arr := by
  have hnd2 : (es2.map Prod.snd).Nodup := ((hperm.map Prod.snd).nodup_iff).mp hnd
  funext k
  by_cases h : ∃ e ∈ es1, e.1 ≥ 0 ∧ k = off + e.2
  · obtain ⟨e, he, hpos, rfl⟩ := h
    rw [foldl_gtolEntry_written off es1 arr hnd e he hpos,
      foldl_gtolEntry_written off es2 arr hnd2 e (hperm.mem_iff.mp he) hpos]
  · rw [foldl_gtolEntry_frame off es1 arr k (fun e he hpos hk => h ⟨e, he, hpos, hk⟩),
      foldl_gtolEntry_frame off es2 arr k
        (fun e he hpos hk => h ⟨e, hperm.mem_iff.mpr he, hpos, hk⟩)]

theorem foldl_congr_mem {σ α : Type} (f g : σ → α → σ) (l : List α)
    (h : ∀ s, ∀ x ∈ l, f s x = g s x) (s : σ) : l.foldl f s = l.foldl g s := by
  induction l generalizing s with
  | nil => rfl
  | cons x xs ih =>
    rw [List.foldl_cons, List.foldl_cons, h s x (List.mem_cons_self _ _)]
    exact ih (fun s y hy => h s y (List.mem_cons_of_mem _ hy)) _

/-- The dof map builder returns the same for every order in which the table of
a patch is visited. -/
theorem discretisationInfo_order (ord1 ord2 : IterOrder) (cellCounts : PetscSection)
    (cells : IS) (cellNumbering : PetscSection) (dofsPerCell : Int) (cellNodeMap : Int → Int)
    (hcc : cellCounts.IsIndexedList) :
    PCPatchCreateCellPatchDiscretisationInfo ord1 cellCounts cells cellNumbering dofsPerCell
        cellNodeMap
      = PCPatchCreateCellPatchDiscretisationInfo ord2 cellCounts cells cellNumbering dofsPerCell
        cellNodeMap := by
  unfold PCPatchCreateCellPatchDiscretisationInfo
  simp only
  cases hst : (loopRange cellCounts.pStart cellCounts.pEnd).foldlM
      (dofsVertex cellCounts cellNumbering dofsPerCell
        (PetscSectionGetStorageSize cellCounts * dofsPerCell) cellNodeMap (ISGetIndices cells))
      { ht := PetscHashIClear, localIndex := 0, globalIndex := 0, dofsArray := PetscMalloc1,
        newCellsArray := PetscMalloc1,
        gtolCounts := PetscSectionSetChart cellCounts.pStart cellCounts.pEnd } with
  | error e => rfl
  | ok st =>
    obtain ⟨harr, _⟩ := pass1_spec cellCounts cells cellNumbering dofsPerCell _ cellNodeMap st hst
    have hfold : ∀ gc : PetscSection,
        (loopRange cellCounts.pStart cellCounts.pEnd).foldl
          (gtolVertex ord1 cellCounts cellNumbering gc dofsPerCell cellNodeMap
            (ISGetIndices cells) st.dofsArray) PetscMalloc1
        = (loopRange cellCounts.pStart cellCounts.pEnd).foldl
          (gtolVertex ord2 cellCounts cellNumbering gc dofsPerCell cellNodeMap
            (ISGetIndices cells) st.dofsArray) PetscMalloc1 := by
      intro gc
      apply foldl_congr_mem
      intro arr v hv
      obtain ⟨v1, v2⟩ := mem_loopRange.mp hv
      unfold gtolVertex
      simp only
      rw [gtolTable_spec cellCounts cells cellNumbering dofsPerCell cellNodeMap hcc st.dofsArray
        harr v v1 v2]
      apply foldl_gtolEntry_perm
      · exact (ord1.perm _).trans (ord2.perm _).symm
      · exact (((ord1.perm _).map Prod.snd).nodup_iff).mpr (snd_numberedFrom_nodup 0 _)
    simp only
    rw [hfold]

/-- Sorting does not see the order of the list it is given. -/
theorem sort_perm (l1 l2 : List Int) (h : l1.Perm l2) : PetscSortInt l1 = PetscSortInt l2 := by
  unfold PetscSortInt
  apply List.eq_of_perm_of_sorted (r := fun a b : Int => a ≤ b)
  · exact (List.perm_insertionSort _ l1).trans (h.trans (List.perm_insertionSort _ l2).symm)
  · exact List.sorted_insertionSort _ l1
  · exact List.sorted_insertionSort _ l2

/-- The step of the boundary condition builder for a vertex, written without
the order in which the keys are handed out. -/
theorem bcsVertex_canonical (ord : IterOrder) (dm : DM) (globalBcs : PetscHashI)
    (facetCounts : PetscSection) (facetsArray : Int → Int) (gtolCounts : PetscSection)
    (gtolArray : Int → Int) (dofSection : PetscSection) (st : BcState) (v : Int) :
    bcsVertex ord dm globalBcs facetCounts facetsArray gtolCounts gtolArray dofSection st v
      = match bcsLocalTable dm globalBcs facetCounts facetsArray gtolCounts gtolArray
          dofSection v with
        | .error e => .error e
        | .ok localBcs =>
          .ok { bcCounts := PetscSectionSetDof st.bcCounts v (PetscHashISize localBcs)
                totalNumBcs :=
                  if PetscHashISize localBcs + st.bcIndex ≥ st.totalNumBcs
                  then (1 + PetscHashISize localBcs + st.bcIndex) * 2 else st.totalNumBcs
                bcIndex := st.bcIndex + PetscHashISize localBcs
                bcsArray := st.bcsArray.writeList st.bcIndex
                  (PetscSortInt (localBcs.map Prod.fst)) } := by
  unfold bcsVertex
  cases bcsLocalTable dm globalBcs facetCounts facetsArray gtolCounts gtolArray dofSection v with
  | error e => rfl
  | ok lb =>
    simp only
    have hlen : (((ord.iter lb).map Prod.fst).length : Int) = PetscHashISize lb := by
      rw [List.length_map, (ord.perm lb).length_eq]
      rfl
    have h1 : (PetscHashIGetKeys ord lb st.bcIndex st.bcsArray).1
        = st.bcIndex + PetscHashISize lb := by
      show st.bcIndex + _ = _
      rw [hlen]
    have h2 : (PetscHashIGetKeys ord lb st.bcIndex st.bcsArray).2
        = st.bcsArray.writeList st.bcIndex ((ord.iter lb).map Prod.fst) := rfl
    have h3 : sortSegment (PetscHashISize lb)
        ((PetscHashIGetKeys ord lb st.bcIndex st.bcsArray).1 - PetscHashISize lb)
        (PetscHashIGetKeys ord lb st.bcIndex st.bcsArray).2
        = st.bcsArray.writeList st.bcIndex (PetscSortInt (lb.map Prod.fst)) := by
      rw [h1, h2, ← hlen]
      have : st.bcIndex + (((ord.iter lb).map Prod.fst).length : Int)
          - (((ord.iter lb).map Prod.fst).length : Int) = st.bcIndex := by omega
      rw [this, sortSegment_writeList, sort_perm _ _ ((ord.perm lb).map Prod.fst)]
    rw [h3, h1]

/-- The boundary condition builder returns the same for every order in which
`PetscHashIGetKeys` hands out the keys. -/
theorem bcs_order (ord1 ord2 : IterOrder) (dm : DM) (numBcs : Int) (bcNodes : Int → Int)
    (facetCounts : PetscSection) (facets : IS) (gtolCounts : PetscSection) (gtol : IS)
    (dofSection : PetscSection) :
    PCPatchCreateCellPatchBCs ord1 dm numBcs bcNodes facetCounts facets gtolCounts gtol
        dofSection
      = PCPatchCreateCellPatchBCs ord2 dm numBcs bcNodes facetCounts facets gtolCounts gtol
        dofSection := by
  have hstep : bcsVertex ord1 dm (bcsGlobalTable numBcs bcNodes) facetCounts
        (ISGetIndices facets) gtolCounts (ISGetIndices gtol) dofSection
      = bcsVertex ord2 dm (bcsGlobalTable numBcs bcNodes) facetCounts
        (ISGetIndices facets) gtolCounts (ISGetIndices gtol) dofSection := by
    funext st v
    rw [bcsVertex_canonical, bcsVertex_canonical]
  unfold PCPatchCreateCellPatchBCs
  simp only
  rw [hstep]

/-- The setup returns the same for every order in which the hash tables are
visited. -/
theorem setUp_order {R : Type} [Zero R] (ord1 ord2 : IterOrder) (pc : PC R) :
    PCSetUp_PATCH ord1 pc = PCSetUp_PATCH ord2 pc := by
  have hs : PCSetUp_PATCH_structures ord1 pc = PCSetUp_PATCH_structures ord2 pc := by
    unfold PCSetUp_PATCH_structures
    simp only
    rw [discretisationInfo_order ord1 ord2 _ _ _ _ _ (cellPatches_indexedList pc.dm)]
    cases PCPatchCreateCellPatchDiscretisationInfo ord2 (PCPatchCreateCellPatches pc.dm).1
        (PCPatchCreateCellPatches pc.dm).2 pc.cellNumbering pc.nodesPerCell pc.cellNodeMap with
    | error e => rfl
    | ok info =>
      simp only
      rw [bcs_order ord1 ord2]
  unfold PCSetUp_PATCH PCSetUp_PATCH_first
  rw [hs]

/-! ### Outside the chart of the cell counts, and the window of a patch -/

/-- The step of the apply for a patch whose work vector has `n` entries
copies the window `[start * bs, start * bs + n)` of `localX` to `localY` and
leaves the rest of `localY` as it was. -/
theorem applyPatch_window {R : Type} [Zero R] (pc : PC R) (localX : Int → R)
    (st st' : ApplyState R) (i : Int) (px : PatchVec) (hx : pc.patchX i = some px)
    (h : (applyPatch pc localX st i).result = .ok st') (k : Int) :
    st'.localY k
      = if PetscSectionGetOffset pc.localToPatch (i + pc.localToPatch.pStart) * pc.bs ≤ k
          ∧ k < PetscSectionGetOffset pc.localToPatch (i + pc.localToPatch.pStart) * pc.bs
            + px.n
        then localX k else st.localY k := by
  rw [applyPatch_localY pc localX st st' i h]
  simp only [copyWindows, List.foldl_cons, List.foldl_nil, hx]
  rfl

/-- Outside the windows of the patches of the list, `localY` is left as it
was. -/
theorem copyWindows_out {R : Type} (localToPatch : PetscSection) (bs : Int)
    (patchX : Int → Option PatchVec) (localX : Int → R) (l : List Int) (localY : Int → R)
    (k : Int)
    (h : ∀ i ∈ l, ∀ px, patchX i = some px →
      ¬ (PetscSectionGetOffset localToPatch (i + localToPatch.pStart) * bs ≤ k
        ∧ k < PetscSectionGetOffset localToPatch (i + localToPatch.pStart) * bs + px.n)) :
    copyWindows localToPatch bs patchX localX l localY k = localY k := by
  induction l generalizing localY with
  | nil => rfl
  | cons i is ih =>
    have hstep : copyWindows localToPatch bs patchX localX (i :: is) localY
        = copyWindows localToPatch bs patchX localX is
          (match patchX i with
            | some px => VecCopy px.n
                (PetscSectionGetOffset localToPatch (i + localToPatch.pStart) * bs) localX localY
            | none => localY) := by
      simp only [copyWindows, List.foldl_cons]
    rw [hstep, ih _ (fun j hj => h j (List.mem_cons_of_mem _ hj))]
    cases hx : patchX i with
    | none => rfl
    | some px =>
      simp only [VecCopy]
      rw [if_neg (h i (List.mem_cons_self _ _) px hx)]

/-- C1. Dedup invariant of the dof map builder: when the builder succeeds on an
Indexed List `cellCounts`, for every patch `v` the count `gtolCounts(v)` is the
number of distinct global dof ids `cellNodeMap[cell*dofsPerCell + j]` over the
cells of the patch and their slots, and the entries of the dofs array of two
(cell, slot) pairs of the patch are both written and are equal exactly when
their global dof ids are equal. -/
theorem dofs_dedup_invariant (ord : IterOrder) (cellCounts : PetscSection) (cells : IS)
    (cellNumbering : PetscSection) (dofsPerCell : Int) (cellNodeMap : Int → Int)
    (out : DiscretisationInfo) (hcc : cellCounts.IsIndexedList)
    (hok : PCPatchCreateCellPatchDiscretisationInfo ord cellCounts cells cellNumbering
      dofsPerCell cellNodeMap = .ok out)
    (v : Int) (hv1 : cellCounts.pStart ≤ v) (hv2 : v < cellCounts.pEnd) :
    out.gtolCounts.atlasDof v
      = (((patchGlobalDofs cellCounts cells cellNumbering dofsPerCell cellNodeMap v).toFinset.card
          : Nat) : Int) ∧
    ∀ i j i' j' : Int,
      cellCounts.atlasOff v ≤ i → i < cellCounts.atlasOff v + cellCounts.atlasDof v →
      0 ≤ j → j < dofsPerCell →
      cellCounts.atlasOff v ≤ i' → i' < cellCounts.atlasOff v + cellCounts.atlasDof v →
      0 ≤ j' → j' < dofsPerCell →
      ∃ l l' : Int,
        out.dofs.idx (i * dofsPerCell + j) = some l ∧
        out.dofs.idx (i' * dofsPerCell + j') = some l' ∧
        (l = l' ↔
          cellNodeMap (cellNumbering.atlasOff (ISGetIndices cells i) * dofsPerCell + j)
            = cellNodeMap (cellNumbering.atlasOff (ISGetIndices cells i') * dofsPerCell + j')) := by
  obtain ⟨st, hst, _, hdofs, hcnt, _⟩ := discretisationInfo_unfold ord cellCounts cells
    cellNumbering dofsPerCell cellNodeMap out hok
  obtain ⟨harr, g1, g2, hd⟩ := pass1_spec cellCounts cells cellNumbering dofsPerCell _
    cellNodeMap st hst
  constructor
  · rw [hcnt]
    show st.gtolCounts.atlasDof v = _
    rw [hd v hv1 hv2, length_firstOccurrences]
  · intro i j i' j' hi1 hi2 hj1 hj2 hi1' hi2' hj1' hj2'
    have e := dofs_entry cellCounts cells cellNumbering dofsPerCell cellNodeMap hcc
      st.dofsArray harr v i j hv1 hv2 hi1 hi2 hj1 hj2
    have e' := dofs_entry cellCounts cells cellNumbering dofsPerCell cellNodeMap hcc
      st.dofsArray harr v i' j' hv1 hv2 hi1' hi2' hj1' hj2'
    rw [hdofs]
    refine ⟨_, _, e, e', ?_⟩
    exact indexOf_firstOccurrences_inj _ _ _
      (List.getElem?_mem (patchGlobalDofs_getElem? _ _ _ _ _ _ _ _ hi1 hi2 hj1 hj2))
      (List.getElem?_mem (patchGlobalDofs_getElem? _ _ _ _ _ _ _ _ hi1' hi2' hj1' hj2'))

/-- C2. Dense local numbering: when the builder succeeds on an Indexed List
`cellCounts`, for every patch `v` the values stored in its segment of the dofs
array are exactly `0, ..., gtolCounts(v) - 1`, and the entry at position `p` of
the walk over the cells and slots of the patch is the number of distinct global
dof ids met before the first occurrence of its own id: local indices are given
in order of first occurrence. -/
theorem dofs_dense_numbering (ord : IterOrder) (cellCounts : PetscSection) (cells : IS)
    (cellNumbering : PetscSection) (dofsPerCell : Int) (cellNodeMap : Int → Int)
    (out : DiscretisationInfo) (hcc : cellCounts.IsIndexedList)
    (hok : PCPatchCreateCellPatchDiscretisationInfo ord cellCounts cells cellNumbering
      dofsPerCell cellNodeMap = .ok out)
    (v : Int) (hv1 : cellCounts.pStart ≤ v) (hv2 : v < cellCounts.pEnd) :
    (∀ x, x ∈ out.dofs.idx.segment (cellCounts.atlasOff v * dofsPerCell)
          (cellCounts.atlasDof v * dofsPerCell)
        ↔ ∃ l : Int, x = some l ∧ 0 ≤ l ∧ l < out.gtolCounts.atlasDof v) ∧
    (∀ (p : Nat)
        (hp : p < (patchGlobalDofs cellCounts cells cellNumbering dofsPerCell
          cellNodeMap v).length),
      (out.dofs.idx.segment (cellCounts.atlasOff v * dofsPerCell)
          (cellCounts.atlasDof v * dofsPerCell))[p]?
        = some (some ((((patchGlobalDofs cellCounts cells cellNumbering dofsPerCell
            cellNodeMap v).take
              (List.indexOf
                (patchGlobalDofs cellCounts cells cellNumbering dofsPerCell cellNodeMap v)[p]
                (patchGlobalDofs cellCounts cells cellNumbering dofsPerCell
                  cellNodeMap v))).toFinset.card : Nat) : Int))) := by
  obtain ⟨st, hst, _, hdofs, hcnt, _⟩ := discretisationInfo_unfold ord cellCounts cells
    cellNumbering dofsPerCell cellNodeMap out hok
  obtain ⟨harr, g1, g2, hd⟩ := pass1_spec cellCounts cells cellNumbering dofsPerCell _
    cellNodeMap st hst
  have hseg := dofs_segment cellCounts cells cellNumbering dofsPerCell cellNodeMap hcc
    st.dofsArray harr v hv1 hv2
  have hn : out.gtolCounts.atlasDof v = (((firstOccurrences (patchGlobalDofs cellCounts cells
      cellNumbering dofsPerCell cellNodeMap v)).length : Nat) : Int) := by
    rw [hcnt]; exact hd v hv1 hv2
  rw [hdofs]
  show (∀ x, x ∈ st.dofsArray.segment _ _ ↔ _) ∧
    (∀ (p : Nat) (hp : _), (st.dofsArray.segment _ _)[p]? = _)
  rw [hseg, hn]
  constructor
  · intro x
    rw [List.mem_map]
    constructor
    · rintro ⟨l, hl, rfl⟩
      exact ⟨l, rfl, (mem_localIndices _ l).mp hl⟩
    · rintro ⟨l, rfl, hl⟩
      exact ⟨l, (mem_localIndices _ l).mpr hl, rfl⟩
  · intro p hp
    rw [List.getElem?_map, localIndices_getElem? _ p hp]
    rfl

/-- C3 (amended). Round trip local -> global -> local: when the builder
succeeds on an Indexed List `cellCounts` and the global dof ids of patch `v`
are not negative, then looking up `gtol[offset(v) + l]` in the table that
`PCPatchCreateCellPatchBCs` rebuilds from the gtol segment of the patch returns
`l` for every local index `l` of the patch, and the gtol segment of the patch
has no repeated global dof id. -/
theorem gtol_round_trip (ord : IterOrder) (cellCounts : PetscSection)
    (cells : IS) (cellNumbering : PetscSection) (dofsPerCell : Int) (cellNodeMap : Int → Int)
    (out : DiscretisationInfo) (hcc : cellCounts.IsIndexedList)
    (hok : PCPatchCreateCellPatchDiscretisationInfo ord cellCounts cells cellNumbering
      dofsPerCell cellNodeMap = .ok out)
    (v : Int) (hv1 : cellCounts.pStart ≤ v) (hv2 : v < cellCounts.pEnd)
    (hnonneg : ∀ g ∈ patchGlobalDofs cellCounts cells cellNumbering dofsPerCell cellNodeMap v,
      0 ≤ g)
    (globalBcs : PetscHashI) :
    (∀ l : Int, 0 ≤ l → l < out.gtolCounts.atlasDof v →
      PetscHashIMap (bcsPatchTables globalBcs out.gtolCounts (ISGetIndices out.gtol) v).1
        (ISGetIndices out.gtol (out.gtolCounts.atlasOff v + l)) = l) ∧
    ((loopRange 0 (out.gtolCounts.atlasDof v)).map
      (fun l => ISGetIndices out.gtol (out.gtolCounts.atlasOff v + l))).Nodup := by
  obtain ⟨_, _, _, c4, _⟩ := gtolCounts_spec ord cellCounts cells cellNumbering dofsPerCell
    cellNodeMap out hok
  have hK := nodup_firstOccurrences
    (patchGlobalDofs cellCounts cells cellNumbering dofsPerCell cellNodeMap v)
  have hseg : ∀ (l : Nat) (hl : l < (firstOccurrences (patchGlobalDofs cellCounts cells
      cellNumbering dofsPerCell cellNodeMap v)).length),
      ISGetIndices out.gtol (out.gtolCounts.atlasOff v + l)
        = (firstOccurrences (patchGlobalDofs cellCounts cells cellNumbering dofsPerCell
            cellNodeMap v))[l] := by
    intro l hl
    show (out.gtol.idx (out.gtolCounts.atlasOff v + l)).getD 0 = _
    rw [gtol_entry ord cellCounts cells cellNumbering dofsPerCell cellNodeMap out hcc hok
      v hv1 hv2 l hl,
      if_pos (hnonneg _ ((mem_firstOccurrences _ _).mp (List.getElem_mem hl)))]
    rfl
  constructor
  · intro l h0 h1
    rw [c4 v hv1 hv2] at h1
    obtain ⟨n, rfl⟩ : ∃ n : Nat, l = (n : Int) := ⟨l.toNat, by omega⟩
    have hl : n < (firstOccurrences (patchGlobalDofs cellCounts cells cellNumbering
        dofsPerCell cellNodeMap v)).length := by omega
    rw [patchDofs_of_nodup globalBcs out.gtolCounts (ISGetIndices out.gtol) v _ hK
      (c4 v hv1 hv2) hseg, hseg n hl, map_numberedFrom, if_pos (List.getElem_mem hl),
      List.indexOf_getElem hK n hl, Nat.zero_add]
  · have e : (loopRange 0 (out.gtolCounts.atlasDof v)).map
        (fun l => ISGetIndices out.gtol (out.gtolCounts.atlasOff v + l))
        = firstOccurrences (patchGlobalDofs cellCounts cells cellNumbering dofsPerCell
            cellNodeMap v) := by
      apply List.ext_getElem?
      intro l
      rw [List.getElem?_map, c4 v hv1 hv2]
      by_cases hl : l < (firstOccurrences (patchGlobalDofs cellCounts cells cellNumbering
          dofsPerCell cellNodeMap v)).length
      · rw [getElem?_loopRange _ _ _ (by omega), Option.map_some', List.getElem?_eq_getElem hl]
        simp only [zero_add]
        rw [hseg l hl]
      · have h1 : (loopRange 0 (((firstOccurrences (patchGlobalDofs cellCounts cells
            cellNumbering dofsPerCell cellNodeMap v)).length : Nat) : Int))[l]? = none := by
          rw [List.getElem?_eq_none]
          rw [length_loopRange]; omega
        rw [h1, List.getElem?_eq_none (by omega)]
        rfl
    rw [e]
    exact hK

/-- C3 (as stated) fails: for the patch with the global dof ids `[-1, 0]` the
builder succeeds with two local dofs; the slot of local index 0 is never
written, it reads as 0, the id of local index 1, and the look-up returns 1. -/
theorem gtol_round_trip_counterexample :
    ¬ (∀ (ord : IterOrder) (cellCounts : PetscSection) (cells : IS)
        (cellNumbering : PetscSection) (dofsPerCell : Int) (cellNodeMap : Int → Int)
        (out : DiscretisationInfo), cellCounts.IsIndexedList →
        PCPatchCreateCellPatchDiscretisationInfo ord cellCounts cells cellNumbering
          dofsPerCell cellNodeMap = .ok out →
        ∀ (v : Int), cellCounts.pStart ≤ v → v < cellCounts.pEnd →
        ∀ (globalBcs : PetscHashI) (l : Int), 0 ≤ l → l < out.gtolCounts.atlasDof v →
          PetscHashIMap (bcsPatchTables globalBcs out.gtolCounts (ISGetIndices out.gtol) v).1
            (ISGetIndices out.gtol (out.gtolCounts.atlasOff v + l)) = l) := by
  intro h
  have key : (fun o : DiscretisationInfo =>
      (o.gtolCounts.atlasDof 0, o.gtolCounts.atlasOff 0, o.gtol.idx 0, o.gtol.idx 1))
      <$> PCPatchCreateCellPatchDiscretisationInfo IterOrder.insertion negativeDof.cellCounts
        negativeDof.cells negativeDof.cellNumbering 2 negativeDof.cellNodeMap
      = .ok (2, 0, none, some 0) := by rfl
  cases hr : PCPatchCreateCellPatchDiscretisationInfo IterOrder.insertion
      negativeDof.cellCounts negativeDof.cells negativeDof.cellNumbering 2
      negativeDof.cellNodeMap with
  | error e => rw [hr] at key; cases key
  | ok out =>
    rw [hr] at key
    simp only [Functor.map, Except.map, Except.ok.injEq, Prod.mk.injEq] at key
    obtain ⟨k1, k2, k3, k4⟩ := key
    have := h IterOrder.insertion negativeDof.cellCounts negativeDof.cells
      negativeDof.cellNumbering 2 negativeDof.cellNodeMap out negativeDof_indexedList hr 0
      (by decide) (by decide) PetscHashIClear 0 (le_refl 0) (by rw [k1]; decide)
    have hl : loopRange 0 (0 + 2) = [0, 1] := by decide
    simp only [bcsPatchTables, PetscSectionGetDof, PetscSectionGetOffset, k1, k2, hl,
      List.foldl_cons, List.foldl_nil, bcsGtolEntry, ISGetIndices, IntArray.read, add_zero,
      k3, k4, Option.getD_none, Option.getD_some] at this
    revert this
    decide

/-- C4. The gtol array inverts the local numbering: when the builder succeeds
on an Indexed List `cellCounts` and the global dof ids of patch `v` are not
negative, then for every cell position `i` of the patch and every slot `j` the
dofs array holds a local index `l` at `i*dofsPerCell + j` and
`gtol[gtolOffset(v) + l]` is `cellNodeMap[cell_i*dofsPerCell + j]`; and every
slot of the gtol segment of the patch has been written. -/
theorem gtol_inverts_local_numbering (ord : IterOrder) (cellCounts : PetscSection)
    (cells : IS) (cellNumbering : PetscSection) (dofsPerCell : Int) (cellNodeMap : Int → Int)
    (out : DiscretisationInfo) (hcc : cellCounts.IsIndexedList)
    (hok : PCPatchCreateCellPatchDiscretisationInfo ord cellCounts cells cellNumbering
      dofsPerCell cellNodeMap = .ok out)
    (v : Int) (hv1 : cellCounts.pStart ≤ v) (hv2 : v < cellCounts.pEnd)
    (hnonneg : ∀ g ∈ patchGlobalDofs cellCounts cells cellNumbering dofsPerCell cellNodeMap v,
      0 ≤ g) :
    (∀ i j : Int,
      cellCounts.atlasOff v ≤ i → i < cellCounts.atlasOff v + cellCounts.atlasDof v →
      0 ≤ j → j < dofsPerCell →
      ∃ l : Int, out.dofs.idx (i * dofsPerCell + j) = some l ∧
        out.gtol.idx (out.gtolCounts.atlasOff v + l)
          = some (cellNodeMap
              (cellNumbering.atlasOff (ISGetIndices cells i) * dofsPerCell + j))) ∧
    (∀ l : Int, 0 ≤ l → l < out.gtolCounts.atlasDof v →
      ∃ g : Int, out.gtol.idx (out.gtolCounts.atlasOff v + l) = some g) := by
  obtain ⟨_, _, _, c4, _⟩ := gtolCounts_spec ord cellCounts cells cellNumbering dofsPerCell
    cellNodeMap out hok
  obtain ⟨st, hst, _, hdofs, _, _⟩ := discretisationInfo_unfold ord cellCounts cells
    cellNumbering dofsPerCell cellNodeMap out hok
  obtain ⟨harr, _, _, _⟩ := pass1_spec cellCounts cells cellNumbering dofsPerCell _
    cellNodeMap st hst
  have hpos : ∀ (l : Nat) (hl : l < (firstOccurrences (patchGlobalDofs cellCounts cells
      cellNumbering dofsPerCell cellNodeMap v)).length),
      0 ≤ (firstOccurrences (patchGlobalDofs cellCounts cells cellNumbering dofsPerCell
        cellNodeMap v))[l] := fun l hl =>
    hnonneg _ ((mem_firstOccurrences _ _).mp (List.getElem_mem hl))
  constructor
  · intro i j hi1 hi2 hj1 hj2
    have hmem := List.getElem?_mem
      (patchGlobalDofs_getElem? cellCounts cells cellNumbering dofsPerCell cellNodeMap v i j
        hi1 hi2 hj1 hj2)
    have hlt := List.indexOf_lt_length.mpr ((mem_firstOccurrences _ _).mpr hmem)
    refine ⟨((List.indexOf
      (cellNodeMap (cellNumbering.atlasOff (ISGetIndices cells i) * dofsPerCell + j))
      (firstOccurrences (patchGlobalDofs cellCounts cells cellNumbering dofsPerCell
        cellNodeMap v)) : Nat) : Int), ?_, ?_⟩
    · rw [hdofs]
      exact dofs_entry cellCounts cells cellNumbering dofsPerCell cellNodeMap hcc
        st.dofsArray harr v i j hv1 hv2 hi1 hi2 hj1 hj2
    · rw [gtol_entry ord cellCounts cells cellNumbering dofsPerCell cellNodeMap out hcc hok
        v hv1 hv2 _ hlt, if_pos (hpos _ hlt), List.getElem_indexOf hlt]
  · intro l h0 h1
    rw [c4 v hv1 hv2] at h1
    obtain ⟨n, rfl⟩ : ∃ n : Nat, l = (n : Int) := ⟨l.toNat, by omega⟩
    have hl : n < (firstOccurrences (patchGlobalDofs cellCounts cells cellNumbering
        dofsPerCell cellNodeMap v)).length := by omega
    refine ⟨(firstOccurrences (patchGlobalDofs cellCounts cells cellNumbering
        dofsPerCell cellNodeMap v))[n], ?_⟩
    rw [gtol_entry ord cellCounts cells cellNumbering dofsPerCell cellNodeMap out hcc hok
      v hv1 hv2 _ hl, if_pos (hpos _ hl)]

/-- C5. Patch builder result: for a vertex `v` of the vertex stratum that
carries the `op2_core` or the `op2_non_core` label, the segment of the cells
array at the offset of `v` is the list of the closure points `closure[2*ci]`
lying in the cell stratum, in closure order, and `cellCounts(v)` is its length;
for a vertex carrying neither label the count is 0, the segment is empty and
the filling pass writes nothing for `v`. -/
theorem cellPatches_result (dm : DM) (v : Int) (h1 : dm.vStart ≤ v) (h2 : v < dm.vEnd) :
    ((dm.op2_core v || dm.op2_non_core v) = true →
      (PCPatchCreateCellPatches dm).2.idx.segment
          ((PCPatchCreateCellPatches dm).1.atlasOff v) ((PCPatchCreateCellPatches dm).1.atlasDof v)
        = (closureCells dm v).map some ∧
      (PCPatchCreateCellPatches dm).1.atlasDof v = ((closureCells dm v).length : Int)) ∧
    ((dm.op2_core v || dm.op2_non_core v) = false →
      (PCPatchCreateCellPatches dm).1.atlasDof v = 0 ∧
      (PCPatchCreateCellPatches dm).2.idx.segment
          ((PCPatchCreateCellPatches dm).1.atlasOff v) ((PCPatchCreateCellPatches dm).1.atlasDof v)
        = [] ∧
      ∀ cellsArray, fillCellsVertex dm (PCPatchCreateCellPatches dm).1 cellsArray v = cellsArray) := by
  obtain ⟨_, _, hd, ho⟩ := cellPatches_counts dm
  have hseg := segment_flatten PetscMalloc1 (patchCellList dm) dm.vStart dm.vEnd v h1 h2
  rw [← cellPatches_cells, ← ho v h1 h2, ← hd v h1 h2] at hseg
  constructor
  · intro hm
    have e : patchCellList dm v = closureCells dm v := by simp [patchCellList, hm]
    rw [hseg, hd v h1 h2, e]
    exact ⟨rfl, rfl⟩
  · intro hm
    have e : patchCellList dm v = [] := by simp [patchCellList, hm]
    refine ⟨by rw [hd v h1 h2, e]; rfl, by rw [hseg, e]; rfl, ?_⟩
    intro arr
    rw [fillCellsVertex_spec dm _ arr v (hd v h1 h2), e]
    rfl

/-- C6. Boundary-facet classification: for a vertex `v` of the chart, a facet
`f` occurs in the segment of the facets array of `v` exactly when `f` is in the
cone of a cell of the patch, does not carry the `exterior_facets` label, and its
support has exactly one cell or contains a cell outside the patch. Hence a
facet whose two or more supporting cells all lie in the patch, and a facet
with the exterior label, do not occur. -/
theorem facets_classification (dm : DM) (cellCounts : PetscSection) (cells : IS) (v : Int)
    (h1 : dm.vStart ≤ v) (h2 : v < dm.vEnd) (f : Int) :
    (some f ∈ (PCPatchCreateCellPatchFacets dm cellCounts cells).2.idx.segment
        ((PCPatchCreateCellPatchFacets dm cellCounts cells).1.atlasOff v)
        ((PCPatchCreateCellPatchFacets dm cellCounts cells).1.atlasDof v)
      ↔ (∃ c ∈ patchCells cellCounts cells v, f ∈ dm.cone c) ∧
        dm.exterior_facets f = false ∧
        ((dm.support f).length = 1 ∨
          ∃ c ∈ dm.support f, c ∉ patchCells cellCounts cells v)) ∧
    (2 ≤ (dm.support f).length →
      (∀ c ∈ dm.support f, c ∈ patchCells cellCounts cells v) →
      some f ∉ (PCPatchCreateCellPatchFacets dm cellCounts cells).2.idx.segment
        ((PCPatchCreateCellPatchFacets dm cellCounts cells).1.atlasOff v)
        ((PCPatchCreateCellPatchFacets dm cellCounts cells).1.atlasDof v)) ∧
    (dm.exterior_facets f = true →
      some f ∉ (PCPatchCreateCellPatchFacets dm cellCounts cells).2.idx.segment
        ((PCPatchCreateCellPatchFacets dm cellCounts cells).1.atlasOff v)
        ((PCPatchCreateCellPatchFacets dm cellCounts cells).1.atlasDof v)) := by
  obtain ⟨_, _, _, r4, _⟩ := facets_spec dm cellCounts cells
  have key : some f ∈ (PCPatchCreateCellPatchFacets dm cellCounts cells).2.idx.segment
        ((PCPatchCreateCellPatchFacets dm cellCounts cells).1.atlasOff v)
        ((PCPatchCreateCellPatchFacets dm cellCounts cells).1.atlasDof v)
      ↔ (∃ c ∈ patchCells cellCounts cells v, f ∈ dm.cone c) ∧
        dm.exterior_facets f = false ∧
        ((dm.support f).length = 1 ∨
          ∃ c ∈ dm.support f, c ∉ patchCells cellCounts cells v) := by
    rw [(r4 v h1 h2).2]
    simp only [List.mem_map, Option.some.injEq, exists_eq_right, patchFacetList,
      List.mem_filter, List.mem_flatMap, Bool.and_eq_true, Bool.not_eq_true', Bool.or_eq_true,
      decide_eq_true_eq, List.any_eq_true]
  refine ⟨key, ?_, ?_⟩
  · intro hlen hall hmem
    obtain ⟨_, _, h | ⟨c, hc, hnc⟩⟩ := key.mp hmem
    · omega
    · exact hnc (hall c hc)
  · intro hext hmem
    obtain ⟨_, h, _⟩ := key.mp hmem
    rw [hext] at h
    cases h

/-- C7. BC subset property: when `PCPatchCreateCellPatchBCs` succeeds, for
every patch `v` the segment of the bcs array given by `bcCounts` is a list of
written values that is strictly increasing, and each of its entries lies in
`[0, gtolCounts(v))`. -/
theorem bcs_sorted_subset (ord : IterOrder) (dm : DM) (numBcs : Int) (bcNodes : Int → Int)
    (facetCounts : PetscSection) (facets : IS) (gtolCounts : PetscSection) (gtol : IS)
    (dofSection : PetscSection) (out : PetscSection × IS)
    (hok : PCPatchCreateCellPatchBCs ord dm numBcs bcNodes facetCounts facets gtolCounts gtol
      dofSection = .ok out)
    (v : Int) (hv1 : facetCounts.pStart ≤ v) (hv2 : v < facetCounts.pEnd) :
    ∃ S : List Int,
      out.2.idx.segment (out.1.atlasOff v) (out.1.atlasDof v) = S.map some ∧
      S.Sorted (fun a b => a < b) ∧
      ∀ x ∈ S, 0 ≤ x ∧ x < gtolCounts.atlasDof v := by
  obtain ⟨_, _, _, r4, _⟩ := bcs_spec ord dm numBcs bcNodes facetCounts facets gtolCounts gtol
    dofSection out hok
  obtain ⟨_, hseg, lb, hlb⟩ := r4 v hv1 hv2
  obtain ⟨hsorted, hmem⟩ := patchBcList_spec ord dm _ facetCounts _ gtolCounts _ dofSection
    v lb hlb
  obtain ⟨⟨_, hrange⟩, _⟩ := bcsLocalTable_spec dm _ facetCounts _ gtolCounts _ dofSection
    v lb hlb
  exact ⟨_, hseg, hsorted, fun x hx => hrange x ((hmem x).mp hx)⟩

/-- C8. Explicit global BCs are marked: when `PCPatchCreateCellPatchBCs`
succeeds, for every patch `v` and every local index `l` in `[0, gtolCounts(v))`
whose global dof id `gtol[offset(v) + l]` occurs in `bcNodes[0 .. numBcs)`, `l`
is an entry of the segment of the bcs array of `v`. -/
theorem bcs_global_marked (ord : IterOrder) (dm : DM) (numBcs : Int) (bcNodes : Int → Int)
    (facetCounts : PetscSection) (facets : IS) (gtolCounts : PetscSection) (gtol : IS)
    (dofSection : PetscSection) (out : PetscSection × IS)
    (hok : PCPatchCreateCellPatchBCs ord dm numBcs bcNodes facetCounts facets gtolCounts gtol
      dofSection = .ok out)
    (v : Int) (hv1 : facetCounts.pStart ≤ v) (hv2 : v < facetCounts.pEnd)
    (l : Int) (hl0 : 0 ≤ l) (hl1 : l < gtolCounts.atlasDof v)
    (hbc : ∃ i, 0 ≤ i ∧ i < numBcs ∧
      bcNodes i = ISGetIndices gtol (gtolCounts.atlasOff v + l)) :
    some l ∈ out.2.idx.segment (out.1.atlasOff v) (out.1.atlasDof v) := by
  obtain ⟨_, _, _, r4, _⟩ := bcs_spec ord dm numBcs bcNodes facetCounts facets gtolCounts gtol
    dofSection out hok
  obtain ⟨_, hseg, lb, hlb⟩ := r4 v hv1 hv2
  obtain ⟨_, hmem⟩ := patchBcList_spec ord dm _ facetCounts _ gtolCounts _ dofSection
    v lb hlb
  obtain ⟨_, hmark⟩ := bcsLocalTable_spec dm _ facetCounts _ gtolCounts _ dofSection
    v lb hlb
  rw [hseg]
  exact List.mem_map_of_mem _
    ((hmem l).mpr (hmark l hl0 hl1 ((hasKey_globalTable numBcs bcNodes _).mpr hbc)))

/-- C9 on the code: for the patch of vertex 2 with one dof per vertex
`PCPatchCreateCellPatchBCs` succeeds and stores no BC dof at all, although the
closure of the boundary facet 7 of the patch holds the vertex 3, the dof
section attaches the dof 1 to vertex 3, and the dof 1 has the local index 1 in
the patch. -/
theorem bcs_facet_closure_unmarked :
    (fun o : PetscSection × IS => (o.1.atlasDof 2, o.2.n))
        <$> PCPatchCreateCellPatchBCs IterOrder.insertion twoTriangles 0 (fun _ => 0)
          vertexDofs.facetCounts vertexDofs.facets vertexDofs.gtolCounts vertexDofs.gtol
          vertexDofs.dofSection = .ok (0, 0) ∧
    ISGetIndices vertexDofs.facets (vertexDofs.facetCounts.atlasOff 2) = 7 ∧
    (twoTriangles.transitiveClosure 7 true).getD (2 * 1) 0 = 3 ∧
    vertexDofs.dofSection.atlasOff 3 = 1 ∧ vertexDofs.dofSection.atlasDof 3 = 1 ∧
    ISGetIndices vertexDofs.gtol (vertexDofs.gtolCounts.atlasOff 2 + 1) = 1 := by
  refine ⟨by rfl, by rfl, by rfl, by rfl, by rfl, by rfl⟩

/-- C10. Indexed List invariant: each of the four sections built during setup
(`cellCounts`, `facetCounts`, `gtolCounts`, `bcCounts`) has counts that are not
negative, satisfies `offset(p) + count(p) = offset(p+1)` for `p` and `p+1` in
the chart, and the sum of its counts is its storage size and the length of its
flat array (`cells`, `facets`, `gtol`, `bcs`). -/
theorem indexed_list_invariant :
    (∀ dm : DM,
      IndexedListInvariant (PCPatchCreateCellPatches dm).1 (PCPatchCreateCellPatches dm).2.n) ∧
    (∀ (dm : DM) (cellCounts : PetscSection) (cells : IS),
      IndexedListInvariant (PCPatchCreateCellPatchFacets dm cellCounts cells).1
        (PCPatchCreateCellPatchFacets dm cellCounts cells).2.n) ∧
    (∀ (ord : IterOrder) (cellCounts : PetscSection) (cells : IS)
        (cellNumbering : PetscSection) (dofsPerCell : Int) (cellNodeMap : Int → Int)
        (out : DiscretisationInfo),
      PCPatchCreateCellPatchDiscretisationInfo ord cellCounts cells cellNumbering
        dofsPerCell cellNodeMap = .ok out →
      IndexedListInvariant out.gtolCounts out.gtol.n) ∧
    (∀ (ord : IterOrder) (dm : DM) (numBcs : Int) (bcNodes : Int → Int)
        (facetCounts : PetscSection) (facets : IS) (gtolCounts : PetscSection) (gtol : IS)
        (dofSection : PetscSection) (out : PetscSection × IS),
      PCPatchCreateCellPatchBCs ord dm numBcs bcNodes facetCounts facets gtolCounts gtol
        dofSection = .ok out →
      IndexedListInvariant out.1 out.2.n) := by
  refine ⟨?_, ?_, ?_, ?_⟩
  · intro dm
    exact indexedListInvariant_of _ _ (cellPatches_indexedList dm) rfl
  · intro dm cellCounts cells
    obtain ⟨_, _, r3, _, r5⟩ := facets_spec dm cellCounts cells
    exact indexedListInvariant_of _ _ r3 r5
  · intro ord cellCounts cells cellNumbering dofsPerCell cellNodeMap out hok
    obtain ⟨_, _, c3, _, c5⟩ := gtolCounts_spec ord cellCounts cells cellNumbering dofsPerCell
      cellNodeMap out hok
    exact indexedListInvariant_of _ _ c3 c5
  · intro ord dm numBcs bcNodes facetCounts facets gtolCounts gtol dofSection out hok
    obtain ⟨_, _, r3, _, r5⟩ := bcs_spec ord dm numBcs bcNodes facetCounts facets gtolCounts
      gtol dofSection out hok
    exact indexedListInvariant_of _ _ r3 r5

/-- C11: broadcast semantics. The leaves of the plan `localSF` built by
`PCPatchCreateGlobalToLocalSF` are the slots `i` of `[0, sum of gtolCounts)`,
each of them the slot of a (patch, local dof) pair and each pair having its slot,
and leaf `i` is attached to the root `gtol[i]`; so, on one process with the
default plan the identity, after the broadcast in `PCApply_PATCH` every slot
satisfies `localX[i] = x[gtol[i]]`, unit of `bs` scalars by unit. -/
theorem broadcast_semantics {R : Type} [AddMonoid R] (gtolSF : PetscSF)
    (gtolCounts : PetscSection) (gtol : IS) (hcounts : gtolCounts.IsIndexedList) :
    (PCPatchCreateLocalSF gtolSF gtolCounts gtol).nleaves
      = ((loopRange gtolCounts.pStart gtolCounts.pEnd).map
          (PetscSectionGetDof gtolCounts)).sum ∧
    (∀ i, 0 ≤ i → i < (PCPatchCreateLocalSF gtolSF gtolCounts gtol).nleaves →
      (PCPatchCreateLocalSF gtolSF gtolCounts gtol).iremote i
        = some ⟨0, ISGetIndices gtol i⟩ ∧
      ∃ v, gtolCounts.pStart ≤ v ∧ v < gtolCounts.pEnd ∧
        PetscSectionGetOffset gtolCounts v ≤ i ∧
        i < PetscSectionGetOffset gtolCounts v + PetscSectionGetDof gtolCounts v) ∧
    (∀ v l, gtolCounts.pStart ≤ v → v < gtolCounts.pEnd → 0 ≤ l →
      l < PetscSectionGetDof gtolCounts v →
      0 ≤ PetscSectionGetOffset gtolCounts v + l ∧
      PetscSectionGetOffset gtolCounts v + l
        < (PCPatchCreateLocalSF gtolSF gtolCounts gtol).nleaves) ∧
    (∀ (pc : PC R) (x y : Vec R) (r : PC R × Vec R),
      pc.globalToLocal = PCPatchCreateGlobalToLocalSF gtolSF gtolCounts gtol →
      (∀ i, 0 ≤ i → i < (PCPatchCreateLocalSF gtolSF gtolCounts gtol).nleaves →
        gtolSF.iremote (ISGetIndices gtol i) = some ⟨0, ISGetIndices gtol i⟩) →
      (PCApply_PATCH pc x y).result = .ok r →
      ∀ i c, 0 ≤ i → i < (PCPatchCreateLocalSF gtolSF gtolCounts gtol).nleaves →
        0 ≤ c → c < pc.bs →
        r.1.localX.data (i * pc.bs + c) = x.data (ISGetIndices gtol i * pc.bs + c)) := by
  refine ⟨?_, ?_, ?_, ?_⟩
  · rw [localSF_nleaves, storageSize_eq_sum _ hcounts.1]
    rfl
  · intro i h1 h2
    rw [localSF_nleaves] at h2
    refine ⟨?_, slot_of_index gtolCounts hcounts i h1 h2⟩
    rw [localSF_iremote, if_pos ⟨h1, h2⟩]
  · intro v l v1 v2 l1 l2
    rw [localSF_nleaves]
    exact index_of_slot gtolCounts hcounts v l v1 v2 l1 l2
  · intro pc x y r hsf hid hok i c i1 i2 c1 c2
    rw [localSF_nleaves] at hid i2
    rw [(apply_result pc x y r hok).1, hsf]
    exact bcast_apply _ _ _ _ i c ⟨0, ISGetIndices gtol i⟩ i1
      (by rw [globalToLocal_nleaves]; exact i2) c1 c2
      (globalToLocal_iremote gtolSF gtolCounts gtol hid i i1 i2)

/-- C12: the reduce starts from zero. On one process with the default plan the
identity, the entry of the vector `y` returned by `PCApply_PATCH` for a global
dof `g` is the sum of `localY[i]` over the slots `i` with `gtol[i] = g`, hence 0
for a global dof referenced by no slot; and for the same state and the same
`x`, two initial contents of `y` give the same result. -/
theorem reduce_from_zero {R : Type} [AddMonoid R] (pc : PC R) (x y : Vec R)
    (gtolSF : PetscSF) (gtolCounts : PetscSection) (gtol : IS)
    (hsf : pc.globalToLocal = PCPatchCreateGlobalToLocalSF gtolSF gtolCounts gtol)
    (hid : ∀ i, 0 ≤ i → i < PetscSectionGetStorageSize gtolCounts →
      gtolSF.iremote (ISGetIndices gtol i) = some ⟨0, ISGetIndices gtol i⟩) :
    (∀ r, (PCApply_PATCH pc x y).result = .ok r →
      ∀ g c, 0 ≤ c → c < pc.bs → 0 ≤ g * pc.bs + c → g * pc.bs + c < y.n →
        r.2.data (g * pc.bs + c)
          = (((loopRange 0 (PetscSectionGetStorageSize gtolCounts)).filter
                (fun i => decide (ISGetIndices gtol i = g))).map
              (fun i => r.1.localY.data (i * pc.bs + c))).sum ∧
        ((∀ i, 0 ≤ i → i < PetscSectionGetStorageSize gtolCounts → ISGetIndices gtol i ≠ g) →
          r.2.data (g * pc.bs + c) = 0)) ∧
    (∀ y' : Vec R, y'.n = y.n →
      (PCApply_PATCH pc x y').result.map (fun r => r.2.entries)
        = (PCApply_PATCH pc x y).result.map (fun r => r.2.entries)) := by
  refine ⟨?_, fun y' hn => apply_independent pc x y y' hn⟩
  intro r hok g c c1 c2 k1 k2
  have key := apply_sum_gtol pc x y gtolSF gtolCounts gtol hsf hid r hok g c c1 c2 k1 k2
  refine ⟨key, ?_⟩
  intro hno
  rw [key, List.filter_eq_nil_iff.mpr]
  · simp
  · intro i hi
    obtain ⟨i1, i2⟩ := mem_loopRange.mp hi
    simpa using hno i i1 i2

/-- C13 on the code: the one patch of `onePatch` with saved operators and a
callback that fills the matrix with minus the identity. After the setup the
solver of patch 0 holds minus the identity; after the apply to `x = (3, 5)`
the input window of `localX` holds `(3, 5)` and the output window of `localY`
holds `(3, 5)` as well, the copy of the input, where the solve with minus the
identity gives `(-3, -5)`. -/
theorem apply_without_solve :
    ∃ p r, (PCSetUp_PATCH IterOrder.insertion (onePatch.pc true)).result = .ok p ∧
      (PCApply_PATCH p onePatch.x onePatch.y).result = .ok r ∧
      (p.mat 0).map Mat.entries2 = some [-1, 0, 0, -1] ∧
      (p.kspOperators 0).map Mat.entries2 = some [-1, 0, 0, -1] ∧
      r.1.localX.entries = [3, 5] ∧ r.1.localY.entries = [3, 5] := by
  have hs : (PCSetUp_PATCH IterOrder.insertion (onePatch.pc true)).result.map
      (fun p => (p.npatch, p.bs, p.save_operators, p.localX.n, p.localY.n,
        (p.mat 0).map Mat.entries2, (p.kspOperators 0).map Mat.entries2, p.patchX 0, p.patchY 0,
        p.localToPatch.pStart, p.localToPatch.atlasDof 1, p.localToPatch.atlasOff 1,
        p.globalToLocal.nleaves, p.globalToLocal.iremote 0, p.globalToLocal.iremote 1))
      = .ok (1, 1, true, 2, 2, some [-1, 0, 0, -1], some [-1, 0, 0, -1], some ⟨1, 2⟩,
          some ⟨1, 2⟩, 1, 2, 0, 2, some ⟨0, 0⟩, some ⟨0, 1⟩) := by rfl
  cases hp : (PCSetUp_PATCH IterOrder.insertion (onePatch.pc true)).result with
  | error e => rw [hp] at hs; cases hs
  | ok p =>
    rw [hp] at hs
    simp only [Except.map, Except.ok.injEq, Prod.mk.injEq] at hs
    obtain ⟨f1, f2, f3, f4, f5, f6, f7, f8, f9, f10, f11, f12, f13, f14, f15⟩ := hs
    have hall : ∀ i ∈ loopRange 0 p.npatch, PatchApplies p i := by
      intro i hi
      rw [f1] at hi
      obtain ⟨i1, i2⟩ := mem_loopRange.mp hi
      have hi0 : i = 0 := by omega
      subst hi0
      refine ⟨?_, ⟨1, 2⟩, ⟨1, 2⟩, f8, f9, Or.inl f3⟩
      simp only [PetscSectionGetDof, f10, zero_add, f11]
      decide
    obtain ⟨r, hr⟩ := (apply_ok_iff p onePatch.x onePatch.y).mpr hall
    obtain ⟨a1, _, _, _⟩ := apply_result p onePatch.x onePatch.y r hr
    obtain ⟨b1, b2⟩ := apply_sizes p onePatch.x onePatch.y r hr
    have x0 : r.1.localX.data 0 = 3 := by
      have := bcast_apply p.globalToLocal p.bs onePatch.x.data p.localX.data 0 0 ⟨0, 0⟩
        (by decide) (by rw [f13]; decide) (by decide) (by rw [f2]; decide) f14
      rw [f2] at this
      rw [a1, f2]
      exact this
    have x1 : r.1.localX.data 1 = 5 := by
      have := bcast_apply p.globalToLocal p.bs onePatch.x.data p.localX.data 1 0 ⟨0, 1⟩
        (by decide) (by rw [f13]; decide) (by decide) (by rw [f2]; decide) f15
      rw [f2] at this
      rw [a1, f2]
      exact this
    have w : ∀ k, 0 ≤ k → k < 2 → r.1.localY.data k = r.1.localX.data k := by
      intro k k1 k2
      apply apply_window p onePatch.x onePatch.y r hr 0 k ⟨1, 2⟩ (by decide)
        (by rw [f1]; decide) f8
      · simp only [PetscSectionGetOffset, f10, zero_add, f12, f2]
        omega
      · simp only [PetscSectionGetOffset, f10, zero_add, f12, f2]
        omega
    refine ⟨p, r, rfl, hr, f6, f7, ?_, ?_⟩
    · simp only [Vec.entries, b1, f4]
      have : loopRange 0 2 = [0, 1] := by decide
      rw [this]
      simp only [List.map_cons, List.map_nil, x0, x1]
    · simp only [Vec.entries, b2, f5]
      have : loopRange 0 2 = [0, 1] := by decide
      rw [this]
      simp only [List.map_cons, List.map_nil, w 0 (by decide) (by decide),
        w 1 (by decide) (by decide), x0, x1]

/-- C14: additive combination law. For a patch set in which every global dof
is referenced by exactly one slot, the vector `y` returned by `PCApply_PATCH`
satisfies `y[gtol[i]] = localY[i]` for every slot `i`, unit of `bs` scalars by
unit. -/
theorem additive_combination {R : Type} [AddMonoid R] (pc : PC R) (x y : Vec R)
    (gtolSF : PetscSF) (gtolCounts : PetscSection) (gtol : IS)
    (hsf : pc.globalToLocal = PCPatchCreateGlobalToLocalSF gtolSF gtolCounts gtol)
    (hid : ∀ i, 0 ≤ i → i < PetscSectionGetStorageSize gtolCounts →
      gtolSF.iremote (ISGetIndices gtol i) = some ⟨0, ISGetIndices gtol i⟩)
    (hone : ∀ i j, 0 ≤ i → i < PetscSectionGetStorageSize gtolCounts → 0 ≤ j →
      j < PetscSectionGetStorageSize gtolCounts →
      ISGetIndices gtol i = ISGetIndices gtol j → i = j)
    (r : PC R × Vec R) (hok : (PCApply_PATCH pc x y).result = .ok r)
    (i c : Int) (i1 : 0 ≤ i) (i2 : i < PetscSectionGetStorageSize gtolCounts)
    (c1 : 0 ≤ c) (c2 : c < pc.bs) (k1 : 0 ≤ ISGetIndices gtol i * pc.bs + c)
    (k2 : ISGetIndices gtol i * pc.bs + c < y.n) :
    r.2.data (ISGetIndices gtol i * pc.bs + c) = r.1.localY.data (i * pc.bs + c) := by
  rw [apply_sum_gtol pc x y gtolSF gtolCounts gtol hsf hid r hok _ c c1 c2 k1 k2,
    filter_singleton _ _ i (loopRange_nodup _ _) (mem_loopRange.mpr ⟨i1, i2⟩)]
  · simp
  · intro j hj
    obtain ⟨j1, j2⟩ := mem_loopRange.mp hj
    simp only [decide_eq_true_eq]
    constructor
    · intro h
      exact hone j i j1 j2 i1 i2 h
    · intro h
      rw [h]

/-- C15: cache toggle equivalence. For the same inputs, callback and vector
`x`, a first `PCSetUp_PATCH` followed by a `PCApply_PATCH` with
`PCPatchSetSaveOperators` enabled and the same with it disabled both return
without error or both fail, and when they return without error they return
the same vector `y`. -/
theorem cache_toggle {R : Type} [AddMonoid R] (ord : IterOrder) (pc : PC R) (x y : Vec R)
    (hfresh : pc.setupcalled = false) :
    ((∃ r, ((PCSetUp_PATCH ord (PCPatchSetSaveOperators pc true)).bind
          (fun p => PCApply_PATCH p x y)).result = .ok r) ↔
      (∃ r, ((PCSetUp_PATCH ord (PCPatchSetSaveOperators pc false)).bind
          (fun p => PCApply_PATCH p x y)).result = .ok r)) ∧
    (∀ rS rU,
      ((PCSetUp_PATCH ord (PCPatchSetSaveOperators pc true)).bind
          (fun p => PCApply_PATCH p x y)).result = .ok rS →
      ((PCSetUp_PATCH ord (PCPatchSetSaveOperators pc false)).bind
          (fun p => PCApply_PATCH p x y)).result = .ok rU →
      rS.2 = rU.2) := by
  constructor
  · constructor
    · rintro ⟨r, hr⟩
      obtain ⟨p1, mat, st, h1, hmat, hst, hap⟩ := (run_saved ord pc x y hfresh r).mp hr
      have hA := (apply_ok_iff _ x y).mp ⟨r, hap⟩
      have hL := (setUpLoop_ok_iff _ _ (loopRange_nodup _ _) _).mp ⟨st, hst⟩
      have hU : ∀ i ∈ loopRange 0 (PCPatchSetSaveOperators p1 false).npatch,
          PatchApplies (PCPatchSetSaveOperators p1 false) i := by
        intro i hi
        obtain ⟨hlen, px, py, hx, hy, _⟩ := hA i hi
        obtain ⟨m, m', hm, hco⟩ := hL i hi
        obtain ⟨px', py', hx', hy', hm'⟩ := (foldlM_createPatchMat _ _ _ _ _ hmat i).1 hi
        have ex : px' = px := Option.some.inj (hx'.symm.trans hx)
        have ey : py' = py := Option.some.inj (hy'.symm.trans hy)
        subst ex ey
        have em : m = patchMatrix px' py' := Option.some.inj (hm.symm.trans hm')
        subst em
        exact ⟨hlen, px', py', hx, hy, Or.inr ⟨m', hco⟩⟩
      obtain ⟨r', hr'⟩ := (apply_ok_iff _ x y).mpr hU
      exact ⟨r', (run_unsaved ord pc x y hfresh r').mpr ⟨p1, h1, hr'⟩⟩
    · rintro ⟨r, hr⟩
      obtain ⟨p1, h1, hap⟩ := (run_unsaved ord pc x y hfresh r).mp hr
      have hA := (apply_ok_iff _ x y).mp ⟨r, hap⟩
      obtain ⟨mat, hmat⟩ := foldlM_createPatchMat_ok (R := R) p1.patchX p1.patchY
        (loopRange 0 p1.npatch) (fun _ => none) (fun i hi => by
          obtain ⟨_, px, py, hx, hy, _⟩ := hA i hi
          exact ⟨px, py, hx, hy⟩)
      obtain ⟨st, hst⟩ := (setUpLoop_ok_iff
        { PCPatchSetSaveOperators p1 true with mat := mat } (loopRange 0 p1.npatch)
        (loopRange_nodup _ _) ⟨mat, p1.kspOperators⟩).mpr (fun i hi => by
          obtain ⟨_, px, py, hx, hy, hco⟩ := hA i hi
          obtain ⟨px', py', hx', hy', hm'⟩ := (foldlM_createPatchMat _ _ _ _ _ hmat i).1 hi
          have ex : px' = px := Option.some.inj (hx'.symm.trans hx)
          have ey : py' = py := Option.some.inj (hy'.symm.trans hy)
          subst ex ey
          rcases hco with hco | ⟨m', hco⟩
          · cases hco
          · exact ⟨patchMatrix px' py', m', hm', hco⟩)
      obtain ⟨r', hr'⟩ := (apply_ok_iff
        { PCPatchSetSaveOperators p1 true with
          mat := st.mat, kspOperators := st.kspOperators } x y).mpr (fun i hi => by
          obtain ⟨hlen, px, py, hx, hy, _⟩ := hA i hi
          exact ⟨hlen, px, py, hx, hy, Or.inl rfl⟩)
      exact ⟨r', (run_saved ord pc x y hfresh r').mpr ⟨p1, mat, st, h1, hmat, hst, hr'⟩⟩
  · intro rS rU hS hU
    obtain ⟨p1, mat, st, h1, _, _, hapS⟩ := (run_saved ord pc x y hfresh rS).mp hS
    obtain ⟨p1', h1', hapU⟩ := (run_unsaved ord pc x y hfresh rU).mp hU
    have e : p1' = p1 := by
      rw [h1] at h1'
      exact (Except.ok.inj h1').symm
    subst e
    obtain ⟨_, a2, a3, a4⟩ := apply_result _ x y rS hapS
    obtain ⟨_, b2, b3, b4⟩ := apply_result _ x y rU hapU
    apply vec_ext
    · rw [a3, b3]
    · rw [a4, b4, a2, b2]
      rfl

/-- C16 on the code: the mesh `halo` has the owned vertex 1 with one cell and
the vertex 2 that is not owned. After `PCSetUp_PATCH` the cell counts of the
two vertices are 1 and 0 and `npatch` is 2, the number of vertices of the
chart: the vertex with count 0 has the patch index 1 of `[0, npatch)`. -/
theorem npatch_is_chart_size :
    (PCSetUp_PATCH IterOrder.insertion halo.pc).result.map
      (fun p => (p.npatch, p.cellCounts.pStart, p.cellCounts.pEnd,
        (loopRange p.cellCounts.pStart p.cellCounts.pEnd).map
          (PetscSectionGetDof p.cellCounts)))
      = .ok (2, 1, 3, [1, 0]) := by rfl

/-- C17 (amended): a missing callback is fatal. Without a registered callback
`PCPatchComputeOperator` returns the wrong-state error for every patch index
without invoking anything; hence `PCApply_PATCH` with operators not saved and
`npatch > 0` fails with that error when patch 0 has local dofs and its work
vectors, and `PCSetUp_PATCH` with operators saved and `npatch > 0` fails with
that error when, on a first setup, its first-time part returns without error
and, on a later setup, the matrix of patch 0 exists. -/
theorem missing_callback {R : Type} [AddMonoid R] :
    (∀ (pc : PC R) (mat : Mat R) (which : Int), pc.usercomputeop = none →
      PCPatchComputeOperator pc mat which = Outcome.error .PETSC_ERR_ARG_WRONGSTATE) ∧
    (∀ (pc : PC R) (x y : Vec R) (px py : PatchVec), pc.usercomputeop = none →
      pc.save_operators = false → 0 < pc.npatch →
      0 < PetscSectionGetDof pc.localToPatch (0 + pc.localToPatch.pStart) →
      pc.patchX 0 = some px → pc.patchY 0 = some py →
      PCApply_PATCH pc x y = Outcome.error .PETSC_ERR_ARG_WRONGSTATE) ∧
    (∀ (ord : IterOrder) (pc pc1 : PC R), pc.usercomputeop = none →
      pc.save_operators = true → pc.setupcalled = false →
      PCSetUp_PATCH_first ord pc = .ok pc1 → 0 < pc1.npatch →
      PCSetUp_PATCH ord pc = Outcome.error .PETSC_ERR_ARG_WRONGSTATE) ∧
    (∀ (ord : IterOrder) (pc : PC R) (m : Mat R), pc.usercomputeop = none →
      pc.save_operators = true → pc.setupcalled = true → 0 < pc.npatch →
      pc.mat 0 = some m →
      PCSetUp_PATCH ord pc = Outcome.error .PETSC_ERR_ARG_WRONGSTATE) :=
  ⟨fun pc mat which h => computeOperator_none pc mat which h,
    fun pc x y px py h1 h2 h3 h4 h5 h6 => apply_no_callback pc x y px py h1 h2 h3 h4 h5 h6,
    fun ord pc pc1 h1 h2 h3 h4 h5 => setUp_no_callback ord pc pc1 h1 h2 h3 h4 h5,
    fun ord pc m h1 h2 h3 h4 h5 => setUp_again_no_callback ord pc m h1 h2 h3 h4 h5⟩

/-- C17 as stated fails: without callback and with operators not saved, the
apply after the setup of the mesh `loneVertex` (`npatch = 1`) fails with the
size error, patch 0 having no local dof; and with operators saved the setup of
`onePatch.unnumbered`, a mesh of one vertex, fails with the out-of-range error
of the dof map builder. -/
theorem missing_callback_counterexample :
    (∃ p, (PCSetUp_PATCH IterOrder.insertion (loneVertex.pc none)).result = .ok p ∧
      p.usercomputeop.isNone = true ∧ p.save_operators = false ∧ 0 < p.npatch ∧
      (PCApply_PATCH p onePatch.x onePatch.y).result = .error .PETSC_ERR_ARG_SIZ) ∧
    (onePatch.unnumbered.usercomputeop.isNone = true ∧
      onePatch.unnumbered.save_operators = true ∧
      0 < onePatch.unnumbered.dm.vEnd - onePatch.unnumbered.dm.vStart ∧
      (PCSetUp_PATCH IterOrder.insertion onePatch.unnumbered).result
        = .error .PETSC_ERR_ARG_OUTOFRANGE) := by
  constructor
  · have hs : (PCSetUp_PATCH IterOrder.insertion (loneVertex.pc none)).result.map
        (fun p => (p.usercomputeop.isNone, p.save_operators, p.npatch))
        = .ok (true, false, 1) := by rfl
    have ha : ((PCSetUp_PATCH IterOrder.insertion (loneVertex.pc none)).bind
        (fun p => PCApply_PATCH p onePatch.x onePatch.y)).result.map (fun _ => ())
        = .error .PETSC_ERR_ARG_SIZ := by rfl
    cases hp : (PCSetUp_PATCH IterOrder.insertion (loneVertex.pc none)).result with
    | error e => rw [hp] at hs; cases hs
    | ok p =>
      rw [hp] at hs
      simp only [Except.map, Except.ok.injEq, Prod.mk.injEq] at hs
      obtain ⟨f1, f2, f3⟩ := hs
      rw [Outcome.bind_of_ok _ _ p hp] at ha
      refine ⟨p, rfl, f1, f2, by rw [f3]; decide, ?_⟩
      cases hr : (PCApply_PATCH p onePatch.x onePatch.y).result with
      | ok r => rw [hr] at ha; cases ha
      | error e =>
        rw [hr] at ha
        simp only [Except.map, Except.error.injEq] at ha
        rw [ha]
  · refine ⟨rfl, rfl, by decide, ?_⟩
    have : (PCSetUp_PATCH IterOrder.insertion onePatch.unnumbered).result.map (fun _ => ())
        = .error .PETSC_ERR_ARG_OUTOFRANGE := by rfl
    cases hr : (PCSetUp_PATCH IterOrder.insertion onePatch.unnumbered).result with
    | ok r => rw [hr] at this; cases this
    | error e =>
      rw [hr] at this
      simp only [Except.map, Except.error.injEq] at this
      rw [this]

/-- C19: a zero-cell patch is fatal. With a callback registered and a patch
index of the range whose vertex has a cell count that is not positive,
`PCPatchComputeOperator` returns an error, the out-of-range code, and does not
invoke the callback. -/
theorem zero_cell_patch {R : Type} (pc : PC R) (mat : Mat R) (which : Int)
    (f : ComputeOperator R) (hf : pc.usercomputeop = some f) (_h1 : 0 ≤ which)
    (_h2 : which < pc.cellCounts.pEnd - pc.cellCounts.pStart)
    (hn : PetscSectionGetDof pc.cellCounts (which + pc.cellCounts.pStart) ≤ 0) :
    (PCPatchComputeOperator pc mat which).result = .error .PETSC_ERR_ARG_OUTOFRANGE ∧
    (PCPatchComputeOperator pc mat which).calls = [] := by
  rw [computeOperator_empty pc mat which f hf hn]
  exact ⟨rfl, rfl⟩

/-- C20: a missing cell numbering is fatal. `PCPatchCreateCellPatchDiscretisationInfo`
returns the out-of-range error when some cell of some patch has no entry in
the cell numbering (`PetscSectionGetDof(cellNumbering, c) <= 0`); and when the
cell counts form an Indexed List and every patch cell has an entry, it
returns without error. -/
theorem dofs_missing_cell_numbering (ord : IterOrder) (cellCounts : PetscSection) (cells : IS)
    (cellNumbering : PetscSection) (dofsPerCell : Int) (cellNodeMap : Int → Int) :
    ((∃ v i, cellCounts.pStart ≤ v ∧ v < cellCounts.pEnd ∧
        PetscSectionGetOffset cellCounts v ≤ i ∧
        i < PetscSectionGetOffset cellCounts v + PetscSectionGetDof cellCounts v ∧
        PetscSectionGetDof cellNumbering (ISGetIndices cells i) ≤ 0) →
      PCPatchCreateCellPatchDiscretisationInfo ord cellCounts cells cellNumbering dofsPerCell
        cellNodeMap = .error .PETSC_ERR_ARG_OUTOFRANGE) ∧
    (cellCounts.IsIndexedList →
      (∀ v i, cellCounts.pStart ≤ v → v < cellCounts.pEnd →
        PetscSectionGetOffset cellCounts v ≤ i →
        i < PetscSectionGetOffset cellCounts v + PetscSectionGetDof cellCounts v →
        0 < PetscSectionGetDof cellNumbering (ISGetIndices cells i)) →
      ∃ out, PCPatchCreateCellPatchDiscretisationInfo ord cellCounts cells cellNumbering
        dofsPerCell cellNodeMap = .ok out) := by
  constructor
  · rintro ⟨v, i, v1, v2, i1, i2, hbad⟩
    cases hr : PCPatchCreateCellPatchDiscretisationInfo ord cellCounts cells cellNumbering
        dofsPerCell cellNodeMap with
    | ok out =>
      exfalso
      obtain ⟨st, hst, _⟩ := discretisationInfo_unfold ord cellCounts cells cellNumbering
        dofsPerCell cellNodeMap out hr
      obtain ⟨s1, s2, hs⟩ := foldlM_ok_step _ _ _ _ hst v (mem_loopRange.mpr ⟨v1, v2⟩)
      have := dofsVertex_numbered _ _ _ _ _ _ _ _ _ hs i i1 i2
      omega
    | error e =>
      unfold PCPatchCreateCellPatchDiscretisationInfo at hr
      simp only at hr
      split at hr
      · rename_i e1 h1
        have he : e1 = e := by cases hr; rfl
        subst he
        obtain ⟨s1, w, _, hw⟩ := foldlM_error_step _ _ _ _ h1
        rw [dofsVertex_error _ _ _ _ _ _ _ _ _ hw]
      · cases hr
  · intro hcc hnum
    obtain ⟨st, hst⟩ := pass1_ok cellCounts cells cellNumbering dofsPerCell cellNodeMap
      { ht := PetscHashIClear, localIndex := 0, globalIndex := 0, dofsArray := PetscMalloc1,
        newCellsArray := PetscMalloc1,
        gtolCounts := PetscSectionSetChart cellCounts.pStart cellCounts.pEnd } rfl hcc hnum
    unfold PCPatchCreateCellPatchDiscretisationInfo
    simp only
    rw [hst]
    exact ⟨_, rfl⟩

/-- C21: a facet dof that is not a patch dof is fatal. The code walks the
section range of a boundary facet once per point of the closure of the facet,
which holds at least the facet itself. `PCPatchCreateCellPatchBCs` returns the
out-of-range error if, for some patch `v`, an id `j` in the dof section range
of a facet of `facets(v)` is not an entry of the gtol segment of `v`; and it
returns without error when every such id is an entry of the segment. -/
theorem facet_dof_inconsistency (ord : IterOrder) (dm : DM) (numBcs : Int)
    (bcNodes : Int → Int) (facetCounts : PetscSection) (facets : IS)
    (gtolCounts : PetscSection) (gtol : IS) (dofSection : PetscSection) :
    ((∃ v i j, facetCounts.pStart ≤ v ∧ v < facetCounts.pEnd ∧
        PetscSectionGetOffset facetCounts v ≤ i ∧
        i < PetscSectionGetOffset facetCounts v + PetscSectionGetDof facetCounts v ∧
        0 < closureSize (dm.transitiveClosure (ISGetIndices facets i) true) ∧
        PetscSectionGetOffset dofSection (ISGetIndices facets i) ≤ j ∧
        j < PetscSectionGetOffset dofSection (ISGetIndices facets i)
          + PetscSectionGetDof dofSection (ISGetIndices facets i) ∧
        ∀ k, PetscSectionGetOffset gtolCounts v ≤ k →
          k < PetscSectionGetOffset gtolCounts v + PetscSectionGetDof gtolCounts v →
          ISGetIndices gtol k ≠ j) →
      PCPatchCreateCellPatchBCs ord dm numBcs bcNodes facetCounts facets gtolCounts gtol
        dofSection = .error .PETSC_ERR_ARG_OUTOFRANGE) ∧
    ((∀ v i j, facetCounts.pStart ≤ v → v < facetCounts.pEnd →
        PetscSectionGetOffset facetCounts v ≤ i →
        i < PetscSectionGetOffset facetCounts v + PetscSectionGetDof facetCounts v →
        0 < closureSize (dm.transitiveClosure (ISGetIndices facets i) true) →
        PetscSectionGetOffset dofSection (ISGetIndices facets i) ≤ j →
        j < PetscSectionGetOffset dofSection (ISGetIndices facets i)
          + PetscSectionGetDof dofSection (ISGetIndices facets i) →
        ∃ k, PetscSectionGetOffset gtolCounts v ≤ k ∧
          k < PetscSectionGetOffset gtolCounts v + PetscSectionGetDof gtolCounts v ∧
          ISGetIndices gtol k = j) →
      ∃ out, PCPatchCreateCellPatchBCs ord dm numBcs bcNodes facetCounts facets gtolCounts gtol
        dofSection = .ok out) := by
  constructor
  · rintro ⟨v, i, j, v1, v2, i1, i2, hc, j1, j2, hno⟩
    cases hr : PCPatchCreateCellPatchBCs ord dm numBcs bcNodes facetCounts facets gtolCounts
        gtol dofSection with
    | error e => rw [bcs_error _ _ _ _ _ _ _ _ _ e hr]
    | ok out =>
      exfalso
      have h := (bcs_ok_iff ord dm numBcs bcNodes facetCounts facets gtolCounts gtol
        dofSection).mp ⟨out, hr⟩ v v1 v2
      obtain ⟨k, k1, k2, e⟩ := (bcsLocalTable_ok_iff dm _ facetCounts _ gtolCounts _
        dofSection v).mp h i j i1 i2 hc j1 j2
      exact hno k k1 k2 e
  · intro h
    apply (bcs_ok_iff ord dm numBcs bcNodes facetCounts facets gtolCounts gtol dofSection).mpr
    intro v v1 v2
    apply (bcsLocalTable_ok_iff dm _ facetCounts _ gtolCounts _ dofSection v).mpr
    intro i j i1 i2 hc j1 j2
    exact h v i j v1 v2 i1 i2 hc j1 j2

/-- C22: the cell lists are rewritten to the compact numbering. When
`PCPatchCreateCellPatchDiscretisationInfo` returns without error on cell counts
that form an Indexed List and on a cells list of the length that the counts
give, the cells list it returns has the same length and holds at every
position `i` the offset that the cell numbering gives to the mesh cell that
the list held at position `i` before. The function only reads `cellCounts`:
the object that the setup builds with it keeps the section that
`PCPatchCreateCellPatches` made, with the cells list that this function
returns. -/
theorem cells_compact_numbering {R : Type} [Zero R] (ord : IterOrder)
    (cellCounts : PetscSection) (cells : IS) (cellNumbering : PetscSection) (dofsPerCell : Int)
    (cellNodeMap : Int → Int) (out : DiscretisationInfo) (hcc : cellCounts.IsIndexedList)
    (hn : ISGetSize cells = PetscSectionGetStorageSize cellCounts)
    (hok : PCPatchCreateCellPatchDiscretisationInfo ord cellCounts cells cellNumbering
      dofsPerCell cellNodeMap = .ok out) :
    ISGetSize out.cells = ISGetSize cells ∧
    (∀ i, 0 ≤ i → i < ISGetSize cells →
      out.cells.idx i = some (PetscSectionGetOffset cellNumbering (ISGetIndices cells i)) ∧
      ISGetIndices out.cells i = PetscSectionGetOffset cellNumbering (ISGetIndices cells i)) ∧
    (∀ (pc p1 : PC R), PCSetUp_PATCH_structures ord pc = .ok p1 →
      p1.cellCounts = (PCPatchCreateCellPatches pc.dm).1 ∧
      ∃ info, PCPatchCreateCellPatchDiscretisationInfo ord (PCPatchCreateCellPatches pc.dm).1
          (PCPatchCreateCellPatches pc.dm).2 pc.cellNumbering pc.nodesPerCell pc.cellNodeMap
          = .ok info ∧ p1.cells = info.cells) := by
  obtain ⟨st, hst, hcells, _⟩ := discretisationInfo_unfold ord cellCounts cells cellNumbering
    dofsPerCell cellNodeMap out hok
  have hentry : ∀ i, 0 ≤ i → i < ISGetSize cells →
      out.cells.idx i = some (PetscSectionGetOffset cellNumbering (ISGetIndices cells i)) := by
    intro i i0 i1
    rw [hn] at i1
    obtain ⟨v, v1, v2, o1, o2⟩ := slot_of_index cellCounts hcc i i0 i1
    rw [hcells]
    exact pass1_cells _ _ _ _ _ _ _ _ st hst i
      (Or.inl ⟨v, mem_loopRange.mpr ⟨v1, v2⟩, o1, o2⟩)
  refine ⟨by rw [hcells, hn]; rfl, ?_, ?_⟩
  · intro i i0 i1
    refine ⟨hentry i i0 i1, ?_⟩
    unfold ISGetIndices IntArray.read
    rw [hentry i i0 i1]
    rfl
  · intro pc p1 h
    obtain ⟨info, _, hinfo, _, s1, s2, _⟩ := structures_spec ord pc p1 h
    exact ⟨s1, info, hinfo, s2⟩

/-- C23: the invocations of the callback. With `PCPatchSetSaveOperators`
enabled, a `PCSetUp_PATCH` that returns without error has invoked the callback
once per patch, for the patch indices `0 .. npatch - 1` in this order, and
`PCApply_PATCH` does not invoke it. With it disabled, `PCSetUp_PATCH` does not
invoke the callback, and a `PCApply_PATCH` that returns without error has
invoked it once per patch, for the patch indices `0 .. npatch - 1` in this
order. -/
theorem callback_invocations {R : Type} [AddMonoid R] (ord : IterOrder) (pc : PC R)
    (x y : Vec R) :
    (pc.save_operators = true →
      (∀ p, (PCSetUp_PATCH ord pc).result = .ok p →
        (PCSetUp_PATCH ord pc).calls = (loopRange 0 p.npatch).map (callbackArgs p) ∧
        (PCSetUp_PATCH ord pc).calls.length = p.npatch.toNat) ∧
      (PCApply_PATCH pc x y).calls = []) ∧
    (pc.save_operators = false →
      (PCSetUp_PATCH ord pc).calls = [] ∧
      (∀ r, (PCApply_PATCH pc x y).result = .ok r →
        (PCApply_PATCH pc x y).calls = (loopRange 0 pc.npatch).map (callbackArgs pc) ∧
        (PCApply_PATCH pc x y).calls.length = pc.npatch.toNat)) := by
  have hsave1 : ∀ pc1, ((pc.setupcalled = true ∧ pc1 = pc) ∨
      (pc.setupcalled = false ∧ PCSetUp_PATCH_first ord pc = .ok pc1)) →
      pc1.save_operators = pc.save_operators := by
    intro pc1 h
    rcases h with ⟨_, h⟩ | ⟨_, h⟩
    · rw [h]
    · obtain ⟨p1, hp1, hcase⟩ := first_fields ord pc pc1 h
      have hs := (structures_fields ord pc p1 hp1).1
      rcases hcase with ⟨_, e⟩ | ⟨_, mat, _, e⟩
      · rw [e, hs]
      · rw [e]
        exact hs
  constructor
  · intro hsave
    refine ⟨?_, (apply_calls pc x y).1 hsave⟩
    intro p hp
    obtain ⟨pc1, hpc1, hres, hcalls⟩ := setUp_parts ord pc p hp
    have hs : pc1.save_operators = true := by rw [hsave1 pc1 hpc1, hsave]
    obtain ⟨hc, st, _, e⟩ := (operators_calls pc1).2 hs p hres
    have hlist : (PCSetUp_PATCH ord pc).calls = (loopRange 0 p.npatch).map (callbackArgs p) := by
      rw [hcalls, hc, e]
      rfl
    refine ⟨hlist, ?_⟩
    rw [hlist, List.length_map, length_loopRange]
    simp
  · intro hsave
    constructor
    · unfold PCSetUp_PATCH
      by_cases hs : pc.setupcalled = true
      · rw [if_pos hs]
        simp only [Outcome.bind, (operators_calls pc).1 hsave, Outcome.ok, List.append_nil]
      · rw [if_neg hs]
        cases h1 : PCSetUp_PATCH_first ord pc with
        | error e => rfl
        | ok pc1 =>
          have hs1 : pc1.save_operators = false := by
            rw [hsave1 pc1 (Or.inr ⟨by simpa using hs, h1⟩), hsave]
          simp only [Outcome.ofExcept, Outcome.bind, (operators_calls pc1).1 hs1, Outcome.ok,
            List.append_nil]
    · intro r hr
      have hlist := (apply_calls pc x y).2 hsave r hr
      refine ⟨hlist, ?_⟩
      rw [hlist, List.length_map, length_loopRange]
      simp

/-- C24: the arguments of the callback. An invocation of the callback for the
patch index `which` by `PCPatchComputeOperator` passes `cellCount`, the count
of `cellCounts` at the patch, `cellIds`, the `cellCount` entries of `cells`
from the offset of the patch on, `dofCount = cellCount * nodesPerCell`, and
`dofIds`, the `dofCount` entries of `dofs` from `offset * nodesPerCell` on.
After a first `PCSetUp_PATCH` that returns without error, every entry of the
`dofIds` of a patch `i` lies in `[0, gtolCounts(i))`, and `gtolCounts(i)` is
the number of nodes of the work vectors of the patch and of the matrix that
`PCPatchCreateMatrix` makes from them: their sizes are `gtolCounts(i)` times
their block sizes. -/
theorem callback_arguments {R : Type} [Zero R] (ord : IterOrder) (pc p : PC R) :
    (∀ (q : PC R) (mat m : Mat R) (which : Int),
      (PCPatchComputeOperator q mat which).result = .ok m →
      ∃ args, (PCPatchComputeOperator q mat which).calls = [args] ∧
        args.ncell = PetscSectionGetDof q.cellCounts (which + q.cellCounts.pStart) ∧
        args.cellIds = (loopRange 0 args.ncell).map (fun k => ISGetIndices q.cells
          (PetscSectionGetOffset q.cellCounts (which + q.cellCounts.pStart) + k)) ∧
        args.ndof = args.ncell * q.nodesPerCell ∧
        args.dofIds = (loopRange 0 args.ndof).map (fun k => ISGetIndices q.dofs
          (PetscSectionGetOffset q.cellCounts (which + q.cellCounts.pStart) * q.nodesPerCell
            + k)) ∧
        args = callbackArgs q which) ∧
    (pc.setupcalled = false → (PCSetUp_PATCH ord pc).result = .ok p →
      ∀ i, 0 ≤ i → i < p.npatch →
        (∀ d ∈ (callbackArgs p i).dofIds,
          0 ≤ d ∧ d < PetscSectionGetDof p.localToPatch (i + p.localToPatch.pStart)) ∧
        (0 < PetscSectionGetDof p.localToPatch (i + p.localToPatch.pStart) →
          ∃ px py, p.patchX i = some px ∧ p.patchY i = some py ∧
            px.n = PetscSectionGetDof p.localToPatch (i + p.localToPatch.pStart) * px.bs ∧
            py.n = PetscSectionGetDof p.localToPatch (i + p.localToPatch.pStart) * py.bs ∧
            ∃ m : Mat R, PCPatchCreateMatrix (p.patchX i) (p.patchY i) = .ok m ∧
              m.rsize = PetscSectionGetDof p.localToPatch (i + p.localToPatch.pStart) * m.rbs ∧
              m.csize
                = PetscSectionGetDof p.localToPatch (i + p.localToPatch.pStart) * m.cbs)) := by
  constructor
  · intro q mat m which h
    exact ⟨callbackArgs q which, (computeOperator_calls q mat m which h).1, rfl, rfl, rfl, rfl,
      rfl⟩
  · intro hfresh h i i0 i1
    obtain ⟨_, _, _, _, _, _, _, _, _, hY, hX, hdofs⟩ := setUp_layout ord pc p hfresh h
    constructor
    · intro d hd
      obtain ⟨k, hk, e⟩ := List.mem_map.mp hd
      obtain ⟨k0, k1⟩ := mem_loopRange.mp hk
      rw [← e]
      exact hdofs i k i0 i1 k0 k1
    · intro hg
      have hx := hX i i0 i1
      rw [if_pos hg] at hx
      refine ⟨_, _, hx, by rw [hY]; exact hx, rfl, rfl, ?_⟩
      rw [hY, hx]
      exact ⟨_, rfl, rfl, rfl⟩

/-- C25: the windows of the work buffers. After a first `PCSetUp_PATCH` that
returns without error, with block size `bs >= 1`, the buffers `localX` and
`localY` have length `bs` times the sum of `gtolCounts` over the patches. The
window of patch `i`, `[bs * offset(i), bs * (offset(i) + gtolCounts(i)))`, lies
inside the buffers and has the length of the work vectors of the patch, which
exist when `gtolCounts(i) > 0`, and the windows of two distinct patches are
disjoint: the window of the patch with the smaller index ends where the other
one begins or before. This window is the one `PCApply_PATCH` uses: the step of
its loop for patch `i` copies `localX` to `localY` at the indices of the window
and leaves `localY` as it was at every other index, and after a
`PCApply_PATCH` that returns without error `localY` holds what `localX` holds
in the window of every patch and is unchanged outside the windows. -/
theorem work_buffer_windows {R : Type} [AddMonoid R] (ord : IterOrder) (pc p : PC R)
    (hfresh : pc.setupcalled = false) (hbs : 1 ≤ pc.bs)
    (h : (PCSetUp_PATCH ord pc).result = .ok p) :
    p.bs = pc.bs ∧
    p.localX.n = p.bs * ((loopRange 0 p.npatch).map (fun i =>
      PetscSectionGetDof p.localToPatch (i + p.localToPatch.pStart))).sum ∧
    p.localY.n = p.localX.n ∧
    (∀ i, 0 ≤ i → i < p.npatch →
      0 ≤ p.bs * PetscSectionGetOffset p.localToPatch (i + p.localToPatch.pStart) ∧
      p.bs * PetscSectionGetOffset p.localToPatch (i + p.localToPatch.pStart)
        ≤ p.bs * (PetscSectionGetOffset p.localToPatch (i + p.localToPatch.pStart)
          + PetscSectionGetDof p.localToPatch (i + p.localToPatch.pStart)) ∧
      p.bs * (PetscSectionGetOffset p.localToPatch (i + p.localToPatch.pStart)
          + PetscSectionGetDof p.localToPatch (i + p.localToPatch.pStart)) ≤ p.localX.n ∧
      (0 < PetscSectionGetDof p.localToPatch (i + p.localToPatch.pStart) →
        ∃ px, p.patchX i = some px ∧ p.patchY i = some px ∧
          px.n = p.bs * (PetscSectionGetOffset p.localToPatch (i + p.localToPatch.pStart)
              + PetscSectionGetDof p.localToPatch (i + p.localToPatch.pStart))
            - p.bs * PetscSectionGetOffset p.localToPatch (i + p.localToPatch.pStart))) ∧
    (∀ i j, 0 ≤ i → i < j → j < p.npatch →
      p.bs * (PetscSectionGetOffset p.localToPatch (i + p.localToPatch.pStart)
          + PetscSectionGetDof p.localToPatch (i + p.localToPatch.pStart))
        ≤ p.bs * PetscSectionGetOffset p.localToPatch (j + p.localToPatch.pStart)) ∧
    (∀ i, 0 ≤ i → i < p.npatch →
      ∀ (localX : Int → R) (st st' : ApplyState R),
        (applyPatch p localX st i).result = .ok st' →
        ∀ k, st'.localY k
          = if p.bs * PetscSectionGetOffset p.localToPatch (i + p.localToPatch.pStart) ≤ k
              ∧ k < p.bs * (PetscSectionGetOffset p.localToPatch (i + p.localToPatch.pStart)
                + PetscSectionGetDof p.localToPatch (i + p.localToPatch.pStart))
            then localX k else st.localY k) ∧
    (∀ (x y : Vec R) (r : PC R × Vec R), (PCApply_PATCH p x y).result = .ok r →
      (∀ i k, 0 ≤ i → i < p.npatch →
        p.bs * PetscSectionGetOffset p.localToPatch (i + p.localToPatch.pStart) ≤ k →
        k < p.bs * (PetscSectionGetOffset p.localToPatch (i + p.localToPatch.pStart)
          + PetscSectionGetDof p.localToPatch (i + p.localToPatch.pStart)) →
        r.1.localY.data k = r.1.localX.data k) ∧
      (∀ k, (∀ i, 0 ≤ i → i < p.npatch →
          ¬ (p.bs * PetscSectionGetOffset p.localToPatch (i + p.localToPatch.pStart) ≤ k
            ∧ k < p.bs * (PetscSectionGetOffset p.localToPatch (i + p.localToPatch.pStart)
              + PetscSectionGetDof p.localToPatch (i + p.localToPatch.pStart)))) →
        r.1.localY.data k = p.localY.data k)) := by
  obtain ⟨hil, _, c1, c2, hn, b1, _, hx, hy, hY, hX, _⟩ := setUp_layout ord pc p hfresh h
  have hb : 0 ≤ p.bs := by rw [b1]; omega
  have hsum : PetscSectionGetStorageSize p.localToPatch
      = ((loopRange 0 p.npatch).map (fun i =>
        PetscSectionGetDof p.localToPatch (i + p.localToPatch.pStart))).sum := by
    rw [storageSize_eq_sum _ hil.1]
    have hr : loopRange p.localToPatch.pStart p.localToPatch.pEnd
        = (loopRange 0 p.npatch).map (fun i => i + p.localToPatch.pStart) := by
      unfold loopRange
      rw [List.map_map, hn, ← c1, ← c2]
      simp only [sub_zero]
      apply List.map_congr_left
      intro k _
      simp only [Function.comp]
      omega
    rw [hr, List.map_map]
    rfl
  have hwin : ∀ i, 0 ≤ i → i < p.npatch → ∀ px, p.patchX i = some px → ∀ k,
      (PetscSectionGetOffset p.localToPatch (i + p.localToPatch.pStart) * p.bs ≤ k
        ∧ k < PetscSectionGetOffset p.localToPatch (i + p.localToPatch.pStart) * p.bs + px.n)
      ↔ (p.bs * PetscSectionGetOffset p.localToPatch (i + p.localToPatch.pStart) ≤ k
        ∧ k < p.bs * (PetscSectionGetOffset p.localToPatch (i + p.localToPatch.pStart)
          + PetscSectionGetDof p.localToPatch (i + p.localToPatch.pStart))) := by
    intro i i0 i1 px hpx k
    have hxi := hX i i0 i1
    rw [hpx] at hxi
    split at hxi
    · have e : px = ⟨p.bs, PetscSectionGetDof p.localToPatch (i + p.localToPatch.pStart)
          * p.bs⟩ := Option.some.inj hxi
      rw [e]
      have e1 : PetscSectionGetOffset p.localToPatch (i + p.localToPatch.pStart) * p.bs
          = p.bs * PetscSectionGetOffset p.localToPatch (i + p.localToPatch.pStart) :=
        mul_comm _ _
      have e2 : p.bs * (PetscSectionGetOffset p.localToPatch (i + p.localToPatch.pStart)
            + PetscSectionGetDof p.localToPatch (i + p.localToPatch.pStart))
          = p.bs * PetscSectionGetOffset p.localToPatch (i + p.localToPatch.pStart)
            + PetscSectionGetDof p.localToPatch (i + p.localToPatch.pStart) * p.bs := by ring
      rw [e1, e2]
    · cases hxi
  refine ⟨b1, by rw [hx, hsum, mul_comm], by rw [hx, hy], ?_, ?_, ?_, ?_⟩
  · intro i i0 i1
    obtain ⟨o1, o2, o3⟩ := indexedList_bounds p.localToPatch hil (i + p.localToPatch.pStart)
      (by omega) (by rw [c2, c1]; omega)
    refine ⟨mul_nonneg hb o1, mul_le_mul_of_nonneg_left (by omega) hb, ?_, ?_⟩
    · rw [hx, mul_comm _ p.bs]
      exact mul_le_mul_of_nonneg_left o3 hb
    · intro hg
      have hxi := hX i i0 i1
      rw [if_pos hg] at hxi
      refine ⟨_, hxi, by rw [hY]; exact hxi, ?_⟩
      show PetscSectionGetDof p.localToPatch (i + p.localToPatch.pStart) * p.bs = _
      ring
  · intro i j i0 ij j1
    exact mul_le_mul_of_nonneg_left (indexedList_mono p.localToPatch hil
      (i + p.localToPatch.pStart) (j + p.localToPatch.pStart) (by omega) (by omega)
      (by rw [c2, c1]; omega)) hb
  · intro i i0 i1 localX st st' hst k
    have hpa := (applyPatch_ok_iff p localX st i).mp ⟨st', hst⟩
    obtain ⟨_, px, _, hpx, _, _⟩ := hpa
    rw [applyPatch_window p localX st st' i px hpx hst k]
    by_cases hk : p.bs * PetscSectionGetOffset p.localToPatch (i + p.localToPatch.pStart) ≤ k
        ∧ k < p.bs * (PetscSectionGetOffset p.localToPatch (i + p.localToPatch.pStart)
          + PetscSectionGetDof p.localToPatch (i + p.localToPatch.pStart))
    · rw [if_pos hk, if_pos ((hwin i i0 i1 px hpx k).mpr hk)]
    · rw [if_neg hk, if_neg (fun hh => hk ((hwin i i0 i1 px hpx k).mp hh))]
  · intro x y r hr
    obtain ⟨a1, a2, _, _⟩ := apply_result p x y r hr
    constructor
    · intro i k i0 i1 k1 k2
      obtain ⟨_, px, _, hpx, _, _⟩ := (apply_ok_iff p x y).mp ⟨r, hr⟩ i
        (mem_loopRange.mpr ⟨i0, i1⟩)
      obtain ⟨w1, w2⟩ := (hwin i i0 i1 px hpx k).mpr ⟨k1, k2⟩
      exact apply_window p x y r hr i k px i0 i1 hpx w1 w2
    · intro k hk
      rw [a2]
      apply copyWindows_out
      intro i hi px hpx hh
      obtain ⟨i0, i1⟩ := mem_loopRange.mp hi
      exact hk i i0 i1 ((hwin i i0 i1 px hpx k).mp hh)

/-- C26: setup after the first. A `PCSetUp_PATCH` that runs with `setupcalled`
set and returns without error leaves `npatch`, `cellCounts`, `cells`, `dofs`,
`bcCounts`, `bcs`, `localToPatch`, the composed plan and the work buffers as
they were: the object it leaves differs from the one it was given at most in
the patch matrices and in the operators attached to the solvers. When the
operators are not saved the object is left as it was. When they are saved,
the matrix of every patch index `0 .. npatch - 1` is the one the callback
computed from the matrix that was there, it is attached to the solver of the
patch, and the slots of the other indices are as they were. -/
theorem setUp_again {R : Type} [Zero R] (ord : IterOrder) (pc p : PC R)
    (hdone : pc.setupcalled = true) (h : (PCSetUp_PATCH ord pc).result = .ok p) :
    { p with mat := pc.mat, kspOperators := pc.kspOperators } = pc ∧
    (p.npatch = pc.npatch ∧ p.cellCounts = pc.cellCounts ∧ p.cells = pc.cells ∧
      p.dofs = pc.dofs ∧ p.bcCounts = pc.bcCounts ∧ p.bcs = pc.bcs ∧
      p.localToPatch = pc.localToPatch ∧ p.globalToLocal = pc.globalToLocal ∧
      p.localX = pc.localX ∧ p.localY = pc.localY ∧ p.patchX = pc.patchX ∧
      p.patchY = pc.patchY) ∧
    (pc.save_operators = false → p = pc) ∧
    (pc.save_operators = true →
      (∀ i, 0 ≤ i → i < pc.npatch → ∃ m m', pc.mat i = some m ∧
        (PCPatchComputeOperator pc m i).result = .ok m' ∧
        p.mat i = some m' ∧ p.kspOperators i = some m') ∧
      (∀ i, ¬ (0 ≤ i ∧ i < pc.npatch) →
        p.mat i = pc.mat i ∧ p.kspOperators i = pc.kspOperators i)) := by
  obtain ⟨pc1, hpc1, hres, _⟩ := setUp_parts ord pc p h
  have e1 : pc1 = pc := by
    rcases hpc1 with ⟨_, e⟩ | ⟨hf, _⟩
    · exact e
    · rw [hdone] at hf; cases hf
  subst e1
  by_cases hsave : pc1.save_operators = true
  · obtain ⟨_, st, hst, e⟩ := (operators_calls pc1).2 hsave p hres
    subst e
    obtain ⟨f1, f2⟩ := setUpLoop_final pc1 _ (loopRange_nodup 0 pc1.npatch) _ st hst
    refine ⟨rfl, ⟨rfl, rfl, rfl, rfl, rfl, rfl, rfl, rfl, rfl, rfl, rfl, rfl⟩, ?_, ?_⟩
    · intro hf
      rw [hsave] at hf
      cases hf
    · intro _
      exact ⟨fun i h0 h1 => f1 i (mem_loopRange.mpr ⟨h0, h1⟩),
        fun i hi => f2 i (fun hm => hi (mem_loopRange.mp hm))⟩
  · have hf : pc1.save_operators = false := by simpa using hsave
    have e := (operators_calls pc1).1 hf
    rw [e] at hres
    simp only [Outcome.ok, Except.ok.injEq] at hres
    subst hres
    exact ⟨rfl, ⟨rfl, rfl, rfl, rfl, rfl, rfl, rfl, rfl, rfl, rfl, rfl, rfl⟩, fun _ => rfl,
      fun hs => absurd hs hsave⟩

/-- C27, amended: the single patch scenario. Let `v` be an owned vertex with
exactly 3 incident cells, let every cell have 2 dofs, the 6 (cell, slot)
entries of the patch holding 4 distinct global dofs, and let the facets of the
patch cells that are not interior to the fan (they lie on one cell only, or on
a cell outside the patch) be `f0, f1, f2`, none of which carries the
`exterior_facets` label. Then the builders produce `cellCounts(v) = 3`,
`gtolCounts(v) = 4` and `facets(v) = [f0, f1, f2]`. -/
theorem single_patch_scenario (ord : IterOrder) (dm : DM) (cellNumbering : PetscSection)
    (cellNodeMap : Int → Int) (info : DiscretisationInfo) (v f0 f1 f2 : Int)
    (v1 : dm.vStart ≤ v) (v2 : v < dm.vEnd)
    (hown : (dm.op2_core v || dm.op2_non_core v) = true)
    (hcells : (closureCells dm v).length = 3)
    (hok : PCPatchCreateCellPatchDiscretisationInfo ord (PCPatchCreateCellPatches dm).1
      (PCPatchCreateCellPatches dm).2 cellNumbering 2 cellNodeMap = .ok info)
    (hdofs : (patchGlobalDofs (PCPatchCreateCellPatches dm).1 (PCPatchCreateCellPatches dm).2
      cellNumbering 2 cellNodeMap v).toFinset.card = 4)
    (hfan : ((closureCells dm v).flatMap dm.cone).filter
      (fun f => decide ((dm.support f).length = 1)
        || (dm.support f).any (fun c => decide (c ∉ closureCells dm v))) = [f0, f1, f2])
    (hext : dm.exterior_facets f0 = false ∧ dm.exterior_facets f1 = false
      ∧ dm.exterior_facets f2 = false) :
    (PCPatchCreateCellPatches dm).1.atlasDof v = 3 ∧
    (patchGlobalDofs (PCPatchCreateCellPatches dm).1 (PCPatchCreateCellPatches dm).2
      cellNumbering 2 cellNodeMap v).length = 6 ∧
    info.gtolCounts.atlasDof v = 4 ∧
    (PCPatchCreateCellPatchFacets dm (PCPatchCreateCellPatches dm).1
      (PCPatchCreateCellPatches dm).2).1.atlasDof v = 3 ∧
    (PCPatchCreateCellPatchFacets dm (PCPatchCreateCellPatches dm).1
        (PCPatchCreateCellPatches dm).2).2.idx.segment
      ((PCPatchCreateCellPatchFacets dm (PCPatchCreateCellPatches dm).1
        (PCPatchCreateCellPatches dm).2).1.atlasOff v)
      ((PCPatchCreateCellPatchFacets dm (PCPatchCreateCellPatches dm).1
        (PCPatchCreateCellPatches dm).2).1.atlasDof v)
      = [some f0, some f1, some f2] := by
  obtain ⟨c1, c2, hd, _⟩ := cellPatches_counts dm
  have hlist : patchCellList dm v = closureCells dm v := by simp [patchCellList, hown]
  have hcount : (PCPatchCreateCellPatches dm).1.atlasDof v = 3 := by
    rw [hd v v1 v2, hlist, hcells]
    rfl
  obtain ⟨_, _, _, g4, _⟩ := gtolCounts_spec ord _ _ _ _ _ info hok
  obtain ⟨_, _, _, r4, _⟩ := facets_spec dm (PCPatchCreateCellPatches dm).1
    (PCPatchCreateCellPatches dm).2
  have hfacets : patchFacetList dm (PCPatchCreateCellPatches dm).1
      (PCPatchCreateCellPatches dm).2 v = [f0, f1, f2] := by
    have e : patchFacetList dm (PCPatchCreateCellPatches dm).1 (PCPatchCreateCellPatches dm).2 v
        = (((closureCells dm v).flatMap dm.cone).filter
          (fun f => decide ((dm.support f).length = 1)
            || (dm.support f).any (fun c => decide (c ∉ closureCells dm v)))).filter
          (fun f => !dm.exterior_facets f) := by
      unfold patchFacetList
      rw [patchCells_cellPatches dm v v1 v2, hlist, List.filter_filter]
    rw [e, hfan]
    simp [hext.1, hext.2.1, hext.2.2]
  refine ⟨hcount, ?_, ?_, ?_, ?_⟩
  · rw [length_patchGlobalDofs, hcount]
    rfl
  · rw [g4 v (by rw [c1]; exact v1) (by rw [c2]; exact v2), length_firstOccurrences, hdofs]
    rfl
  · rw [(r4 v v1 v2).1, hfacets]
    rfl
  · rw [(r4 v v1 v2).2, hfacets]
    rfl

/-- C27, counterexample: the fan of three triangles around the owned vertex 3,
2 dofs per cell with the dofs 21 and 22 shared by adjacent cells, the outer
edges 10, 11, 12 carrying the `exterior_facets` label. The builders produce
`cellCounts(3) = 3` and `gtolCounts(3) = 4`, the facets of the patch cells that
are not interior to the fan are 10, 11, 12, and `facets(3)` is empty. -/
theorem single_patch_exterior_counterexample :
    (closureCells (fan.dm true) 3).length = 3 ∧
    ((fan.dm true).op2_core 3 || (fan.dm true).op2_non_core 3) = true ∧
    (patchGlobalDofs (PCPatchCreateCellPatches (fan.dm true)).1
      (PCPatchCreateCellPatches (fan.dm true)).2 fan.cellNumbering 2 fan.cellNodeMap 3)
      = [20, 21, 21, 22, 22, 23] ∧
    ((closureCells (fan.dm true) 3).flatMap (fan.dm true).cone).filter
      (fun f => decide (((fan.dm true).support f).length = 1)
        || ((fan.dm true).support f).any (fun c => decide (c ∉ closureCells (fan.dm true) 3)))
      = [10, 11, 12] ∧
    (PCPatchCreateCellPatches (fan.dm true)).1.atlasDof 3 = 3 ∧
    (PCPatchCreateCellPatchDiscretisationInfo IterOrder.insertion
      (PCPatchCreateCellPatches (fan.dm true)).1 (PCPatchCreateCellPatches (fan.dm true)).2
      fan.cellNumbering 2 fan.cellNodeMap).map (fun info => info.gtolCounts.atlasDof 3)
      = .ok 4 ∧
    (PCPatchCreateCellPatchFacets (fan.dm true) (PCPatchCreateCellPatches (fan.dm true)).1
      (PCPatchCreateCellPatches (fan.dm true)).2).1.atlasDof 3 = 0 ∧
    (PCPatchCreateCellPatchFacets (fan.dm true) (PCPatchCreateCellPatches (fan.dm true)).1
        (PCPatchCreateCellPatches (fan.dm true)).2).2.idx.segment
      ((PCPatchCreateCellPatchFacets (fan.dm true) (PCPatchCreateCellPatches (fan.dm true)).1
        (PCPatchCreateCellPatches (fan.dm true)).2).1.atlasOff 3)
      ((PCPatchCreateCellPatchFacets (fan.dm true) (PCPatchCreateCellPatches (fan.dm true)).1
        (PCPatchCreateCellPatches (fan.dm true)).2).1.atlasDof 3) = [] := by
  refine ⟨by decide, by decide, by rfl, by decide, by rfl, by rfl, by rfl, by rfl⟩

/-- C28: `PCSetUpOnBlocks_PATCH` at an object with one patch whose solver
reports `KSP_DIVERGED_PCSETUP_FAILED`. The function returns success at its
first statement and leaves the failed reason `PC_NOERROR`; the loop written
after that return, which the function never reaches, would set the failed
reason to `PC_SUBPC_ERROR`. -/
theorem setUpOnBlocks_returns_early :
    failingSolver.pc.npatch = 1 ∧
    failingSolver.pc.kspReason 0 = .KSP_DIVERGED_PCSETUP_FAILED ∧
    failingSolver.pc.failedreason = .PC_NOERROR ∧
    (PCSetUpOnBlocks_PATCH failingSolver.pc).map (fun p => p.failedreason)
      = .ok .PC_NOERROR ∧
    (PCSetUpOnBlocks_PATCH_unreached failingSolver.pc).map (fun p => p.failedreason)
      = .ok .PC_SUBPC_ERROR :=
  ⟨rfl, rfl, rfl, rfl, by rfl⟩

/-- C29: the capacity-overflow branch is unreachable. Let `cellCounts` be an
Indexed List and `dofsPerCell >= 0`, and let the first pass of
`PCPatchCreateCellPatchDiscretisationInfo` have reached slot `j` of the cell
position `i` of the patch `v` in the state `sj`. Then the write index of `sj`
is `i * dofsPerCell + j`, it is smaller than `numDofs = numCells * dofsPerCell`,
and the step for the slot does not take the branch "Found more dofs than
expected": it returns a state that holds a local index `x` at
`i * dofsPerCell + j`. When the first pass ends without error, the dofs array
it leaves still holds `x` there, which is what the second pass reads for this
cell and slot. The function returns an error only when some patch cell has no
entry in the cell numbering. -/
theorem overflow_unreachable (ord : IterOrder) (cellCounts : PetscSection) (cells : IS)
    (cellNumbering : PetscSection) (dofsPerCell : Int) (cellNodeMap : Int → Int)
    (hcc : cellCounts.IsIndexedList) (hd : 0 ≤ dofsPerCell) :
    (∀ (v i j : Int) (sv si sj : DofState),
      cellCounts.pStart ≤ v → v < cellCounts.pEnd →
      PetscSectionGetOffset cellCounts v ≤ i →
      i < PetscSectionGetOffset cellCounts v + PetscSectionGetDof cellCounts v →
      0 ≤ j → j < dofsPerCell →
      (loopRange cellCounts.pStart v).foldlM
        (dofsVertex cellCounts cellNumbering dofsPerCell
          (PetscSectionGetStorageSize cellCounts * dofsPerCell) cellNodeMap (ISGetIndices cells))
        { ht := PetscHashIClear, localIndex := 0, globalIndex := 0, dofsArray := PetscMalloc1,
          newCellsArray := PetscMalloc1,
          gtolCounts := PetscSectionSetChart cellCounts.pStart cellCounts.pEnd } = .ok sv →
      (loopRange (PetscSectionGetOffset cellCounts v) i).foldlM
        (dofsCell cellNumbering dofsPerCell
          (PetscSectionGetStorageSize cellCounts * dofsPerCell) cellNodeMap (ISGetIndices cells))
        { sv with localIndex := 0, ht := PetscHashIClear } = .ok si →
      (loopRange 0 j).foldlM
        (dofsSlot dofsPerCell (PetscSectionGetStorageSize cellCounts * dofsPerCell) cellNodeMap
          (PetscSectionGetOffset cellNumbering (ISGetIndices cells i)))
        { si with newCellsArray :=
            (si.newCellsArray.write i
              (PetscSectionGetOffset cellNumbering (ISGetIndices cells i))) } = .ok sj →
      sj.globalIndex = i * dofsPerCell + j ∧
      sj.globalIndex < PetscSectionGetStorageSize cellCounts * dofsPerCell ∧
      ∃ s' x,
        dofsSlot dofsPerCell (PetscSectionGetStorageSize cellCounts * dofsPerCell) cellNodeMap
          (PetscSectionGetOffset cellNumbering (ISGetIndices cells i)) sj j = .ok s' ∧
        s'.dofsArray (i * dofsPerCell + j) = some x ∧
        ∀ fin, (loopRange cellCounts.pStart cellCounts.pEnd).foldlM
            (dofsVertex cellCounts cellNumbering dofsPerCell
              (PetscSectionGetStorageSize cellCounts * dofsPerCell) cellNodeMap
              (ISGetIndices cells))
            { ht := PetscHashIClear, localIndex := 0, globalIndex := 0,
              dofsArray := PetscMalloc1, newCellsArray := PetscMalloc1,
              gtolCounts := PetscSectionSetChart cellCounts.pStart cellCounts.pEnd }
            = .ok fin →
          fin.dofsArray (i * dofsPerCell + j) = some x ∧
          ∀ ht, gtolSlot dofsPerCell cellNodeMap fin.dofsArray
              (PetscSectionGetOffset cellNumbering (ISGetIndices cells i)) i ht j
            = PetscHashIAdd ht
              (cellNodeMap (PetscSectionGetOffset cellNumbering (ISGetIndices cells i)
                * dofsPerCell + j)) x) ∧
    (∀ e, PCPatchCreateCellPatchDiscretisationInfo ord cellCounts cells cellNumbering
        dofsPerCell cellNodeMap = .error e →
      ∃ v i, cellCounts.pStart ≤ v ∧ v < cellCounts.pEnd ∧
        PetscSectionGetOffset cellCounts v ≤ i ∧
        i < PetscSectionGetOffset cellCounts v + PetscSectionGetDof cellCounts v ∧
        PetscSectionGetDof cellNumbering (ISGetIndices cells i) ≤ 0) := by
  constructor
  · intro v i j sv si sj v1 v2 i1 i2 j1 j2 hv hi hj
    simp only [PetscSectionGetOffset, PetscSectionGetDof] at i1 i2 hi
    -- the write index
    obtain ⟨gv, _⟩ := foldlM_dofsVertex_index _ _ _ _ _ _ hd (loopRange cellCounts.pStart v)
      (fun q hq => hcc.1 q (mem_loopRange.mp hq).1 (by have := (mem_loopRange.mp hq).2; omega))
      _ sv hv
    obtain ⟨gi, _⟩ := foldlM_dofsCell_index _ _ _ _ _ hd _ _ i1 _ si hi
    obtain ⟨gj, _⟩ := foldlM_dofsSlot_index _ _ _ _ 0 j j1 _ sj hj
    have hidx : sj.globalIndex = i * dofsPerCell + j := by
      rw [gj]
      show si.globalIndex + (j - 0) = _
      rw [gi]
      show sv.globalIndex + _ + _ = _
      rw [gv, ← hcc.2 v v1 v2]
      show 0 + _ + _ + _ = _
      ring
    have hb := indexedList_bounds cellCounts hcc v v1 v2
    simp only [PetscSectionGetOffset, PetscSectionGetDof] at hb
    have hlt : i * dofsPerCell + j < PetscSectionGetStorageSize cellCounts * dofsPerCell := by
      have h1 : (i + 1) * dofsPerCell ≤ PetscSectionGetStorageSize cellCounts * dofsPerCell :=
        mul_le_mul_of_nonneg_right (by omega) hd
      have h2 : (i + 1) * dofsPerCell = i * dofsPerCell + dofsPerCell := by ring
      omega
    refine ⟨hidx, hidx ▸ hlt, ?_⟩
    obtain ⟨s', hs', _⟩ := dofsSlot_ok dofsPerCell
      (PetscSectionGetStorageSize cellCounts * dofsPerCell) cellNodeMap
      (PetscSectionGetOffset cellNumbering (ISGetIndices cells i)) sj j (by omega)
    obtain ⟨k1, k2, _⟩ := dofsSlot_index _ _ _ _ sj s' j hs'
    rw [hidx] at k2
    refine ⟨s', _, hs', k2, ?_⟩
    intro fin hfin
    have hkeep : fin.dofsArray (i * dofsPerCell + j) = s'.dofsArray (i * dofsPerCell + j) := by
      -- the run passes through the states of the three loops
      rw [loopRange_split v1 v2] at hfin
      obtain ⟨sv', sv1, a1, a2, a3⟩ := foldlM_split _ _ _ _ _ _ hfin
      have e1 : sv' = sv := Except.ok.inj (a1.symm.trans hv)
      subst e1
      obtain ⟨_, _, st1, b1, b2⟩ := dofsVertex_index _ _ _ _ _ _ hd sv' sv1 v
        (hcc.1 v v1 v2) a2
      simp only [PetscSectionGetOffset, PetscSectionGetDof] at b1
      rw [loopRange_split i1 i2] at b1
      obtain ⟨si', si1, c1, c2, c3⟩ := foldlM_split _ _ _ _ _ _ b1
      have e2 : si' = si := Except.ok.inj (c1.symm.trans hi)
      subst e2
      obtain ⟨_, _, d1⟩ := dofsCell_index _ _ _ _ _ hd si' si1 i c2
      rw [loopRange_split j1 j2] at d1
      obtain ⟨sj', s'', f1, f2, f3⟩ := foldlM_split _ _ _ _ _ _ d1
      have e3 : sj' = sj := Except.ok.inj (f1.symm.trans hj)
      subst e3
      have e4 : s'' = s' := Except.ok.inj (f2.symm.trans hs')
      subst e4
      -- the later steps keep the slot
      have r1 : DofsKept s'' si1 := (foldlM_dofsSlot_index _ _ _ _ (j + 1) dofsPerCell
        (by omega) s'' si1 f3).2
      have r2 : DofsKept si1 st1 := (foldlM_dofsCell_index _ _ _ _ _ hd (i + 1) _
        (by omega) si1 st1 c3).2
      have r3 : DofsKept sv1 fin := (foldlM_dofsVertex_index _ _ _ _ _ _ hd
        (loopRange (v + 1) cellCounts.pEnd)
        (fun q hq => hcc.1 q (by have := (mem_loopRange.mp hq).1; omega)
          (mem_loopRange.mp hq).2) sv1 fin a3).2
      have r := dofsKept_trans _ _ _ (dofsKept_trans _ _ _ (dofsKept_trans _ _ _ r1 r2) b2) r3
      exact r.2 _ (by rw [k1, hidx]; omega)
    refine ⟨hkeep.trans k2, ?_⟩
    intro ht
    unfold gtolSlot IntArray.read
    rw [hkeep, k2]
    rfl
  · intro e he
    by_contra hno
    have hnum : ∀ v i, cellCounts.pStart ≤ v → v < cellCounts.pEnd →
        cellCounts.atlasOff v ≤ i → i < cellCounts.atlasOff v + cellCounts.atlasDof v →
        0 < PetscSectionGetDof cellNumbering (ISGetIndices cells i) := by
      intro v i v1 v2 i1 i2
      by_contra hc
      exact hno ⟨v, i, v1, v2, i1, i2, by omega⟩
    obtain ⟨st, hst⟩ := pass1_ok cellCounts cells cellNumbering dofsPerCell cellNodeMap
      { ht := PetscHashIClear, localIndex := 0, globalIndex := 0, dofsArray := PetscMalloc1,
        newCellsArray := PetscMalloc1,
        gtolCounts := PetscSectionSetChart cellCounts.pStart cellCounts.pEnd } rfl hcc hnum
    unfold PCPatchCreateCellPatchDiscretisationInfo at he
    simp only at he
    rw [hst] at he
    cases he

/-- C30: the running-index arrays agree with their Indexed Lists. In
`PCPatchCreateCellPatchFacets` the number of facets appended while vertex `v`
is processed is the amount added to `facetCounts(v)`, and in
`PCPatchCreateCellPatchBCs` the number of indices appended for `v` is
`bcCounts(v)`. After each builder the running index, which is the size of the
trimmed array, is the storage size of the section. Every write is below the
capacity of the array, regrown where the code regrows it: the running index
starts inside the array, the append of a facet writes at an index below the
capacity and leaves the running index inside the array, and so does the step
of the boundary condition builder for a vertex. For every `v` the segment
`[offset(v), offset(v) + count(v))` of the trimmed array holds the entries
produced for `v`. -/
theorem running_index_arrays (ord : IterOrder) (dm : DM) (cellCounts : PetscSection)
    (cells : IS) (numBcs : Int) (bcNodes : Int → Int) (facetCounts : PetscSection)
    (facets : IS) (gtolCounts : PetscSection) (gtol : IS) (dofSection : PetscSection)
    (hcells : 0 ≤ ISGetSize cells) :
    ((∀ st v,
        (facetsVertex dm cellCounts (ISGetIndices cells) st v).facetIndex - st.facetIndex
          = (facetsVertex dm cellCounts (ISGetIndices cells) st v).facetCounts.atlasDof v
            - st.facetCounts.atlasDof v ∧
        (facetsVertex dm cellCounts (ISGetIndices cells) st v).facetsArray
          = st.facetsArray.writeList st.facetIndex (patchFacetList dm cellCounts cells v)) ∧
      ISGetSize (PCPatchCreateCellPatchFacets dm cellCounts cells).2
        = PetscSectionGetStorageSize (PCPatchCreateCellPatchFacets dm cellCounts cells).1 ∧
      (∀ st v f, st.InCapacity →
        (addFacet st v f).facetsArray = st.facetsArray.write st.facetIndex f ∧
        st.facetIndex < (addFacet st v f).totalFacets ∧ (addFacet st v f).InCapacity) ∧
      (∀ v, ((loopRange dm.vStart v).foldl (facetsVertex dm cellCounts (ISGetIndices cells))
        { facetCounts := PetscSectionSetChart dm.vStart dm.vEnd
          totalFacets := ISGetSize cells
          facetIndex := 0
          facetsArray := PetscMalloc1 }).InCapacity) ∧
      (∀ v, dm.vStart ≤ v → v < dm.vEnd →
        (PCPatchCreateCellPatchFacets dm cellCounts cells).1.atlasDof v
          = ((patchFacetList dm cellCounts cells v).length : Int) ∧
        (PCPatchCreateCellPatchFacets dm cellCounts cells).2.idx.segment
            ((PCPatchCreateCellPatchFacets dm cellCounts cells).1.atlasOff v)
            ((PCPatchCreateCellPatchFacets dm cellCounts cells).1.atlasDof v)
          = (patchFacetList dm cellCounts cells v).map some)) ∧
    ((∀ st st' v, st.InCapacity →
        bcsVertex ord dm (bcsGlobalTable numBcs bcNodes) facetCounts (ISGetIndices facets)
          gtolCounts (ISGetIndices gtol) dofSection st v = .ok st' →
        st'.bcIndex - st.bcIndex = st'.bcCounts.atlasDof v ∧
        st'.bcsArray = st.bcsArray.writeList st.bcIndex
          (patchBcList ord dm (bcsGlobalTable numBcs bcNodes) facetCounts (ISGetIndices facets)
            gtolCounts (ISGetIndices gtol) dofSection v) ∧
        st'.bcIndex < st'.totalNumBcs ∧ st'.InCapacity) ∧
      BcState.InCapacity
        { bcCounts := PetscSectionSetChart facetCounts.pStart facetCounts.pEnd
          totalNumBcs := PetscSectionGetStorageSize facetCounts
          bcIndex := 0
          bcsArray := PetscMalloc1 } ∧
      (∀ out, PCPatchCreateCellPatchBCs ord dm numBcs bcNodes facetCounts facets gtolCounts gtol
          dofSection = .ok out →
        ISGetSize out.2 = PetscSectionGetStorageSize out.1 ∧
        ∀ v, facetCounts.pStart ≤ v → v < facetCounts.pEnd →
          out.1.atlasDof v = (((patchBcList ord dm (bcsGlobalTable numBcs bcNodes) facetCounts
            (ISGetIndices facets) gtolCounts (ISGetIndices gtol) dofSection v).length : Nat)
              : Int) ∧
          out.2.idx.segment (out.1.atlasOff v) (out.1.atlasDof v)
            = (patchBcList ord dm (bcsGlobalTable numBcs bcNodes) facetCounts
              (ISGetIndices facets) gtolCounts (ISGetIndices gtol) dofSection v).map some)) := by
  have h0 : FacetState.InCapacity
      { facetCounts := PetscSectionSetChart dm.vStart dm.vEnd
        totalFacets := ISGetSize cells
        facetIndex := 0
        facetsArray := PetscMalloc1 } := ⟨le_refl _, hcells⟩
  have hstore : 0 ≤ PetscSectionGetStorageSize facetCounts := by
    unfold PetscSectionGetStorageSize
    apply sum_nonneg_of_forall
    intro x _
    split <;> omega
  obtain ⟨_, _, _, r4, r5⟩ := facets_spec dm cellCounts cells
  refine ⟨⟨?_, r5.symm, ?_, ?_, r4⟩, ?_, ⟨le_refl _, hstore⟩, ?_⟩
  · intro st v
    obtain ⟨e1, e2, e3, _⟩ := facetsVertex_spec dm cellCounts cells st v
    refine ⟨?_, e2⟩
    rw [e1, e3 v, if_pos rfl]
    ring
  · intro st v f hst
    obtain ⟨a1, a2, _, a4⟩ := addFacet_capacity st v f hst
    exact ⟨a1, a2, a4⟩
  · intro v
    exact foldl_inv FacetState.InCapacity _
      (fun s w hs => facetsVertex_capacity dm cellCounts _ s w hs) _ _ h0
  · intro st st' v hst h
    obtain ⟨c1, _, c3, c4⟩ := bcsVertex_capacity ord dm _ facetCounts _ gtolCounts _ dofSection
      st st' v hst h
    obtain ⟨_, s2, _⟩ := bcsVertex_spec ord dm _ facetCounts _ gtolCounts _ dofSection
      st st' v h
    exact ⟨by rw [c1]; ring, s2, c3, c4⟩
  · intro out hok
    obtain ⟨_, _, _, b4, b5⟩ := bcs_spec ord dm numBcs bcNodes facetCounts facets gtolCounts gtol
      dofSection out hok
    exact ⟨b5.symm, fun v v1 v2 => ⟨(b4 v v1 v2).1, (b4 v v1 v2).2.1⟩⟩

/-- C31: the apply requires every vertex of the chart to carry dofs. The step
of `PCApply_PATCH` for an index `i` whose vertex `i + pStart` has a local dof
count `<= 0` returns `PETSC_ERR_ARG_SIZ`; an apply that returns without error
has found a positive local dof count at every index of `[0, npatch)`; and when
the patches before the first index with a count `<= 0` pass, the apply returns
`PETSC_ERR_ARG_SIZ`. After a first `PCSetUp_PATCH` that returns without error
`npatch` is the size of the vertex chart of the mesh, a vertex that is not
owned or has no incident cell has the local dof count 0, and `PCApply_PATCH`
fails when the mesh has such a vertex. -/
theorem apply_requires_dofs {R : Type} [AddMonoid R] (ord : IterOrder) (pc p : PC R)
    (x y : Vec R) :
    (∀ (q : PC R) (localX : Int → R) (st : ApplyState R) (i : Int),
      PetscSectionGetDof q.localToPatch (i + q.localToPatch.pStart) ≤ 0 →
      applyPatch q localX st i = Outcome.error .PETSC_ERR_ARG_SIZ) ∧
    (∀ (q : PC R) (r : PC R × Vec R), (PCApply_PATCH q x y).result = .ok r →
      ∀ i, 0 ≤ i → i < q.npatch →
        0 < PetscSectionGetDof q.localToPatch (i + q.localToPatch.pStart)) ∧
    (∀ (q : PC R) (i : Int), 0 ≤ i → i < q.npatch →
      PetscSectionGetDof q.localToPatch (i + q.localToPatch.pStart) ≤ 0 →
      (∀ j, 0 ≤ j → j < i → PatchApplies q j) →
      (PCApply_PATCH q x y).result = .error .PETSC_ERR_ARG_SIZ) ∧
    (pc.setupcalled = false → (PCSetUp_PATCH ord pc).result = .ok p →
      p.npatch = pc.dm.vEnd - pc.dm.vStart ∧ p.localToPatch.pStart = pc.dm.vStart ∧
      ∀ v, pc.dm.vStart ≤ v → v < pc.dm.vEnd →
        ((pc.dm.op2_core v || pc.dm.op2_non_core v) = false ∨ closureCells pc.dm v = []) →
        0 ≤ v - pc.dm.vStart ∧ v - pc.dm.vStart < p.npatch ∧
        PetscSectionGetDof p.localToPatch (v - pc.dm.vStart + p.localToPatch.pStart) = 0 ∧
        ∃ e, (PCApply_PATCH p x y).result = .error e) := by
  have hnec : ∀ (q : PC R) (r : PC R × Vec R), (PCApply_PATCH q x y).result = .ok r →
      ∀ i, 0 ≤ i → i < q.npatch →
        0 < PetscSectionGetDof q.localToPatch (i + q.localToPatch.pStart) := by
    intro q r hr i i0 i1
    exact ((apply_ok_iff q x y).mp ⟨r, hr⟩ i (mem_loopRange.mpr ⟨i0, i1⟩)).1
  refine ⟨fun q localX st i h => applyPatch_no_dofs q localX st i h, hnec, ?_, ?_⟩
  · intro q i i0 i1 hlen hbefore
    apply apply_error_of_loop
    rw [loopRange_split i0 i1]
    apply Outcome.loop_first_error
    · intro j hj s
      obtain ⟨j0, j1⟩ := mem_loopRange.mp hj
      exact (applyPatch_ok_iff q _ s j).mpr (hbefore j j0 j1)
    · intro s
      rw [applyPatch_no_dofs q _ s i hlen]
      rfl
  · intro hfresh hsetup
    obtain ⟨p1, hp1, heq⟩ := setUp_fields ord pc p hfresh hsetup
    obtain ⟨info, _, hinfo, _, _, _, _, s4, _, _, s7, _⟩ := structures_spec ord pc p1 hp1
    obtain ⟨c1, c2, _, _⟩ := cellPatches_counts pc.dm
    have e1 : p.localToPatch = p1.localToPatch := by
      have t := congrArg PC.localToPatch heq; exact t
    have e2 : p.npatch = p1.npatch := by
      have t := congrArg PC.npatch heq; exact t
    have hn : p.npatch = pc.dm.vEnd - pc.dm.vStart := by rw [e2, s7, c1, c2]
    have hstart : p.localToPatch.pStart = pc.dm.vStart := by
      obtain ⟨g1, _⟩ := gtolCounts_spec ord _ _ _ _ _ info hinfo
      rw [e1, s4, g1, c1]
    refine ⟨hn, hstart, ?_⟩
    intro v v1 v2 hv
    have hlist : patchCellList pc.dm v = [] := by
      unfold patchCellList
      rcases hv with h | h
      · rw [h]; rfl
      · rw [h]; split <;> rfl
    obtain ⟨_, _, hz⟩ := gtolCounts_no_cells ord pc.dm _ _ _ info hinfo v v1 v2 hlist
    have hdof : PetscSectionGetDof p.localToPatch (v - pc.dm.vStart + p.localToPatch.pStart)
        = 0 := by
      rw [hstart, e1, s4]
      have : v - pc.dm.vStart + pc.dm.vStart = v := by omega
      rw [this]
      exact hz
    refine ⟨by omega, by omega, hdof, ?_⟩
    cases hr : (PCApply_PATCH p x y).result with
    | error e => exact ⟨e, rfl⟩
    | ok r =>
      have := hnec p r hr (v - pc.dm.vStart) (by omega) (by omega)
      omega

/-- C32: the closed form of the apply as implemented. After a first
`PCSetUp_PATCH` that returns without error, with block size 1 and the identity
on `n` dofs as default plan, the entries of the gtol array being dofs of
`[0, n)`, a `PCApply_PATCH` that returns without error returns
`y[g] = m(g) * x[g]` for every global dof `g` of `y`, where `m(g)` is the number
of slots `i` of the gtol array with `gtol[i] = g`. The result does not depend
on the patch operators or on the patch solvers: with other patch matrices,
other operators attached to the solvers and another callback, an apply that
returns without error returns the same entries. -/
theorem apply_closed_form {R : Type} [AddMonoid R] (ord : IterOrder) (pc p : PC R)
    (info : DiscretisationInfo) (n : Int) (x y : Vec R) (r : PC R × Vec R)
    (hfresh : pc.setupcalled = false) (hbs : pc.bs = 1) (hplan : pc.defaultSF = identitySF n)
    (hsetup : (PCSetUp_PATCH ord pc).result = .ok p)
    (hinfo : PCPatchCreateCellPatchDiscretisationInfo ord (PCPatchCreateCellPatches pc.dm).1
      (PCPatchCreateCellPatches pc.dm).2 pc.cellNumbering pc.nodesPerCell pc.cellNodeMap
      = .ok info)
    (hrange : ∀ i, 0 ≤ i → i < PetscSectionGetStorageSize info.gtolCounts →
      0 ≤ ISGetIndices info.gtol i ∧ ISGetIndices info.gtol i < n)
    (happly : (PCApply_PATCH p x y).result = .ok r) :
    (∀ g, 0 ≤ g → g < y.n →
      r.2.data g
        = ((loopRange 0 (PetscSectionGetStorageSize info.gtolCounts)).filter
            (fun i => decide (ISGetIndices info.gtol i = g))).length • x.data g) ∧
    (∀ (mat ksp : Int → Option (Mat R)) (f : Option (ComputeOperator R)) (r' : PC R × Vec R),
      (PCApply_PATCH { p with mat := mat, kspOperators := ksp, usercomputeop := f } x
        y).result = .ok r' →
      ∀ g, 0 ≤ g → g < y.n → r'.2.data g = r.2.data g) := by
  obtain ⟨p1, hp1, heq⟩ := setUp_fields ord pc p hfresh hsetup
  obtain ⟨info', _, hinfo', _, _, _, _, s4, _, _, _, _, _, s10, _⟩ :=
    structures_spec ord pc p1 hp1
  have ei : info' = info := Except.ok.inj (hinfo'.symm.trans hinfo)
  subst ei
  obtain ⟨hil, _, c1, c2, hn, b1, _, _, _, _, hX, _⟩ := setUp_layout ord pc p hfresh hsetup
  have e1 : p.localToPatch = info'.gtolCounts := by
    have t := congrArg PC.localToPatch heq
    exact t.trans s4
  have e2 : p.globalToLocal
      = PCPatchCreateGlobalToLocalSF (identitySF n) info'.gtolCounts info'.gtol := by
    have t := congrArg PC.globalToLocal heq
    rw [← hplan]
    exact t.trans s10
  have hb : p.bs = 1 := b1.trans hbs
  have hn' : p.npatch = info'.gtolCounts.pEnd - info'.gtolCounts.pStart := by
    rw [hn, ← c1, ← c2, e1]
  have hX' : ∀ i, 0 ≤ i → i < p.npatch →
      0 < PetscSectionGetDof info'.gtolCounts (i + info'.gtolCounts.pStart) →
      p.patchX i
        = some ⟨p.bs, PetscSectionGetDof info'.gtolCounts (i + info'.gtolCounts.pStart)
          * p.bs⟩ := by
    intro i i0 i1 hd
    have := hX i i0 i1
    rw [e1] at this
    rw [this, if_pos hd]
  have key : ∀ (q : PC R) (rq : PC R × Vec R), q.bs = p.bs → q.globalToLocal = p.globalToLocal →
      q.localToPatch = p.localToPatch → q.npatch = p.npatch → q.patchX = p.patchX →
      (PCApply_PATCH q x y).result = .ok rq → ∀ g, 0 ≤ g → g < y.n →
      rq.2.data g
        = ((loopRange 0 (PetscSectionGetStorageSize info'.gtolCounts)).filter
            (fun i => decide (ISGetIndices info'.gtol i = g))).length • x.data g := by
    intro q rq q1 q2 q3 q4 q5 hq g g1 g2
    exact apply_closed q x y n info'.gtolCounts info'.gtol (q1.trans hb) (q2.trans e2)
      (q3.trans e1) (by rw [e1] at hil; exact hil) (q4.trans hn')
      (fun i i0 i1 hd => by rw [q5, q1]; exact hX' i i0 (q4 ▸ i1) hd) hrange rq hq g g1 g2
  constructor
  · exact key p r rfl rfl rfl rfl rfl happly
  · intro mat ksp f r' hr' g g1 g2
    rw [key { p with mat := mat, kspOperators := ksp, usercomputeop := f } r' rfl rfl rfl rfl
      rfl hr' g g1 g2, key p r rfl rfl rfl rfl rfl happly g g1 g2]

/-- C33: no spurious BC dofs. Whenever `PCPatchCreateCellPatchBCs` returns
without error, every element `l` of the segment of the bcs array of a patch
`v` is the local index of a global dof of the patch, `gtol[offset(v) + l]`,
that occurs in `bcNodes[0 .. numBcs)` or lies in the dof section range of a
facet of `facets(v)`; and a patch with no boundary facet and with no dof that
occurs in `bcNodes` has `bcCounts(v) = 0`. -/
theorem bcs_no_spurious (ord : IterOrder) (dm : DM) (numBcs : Int) (bcNodes : Int → Int)
    (facetCounts : PetscSection) (facets : IS) (gtolCounts : PetscSection) (gtol : IS)
    (dofSection : PetscSection) (out : PetscSection × IS)
    (hok : PCPatchCreateCellPatchBCs ord dm numBcs bcNodes facetCounts facets gtolCounts gtol
      dofSection = .ok out)
    (v : Int) (v1 : facetCounts.pStart ≤ v) (v2 : v < facetCounts.pEnd) :
    (∀ l, some l ∈ out.2.idx.segment (out.1.atlasOff v) (out.1.atlasDof v) →
      0 ≤ l ∧ l < PetscSectionGetDof gtolCounts v ∧
      ((∃ k, 0 ≤ k ∧ k < numBcs ∧
          bcNodes k = ISGetIndices gtol (PetscSectionGetOffset gtolCounts v + l)) ∨
        ∃ fi, PetscSectionGetOffset facetCounts v ≤ fi ∧
          fi < PetscSectionGetOffset facetCounts v + PetscSectionGetDof facetCounts v ∧
          PetscSectionGetOffset dofSection (ISGetIndices facets fi)
            ≤ ISGetIndices gtol (PetscSectionGetOffset gtolCounts v + l) ∧
          ISGetIndices gtol (PetscSectionGetOffset gtolCounts v + l)
            < PetscSectionGetOffset dofSection (ISGetIndices facets fi)
              + PetscSectionGetDof dofSection (ISGetIndices facets fi))) ∧
    (PetscSectionGetDof facetCounts v ≤ 0 →
      (∀ i k, PetscSectionGetOffset gtolCounts v ≤ i →
        i < PetscSectionGetOffset gtolCounts v + PetscSectionGetDof gtolCounts v →
        0 ≤ k → k < numBcs → bcNodes k ≠ ISGetIndices gtol i) →
      out.1.atlasDof v = 0) := by
  obtain ⟨_, _, _, b4, _⟩ := bcs_spec ord dm numBcs bcNodes facetCounts facets gtolCounts gtol
    dofSection out hok
  obtain ⟨hcount, hseg, lb, hlb⟩ := b4 v v1 v2
  obtain ⟨_, hmem⟩ := patchBcList_spec ord dm (bcsGlobalTable numBcs bcNodes) facetCounts
    (ISGetIndices facets) gtolCounts (ISGetIndices gtol) dofSection v lb hlb
  have hkeys : ∀ l, l ∈ patchBcList ord dm (bcsGlobalTable numBcs bcNodes) facetCounts
      (ISGetIndices facets) gtolCounts (ISGetIndices gtol) dofSection v →
      0 ≤ l ∧ l < PetscSectionGetDof gtolCounts v ∧
      ((∃ k, 0 ≤ k ∧ k < numBcs ∧
          bcNodes k = ISGetIndices gtol (PetscSectionGetOffset gtolCounts v + l)) ∨
        ∃ fi, PetscSectionGetOffset facetCounts v ≤ fi ∧
          fi < PetscSectionGetOffset facetCounts v + PetscSectionGetDof facetCounts v ∧
          PetscSectionGetOffset dofSection (ISGetIndices facets fi)
            ≤ ISGetIndices gtol (PetscSectionGetOffset gtolCounts v + l) ∧
          ISGetIndices gtol (PetscSectionGetOffset gtolCounts v + l)
            < PetscSectionGetOffset dofSection (ISGetIndices facets fi)
              + PetscSectionGetDof dofSection (ISGetIndices facets fi)) := by
    intro l hl
    obtain ⟨i, i1, i2, e, hsrc⟩ := bcsLocalTable_keys dm _ facetCounts _ gtolCounts _ dofSection
      v lb hlb l ((hmem l).mp hl)
    have ei : PetscSectionGetOffset gtolCounts v + l = i := by omega
    rw [ei]
    refine ⟨by omega, by omega, ?_⟩
    rcases hsrc with hkey | hfacet
    · left
      exact (hasKey_globalTable numBcs bcNodes _).mp hkey
    · right
      exact hfacet
  constructor
  · intro l hl
    rw [hseg] at hl
    obtain ⟨l', hl', e⟩ := List.mem_map.mp hl
    have : l' = l := Option.some.inj e
    subst this
    exact hkeys l' hl'
  · intro hnof hnobc
    rw [hcount]
    cases hL : patchBcList ord dm (bcsGlobalTable numBcs bcNodes) facetCounts
        (ISGetIndices facets) gtolCounts (ISGetIndices gtol) dofSection v with
    | nil => rfl
    | cons l ls =>
      exfalso
      obtain ⟨l0, l1, hsrc⟩ := hkeys l (by rw [hL]; exact List.mem_cons_self _ _)
      rcases hsrc with ⟨k, k0, k1, e⟩ | ⟨fi, f1, f2, _⟩
      · exact hnobc _ k (by omega) (by omega) k0 k1 e
      · omega

/-- C34: independence from the iteration order of the hash tables. For cell
counts that form an Indexed List, `PCPatchCreateCellPatchDiscretisationInfo`
returns the same, and so the same gtol array, for every order in which the
table of a patch is visited in its second pass; `PCPatchCreateCellPatchBCs`
returns the same, and so the same bcs array, for every order in which
`PetscHashIGetKeys` hands out the keys of the table of a patch; and
`PCSetUp_PATCH` returns the same for every such order: what it builds is a
function of the mesh, the cell numbering, the connectivity table and the BC
list. -/
theorem order_independence {R : Type} [Zero R] (ord1 ord2 : IterOrder)
    (cellCounts : PetscSection) (cells : IS) (cellNumbering : PetscSection) (dofsPerCell : Int)
    (cellNodeMap : Int → Int) (dm : DM) (numBcs : Int) (bcNodes : Int → Int)
    (facetCounts : PetscSection) (facets : IS) (gtolCounts : PetscSection) (gtol : IS)
    (dofSection : PetscSection) (pc : PC R) :
    (cellCounts.IsIndexedList →
      PCPatchCreateCellPatchDiscretisationInfo ord1 cellCounts cells cellNumbering dofsPerCell
          cellNodeMap
        = PCPatchCreateCellPatchDiscretisationInfo ord2 cellCounts cells cellNumbering
          dofsPerCell cellNodeMap ∧
      ∀ out1 out2,
        PCPatchCreateCellPatchDiscretisationInfo ord1 cellCounts cells cellNumbering dofsPerCell
          cellNodeMap = .ok out1 →
        PCPatchCreateCellPatchDiscretisationInfo ord2 cellCounts cells cellNumbering dofsPerCell
          cellNodeMap = .ok out2 →
        out1.gtol = out2.gtol) ∧
    (PCPatchCreateCellPatchBCs ord1 dm numBcs bcNodes facetCounts facets gtolCounts gtol
        dofSection
      = PCPatchCreateCellPatchBCs ord2 dm numBcs bcNodes facetCounts facets gtolCounts gtol
        dofSection ∧
      ∀ out1 out2,
        PCPatchCreateCellPatchBCs ord1 dm numBcs bcNodes facetCounts facets gtolCounts gtol
          dofSection = .ok out1 →
        PCPatchCreateCellPatchBCs ord2 dm numBcs bcNodes facetCounts facets gtolCounts gtol
          dofSection = .ok out2 →
        out1.2 = out2.2) ∧
    PCSetUp_PATCH ord1 pc = PCSetUp_PATCH ord2 pc := by
  refine ⟨?_, ⟨bcs_order ord1 ord2 dm numBcs bcNodes facetCounts facets gtolCounts gtol
    dofSection, ?_⟩, setUp_order ord1 ord2 pc⟩
  · intro hcc
    have e := discretisationInfo_order ord1 ord2 cellCounts cells cellNumbering dofsPerCell
      cellNodeMap hcc
    refine ⟨e, ?_⟩
    intro out1 out2 h1 h2
    rw [e, h2] at h1
    rw [Except.ok.inj h1]
  · intro out1 out2 h1 h2
    rw [bcs_order ord1 ord2, h2] at h1
    rw [Except.ok.inj h1]

/-! ### The theorems on the mesh of two triangles -/

/-- C5 at vertex 3 of the two triangles: a core vertex with the cells 0 and 1. -/
theorem cellPatches_result_witness :
    (twoTriangles.vStart ≤ 3 ∧ 3 < twoTriangles.vEnd) ∧
    (twoTriangles.op2_core 3 || twoTriangles.op2_non_core 3) = true ∧
    (PCPatchCreateCellPatches twoTriangles).2.idx.segment
        ((PCPatchCreateCellPatches twoTriangles).1.atlasOff 3)
        ((PCPatchCreateCellPatches twoTriangles).1.atlasDof 3)
      = (closureCells twoTriangles 3).map some ∧
    (PCPatchCreateCellPatches twoTriangles).1.atlasDof 3
      = ((closureCells twoTriangles 3).length : Int) ∧
    closureCells twoTriangles 3 = [0, 1] :=
  ⟨⟨by decide, by decide⟩, by decide,
    ((cellPatches_result twoTriangles 3 (by decide) (by decide)).1 (by decide)).1,
    ((cellPatches_result twoTriangles 3 (by decide) (by decide)).1 (by decide)).2,
    by decide⟩

/-- C6 at vertex 3 of the two triangles and the edge 9. -/
theorem facets_classification_witness :
    (twoTriangles.vStart ≤ 3 ∧ 3 < twoTriangles.vEnd) ∧
    (some 9 ∈ (PCPatchCreateCellPatchFacets twoTriangles twoTriangles.cellCounts
          twoTriangles.cells).2.idx.segment
        ((PCPatchCreateCellPatchFacets twoTriangles twoTriangles.cellCounts
          twoTriangles.cells).1.atlasOff 3)
        ((PCPatchCreateCellPatchFacets twoTriangles twoTriangles.cellCounts
          twoTriangles.cells).1.atlasDof 3)
      ↔ (∃ c ∈ patchCells twoTriangles.cellCounts twoTriangles.cells 3,
          9 ∈ twoTriangles.cone c) ∧
        twoTriangles.exterior_facets 9 = false ∧
        ((twoTriangles.support 9).length = 1 ∨
          ∃ c ∈ twoTriangles.support 9,
            c ∉ patchCells twoTriangles.cellCounts twoTriangles.cells 3)) ∧
    patchCells twoTriangles.cellCounts twoTriangles.cells 3 = [0, 1] :=
  ⟨⟨by decide, by decide⟩,
    (facets_classification twoTriangles twoTriangles.cellCounts twoTriangles.cells 3
      (by decide) (by decide) 9).1,
    by decide⟩

/-- C1 at vertex 3 of the two triangles with the edge dofs: five distinct ids among six entries. -/
theorem dofs_dedup_invariant_witness :
    twoTriangles.cellCounts.IsIndexedList ∧
    (twoTriangles.cellCounts.pStart ≤ 3 ∧ 3 < twoTriangles.cellCounts.pEnd) ∧
    patchGlobalDofs twoTriangles.cellCounts twoTriangles.cells twoTriangles.cellNumbering 3
      twoTriangles.cellNodeMap 3 = [10, 11, 12, 11, 13, 14] ∧
    ∃ out, twoTriangles.discretisationInfo = .ok out ∧
      out.gtolCounts.atlasDof 3
        = (((patchGlobalDofs twoTriangles.cellCounts twoTriangles.cells
            twoTriangles.cellNumbering 3 twoTriangles.cellNodeMap 3).toFinset.card : Nat) : Int) := by
  refine ⟨cellPatches_indexedList twoTriangles, ⟨by decide, by decide⟩, by decide, ?_⟩
  obtain ⟨out, hout⟩ := exists_of_isOk twoTriangles.discretisationInfo (by rfl)
  exact ⟨out, hout, (dofs_dedup_invariant IterOrder.insertion twoTriangles.cellCounts
    twoTriangles.cells twoTriangles.cellNumbering 3 twoTriangles.cellNodeMap out
    (cellPatches_indexedList twoTriangles) hout 3 (by decide) (by decide)).1⟩

/-- C2 at vertex 3 of the two triangles with the edge dofs. -/
theorem dofs_dense_numbering_witness :
    twoTriangles.cellCounts.IsIndexedList ∧
    (twoTriangles.cellCounts.pStart ≤ 3 ∧ 3 < twoTriangles.cellCounts.pEnd) ∧
    ∃ out, twoTriangles.discretisationInfo = .ok out ∧
      ∀ x, x ∈ out.dofs.idx.segment (twoTriangles.cellCounts.atlasOff 3 * 3)
          (twoTriangles.cellCounts.atlasDof 3 * 3)
        ↔ ∃ l : Int, x = some l ∧ 0 ≤ l ∧ l < out.gtolCounts.atlasDof 3 := by
  refine ⟨cellPatches_indexedList twoTriangles, ⟨by decide, by decide⟩, ?_⟩
  obtain ⟨out, hout⟩ := exists_of_isOk twoTriangles.discretisationInfo (by rfl)
  exact ⟨out, hout, (dofs_dense_numbering IterOrder.insertion twoTriangles.cellCounts
    twoTriangles.cells twoTriangles.cellNumbering 3 twoTriangles.cellNodeMap out
    (cellPatches_indexedList twoTriangles) hout 3 (by decide) (by decide)).1⟩

/-- C3 (amended) at vertex 3 of the two triangles with the edge dofs. -/
theorem gtol_round_trip_witness :
    twoTriangles.cellCounts.IsIndexedList ∧
    (twoTriangles.cellCounts.pStart ≤ 3 ∧ 3 < twoTriangles.cellCounts.pEnd) ∧
    (∀ g ∈ patchGlobalDofs twoTriangles.cellCounts twoTriangles.cells
      twoTriangles.cellNumbering 3 twoTriangles.cellNodeMap 3, 0 ≤ g) ∧
    ∃ out, twoTriangles.discretisationInfo = .ok out ∧
      (∀ l : Int, 0 ≤ l → l < out.gtolCounts.atlasDof 3 →
        PetscHashIMap (bcsPatchTables PetscHashIClear out.gtolCounts (ISGetIndices out.gtol) 3).1
          (ISGetIndices out.gtol (out.gtolCounts.atlasOff 3 + l)) = l) ∧
      ((loopRange 0 (out.gtolCounts.atlasDof 3)).map
        (fun l => ISGetIndices out.gtol (out.gtolCounts.atlasOff 3 + l))).Nodup := by
  refine ⟨cellPatches_indexedList twoTriangles, ⟨by decide, by decide⟩, by decide, ?_⟩
  obtain ⟨out, hout⟩ := exists_of_isOk twoTriangles.discretisationInfo (by rfl)
  exact ⟨out, hout, gtol_round_trip IterOrder.insertion twoTriangles.cellCounts
    twoTriangles.cells twoTriangles.cellNumbering 3 twoTriangles.cellNodeMap out
    (cellPatches_indexedList twoTriangles) hout 3 (by decide) (by decide) (by decide)
    PetscHashIClear⟩

/-- C4 at vertex 3 of the two triangles with the edge dofs. -/
theorem gtol_inverts_local_numbering_witness :
    twoTriangles.cellCounts.IsIndexedList ∧
    (twoTriangles.cellCounts.pStart ≤ 3 ∧ 3 < twoTriangles.cellCounts.pEnd) ∧
    (∀ g ∈ patchGlobalDofs twoTriangles.cellCounts twoTriangles.cells
      twoTriangles.cellNumbering 3 twoTriangles.cellNodeMap 3, 0 ≤ g) ∧
    ∃ out, twoTriangles.discretisationInfo = .ok out ∧
      ∀ l : Int, 0 ≤ l → l < out.gtolCounts.atlasDof 3 →
        ∃ g : Int, out.gtol.idx (out.gtolCounts.atlasOff 3 + l) = some g := by
  refine ⟨cellPatches_indexedList twoTriangles, ⟨by decide, by decide⟩, by decide, ?_⟩
  obtain ⟨out, hout⟩ := exists_of_isOk twoTriangles.discretisationInfo (by rfl)
  exact ⟨out, hout, (gtol_inverts_local_numbering IterOrder.insertion twoTriangles.cellCounts
    twoTriangles.cells twoTriangles.cellNumbering 3 twoTriangles.cellNodeMap out
    (cellPatches_indexedList twoTriangles) hout 3 (by decide) (by decide) (by decide)).2⟩

/-- C7 at the patch of vertex 2 with the edge dofs. -/
theorem bcs_sorted_subset_witness :
    (vertexDofs.facetCounts.pStart ≤ 2 ∧ 2 < vertexDofs.facetCounts.pEnd) ∧
    ∃ out, edgeDofs.bcs = .ok out ∧
      ∃ S : List Int,
        out.2.idx.segment (out.1.atlasOff 2) (out.1.atlasDof 2) = S.map some ∧
        S.Sorted (fun a b => a < b) ∧
        ∀ x ∈ S, 0 ≤ x ∧ x < edgeDofs.gtolCounts.atlasDof 2 := by
  refine ⟨⟨by decide, by decide⟩, ?_⟩
  obtain ⟨out, hout⟩ := exists_of_isOk edgeDofs.bcs (by rfl)
  exact ⟨out, hout, bcs_sorted_subset IterOrder.insertion twoTriangles 1 twoTriangles.bcNodes
    vertexDofs.facetCounts vertexDofs.facets edgeDofs.gtolCounts edgeDofs.gtol
    twoTriangles.dofSection out hout 2 (by decide) (by decide)⟩

/-- C8 at the patch of vertex 2 with the edge dofs: local index 0 has the global boundary node 10. -/
theorem bcs_global_marked_witness :
    (vertexDofs.facetCounts.pStart ≤ 2 ∧ 2 < vertexDofs.facetCounts.pEnd) ∧
    ((0 : Int) ≤ 0 ∧ 0 < edgeDofs.gtolCounts.atlasDof 2) ∧
    (∃ i, 0 ≤ i ∧ i < 1 ∧
      twoTriangles.bcNodes i = ISGetIndices edgeDofs.gtol (edgeDofs.gtolCounts.atlasOff 2 + 0)) ∧
    ∃ out, edgeDofs.bcs = .ok out ∧
      some 0 ∈ out.2.idx.segment (out.1.atlasOff 2) (out.1.atlasDof 2) := by
  refine ⟨⟨by decide, by decide⟩, ⟨by decide, by decide⟩, ⟨0, by decide, by decide, by rfl⟩, ?_⟩
  obtain ⟨out, hout⟩ := exists_of_isOk edgeDofs.bcs (by rfl)
  exact ⟨out, hout, bcs_global_marked IterOrder.insertion twoTriangles 1 twoTriangles.bcNodes
    vertexDofs.facetCounts vertexDofs.facets edgeDofs.gtolCounts edgeDofs.gtol
    twoTriangles.dofSection out hout 2 (by decide) (by decide) 0 (by decide) (by decide)
    ⟨0, by decide, by decide, by rfl⟩⟩

/-- C10 on the two triangles. -/
theorem indexed_list_invariant_witness :
    IndexedListInvariant (PCPatchCreateCellPatches twoTriangles).1
      (PCPatchCreateCellPatches twoTriangles).2.n ∧
    IndexedListInvariant (PCPatchCreateCellPatchFacets twoTriangles twoTriangles.cellCounts
        twoTriangles.cells).1
      (PCPatchCreateCellPatchFacets twoTriangles twoTriangles.cellCounts twoTriangles.cells).2.n ∧
    (∃ out, twoTriangles.discretisationInfo = .ok out ∧
      IndexedListInvariant out.gtolCounts out.gtol.n) ∧
    (∃ out, edgeDofs.bcs = .ok out ∧ IndexedListInvariant out.1 out.2.n) := by
  refine ⟨indexed_list_invariant.1 twoTriangles,
    indexed_list_invariant.2.1 twoTriangles twoTriangles.cellCounts twoTriangles.cells, ?_, ?_⟩
  · obtain ⟨out, hout⟩ := exists_of_isOk twoTriangles.discretisationInfo (by rfl)
    exact ⟨out, hout, indexed_list_invariant.2.2.1 _ _ _ _ _ _ out hout⟩
  · obtain ⟨out, hout⟩ := exists_of_isOk edgeDofs.bcs (by rfl)
    exact ⟨out, hout, indexed_list_invariant.2.2.2 _ _ _ _ _ _ _ _ _ out hout⟩

/-! ### The theorems on the apply at the one patch -/

/-- C11 at the one patch: two leaves, attached to the roots 0 and 1. -/
theorem broadcast_semantics_witness :
    onePatch.gtolCounts.IsIndexedList ∧
    onePatch.state.globalToLocal
      = PCPatchCreateGlobalToLocalSF (identitySF 2) onePatch.gtolCounts onePatch.gtol ∧
    (PCPatchCreateLocalSF (identitySF 2) onePatch.gtolCounts onePatch.gtol).nleaves = 2 ∧
    ∃ r, (PCApply_PATCH onePatch.state onePatch.x onePatch.y).result = .ok r ∧
      ∀ i c, 0 ≤ i →
        i < (PCPatchCreateLocalSF (identitySF 2) onePatch.gtolCounts onePatch.gtol).nleaves →
        0 ≤ c → c < onePatch.state.bs →
        r.1.localX.data (i * onePatch.state.bs + c)
          = onePatch.x.data (ISGetIndices onePatch.gtol i * onePatch.state.bs + c) := by
  refine ⟨onePatch.gtolCounts_indexedList, rfl, by decide, ?_⟩
  obtain ⟨r, hr⟩ := exists_of_isOk
    (PCApply_PATCH onePatch.state onePatch.x onePatch.y).result (by rfl)
  exact ⟨r, hr, (broadcast_semantics (R := Int) (identitySF 2) onePatch.gtolCounts onePatch.gtol
    onePatch.gtolCounts_indexedList).2.2.2 onePatch.state onePatch.x onePatch.y r rfl
    onePatch.identity_on_gtol hr⟩

/-- C12 at the one patch. -/
theorem reduce_from_zero_witness :
    onePatch.state.globalToLocal
      = PCPatchCreateGlobalToLocalSF (identitySF 2) onePatch.gtolCounts onePatch.gtol ∧
    (∃ r, (PCApply_PATCH onePatch.state onePatch.x onePatch.y).result = .ok r ∧
      r.2.data (1 * onePatch.state.bs + 0)
        = (((loopRange 0 (PetscSectionGetStorageSize onePatch.gtolCounts)).filter
              (fun i => decide (ISGetIndices onePatch.gtol i = 1))).map
            (fun i => r.1.localY.data (i * onePatch.state.bs + 0))).sum) ∧
    (PCApply_PATCH onePatch.state onePatch.x (VecCreateSeq 2)).result.map (fun r => r.2.entries)
      = (PCApply_PATCH onePatch.state onePatch.x onePatch.y).result.map
        (fun r => r.2.entries) := by
  refine ⟨rfl, ?_, ?_⟩
  · obtain ⟨r, hr⟩ := exists_of_isOk
      (PCApply_PATCH onePatch.state onePatch.x onePatch.y).result (by rfl)
    exact ⟨r, hr, ((reduce_from_zero onePatch.state onePatch.x onePatch.y (identitySF 2)
      onePatch.gtolCounts onePatch.gtol rfl onePatch.identity_on_gtol).1 r hr 1 0 (by decide)
      (by decide) (by decide) (by decide)).1⟩
  · exact (reduce_from_zero onePatch.state onePatch.x onePatch.y (identitySF 2)
      onePatch.gtolCounts onePatch.gtol rfl onePatch.identity_on_gtol).2 (VecCreateSeq 2) rfl

/-- C14 at slot 1 of the one patch. -/
theorem additive_combination_witness :
    onePatch.state.globalToLocal
      = PCPatchCreateGlobalToLocalSF (identitySF 2) onePatch.gtolCounts onePatch.gtol ∧
    ((0 : Int) ≤ 1 ∧ 1 < PetscSectionGetStorageSize onePatch.gtolCounts) ∧
    ((0 : Int) ≤ 0 ∧ 0 < onePatch.state.bs) ∧
    (0 ≤ ISGetIndices onePatch.gtol 1 * onePatch.state.bs + 0 ∧
      ISGetIndices onePatch.gtol 1 * onePatch.state.bs + 0 < onePatch.y.n) ∧
    ∃ r, (PCApply_PATCH onePatch.state onePatch.x onePatch.y).result = .ok r ∧
      r.2.data (ISGetIndices onePatch.gtol 1 * onePatch.state.bs + 0)
        = r.1.localY.data (1 * onePatch.state.bs + 0) := by
  refine ⟨rfl, ⟨by decide, by decide⟩, ⟨by decide, by decide⟩, ⟨by decide, by decide⟩, ?_⟩
  obtain ⟨r, hr⟩ := exists_of_isOk
    (PCApply_PATCH onePatch.state onePatch.x onePatch.y).result (by rfl)
  exact ⟨r, hr, additive_combination onePatch.state onePatch.x onePatch.y (identitySF 2)
    onePatch.gtolCounts onePatch.gtol rfl onePatch.identity_on_gtol onePatch.gtol_injective r hr
    1 0 (by decide) (by decide) (by decide) (by decide) (by decide) (by decide)⟩

/-- C15 at the one patch: both runs return without error, with the same `y`. -/
theorem cache_toggle_witness :
    (onePatch.pc false).setupcalled = false ∧
    isOk ((PCSetUp_PATCH IterOrder.insertion (PCPatchSetSaveOperators (onePatch.pc false)
      true)).bind (fun p => PCApply_PATCH p onePatch.x onePatch.y)).result = true ∧
    ((∃ r, ((PCSetUp_PATCH IterOrder.insertion (PCPatchSetSaveOperators (onePatch.pc false)
          true)).bind (fun p => PCApply_PATCH p onePatch.x onePatch.y)).result = .ok r) ↔
      (∃ r, ((PCSetUp_PATCH IterOrder.insertion (PCPatchSetSaveOperators (onePatch.pc false)
          false)).bind (fun p => PCApply_PATCH p onePatch.x onePatch.y)).result = .ok r)) ∧
    (∀ rS rU,
      ((PCSetUp_PATCH IterOrder.insertion (PCPatchSetSaveOperators (onePatch.pc false)
          true)).bind (fun p => PCApply_PATCH p onePatch.x onePatch.y)).result = .ok rS →
      ((PCSetUp_PATCH IterOrder.insertion (PCPatchSetSaveOperators (onePatch.pc false)
          false)).bind (fun p => PCApply_PATCH p onePatch.x onePatch.y)).result = .ok rU →
      rS.2 = rU.2) :=
  ⟨rfl, by rfl,
    cache_toggle IterOrder.insertion (onePatch.pc false) onePatch.x onePatch.y rfl⟩

/-- C17 (amended) without callback: at the one patch, the apply after a setup
without saved operators and the setup with saved operators. -/
theorem missing_callback_witness :
    PCPatchComputeOperator (onePatch.noCallback false) (patchMatrix ⟨1, 2⟩ ⟨1, 2⟩) 0
      = Outcome.error .PETSC_ERR_ARG_WRONGSTATE ∧
    ((afterSetUp (onePatch.noCallback false)).usercomputeop.isNone = true ∧
      (afterSetUp (onePatch.noCallback false)).save_operators = false ∧
      0 < (afterSetUp (onePatch.noCallback false)).npatch ∧
      0 < PetscSectionGetDof (afterSetUp (onePatch.noCallback false)).localToPatch
        (0 + (afterSetUp (onePatch.noCallback false)).localToPatch.pStart) ∧
      (afterSetUp (onePatch.noCallback false)).patchX 0 = some ⟨1, 2⟩ ∧
      (afterSetUp (onePatch.noCallback false)).patchY 0 = some ⟨1, 2⟩ ∧
      PCApply_PATCH (afterSetUp (onePatch.noCallback false)) onePatch.x onePatch.y
        = Outcome.error .PETSC_ERR_ARG_WRONGSTATE) ∧
    ((onePatch.noCallback true).usercomputeop.isNone = true ∧
      (onePatch.noCallback true).save_operators = true ∧
      (onePatch.noCallback true).setupcalled = false ∧
      ∃ pc1, PCSetUp_PATCH_first IterOrder.insertion (onePatch.noCallback true) = .ok pc1 ∧
        0 < pc1.npatch ∧
        PCSetUp_PATCH IterOrder.insertion (onePatch.noCallback true)
          = Outcome.error .PETSC_ERR_ARG_WRONGSTATE) ∧
    (onePatch.saved.usercomputeop.isNone = true ∧ onePatch.saved.save_operators = true ∧
      onePatch.saved.setupcalled = true ∧ 0 < onePatch.saved.npatch ∧
      onePatch.saved.mat 0 = some minusIdentityMatrix ∧
      PCSetUp_PATCH IterOrder.insertion onePatch.saved
        = Outcome.error .PETSC_ERR_ARG_WRONGSTATE) := by
  refine ⟨missing_callback.1 _ _ _ rfl, ⟨rfl, by rfl, by decide, by decide, by rfl, by rfl,
    missing_callback.2.1 _ _ _ ⟨1, 2⟩ ⟨1, 2⟩ (by rfl) (by rfl) (by decide) (by decide) (by rfl)
      (by rfl)⟩, ⟨rfl, rfl, rfl, ?_⟩, ⟨rfl, rfl, rfl, by decide, rfl,
    missing_callback.2.2.2 IterOrder.insertion onePatch.saved minusIdentityMatrix rfl rfl rfl
      (by decide) rfl⟩⟩
  have key : (PCSetUp_PATCH_first IterOrder.insertion (onePatch.noCallback true)).map
      (fun p => p.npatch) = .ok 1 := by rfl
  obtain ⟨pc1, h1⟩ := exists_of_isOk
    (PCSetUp_PATCH_first IterOrder.insertion (onePatch.noCallback true)) (by rfl)
  rw [h1] at key
  simp only [Except.map, Except.ok.injEq] at key
  exact ⟨pc1, h1, by rw [key]; decide,
    missing_callback.2.2.1 IterOrder.insertion (onePatch.noCallback true) pc1 rfl rfl rfl h1
      (by rw [key]; decide)⟩

/-- C19 at the vertex without cell, after the setup with a callback. -/
theorem zero_cell_patch_witness :
    (afterSetUp (loneVertex.pc (some minusIdentity))).usercomputeop = some minusIdentity ∧
    ((0 : Int) ≤ 0 ∧
      0 < (afterSetUp (loneVertex.pc (some minusIdentity))).cellCounts.pEnd
        - (afterSetUp (loneVertex.pc (some minusIdentity))).cellCounts.pStart) ∧
    PetscSectionGetDof (afterSetUp (loneVertex.pc (some minusIdentity))).cellCounts
      (0 + (afterSetUp (loneVertex.pc (some minusIdentity))).cellCounts.pStart) ≤ 0 ∧
    (PCPatchComputeOperator (afterSetUp (loneVertex.pc (some minusIdentity)))
        (patchMatrix ⟨1, 2⟩ ⟨1, 2⟩) 0).result = .error .PETSC_ERR_ARG_OUTOFRANGE ∧
    (PCPatchComputeOperator (afterSetUp (loneVertex.pc (some minusIdentity)))
        (patchMatrix ⟨1, 2⟩ ⟨1, 2⟩) 0).calls = [] :=
  ⟨by rfl, ⟨by decide, by decide⟩, by decide,
    zero_cell_patch (afterSetUp (loneVertex.pc (some minusIdentity)))
      (patchMatrix ⟨1, 2⟩ ⟨1, 2⟩) 0 minusIdentity (by rfl) (by decide) (by decide)
      (by decide)⟩

/-- C20 on the patch of `negativeDof`: with an empty cell numbering the builder
fails, with the cell numbering of the example it returns. -/
theorem dofs_missing_cell_numbering_witness :
    (∃ v i, negativeDof.cellCounts.pStart ≤ v ∧ v < negativeDof.cellCounts.pEnd ∧
      PetscSectionGetOffset negativeDof.cellCounts v ≤ i ∧
      i < PetscSectionGetOffset negativeDof.cellCounts v
        + PetscSectionGetDof negativeDof.cellCounts v ∧
      PetscSectionGetDof (PetscSectionSetChart 0 1) (ISGetIndices negativeDof.cells i) ≤ 0) ∧
    PCPatchCreateCellPatchDiscretisationInfo IterOrder.insertion negativeDof.cellCounts
      negativeDof.cells (PetscSectionSetChart 0 1) 2 negativeDof.cellNodeMap
      = .error .PETSC_ERR_ARG_OUTOFRANGE ∧
    negativeDof.cellCounts.IsIndexedList ∧
    ∃ out, PCPatchCreateCellPatchDiscretisationInfo IterOrder.insertion negativeDof.cellCounts
      negativeDof.cells negativeDof.cellNumbering 2 negativeDof.cellNodeMap = .ok out :=
  ⟨⟨0, 0, by decide, by decide, by decide, by decide, by decide⟩,
    (dofs_missing_cell_numbering IterOrder.insertion negativeDof.cellCounts negativeDof.cells
      (PetscSectionSetChart 0 1) 2 negativeDof.cellNodeMap).1
      ⟨0, 0, by decide, by decide, by decide, by decide, by decide⟩,
    negativeDof_indexedList,
    (dofs_missing_cell_numbering IterOrder.insertion negativeDof.cellCounts negativeDof.cells
      negativeDof.cellNumbering 2 negativeDof.cellNodeMap).2 negativeDof_indexedList
      negativeDof.numbered⟩

/-! ### The theorems on the engine at the one patch -/

/-- C23 at the one patch: the setup with saved operators and the apply without. -/
theorem callback_invocations_witness :
    ((onePatch.pc true).save_operators = true ∧
      isOk (PCSetUp_PATCH IterOrder.insertion (onePatch.pc true)).result = true ∧
      (∀ p, (PCSetUp_PATCH IterOrder.insertion (onePatch.pc true)).result = .ok p →
        (PCSetUp_PATCH IterOrder.insertion (onePatch.pc true)).calls
          = (loopRange 0 p.npatch).map (callbackArgs p) ∧
        (PCSetUp_PATCH IterOrder.insertion (onePatch.pc true)).calls.length = p.npatch.toNat) ∧
      (PCApply_PATCH (onePatch.pc true) onePatch.x onePatch.y).calls = []) ∧
    (onePatch.state.save_operators = false ∧
      isOk (PCApply_PATCH onePatch.state onePatch.x onePatch.y).result = true ∧
      (PCSetUp_PATCH IterOrder.insertion onePatch.state).calls = [] ∧
      (∀ r, (PCApply_PATCH onePatch.state onePatch.x onePatch.y).result = .ok r →
        (PCApply_PATCH onePatch.state onePatch.x onePatch.y).calls
          = (loopRange 0 onePatch.state.npatch).map (callbackArgs onePatch.state) ∧
        (PCApply_PATCH onePatch.state onePatch.x onePatch.y).calls.length
          = onePatch.state.npatch.toNat)) :=
  ⟨⟨rfl, by rfl,
    ((callback_invocations IterOrder.insertion (onePatch.pc true) onePatch.x onePatch.y).1
      rfl).1,
    ((callback_invocations IterOrder.insertion (onePatch.pc true) onePatch.x onePatch.y).1
      rfl).2⟩,
   ⟨rfl, by rfl,
    ((callback_invocations IterOrder.insertion onePatch.state onePatch.x onePatch.y).2 rfl).1,
    ((callback_invocations IterOrder.insertion onePatch.state onePatch.x onePatch.y).2
      rfl).2⟩⟩

/-- C24 at the one patch: the invocation for patch 0 and the object after the
first setup. -/
theorem callback_arguments_witness :
    (∃ m, (PCPatchComputeOperator onePatch.state (patchMatrix ⟨1, 2⟩ ⟨1, 2⟩) 0).result = .ok m ∧
      ∃ args, (PCPatchComputeOperator onePatch.state (patchMatrix ⟨1, 2⟩ ⟨1, 2⟩) 0).calls
          = [args] ∧
        args.ncell = PetscSectionGetDof onePatch.state.cellCounts
          (0 + onePatch.state.cellCounts.pStart) ∧
        args.ndof = args.ncell * onePatch.state.nodesPerCell ∧
        args = callbackArgs onePatch.state 0) ∧
    (onePatch.pc false).setupcalled = false ∧
    ∃ p, (PCSetUp_PATCH IterOrder.insertion (onePatch.pc false)).result = .ok p ∧
      ∀ i, 0 ≤ i → i < p.npatch →
        (∀ d ∈ (callbackArgs p i).dofIds,
          0 ≤ d ∧ d < PetscSectionGetDof p.localToPatch (i + p.localToPatch.pStart)) ∧
        (0 < PetscSectionGetDof p.localToPatch (i + p.localToPatch.pStart) →
          ∃ px py, p.patchX i = some px ∧ p.patchY i = some py ∧
            px.n = PetscSectionGetDof p.localToPatch (i + p.localToPatch.pStart) * px.bs ∧
            py.n = PetscSectionGetDof p.localToPatch (i + p.localToPatch.pStart) * py.bs ∧
            ∃ m : Mat Int, PCPatchCreateMatrix (p.patchX i) (p.patchY i) = .ok m ∧
              m.rsize = PetscSectionGetDof p.localToPatch (i + p.localToPatch.pStart) * m.rbs ∧
              m.csize
                = PetscSectionGetDof p.localToPatch (i + p.localToPatch.pStart) * m.cbs) := by
  refine ⟨?_, rfl, ?_⟩
  · obtain ⟨m, hm⟩ := exists_of_isOk
      (PCPatchComputeOperator onePatch.state (patchMatrix ⟨1, 2⟩ ⟨1, 2⟩) 0).result (by rfl)
    obtain ⟨args, a1, a2, _, a4, _, a6⟩ :=
      (callback_arguments IterOrder.insertion (onePatch.pc false) (onePatch.pc false)).1
        onePatch.state (patchMatrix ⟨1, 2⟩ ⟨1, 2⟩) m 0 hm
    exact ⟨m, hm, args, a1, a2, a4, a6⟩
  · obtain ⟨p, hp⟩ := exists_of_isOk
      (PCSetUp_PATCH IterOrder.insertion (onePatch.pc false)).result (by rfl)
    exact ⟨p, hp,
      (callback_arguments IterOrder.insertion (onePatch.pc false) p).2 rfl hp⟩

/-- C25 at the two patches on one cell, with block size 2: the buffers have 8
entries and the windows of the patches 0 and 1 are `[0, 4)` and `[4, 8)`. -/
theorem work_buffer_windows_witness :
    pair.pc.setupcalled = false ∧ 1 ≤ pair.pc.bs ∧
    ∃ p, (PCSetUp_PATCH IterOrder.insertion pair.pc).result = .ok p ∧
      (p.npatch = 2 ∧ p.bs = 2 ∧ p.localX.n = 8 ∧ p.localY.n = 8) ∧
      (p.bs * PetscSectionGetOffset p.localToPatch (0 + p.localToPatch.pStart) = 0 ∧
        p.bs * (PetscSectionGetOffset p.localToPatch (0 + p.localToPatch.pStart)
          + PetscSectionGetDof p.localToPatch (0 + p.localToPatch.pStart)) = 4) ∧
      (p.bs * PetscSectionGetOffset p.localToPatch (1 + p.localToPatch.pStart) = 4 ∧
        p.bs * (PetscSectionGetOffset p.localToPatch (1 + p.localToPatch.pStart)
          + PetscSectionGetDof p.localToPatch (1 + p.localToPatch.pStart)) = 8) ∧
      p.localX.n = p.bs * ((loopRange 0 p.npatch).map (fun i =>
        PetscSectionGetDof p.localToPatch (i + p.localToPatch.pStart))).sum ∧
      p.bs * (PetscSectionGetOffset p.localToPatch (0 + p.localToPatch.pStart)
          + PetscSectionGetDof p.localToPatch (0 + p.localToPatch.pStart))
        ≤ p.bs * PetscSectionGetOffset p.localToPatch (1 + p.localToPatch.pStart) ∧
      (∃ px, p.patchX 1 = some px ∧ p.patchY 1 = some px ∧ px.n = 8 - 4) ∧
      (∀ (localX : Int → Int) (st st' : ApplyState Int),
        (applyPatch p localX st 1).result = .ok st' →
        ∀ k, st'.localY k = if 4 ≤ k ∧ k < 8 then localX k else st.localY k) := by
  refine ⟨rfl, by decide, ?_⟩
  have hs : (PCSetUp_PATCH IterOrder.insertion pair.pc).result.map
      (fun p => (p.npatch, p.bs, p.localX.n, p.localY.n,
        PetscSectionGetOffset p.localToPatch (0 + p.localToPatch.pStart),
        PetscSectionGetDof p.localToPatch (0 + p.localToPatch.pStart),
        PetscSectionGetOffset p.localToPatch (1 + p.localToPatch.pStart),
        PetscSectionGetDof p.localToPatch (1 + p.localToPatch.pStart)))
      = .ok (2, 2, 8, 8, 0, 2, 2, 2) := by rfl
  obtain ⟨p, hp⟩ := exists_of_isOk (PCSetUp_PATCH IterOrder.insertion pair.pc).result (by rfl)
  rw [hp] at hs
  simp only [Except.map, Except.ok.injEq, Prod.mk.injEq] at hs
  obtain ⟨s1, s2, s3, s4, o0, g0, o1, g1⟩ := hs
  obtain ⟨_, c2, _, c4, c5, c6, _⟩ := work_buffer_windows IterOrder.insertion pair.pc p rfl
    (by decide) hp
  have w0a : p.bs * PetscSectionGetOffset p.localToPatch (0 + p.localToPatch.pStart) = 0 := by
    rw [s2, o0]; rfl
  have w0b : p.bs * (PetscSectionGetOffset p.localToPatch (0 + p.localToPatch.pStart)
      + PetscSectionGetDof p.localToPatch (0 + p.localToPatch.pStart)) = 4 := by
    rw [s2, o0, g0]; rfl
  have w1a : p.bs * PetscSectionGetOffset p.localToPatch (1 + p.localToPatch.pStart) = 4 := by
    rw [s2, o1]; rfl
  have w1b : p.bs * (PetscSectionGetOffset p.localToPatch (1 + p.localToPatch.pStart)
      + PetscSectionGetDof p.localToPatch (1 + p.localToPatch.pStart)) = 8 := by
    rw [s2, o1, g1]; rfl
  have i1 : (1 : Int) < p.npatch := by rw [s1]; decide
  refine ⟨p, hp, ⟨s1, s2, s3, s4⟩, ⟨w0a, w0b⟩, ⟨w1a, w1b⟩, c2,
    c5 0 1 (le_refl _) (by decide) i1, ?_, ?_⟩
  · obtain ⟨px, h1, h2, h3⟩ := (c4 1 (by decide) i1).2.2.2 (by rw [g1]; decide)
    rw [w1a, w1b] at h3
    exact ⟨px, h1, h2, h3⟩
  · intro localX st st' hst k
    have := c6 1 (by decide) i1 localX st st' hst k
    rw [w1a, w1b] at this
    exact this

/-- C26 at the one patch, set up with saved operators. -/
theorem setUp_again_witness :
    onePatch.cached.setupcalled = true ∧ onePatch.cached.save_operators = true ∧
    ∃ p, (PCSetUp_PATCH IterOrder.insertion onePatch.cached).result = .ok p ∧
      { p with mat := onePatch.cached.mat, kspOperators := onePatch.cached.kspOperators }
        = onePatch.cached ∧
      ∀ i, 0 ≤ i → i < onePatch.cached.npatch → ∃ m m', onePatch.cached.mat i = some m ∧
        (PCPatchComputeOperator onePatch.cached m i).result = .ok m' ∧
        p.mat i = some m' ∧ p.kspOperators i = some m' := by
  refine ⟨rfl, rfl, ?_⟩
  obtain ⟨p, hp⟩ := exists_of_isOk
    (PCSetUp_PATCH IterOrder.insertion onePatch.cached).result (by rfl)
  obtain ⟨c1, _, _, c4⟩ := setUp_again IterOrder.insertion onePatch.cached p rfl hp
  exact ⟨p, hp, c1, (c4 rfl).1⟩

/-! ### The theorems on the builders at the examples -/

/-- C21 at the patch of vertex 2 of the two triangles: the dof 11 of its
boundary facet 7 is not among the vertex dofs 0, 1, 2 and is among the edge
dofs 10, 11, 12. -/
theorem facet_dof_inconsistency_witness :
    PCPatchCreateCellPatchBCs IterOrder.insertion twoTriangles 1 twoTriangles.bcNodes
      vertexDofs.facetCounts vertexDofs.facets vertexDofs.gtolCounts vertexDofs.gtol
      twoTriangles.dofSection = .error .PETSC_ERR_ARG_OUTOFRANGE ∧
    ∃ out, PCPatchCreateCellPatchBCs IterOrder.insertion twoTriangles 1 twoTriangles.bcNodes
      vertexDofs.facetCounts vertexDofs.facets edgeDofs.gtolCounts edgeDofs.gtol
      twoTriangles.dofSection = .ok out := by
  have hv : ∀ v, vertexDofs.facetCounts.pStart ≤ v → v < vertexDofs.facetCounts.pEnd → v = 2 := by
    intro v a b
    have a' : (2 : Int) ≤ v := a
    have b' : v < 3 := b
    omega
  constructor
  · apply (facet_dof_inconsistency IterOrder.insertion twoTriangles 1 twoTriangles.bcNodes
      vertexDofs.facetCounts vertexDofs.facets vertexDofs.gtolCounts vertexDofs.gtol
      twoTriangles.dofSection).1
    refine ⟨2, 0, 11, by decide, by decide, by decide, by decide, by decide, by decide,
      by decide, ?_⟩
    intro k k1 k2
    have k1' : (0 : Int) ≤ k := k1
    have k2' : k < 0 + 3 := k2
    have hk : k = 0 ∨ k = 1 ∨ k = 2 := by omega
    rcases hk with rfl | rfl | rfl <;> decide
  · apply (facet_dof_inconsistency IterOrder.insertion twoTriangles 1 twoTriangles.bcNodes
      vertexDofs.facetCounts vertexDofs.facets edgeDofs.gtolCounts edgeDofs.gtol
      twoTriangles.dofSection).2
    intro v i j v1 v2 i1 i2 _ j1 j2
    have e := hv v v1 v2
    subst e
    have i1' : (0 : Int) ≤ i := i1
    have i2' : i < 0 + 1 := i2
    have hi : i = 0 := by omega
    subst hi
    have j1' : (11 : Int) ≤ j := j1
    have j2' : j < 11 + 1 := j2
    have hj : j = 11 := by omega
    subst hj
    exact ⟨1, by decide, by decide, by decide⟩

/-- C22 on the two triangles: the cells array built by
`PCPatchCreateCellPatches`. -/
theorem cells_compact_numbering_witness :
    twoTriangles.cellCounts.IsIndexedList ∧
    ISGetSize twoTriangles.cells = PetscSectionGetStorageSize twoTriangles.cellCounts ∧
    ∃ out, PCPatchCreateCellPatchDiscretisationInfo IterOrder.insertion twoTriangles.cellCounts
        twoTriangles.cells twoTriangles.cellNumbering 3 twoTriangles.cellNodeMap = .ok out ∧
      ISGetSize out.cells = ISGetSize twoTriangles.cells ∧
      ∀ i, 0 ≤ i → i < ISGetSize twoTriangles.cells →
        out.cells.idx i
          = some (PetscSectionGetOffset twoTriangles.cellNumbering
            (ISGetIndices twoTriangles.cells i)) ∧
        ISGetIndices out.cells i
          = PetscSectionGetOffset twoTriangles.cellNumbering
            (ISGetIndices twoTriangles.cells i) := by
  refine ⟨cellPatches_indexedList twoTriangles, rfl, ?_⟩
  obtain ⟨out, hout⟩ := exists_of_isOk
    (PCPatchCreateCellPatchDiscretisationInfo IterOrder.insertion twoTriangles.cellCounts
      twoTriangles.cells twoTriangles.cellNumbering 3 twoTriangles.cellNodeMap) (by rfl)
  obtain ⟨c1, c2, _⟩ := cells_compact_numbering (R := Int) IterOrder.insertion
    twoTriangles.cellCounts twoTriangles.cells twoTriangles.cellNumbering 3
    twoTriangles.cellNodeMap out (cellPatches_indexedList twoTriangles) rfl hout
  exact ⟨out, hout, c1, c2⟩

/-- C27 (amended) at the fan of three triangles without exterior label. -/
theorem single_patch_scenario_witness :
    ((fan.dm false).vStart ≤ 3 ∧ 3 < (fan.dm false).vEnd) ∧
    ((fan.dm false).op2_core 3 || (fan.dm false).op2_non_core 3) = true ∧
    (closureCells (fan.dm false) 3).length = 3 ∧
    (patchGlobalDofs (PCPatchCreateCellPatches (fan.dm false)).1
      (PCPatchCreateCellPatches (fan.dm false)).2 fan.cellNumbering 2 fan.cellNodeMap
      3).toFinset.card = 4 ∧
    ((closureCells (fan.dm false) 3).flatMap (fan.dm false).cone).filter
      (fun f => decide (((fan.dm false).support f).length = 1)
        || ((fan.dm false).support f).any
          (fun c => decide (c ∉ closureCells (fan.dm false) 3))) = [10, 11, 12] ∧
    ((fan.dm false).exterior_facets 10 = false ∧ (fan.dm false).exterior_facets 11 = false
      ∧ (fan.dm false).exterior_facets 12 = false) ∧
    ∃ info, PCPatchCreateCellPatchDiscretisationInfo IterOrder.insertion
        (PCPatchCreateCellPatches (fan.dm false)).1 (PCPatchCreateCellPatches (fan.dm false)).2
        fan.cellNumbering 2 fan.cellNodeMap = .ok info ∧
      (PCPatchCreateCellPatches (fan.dm false)).1.atlasDof 3 = 3 ∧
      info.gtolCounts.atlasDof 3 = 4 ∧
      (PCPatchCreateCellPatchFacets (fan.dm false) (PCPatchCreateCellPatches (fan.dm false)).1
        (PCPatchCreateCellPatches (fan.dm false)).2).1.atlasDof 3 = 3 ∧
      (PCPatchCreateCellPatchFacets (fan.dm false) (PCPatchCreateCellPatches (fan.dm false)).1
          (PCPatchCreateCellPatches (fan.dm false)).2).2.idx.segment
        ((PCPatchCreateCellPatchFacets (fan.dm false)
          (PCPatchCreateCellPatches (fan.dm false)).1
          (PCPatchCreateCellPatches (fan.dm false)).2).1.atlasOff 3)
        ((PCPatchCreateCellPatchFacets (fan.dm false)
          (PCPatchCreateCellPatches (fan.dm false)).1
          (PCPatchCreateCellPatches (fan.dm false)).2).1.atlasDof 3)
        = [some 10, some 11, some 12] := by
  refine ⟨⟨by decide, by decide⟩, by decide, by decide, by rfl, by decide,
    ⟨by decide, by decide, by decide⟩, ?_⟩
  obtain ⟨info, hinfo⟩ := exists_of_isOk
    (PCPatchCreateCellPatchDiscretisationInfo IterOrder.insertion
      (PCPatchCreateCellPatches (fan.dm false)).1 (PCPatchCreateCellPatches (fan.dm false)).2
      fan.cellNumbering 2 fan.cellNodeMap) (by rfl)
  obtain ⟨c1, _, c3, c4, c5⟩ := single_patch_scenario IterOrder.insertion (fan.dm false)
    fan.cellNumbering fan.cellNodeMap info 3 10 11 12 (by decide) (by decide) (by decide)
    (by decide) hinfo (by rfl) (by decide) ⟨by decide, by decide, by decide⟩
  exact ⟨info, hinfo, c1, c3, c4, c5⟩

/-- C29 on the patch of `negativeDof`: slot 1 of the cell at position 0 of the
patch of vertex 0. -/
theorem overflow_unreachable_witness :
    negativeDof.cellCounts.IsIndexedList ∧ (0 : Int) ≤ 2 ∧
    ∃ sj, (loopRange 0 1).foldlM
        (dofsSlot 2 (PetscSectionGetStorageSize negativeDof.cellCounts * 2)
          negativeDof.cellNodeMap
          (PetscSectionGetOffset negativeDof.cellNumbering (ISGetIndices negativeDof.cells 0)))
        { ht := PetscHashIClear, localIndex := 0, globalIndex := 0, dofsArray := PetscMalloc1,
          newCellsArray :=
            (PetscMalloc1.write 0
              (PetscSectionGetOffset negativeDof.cellNumbering
                (ISGetIndices negativeDof.cells 0))),
          gtolCounts := PetscSectionSetChart negativeDof.cellCounts.pStart
            negativeDof.cellCounts.pEnd } = .ok sj ∧
      sj.globalIndex = 0 * 2 + 1 ∧
      sj.globalIndex < PetscSectionGetStorageSize negativeDof.cellCounts * 2 := by
  refine ⟨negativeDof_indexedList, by decide, ?_⟩
  obtain ⟨sj, hsj⟩ := exists_of_isOk
    ((loopRange 0 1).foldlM
      (dofsSlot 2 (PetscSectionGetStorageSize negativeDof.cellCounts * 2)
        negativeDof.cellNodeMap
        (PetscSectionGetOffset negativeDof.cellNumbering (ISGetIndices negativeDof.cells 0)))
      { ht := PetscHashIClear, localIndex := 0, globalIndex := 0, dofsArray := PetscMalloc1,
        newCellsArray :=
          (PetscMalloc1.write 0
            (PetscSectionGetOffset negativeDof.cellNumbering
              (ISGetIndices negativeDof.cells 0))),
        gtolCounts := PetscSectionSetChart negativeDof.cellCounts.pStart
          negativeDof.cellCounts.pEnd }) (by rfl)
  obtain ⟨c1, c2, _⟩ := (overflow_unreachable IterOrder.insertion negativeDof.cellCounts
    negativeDof.cells negativeDof.cellNumbering 2 negativeDof.cellNodeMap
    negativeDof_indexedList (by decide)).1 0 0 1
    { ht := PetscHashIClear, localIndex := 0, globalIndex := 0, dofsArray := PetscMalloc1,
      newCellsArray := PetscMalloc1,
      gtolCounts := PetscSectionSetChart negativeDof.cellCounts.pStart
        negativeDof.cellCounts.pEnd }
    { ht := PetscHashIClear, localIndex := 0, globalIndex := 0, dofsArray := PetscMalloc1,
      newCellsArray := PetscMalloc1,
      gtolCounts := PetscSectionSetChart negativeDof.cellCounts.pStart
        negativeDof.cellCounts.pEnd }
    sj (by decide) (by decide) (by decide) (by decide) (by decide) (by decide) rfl rfl hsj
  exact ⟨sj, hsj, c1, c2⟩

/-- C30 on the two triangles: the facets array has the storage size of
`facetCounts`, and the running index of the facets builder stays inside the
array. -/
theorem running_index_arrays_witness :
    0 ≤ ISGetSize twoTriangles.cells ∧
    ISGetSize (PCPatchCreateCellPatchFacets twoTriangles twoTriangles.cellCounts
        twoTriangles.cells).2
      = PetscSectionGetStorageSize (PCPatchCreateCellPatchFacets twoTriangles
        twoTriangles.cellCounts twoTriangles.cells).1 ∧
    (∀ v, ((loopRange twoTriangles.vStart v).foldl
      (facetsVertex twoTriangles twoTriangles.cellCounts (ISGetIndices twoTriangles.cells))
      { facetCounts := PetscSectionSetChart twoTriangles.vStart twoTriangles.vEnd
        totalFacets := ISGetSize twoTriangles.cells
        facetIndex := 0
        facetsArray := PetscMalloc1 }).InCapacity) :=
  ⟨by decide,
    (running_index_arrays IterOrder.insertion twoTriangles twoTriangles.cellCounts
      twoTriangles.cells 1 twoTriangles.bcNodes vertexDofs.facetCounts vertexDofs.facets
      edgeDofs.gtolCounts edgeDofs.gtol twoTriangles.dofSection (by decide)).1.2.1,
    (running_index_arrays IterOrder.insertion twoTriangles twoTriangles.cellCounts
      twoTriangles.cells 1 twoTriangles.bcNodes vertexDofs.facetCounts vertexDofs.facets
      edgeDofs.gtolCounts edgeDofs.gtol twoTriangles.dofSection (by decide)).1.2.2.2.1⟩

/-! ### The theorems on the apply, the BC dofs and the iteration order at the examples -/

/-- C31 at the mesh `halo`: the vertex 2 is not owned, the setup returns and
the apply fails. -/
theorem apply_requires_dofs_witness :
    halo.pc.setupcalled = false ∧
    (halo.pc.dm.vStart ≤ 2 ∧ 2 < halo.pc.dm.vEnd) ∧
    (halo.pc.dm.op2_core 2 || halo.pc.dm.op2_non_core 2) = false ∧
    ∃ p, (PCSetUp_PATCH IterOrder.insertion halo.pc).result = .ok p ∧
      p.npatch = halo.pc.dm.vEnd - halo.pc.dm.vStart ∧
      PetscSectionGetDof p.localToPatch (2 - halo.pc.dm.vStart + p.localToPatch.pStart) = 0 ∧
      ∃ e, (PCApply_PATCH p onePatch.x onePatch.y).result = .error e := by
  refine ⟨rfl, ⟨by decide, by decide⟩, by decide, ?_⟩
  obtain ⟨p, hp⟩ := exists_of_isOk (PCSetUp_PATCH IterOrder.insertion halo.pc).result (by rfl)
  obtain ⟨c1, _, c3⟩ := (apply_requires_dofs IterOrder.insertion halo.pc p onePatch.x
    onePatch.y).2.2.2 rfl hp
  obtain ⟨_, _, d3, d4⟩ := c3 2 (by decide) (by decide) (Or.inl (by decide))
  exact ⟨p, hp, c1, d3, d4⟩

/-- C32 at the one patch: two slots, holding the dofs 0 and 1. -/
theorem apply_closed_form_witness :
    (onePatch.pc false).setupcalled = false ∧ (onePatch.pc false).bs = 1 ∧
    (onePatch.pc false).defaultSF = identitySF 2 ∧
    ∃ p info r, (PCSetUp_PATCH IterOrder.insertion (onePatch.pc false)).result = .ok p ∧
      PCPatchCreateCellPatchDiscretisationInfo IterOrder.insertion
        (PCPatchCreateCellPatches (onePatch.pc false).dm).1
        (PCPatchCreateCellPatches (onePatch.pc false).dm).2 (onePatch.pc false).cellNumbering
        (onePatch.pc false).nodesPerCell (onePatch.pc false).cellNodeMap = .ok info ∧
      (∀ i, 0 ≤ i → i < PetscSectionGetStorageSize info.gtolCounts →
        0 ≤ ISGetIndices info.gtol i ∧ ISGetIndices info.gtol i < 2) ∧
      (PCApply_PATCH p onePatch.x onePatch.y).result = .ok r ∧
      ∀ g, 0 ≤ g → g < onePatch.y.n →
        r.2.data g
          = ((loopRange 0 (PetscSectionGetStorageSize info.gtolCounts)).filter
              (fun i => decide (ISGetIndices info.gtol i = g))).length • onePatch.x.data g := by
  refine ⟨rfl, rfl, rfl, ?_⟩
  obtain ⟨p, hp⟩ := exists_of_isOk
    (PCSetUp_PATCH IterOrder.insertion (onePatch.pc false)).result (by rfl)
  have hs : (PCPatchCreateCellPatchDiscretisationInfo IterOrder.insertion
      (PCPatchCreateCellPatches (onePatch.pc false).dm).1
      (PCPatchCreateCellPatches (onePatch.pc false).dm).2 (onePatch.pc false).cellNumbering
      (onePatch.pc false).nodesPerCell (onePatch.pc false).cellNodeMap).map
      (fun info => (PetscSectionGetStorageSize info.gtolCounts, ISGetIndices info.gtol 0,
        ISGetIndices info.gtol 1)) = .ok (2, 0, 1) := by rfl
  obtain ⟨info, hinfo⟩ := exists_of_isOk
    (PCPatchCreateCellPatchDiscretisationInfo IterOrder.insertion
      (PCPatchCreateCellPatches (onePatch.pc false).dm).1
      (PCPatchCreateCellPatches (onePatch.pc false).dm).2 (onePatch.pc false).cellNumbering
      (onePatch.pc false).nodesPerCell (onePatch.pc false).cellNodeMap) (by rfl)
  rw [hinfo] at hs
  simp only [Except.map, Except.ok.injEq, Prod.mk.injEq] at hs
  obtain ⟨s1, s2, s3⟩ := hs
  have hrange : ∀ i, 0 ≤ i → i < PetscSectionGetStorageSize info.gtolCounts →
      0 ≤ ISGetIndices info.gtol i ∧ ISGetIndices info.gtol i < 2 := by
    intro i i0 i1
    rw [s1] at i1
    have hi : i = 0 ∨ i = 1 := by omega
    rcases hi with rfl | rfl
    · rw [s2]; decide
    · rw [s3]; decide
  have ha : isOk (match (PCSetUp_PATCH IterOrder.insertion (onePatch.pc false)).result with
      | .ok q => (PCApply_PATCH q onePatch.x onePatch.y).result
      | .error e => .error e) = true := by rfl
  rw [hp] at ha
  obtain ⟨r, hr⟩ := exists_of_isOk _ ha
  exact ⟨p, info, r, hp, hinfo, hrange, hr,
    (apply_closed_form IterOrder.insertion (onePatch.pc false) p info 2 onePatch.x onePatch.y r
      rfl rfl rfl hp hinfo hrange hr).1⟩

/-- C33 at the patch of vertex 2 of the two triangles with the edge dofs
10, 11, 12, the boundary facet 7 and the boundary node 10. -/
theorem bcs_no_spurious_witness :
    (vertexDofs.facetCounts.pStart ≤ 2 ∧ 2 < vertexDofs.facetCounts.pEnd) ∧
    ∃ out, PCPatchCreateCellPatchBCs IterOrder.insertion twoTriangles 1 twoTriangles.bcNodes
        vertexDofs.facetCounts vertexDofs.facets edgeDofs.gtolCounts edgeDofs.gtol
        twoTriangles.dofSection = .ok out ∧
      ∀ l, some l ∈ out.2.idx.segment (out.1.atlasOff 2) (out.1.atlasDof 2) →
        0 ≤ l ∧ l < PetscSectionGetDof edgeDofs.gtolCounts 2 ∧
        ((∃ k, 0 ≤ k ∧ k < 1 ∧ twoTriangles.bcNodes k
            = ISGetIndices edgeDofs.gtol (PetscSectionGetOffset edgeDofs.gtolCounts 2 + l)) ∨
          ∃ fi, PetscSectionGetOffset vertexDofs.facetCounts 2 ≤ fi ∧
            fi < PetscSectionGetOffset vertexDofs.facetCounts 2
              + PetscSectionGetDof vertexDofs.facetCounts 2 ∧
            PetscSectionGetOffset twoTriangles.dofSection (ISGetIndices vertexDofs.facets fi)
              ≤ ISGetIndices edgeDofs.gtol (PetscSectionGetOffset edgeDofs.gtolCounts 2 + l) ∧
            ISGetIndices edgeDofs.gtol (PetscSectionGetOffset edgeDofs.gtolCounts 2 + l)
              < PetscSectionGetOffset twoTriangles.dofSection
                  (ISGetIndices vertexDofs.facets fi)
                + PetscSectionGetDof twoTriangles.dofSection
                  (ISGetIndices vertexDofs.facets fi)) := by
  refine ⟨⟨by decide, by decide⟩, ?_⟩
  obtain ⟨out, hout⟩ := exists_of_isOk
    (PCPatchCreateCellPatchBCs IterOrder.insertion twoTriangles 1 twoTriangles.bcNodes
      vertexDofs.facetCounts vertexDofs.facets edgeDofs.gtolCounts edgeDofs.gtol
      twoTriangles.dofSection) (by rfl)
  exact ⟨out, hout, (bcs_no_spurious IterOrder.insertion twoTriangles 1 twoTriangles.bcNodes
    vertexDofs.facetCounts vertexDofs.facets edgeDofs.gtolCounts edgeDofs.gtol
    twoTriangles.dofSection out hout 2 (by decide) (by decide)).1⟩

/-- C34 on the two triangles, for the order of insertion and its reverse. -/
theorem order_independence_witness :
    twoTriangles.cellCounts.IsIndexedList ∧
    PCPatchCreateCellPatchDiscretisationInfo IterOrder.insertion twoTriangles.cellCounts
        twoTriangles.cells twoTriangles.cellNumbering 3 twoTriangles.cellNodeMap
      = PCPatchCreateCellPatchDiscretisationInfo IterOrder.reversed twoTriangles.cellCounts
        twoTriangles.cells twoTriangles.cellNumbering 3 twoTriangles.cellNodeMap ∧
    PCPatchCreateCellPatchBCs IterOrder.insertion twoTriangles 1 twoTriangles.bcNodes
        vertexDofs.facetCounts vertexDofs.facets edgeDofs.gtolCounts edgeDofs.gtol
        twoTriangles.dofSection
      = PCPatchCreateCellPatchBCs IterOrder.reversed twoTriangles 1 twoTriangles.bcNodes
        vertexDofs.facetCounts vertexDofs.facets edgeDofs.gtolCounts edgeDofs.gtol
        twoTriangles.dofSection ∧
    PCSetUp_PATCH IterOrder.insertion twoTriangles.pc
      = PCSetUp_PATCH IterOrder.reversed twoTriangles.pc :=
  ⟨cellPatches_indexedList twoTriangles,
    ((order_independence IterOrder.insertion IterOrder.reversed twoTriangles.cellCounts
      twoTriangles.cells twoTriangles.cellNumbering 3 twoTriangles.cellNodeMap twoTriangles 1
      twoTriangles.bcNodes vertexDofs.facetCounts vertexDofs.facets edgeDofs.gtolCounts
      edgeDofs.gtol twoTriangles.dofSection twoTriangles.pc).1
      (cellPatches_indexedList twoTriangles)).1,
    (order_independence IterOrder.insertion IterOrder.reversed twoTriangles.cellCounts
      twoTriangles.cells twoTriangles.cellNumbering 3 twoTriangles.cellNodeMap twoTriangles 1
      twoTriangles.bcNodes vertexDofs.facetCounts vertexDofs.facets edgeDofs.gtolCounts
      edgeDofs.gtol twoTriangles.dofSection twoTriangles.pc).2.1.1,
    (order_independence IterOrder.insertion IterOrder.reversed twoTriangles.cellCounts
      twoTriangles.cells twoTriangles.cellNumbering 3 twoTriangles.cellNodeMap twoTriangles 1
      twoTriangles.bcNodes vertexDofs.facetCounts vertexDofs.facets edgeDofs.gtolCounts
      edgeDofs.gtol twoTriangles.dofSection twoTriangles.pc).2.2⟩

/-! ### The patch indices outside `[0, npatch)` at the mesh `halo` -/

end SSC
